import Mathlib

/-!
# WebSocket client transport of the SolarXR driver

Shallow embedding of `src/xrt/drivers/solarxr/websocket.c` and `websocket.h`.

Conventions of the embedding:

* bytes and machine words are natural numbers; a truncating store is written
  with an explicit `%`;
* the pointers `head` and `end` of `struct WebSocket` are kept as offsets from
  `buffer` (`endp` stands for `end`, which is reserved in Lean);
* the arrays `buffer` and `mask` are maps from an index to a byte, so that a
  store past the declared bound stays visible;
* the bit-fields of `struct PacketHeader` follow the layout GCC and Clang use
  on little-endian targets (the field declared first takes the low bits), the
  size types are those of an LP64 target;
* system calls read and write an explicit environment `Net`;
* logging has no effect on the state and is left out.
-/

namespace Monado

/-! ## Results of a call -/

/-- How a call of the embedded program ends. -/
inductive Outcome (α : Type) where
  /-- the call returns a value -/
  | ret (a : α)
  /-- an `assert` fails and the process aborts -/
  | abort
  /-- the call spins or blocks for ever -/
  | hang
  /-- the recursion bound of the embedding was used up -/
  | nofuel
deriving DecidableEq

/-- Apply a function to the returned value. -/
def Outcome.map {α β : Type} (f : α → β) : Outcome α → Outcome β
  | .ret a => .ret (f a)
  | .abort => .abort
  | .hang => .hang
  | .nofuel => .nofuel

/-! ## The environment: socket, random numbers, clock -/

/-- What the kernel has for one `recv` call. -/
inductive RecvEv where
  /-- the first `k` bytes of the pending stream are queued -/
  | ready (k : Nat)
  /-- the peer has shut the stream down: `recv` returns 0 -/
  | eof
  /-- `recv` returns -1 with an `errno` other than `EAGAIN` -/
  | err
deriving DecidableEq

/-- What the kernel does on one `sendmsg` or `send` call. -/
inductive SendEv where
  /-- at most `k` bytes are accepted -/
  | wrote (k : Nat)
  /-- the call returns -1 -/
  | err
deriving DecidableEq

/-- The world outside the program. `stream` holds the bytes the peer sends that
have not been consumed yet. `sched` scripts the successive `recv` calls and
`sendSched` the successive send calls; once a script is used up the network is
quiet: every byte of `stream` is queued, and a send accepts everything. -/
structure Net where
  stream : List Nat
  sched : List RecvEv
  sendSched : List SendEv
  /-- successive results of `rand()`; 0 once used up -/
  rands : List Nat
  /-- byte strings accepted by the send calls, oldest first -/
  sent : List (List Nat)
  /-- descriptors passed to `shutdown` -/
  shutdowns : List Int
  /-- descriptors passed to `close` -/
  closes : List Int
  /-- reading of `os_monotonic_get_ns` -/
  now : Int
  /-- result of `socket()` -/
  socketRes : Int
  /-- result of `connect()` -/
  connectRes : Int
  /-- descriptors passed to `connect` -/
  connects : List Int
  /-- result of `poll()` -/
  pollRes : Int
  /-- whether `errno` is `EINTR` after a `poll()` that returned -1 -/
  pollIntr : Bool
  /-- descriptors passed to `poll` -/
  polls : List Int

/-- Return value of `recv`, whether `errno` is `EAGAIN`, and the bytes stored
through the buffer pointer. -/
structure RecvRet where
  length : Int
  again : Bool
  data : List Nat

/-- Deliver up to `n` bytes out of the `k` queued ones. With nothing to deliver
a non-blocking `recv` reports `EAGAIN`. -/
def deliver (io : Net) (k n : Nat) (peek : Bool) : RecvRet × Net :=
  let m := min n (min k io.stream.length)
  if m = 0 then (⟨-1, true, []⟩, io)
  else (⟨(m : Int), false, io.stream.take m⟩,
        if peek then io else { io with stream := io.stream.drop m })

/-- The call `recv(sockfd, buf, n, MSG_DONTWAIT)`, with `MSG_PEEK` when `peek`. -/
def sockRecv (io : Net) (n : Nat) (peek : Bool) : RecvRet × Net :=
  match io.sched with
  | [] => deliver io io.stream.length n peek
  | RecvEv.ready k :: rest => deliver { io with sched := rest } k n peek
  | RecvEv.eof :: rest => (⟨0, false, []⟩, { io with sched := rest })
  | RecvEv.err :: rest => (⟨-1, false, []⟩, { io with sched := rest })

/-- The call `sendmsg(sockfd, msg, MSG_NOSIGNAL)` on the gathered bytes. -/
def sockSendmsg (io : Net) (bytes : List Nat) : Int × Net :=
  match io.sendSched with
  | [] => ((bytes.length : Int), { io with sent := io.sent ++ [bytes] })
  | SendEv.wrote k :: rest =>
      (((min k bytes.length : Nat) : Int),
       { io with sendSched := rest, sent := io.sent ++ [bytes.take k] })
  | SendEv.err :: rest => (-1, { io with sendSched := rest })

/-- The call `rand()`. -/
def sockRand (io : Net) : Nat × Net :=
  match io.rands with
  | [] => (0, io)
  | r :: rest => (r, { io with rands := rest })

/-! ## `struct WebSocket` -/

/-- Capacity of `buffer`: `sizeof(state->buffer)`. -/
def bufferSize : Nat := 0x8000

/-- The connection state of `websocket.h`. -/
structure WebSocket where
  sockfd : Int
  sockfd_pin : Nat
  timestamp : Int
  opcode : Nat
  finished : Bool
  head : Nat
  endp : Nat
  mask : Nat → Nat
  buffer : Nat → Nat

/-- `atomic_fetch_add(&state->sockfd_pin, 1)` on a 32-bit counter. -/
def pin (st : WebSocket) : WebSocket :=
  { st with sockfd_pin := (st.sockfd_pin + 1) % 2 ^ 32 }

/-- `atomic_fetch_sub(&state->sockfd_pin, 1)` on a 32-bit counter: from 0 it
wraps to `2 ^ 32 - 1`. -/
def unpin (st : WebSocket) : WebSocket :=
  { st with sockfd_pin := if st.sockfd_pin = 0 then 2 ^ 32 - 1 else st.sockfd_pin - 1 }

/-- The bytes `b[off], ..., b[off + len - 1]`. -/
def readBuf (b : Nat → Nat) (off len : Nat) : List Nat :=
  (List.range len).map (fun i => b (off + i))

/-- Store `data` at `b[off ...]`. -/
def writeBuf (b : Nat → Nat) (off : Nat) (data : List Nat) : Nat → Nat :=
  fun i => if off ≤ i ∧ i < off + data.length then data.getD (i - off) 0 else b i

/-- `memset(state->mask, 0, sizeof(state->mask))`. -/
def maskClear (m : Nat → Nat) : Nat → Nat :=
  fun i => if i < 4 then 0 else m i

/-- The value `(size_t)(p - q)` for two offsets into the buffer. -/
def ptrDiff (p q : Nat) : Nat :=
  if q ≤ p then p - q else 2 ^ 64 - (q - p)

/-- `WebSocket_init`: the fields are set before the result of `socket()` is
looked at; `buffer` is left as it was. -/
def WebSocket_init (state : WebSocket) (io : Net) : Bool × WebSocket :=
  let st : WebSocket :=
    { state with
      sockfd := io.socketRes
      timestamp := io.now
      opcode := 0
      finished := true
      endp := 0
      head := 0
      mask := maskClear state.mask }
  (decide (st.sockfd ≠ -1), st)

/-- `WebSocket_destroy`. With the counter of pins not at zero the loop on
`sched_yield` never ends in a run with one thread. -/
def WebSocket_destroy (state : WebSocket) (io : Net) : Outcome (WebSocket × Net) :=
  let sockfd := state.sockfd
  let st : WebSocket := { state with sockfd := -1 }
  if sockfd = -1 then .ret (st, io)
  else
    let io1 : Net := { io with shutdowns := io.shutdowns ++ [sockfd] }
    if st.sockfd_pin ≠ 0 then .hang
    else .ret (st, { io1 with closes := io1.closes ++ [sockfd] })

/-- The call `poll(&sockfd, 1, -1)`: its result and whether `errno` is `EINTR`. -/
def sockPoll (io : Net) (fd : Int) : Int × Bool × Net :=
  (io.pollRes, io.pollIntr, { io with polls := io.polls ++ [fd] })

/-- `WebSocket_wait`. -/
def WebSocket_wait (state : WebSocket) (io : Net) : Bool × WebSocket × Net :=
  let st := pin state
  let fd := st.sockfd
  if fd ≠ -1 then
    let r := sockPoll io fd
    (decide (r.1 ≠ -1) || r.2.1, unpin st, r.2.2)
  else (false, unpin st, io)

/-! ## Sending a frame -/

/-- The 7-bit field `header.len` and the bytes of `header.optional` that carry
the length, as `WebSocket_sendWithOpcode` fills them in. -/
def sendLength (packet_len : Nat) : Nat × List Nat :=
  if packet_len < 126 then (packet_len % 256 % 128, [])
  else if packet_len < 0x10000 then
    (126, [(packet_len >>> 8) % 256, packet_len % 256])
  else
    (127, [(packet_len >>> 56) % 256, (packet_len >>> 48) % 256,
           (packet_len >>> 40) % 256, (packet_len >>> 32) % 256,
           (packet_len >>> 24) % 256, (packet_len >>> 16) % 256,
           (packet_len >>> 8) % 256, packet_len % 256])

/-- The four bytes `memcpy` takes out of the 32-bit value of `rand()`. -/
def maskOfRand (r : Nat) : List Nat :=
  [(r % 2 ^ 32) % 256, ((r % 2 ^ 32) >>> 8) % 256, ((r % 2 ^ 32) >>> 16) % 256,
   ((r % 2 ^ 32) >>> 24) % 256]

/-- The loop `packet[i] ^= mask[i % sizeof(uint32_t)]`. -/
def xorMask (mask : List Nat) (packet : List Nat) : List Nat :=
  (List.range packet.length).map (fun i => packet.getD i 0 ^^^ mask.getD (i % 4) 0)

/-- `WebSocket_sendWithOpcode`: returns the result, the caller's packet as the
call leaves it, and the new state and environment. -/
def WebSocket_sendWithOpcode (state : WebSocket) (packet : List Nat) (opcode : Nat)
    (io : Net) : Bool × List Nat × WebSocket × Net :=
  let st := pin state
  if st.sockfd = -1 then (false, packet, unpin st, io)
  else
    let packet_len := packet.length
    let byte0 := opcode % 16 + 128
    let (len7, ext) := sendLength packet_len
    let byte1 := len7 + 128
    let payloadLength_len := ext.length
    let (r, io1) := sockRand io
    let mask := maskOfRand r
    let packet1 := xorMask mask packet
    let (result, io2) := sockSendmsg io1 (byte0 :: byte1 :: ext ++ mask ++ packet1)
    (decide ((result % 2 ^ 64).toNat = (2 + payloadLength_len + 4 + packet_len) % 2 ^ 64),
     packet1, unpin st, io2)

/-- `WebSocket_send` of the header file. -/
def WebSocket_send (state : WebSocket) (packet : List Nat) (io : Net) :
    Bool × List Nat × WebSocket × Net :=
  WebSocket_sendWithOpcode state packet 0x2 io

/-! ## Receiving -/

/-- Where one pass through the body of `while (true)` leads. -/
inductive Step where
  /-- on to the next pass -/
  | cont (st : WebSocket) (io : Net)
  /-- `return n`, the pin released -/
  | done (n : Nat) (st : WebSocket) (io : Net)
  /-- leave the loop for the label `fail` -/
  | fail (st : WebSocket) (io : Net)

/-- The length a header declares: `fragmentLength`. -/
def fragmentLength (header : List Nat) : Nat :=
  let len7 := header.getD 1 0 % 128
  let opt := fun i => header.getD (2 + i) 0
  if len7 < 126 then len7
  else if len7 = 126 then (opt 0 <<< 8 ||| opt 1) % 2 ^ 64
  else
    (opt 0 <<< 56 ||| opt 1 <<< 48 ||| opt 2 <<< 40 ||| opt 3 <<< 32 |||
      opt 4 <<< 24 ||| opt 5 <<< 16 ||| opt 6 <<< 8 ||| opt 7) % 2 ^ 64

/-- The loop that stores the mask of a header, rotated by the offset of `head`. -/
def maskRotate (m : Nat → Nat) (shift : Nat) (key : Nat → Nat) : Nat → Nat :=
  (List.range 4).foldl
    (fun acc i => fun j => if j = (shift + i) % 4 then key i else acc j) m

/-- The value of `payloadLength_len` for a header whose second byte is `b1`. -/
def payloadLengthLen (b1 : Nat) : Nat :=
  2 * (if b1 % 128 = 126 then 1 else 0) + 8 * (if b1 % 128 = 127 then 1 else 0)

/-- The value of `header_len` for a header whose second byte is `b1`. -/
def headerLen (b1 : Nat) : Nat :=
  2 + payloadLengthLen b1 + 4 * (b1 / 128 % 2)

/-- The part of the header branch that follows the two `recv` calls: the check
of the declared length against the room left after `end`, then the update of
the state. -/
def takeHeader (state : WebSocket) (payloadLength_len : Nat) (header : List Nat)
    (io : Net) : Step :=
  if fragmentLength header > ptrDiff bufferSize state.endp then .fail state io
  else
    let st1 : WebSocket :=
      if state.finished then
        { state with timestamp := io.now, opcode := header.getD 0 0 % 16,
                     endp := 0, head := 0 }
      else state
    let st2 : WebSocket :=
      if header.getD 1 0 / 128 % 2 = 0 then { st1 with mask := maskClear st1.mask }
      else
        { st1 with mask := maskRotate st1.mask st1.head
                             (fun i => header.getD (2 + payloadLength_len + i) 0) }
    .cont { st2 with finished := decide (header.getD 0 0 / 128 % 2 = 1),
                     endp := st2.endp + fragmentLength header } io

/-- The branch `state->head == state->end`: probe and read one header. A byte of
`header` that the probing `recv` did not fill keeps the zero of its initialiser. -/
def headerBranch (state : WebSocket) (io : Net) : Step :=
  let r1 := sockRecv io 14 true
  let payloadLength_len := payloadLengthLen (r1.1.data.getD 1 0)
  let header_len := headerLen (r1.1.data.getD 1 0)
  if r1.1.length < 0 ∧ r1.1.again = false then .fail state r1.2
  else if r1.1.length < (header_len : Int) then .done 0 (unpin state) r1.2
  else
    let r2 := sockRecv r1.2 header_len false
    if r2.1.length ≠ (header_len : Int) then .fail state r2.2
    else takeHeader state payloadLength_len r2.1.data r2.2

/-- The loop `state->head[i] ^= state->mask[(shift + i) % 4]` over the `len`
bytes just stored at `head`. -/
def unmask (b : Nat → Nat) (mask : Nat → Nat) (head len : Nat) : Nat → Nat :=
  fun j => if head ≤ j ∧ j < head + len then b j ^^^ mask (j % 4) else b j

/-- The part of the payload branch that follows a `recv` of `len > 0` bytes. -/
def takePayload (state : WebSocket) (data : List Nat) (len : Nat) : WebSocket :=
  let b1 := writeBuf state.buffer state.head data
  let b2 :=
    if state.mask 0 = 0 ∧ state.mask 1 = 0 ∧ state.mask 2 = 0 ∧ state.mask 3 = 0 then b1
    else unmask b1 state.mask state.head len
  { state with buffer := b2, head := state.head + len }

/-- The branch `state->head != state->end`: read payload bytes. -/
def payloadBranch (state : WebSocket) (io : Net) : Step :=
  let r := sockRecv io (ptrDiff state.endp state.head) false
  if r.1.length < 0 ∧ r.1.again = false then .fail state r.2
  else if r.1.length ≤ 0 then .done 0 (unpin state) r.2
  else .cont (takePayload state r.1.data r.1.length.toNat) r.2

/-- The `switch (state->opcode)` run when a message is complete. The pong is sent
straight out of `state->buffer`, which the send masks in place. -/
def dispatch (state : WebSocket) (io : Net) : Step :=
  if state.opcode = 0x1 then .cont state io
  else if state.opcode = 0x2 then .done state.head (unpin state) io
  else if state.opcode = 0x8 then .fail state io
  else if state.opcode = 0x9 then
    match WebSocket_sendWithOpcode state (readBuf state.buffer 0 state.head) 0xa io with
    | (ok, packet, st1, io1) =>
      let st2 : WebSocket := { st1 with buffer := writeBuf st1.buffer 0 packet }
      if ok then .cont st2 io1 else .fail st2 io1
  else if state.opcode = 0xa then .cont state io
  else .fail state io

/-- The label `fail`: release the pin, destroy, `return 0`. -/
def failExit (state : WebSocket) (io : Net) : Outcome (Nat × WebSocket × Net) :=
  match WebSocket_destroy (unpin state) io with
  | .ret (st, io1) => .ret (0, st, io1)
  | .abort => .abort
  | .hang => .hang
  | .nofuel => .nofuel

/-- One pass through the body of `while (true)`, the `switch` included. -/
def receiveBody (state : WebSocket) (io : Net) : Step :=
  match (if state.head = state.endp then headerBranch state io
         else payloadBranch state io) with
  | .cont st1 io1 =>
      if st1.head = st1.endp ∧ st1.finished = true then dispatch st1 io1
      else .cont st1 io1
  | s => s

/-- The loop `while (true)` of `WebSocket_receive`, with a bound on the number
of passes. -/
def receiveLoop : Nat → WebSocket → Net → Outcome (Nat × WebSocket × Net)
  | 0, _, _ => .nofuel
  | fuel + 1, state, io =>
    match receiveBody state io with
    | .cont st1 io1 => receiveLoop fuel st1 io1
    | .done n st1 io1 => .ret (n, st1, io1)
    | .fail st1 io1 => failExit st1 io1

/-- `WebSocket_receive`. Every pass that goes on consumes a byte of the stream,
so one pass more than the stream has bytes is enough. -/
def WebSocket_receive (state : WebSocket) (io : Net) : Outcome (Nat × WebSocket × Net) :=
  let st := pin state
  if st.sockfd = -1 then .ret (0, unpin st, io)
  else receiveLoop (io.stream.length + 1) st io

/-- Carry on after one pass of the loop, with the bound `WebSocket_receive`
itself starts from. -/
def resume : Step → Outcome (Nat × WebSocket × Net)
  | .cont st io => receiveLoop (io.stream.length + 1) st io
  | .done n st io => .ret (n, st, io)
  | .fail st io => failExit st io

/-! ## Frames on the wire

The layout of RFC 6455, section 5.2, written down independently of the code: it
describes what a peer sends. -/

/-- The 7-bit length field and the extended length bytes, in the minimal form. -/
def wireLength (n : Nat) : Nat × List Nat :=
  if n ≤ 125 then (n, [])
  else if n ≤ 65535 then (126, [n / 256, n % 256])
  else (127, [n / 256 ^ 7 % 256, n / 256 ^ 6 % 256, n / 256 ^ 5 % 256, n / 256 ^ 4 % 256,
              n / 256 ^ 3 % 256, n / 256 ^ 2 % 256, n / 256 % 256, n % 256])

/-- Octet `i` of the payload combined with octet `i mod 4` of the masking key. -/
def wireMask (key : Nat → Nat) (payload : List Nat) : List Nat :=
  (List.range payload.length).map (fun i => payload.getD i 0 ^^^ key (i % 4))

/-- The four octets of a masking key. -/
def keyBytes (key : Nat → Nat) : List Nat := [key 0, key 1, key 2, key 3]

/-- The header of a frame: the `fin` bit and the opcode, the mask bit and the
length of the payload, then the masking key when there is one. -/
def wireHeader (fin : Bool) (opcode : Nat) (key : Option (Nat → Nat)) (n : Nat) : List Nat :=
  ((if fin then 128 else 0) + opcode) ::
    ((if key.isSome then 128 else 0) + (wireLength n).1) ::
      ((wireLength n).2 ++
        (match key with
         | none => []
         | some k => keyBytes k))

/-- The payload as it travels: masked when a masking key is given. -/
def wirePayload (key : Option (Nat → Nat)) (payload : List Nat) : List Nat :=
  match key with
  | none => payload
  | some k => wireMask k payload

/-- One frame: header, then payload. -/
def wireFrame (fin : Bool) (opcode : Nat) (key : Option (Nat → Nat)) (payload : List Nat) :
    List Nat :=
  wireHeader fin opcode key payload.length ++ wirePayload key payload

/-- The state after the loop pass that reads the header of a frame with the
given fields, `n` being the declared length. -/
def afterHeader (st : WebSocket) (now : Int) (fin : Bool) (opcode : Nat)
    (key : Option (Nat → Nat)) (n : Nat) : WebSocket :=
  let base := if st.finished then 0 else st.head
  { st with
    timestamp := if st.finished then now else st.timestamp
    opcode := if st.finished then opcode else st.opcode
    finished := fin
    head := base
    endp := (if st.finished then 0 else st.endp) + n
    mask := (match key with
             | none => maskClear st.mask
             | some k => maskRotate st.mask base k) }

/-- The state after the loop pass that completes a frame with the given fields
and payload, before the `switch`. -/
def afterFrame (st : WebSocket) (now : Int) (fin : Bool) (opcode : Nat)
    (key : Option (Nat → Nat)) (payload : List Nat) : WebSocket :=
  let sh := afterHeader st now fin opcode key payload.length
  { sh with
    head := sh.head + payload.length
    buffer := writeBuf st.buffer sh.head payload }

/-! ## Concrete inputs for the worked examples -/

/-- An open connection on descriptor 3 that awaits a new message, with the
counter of pins at zero. -/
def exState : WebSocket :=
  { sockfd := 3, sockfd_pin := 0, timestamp := 0, opcode := 0, finished := true,
    head := 0, endp := 0, mask := fun _ => 0, buffer := fun _ => 0 }

/-- A quiet network with nothing to read; `rand()` returns `0x12345678` first and
`socket()` returns 4. -/
def exNet : Net :=
  { stream := [], sched := [], sendSched := [], rands := [0x12345678], sent := [],
    shutdowns := [], closes := [], now := 0, socketRes := 4, connectRes := 0,
    connects := [], pollRes := 1, pollIntr := false, polls := [] }

/-- The bytes a call of `WebSocket_send` hands to `sendmsg`. -/
def sentBy (s : WebSocket) (P : List Nat) (ios : Net) : List Nat :=
  ((WebSocket_send s P ios).2.2.2.sent.drop ios.sent.length).flatten

/-! ## `ValidateDigest`: base64 decoding -/

/-- The table `map` of `ValidateDigest`: the value of each of the 128 characters. -/
def base64Map : List Nat :=
  [0,  0,  0,  0,  0,  0,  0,  0,  0,  0,  0,  0,  0,  0,  0,  0,  0,  0,  0,  0,  0,  0,  0,  0,  0,  0,
   0,  0,  0,  0,  0,  0,  0,  0,  0,  0,  0,  0,  0,  0,  0,  0,  0,  62, 0,  0,  0,  63, 52, 53, 54, 55,
   56, 57, 58, 59, 60, 61, 0,  0,  0,  0,  0,  0,  0,  0,  1,  2,  3,  4,  5,  6,  7,  8,  9,  10, 11, 12,
   13, 14, 15, 16, 17, 18, 19, 20, 21, 22, 23, 24, 25, 0,  0,  0,  0,  0,  0,  26, 27, 28, 29, 30, 31, 32,
   33, 34, 35, 36, 37, 38, 39, 40, 41, 42, 43, 44, 45, 46, 47, 48, 49, 50, 51, 0,  0,  0,  0,  0]

/-- The value `map[c & 0x7f]` of a character. -/
def sextet (c : Nat) : Nat := base64Map.getD (c &&& 0x7f) 0

/-- The inner loop `word = word << 6 | map[*base64_it & 0x7f]` over four
characters, in a 32-bit word. -/
def decodeWord (cs : List Nat) : Nat :=
  cs.foldl (fun word c => ((word <<< 6) % 2 ^ 32) ||| sextet c) 0

/-- The three bytes stored for one word: `word >> 16`, `word >> 8`, `word`, each
cut to 8 bits. -/
def wordBytes (word : Nat) : List Nat :=
  [(word >>> 16) % 256, (word >>> 8) % 256, word % 256]

/-- The array `digest` after the decoding loop: seven groups of four characters
give 21 bytes. -/
def decodeDigest (base64 : List Nat) : List Nat :=
  (List.range 7).foldl
    (fun digest g =>
      digest ++ wordBytes (decodeWord ((List.range 4).map (fun j => base64.getD (4 * g + j) 0))))
    []

/-! ## `ValidateDigest`: the hash -/

/-- The expression `x << s | x >> (32 - s)` on a 32-bit word. -/
def rol32 (x s : Nat) : Nat := ((x <<< s) % 2 ^ 32) ||| (x >>> (32 - s))

/-- The number of 64-byte blocks: `loopcount`, a 32-bit variable. -/
def sha1LoopCount (n : Nat) : Nat := ((n + 8) / 64 + 1) % 2 ^ 32

/-- The variable `tailLen`: the product is formed in 32 bits, the difference in
`size_t`, and the result is stored in 32 bits. -/
def sha1TailLen (n : Nat) : Nat :=
  let prod := (64 * sha1LoopCount n) % 2 ^ 32
  (if n ≤ prod then prod - n else 2 ^ 64 - (n - prod)) % 2 ^ 32

/-- The array `tail`: `0x80`, zeros, and the bit length in its last 8 bytes, most
significant byte first. -/
def sha1Tail (n : Nat) : Nat → Nat :=
  let bitlen := (n * 8) % 2 ^ 64
  let tailLen := sha1TailLen n
  (List.range 8).foldl
    (fun tail j => fun i =>
      if i = tailLen - (8 - j) then (bitlen >>> (56 - 8 * j)) % 256 else tail i)
    (fun i => if i = 0 then 0x80 else 0)

/-- The two `while` loops that fill one word of `W`, a byte for each shift in the
list: bytes of `source` as long as `didx` is inside it, bytes of `tail` from
then on. The result is the word and the new `didx`. -/
def loadWord (source : List Nat) (tail : Nat → Nat) :
    List Nat → Bool → Nat → Nat → Nat × Nat
  | [], _, w, didx => (w, didx)
  | wcount :: rest, inTail, w, didx =>
    if inTail = false ∧ didx < source.length then
      loadWord source tail rest false
        ((w + (source.getD didx 0 <<< wcount) % 2 ^ 32) % 2 ^ 32) ((didx + 1) % 2 ^ 32)
    else
      loadWord source tail rest true
        ((w + (tail (didx - source.length) <<< wcount) % 2 ^ 32) % 2 ^ 32) ((didx + 1) % 2 ^ 32)

/-- The loop over `widx < 16`: the sixteen words of a block and the new `didx`. -/
def loadBlock (source : List Nat) (tail : Nat → Nat) (didx : Nat) : List Nat × Nat :=
  (List.range 16).foldl
    (fun acc _ =>
      ((acc.1 ++ [(loadWord source tail [24, 16, 8, 0] false 0 acc.2).1]),
        (loadWord source tail [24, 16, 8, 0] false 0 acc.2).2))
    ([], didx)

/-- The loops over `16 <= widx < 32` and `32 <= widx < 80` that fill the rest of
`W`. -/
def expandW (W16 : List Nat) : List Nat :=
  let W32 := (List.range 16).foldl
    (fun W i =>
      W ++ [rol32 (W.getD (16 + i - 3) 0 ^^^ W.getD (16 + i - 8) 0 ^^^ W.getD (16 + i - 14) 0 ^^^
        W.getD (16 + i - 16) 0) 1])
    W16
  (List.range 48).foldl
    (fun W i =>
      W ++ [rol32 (W.getD (32 + i - 6) 0 ^^^ W.getD (32 + i - 16) 0 ^^^ W.getD (32 + i - 28) 0 ^^^
        W.getD (32 + i - 32) 0) 2])
    W32

/-- The five working variables `a, b, c, d, e`. -/
structure Sha1Vars where
  a : Nat
  b : Nat
  c : Nat
  d : Nat
  e : Nat
deriving DecidableEq

/-- The values of `f` and `k` that the `switch (stage)` sets. -/
def stageFK (stage : Nat) (v : Sha1Vars) : Nat × Nat :=
  if stage = 0 then ((v.b &&& v.c) ||| ((v.b ^^^ 0xffffffff) &&& v.d), 0x5a827999)
  else if stage = 1 then (v.b ^^^ v.c ^^^ v.d, 0x6ed9eba1)
  else if stage = 2 then ((v.b &&& v.c) ||| (v.b &&& v.d) ||| (v.c &&& v.d), 0x8f1bbcdc)
  else (v.b ^^^ v.c ^^^ v.d, 0xca62c1d6)

/-- The body of the inner loop over `idx`. -/
def sha1Step (W : List Nat) (stage : Nat) (v : Sha1Vars) (idx : Nat) : Sha1Vars :=
  let temp := (rol32 v.a 5 + (stageFK stage v).1 + v.e + (stageFK stage v).2 + W.getD idx 0) %
    2 ^ 32
  { a := temp, b := v.a, c := rol32 v.b 30, d := v.c, e := v.d }

/-- The loop over the four stages of twenty steps each. -/
def sha1Rounds (W : List Nat) (v : Sha1Vars) : Sha1Vars :=
  (List.range 4).foldl
    (fun v stage => (List.range 20).foldl (fun v i => sha1Step W stage v (20 * stage + i)) v)
    v

/-- One pass of the loop over `lidx`: load a block, expand it, run the rounds, add
to `H`. The state is `H` and `didx`. -/
def sha1Block (source : List Nat) (tail : Nat → Nat) (st : List Nat × Nat) : List Nat × Nat :=
  let lb := loadBlock source tail st.2
  let W := expandW lb.1
  let H := st.1
  let v := sha1Rounds W
    { a := H.getD 0 0, b := H.getD 1 0, c := H.getD 2 0, d := H.getD 3 0, e := H.getD 4 0 }
  ([(H.getD 0 0 + v.a) % 2 ^ 32, (H.getD 1 0 + v.b) % 2 ^ 32, (H.getD 2 0 + v.c) % 2 ^ 32,
    (H.getD 3 0 + v.d) % 2 ^ 32, (H.getD 4 0 + v.e) % 2 ^ 32], lb.2)

/-- The array `H` after the loop over `lidx`, for a `source` of any size. -/
def sha1H (source : List Nat) : List Nat :=
  ((List.range (sha1LoopCount source.length)).foldl
    (fun st _ => sha1Block source (sha1Tail source.length) st)
    ([0x67452301, 0xefcdab89, 0x98badcfe, 0x10325476, 0xc3d2e1f0], 0)).1

/-- The byte that the last loop compares `digest[i]` with. -/
def sha1Byte (H : List Nat) (i : Nat) : Nat :=
  (H.getD (i / 4) 0 >>> (24 - (i % 4) * 8)) % 256

/-- The bytes of the string copied after the key. -/
def guidBytes : List Nat := "258EAFA5-E914-47DA-95CA-C5AB0DC85B11".toList.map Char.toNat

/-- The array `source`: the 16 bytes of `key`, then the 36 bytes of the string. -/
def digestSource (key : List Nat) : List Nat :=
  (List.range 16).map (fun i => key.getD i 0) ++ guidBytes

/-- `ValidateDigest`. The `assert` on `base64[27]` comes first. -/
def ValidateDigest (base64 : List Nat) (key : List Nat) : Outcome Bool :=
  if base64.getD 27 0 ≠ 61 then .abort
  else
    let digest := decodeDigest base64
    let H := sha1H (digestSource key)
    .ret ((List.range 20).all (fun i => decide (digest.getD i 0 = sha1Byte H i)))

/-! ## SHA-1 as RFC 3174 defines it

A second definition, written from the text of RFC 3174 and not from the code,
to compare the hash of `ValidateDigest` with. -/

/-- The circular left shift `S^n(X)` of section 3. -/
def rfcS (n X : Nat) : Nat := ((X <<< n) % 2 ^ 32) ||| (X >>> (32 - n))

/-- The function `f(t; B, C, D)` of section 5. -/
def rfcF (t B C D : Nat) : Nat :=
  if t ≤ 19 then (B &&& C) ||| ((B ^^^ 0xffffffff) &&& D)
  else if t ≤ 39 then B ^^^ C ^^^ D
  else if t ≤ 59 then (B &&& C) ||| (B &&& D) ||| (C &&& D)
  else B ^^^ C ^^^ D

/-- The constant `K(t)` of section 5. -/
def rfcK (t : Nat) : Nat :=
  if t ≤ 19 then 0x5A827999
  else if t ≤ 39 then 0x6ED9EBA1
  else if t ≤ 59 then 0x8F1BBCDC
  else 0xCA62C1D6

/-- The 64-bit length as eight bytes, most significant first. -/
def rfcLength (l : Nat) : List Nat :=
  [l / 2 ^ 56 % 256, l / 2 ^ 48 % 256, l / 2 ^ 40 % 256, l / 2 ^ 32 % 256,
   l / 2 ^ 24 % 256, l / 2 ^ 16 % 256, l / 2 ^ 8 % 256, l % 256]

/-- Message padding of section 4: a `1` bit, the least number of `0` bits that
brings the length to 448 modulo 512, then the length in bits as 64 bits. -/
def rfcPad (msg : List Nat) : List Nat :=
  msg ++ [0x80] ++ List.replicate ((119 - msg.length % 64) % 64) 0 ++
    rfcLength (8 * msg.length)

/-- The word made of four bytes of the padded message, most significant first. -/
def rfcWord (pad : List Nat) (i : Nat) : Nat :=
  pad.getD i 0 * 2 ^ 24 + pad.getD (i + 1) 0 * 2 ^ 16 + pad.getD (i + 2) 0 * 2 ^ 8 +
    pad.getD (i + 3) 0

/-- The sixteen words `M(l)` of block number `l`. -/
def rfcBlock (pad : List Nat) (l : Nat) : List Nat :=
  (List.range 16).map (fun j => rfcWord pad (64 * l + 4 * j))

/-- Step (b) of method 1: `W(t) = S^1(W(t-3) XOR W(t-8) XOR W(t-14) XOR W(t-16))`
for `t` from 16 to 79. -/
def rfcSchedule (M : List Nat) : List Nat :=
  (List.range 64).foldl
    (fun W i =>
      W ++ [rfcS 1 (W.getD (16 + i - 3) 0 ^^^ W.getD (16 + i - 8) 0 ^^^
        W.getD (16 + i - 14) 0 ^^^ W.getD (16 + i - 16) 0)])
    M

/-- Step (d) of method 1 for one `t`:
`TEMP = S^5(A) + f(t;B,C,D) + E + W(t) + K(t)`. -/
def rfcStep (W : List Nat) (v : Sha1Vars) (t : Nat) : Sha1Vars :=
  { a := (rfcS 5 v.a + rfcF t v.b v.c v.d + v.e + W.getD t 0 + rfcK t) % 2 ^ 32,
    b := v.a, c := rfcS 30 v.b, d := v.c, e := v.d }

/-- The processing of one block `M`, steps (a) to (e). -/
def rfcProcess (H : List Nat) (M : List Nat) : List Nat :=
  let v := (List.range 80).foldl (rfcStep (rfcSchedule M))
    { a := H.getD 0 0, b := H.getD 1 0, c := H.getD 2 0, d := H.getD 3 0, e := H.getD 4 0 }
  [(H.getD 0 0 + v.a) % 2 ^ 32, (H.getD 1 0 + v.b) % 2 ^ 32, (H.getD 2 0 + v.c) % 2 ^ 32,
   (H.getD 3 0 + v.d) % 2 ^ 32, (H.getD 4 0 + v.e) % 2 ^ 32]

/-- The words `H0 ... H4` after all blocks of the padded message. -/
def rfcSha1 (msg : List Nat) : List Nat :=
  (List.range ((rfcPad msg).length / 64)).foldl
    (fun H l => rfcProcess H (rfcBlock (rfcPad msg) l))
    [0x67452301, 0xEFCDAB89, 0x98BADCFE, 0x10325476, 0xC3D2E1F0]

/-- The message digest: the 160 bits of `H0 H1 H2 H3 H4` as twenty bytes. -/
def rfcDigest (msg : List Nat) : List Nat :=
  (List.range 20).map
    (fun i => (rfcSha1 msg).getD (i / 4) 0 / 2 ^ (8 * (3 - i % 4)) % 256)

/-! ## Base64 as RFC 4648 defines it, and the accept value of RFC 6455 -/

/-- The alphabet of RFC 4648, table 1. -/
def base64Alphabet : List Nat :=
  "ABCDEFGHIJKLMNOPQRSTUVWXYZabcdefghijklmnopqrstuvwxyz0123456789+/".toList.map Char.toNat

/-- The character for a 6-bit value. -/
def base64Char (v : Nat) : Nat := base64Alphabet.getD v 0

/-- The encoding: three bytes give four characters; a last group of two bytes
gives three characters and one `=`, a last single byte two characters and `==`. -/
def base64Encode : List Nat → List Nat
  | a :: b :: c :: rest =>
      base64Char (a / 4) :: base64Char (a % 4 * 16 + b / 16) ::
        base64Char (b % 16 * 4 + c / 64) :: base64Char (c % 64) :: base64Encode rest
  | [a, b] => [base64Char (a / 4), base64Char (a % 4 * 16 + b / 16), base64Char (b % 16 * 4), 61]
  | [a] => [base64Char (a / 4), base64Char (a % 4 * 16), 61, 61]
  | [] => []

/-- The correctly computed accept value for a key: base64 of the SHA-1 digest of
the key followed by the GUID. -/
def acceptValue (key : List Nat) : List Nat :=
  base64Encode (rfcDigest (key ++ guidBytes))

/-- The list with bit `b` of the element at index `i` flipped. -/
def flipBit (l : List Nat) (i b : Nat) : List Nat :=
  l.set i (l.getD i 0 ^^^ 2 ^ b)

/-- The words of `W` filled so far are 32-bit words and obey the recurrence of the
RFC from index 16 on. -/
def SchedInv (W : List Nat) : Prop :=
  16 ≤ W.length ∧ (∀ j, j < W.length → W.getD j 0 < 2 ^ 32) ∧
    ∀ j, 16 ≤ j → j < W.length →
      W.getD j 0 = rol32 (W.getD (j - 3) 0 ^^^ W.getD (j - 8) 0 ^^^ W.getD (j - 14) 0 ^^^
        W.getD (j - 16) 0) 1

/-! ## Runs of several calls and passes -/

/-- `n` calls of `WebSocket_destroy` in a row. -/
def destroyTimes : Nat → WebSocket → Net → Outcome (WebSocket × Net)
  | 0, st, io => .ret (st, io)
  | n + 1, st, io =>
    match WebSocket_destroy st io with
    | .ret (st1, io1) => destroyTimes n st1 io1
    | .abort => .abort
    | .hang => .hang
    | .nofuel => .nofuel

/-- The state and environment at the start of pass `k` of the loop of
`WebSocket_receive`, counted from a pass that starts at `st`, `io`; `none` when
the loop is left before. -/
def passAt : Nat → WebSocket → Net → Option (WebSocket × Net)
  | 0, st, io => some (st, io)
  | k + 1, st, io =>
    match receiveBody st io with
    | .cont st1 io1 => passAt k st1 io1
    | _ => none

/-- The branch of the loop body taken at `st`, before the `switch`. -/
def branchStep (st : WebSocket) (io : Net) : Step :=
  if st.head = st.endp then headerBranch st io else payloadBranch st io

/-- The conditions under which a pass of the loop of `WebSocket_receive` is
fatal, in the order of the code: a `recv` error other than `EAGAIN` on the
probe of a header or on the read of a payload; a header read that returns
another length than the probe announced; a declared length above the room
left; and, on a complete message, a close frame, an opcode that is not
supported, or a ping whose pong cannot be sent. -/
def FatalPass (st : WebSocket) (io : Net) : Prop :=
  (st.head = st.endp ∧ (sockRecv io 14 true).1.length < 0 ∧
    (sockRecv io 14 true).1.again = false) ∨
  (st.head ≠ st.endp ∧ (sockRecv io (ptrDiff st.endp st.head) false).1.length < 0 ∧
    (sockRecv io (ptrDiff st.endp st.head) false).1.again = false) ∨
  (st.head = st.endp ∧
    ((headerLen ((sockRecv io 14 true).1.data.getD 1 0) : Nat) : Int) ≤
      (sockRecv io 14 true).1.length ∧
    (sockRecv (sockRecv io 14 true).2
      (headerLen ((sockRecv io 14 true).1.data.getD 1 0)) false).1.length ≠
      ((headerLen ((sockRecv io 14 true).1.data.getD 1 0) : Nat) : Int)) ∨
  (st.head = st.endp ∧
    ((headerLen ((sockRecv io 14 true).1.data.getD 1 0) : Nat) : Int) ≤
      (sockRecv io 14 true).1.length ∧
    (sockRecv (sockRecv io 14 true).2
      (headerLen ((sockRecv io 14 true).1.data.getD 1 0)) false).1.length =
      ((headerLen ((sockRecv io 14 true).1.data.getD 1 0) : Nat) : Int) ∧
    ptrDiff bufferSize st.endp <
      fragmentLength (sockRecv (sockRecv io 14 true).2
        (headerLen ((sockRecv io 14 true).1.data.getD 1 0)) false).1.data) ∨
  (∃ st2 io2, branchStep st io = .cont st2 io2 ∧ st2.head = st2.endp ∧ st2.finished = true ∧
    (st2.opcode = 0x8 ∨
     (st2.opcode ≠ 0x1 ∧ st2.opcode ≠ 0x2 ∧ st2.opcode ≠ 0x8 ∧ st2.opcode ≠ 0x9 ∧
       st2.opcode ≠ 0xa) ∨
     (st2.opcode = 0x9 ∧
       (WebSocket_sendWithOpcode st2 (readBuf st2.buffer 0 st2.head) 0xa io2).1 = false)))

/-- What a pass of the loop keeps of `st`, `io`: the handle, the counter of pins
and the calls of `shutdown` and `close` made so far. -/
def Kept (st : WebSocket) (io : Net) (st1 : WebSocket) (io1 : Net) : Prop :=
  st1.sockfd = st.sockfd ∧ st1.sockfd_pin = st.sockfd_pin ∧
  io1.shutdowns = io.shutdowns ∧ io1.closes = io.closes

/-- `Kept` for the three ways a pass ends; a return has released the pin. -/
def StepKept (st : WebSocket) (io : Net) : Step → Prop
  | .cont st1 io1 => Kept st io st1 io1
  | .done _ st1 io1 => Kept (unpin st) io st1 io1
  | .fail st1 io1 => Kept st io st1 io1

/-! ## The handshake -/

/-- The bytes of a string literal of the source. -/
def strBytes (s : String) : List Nat := s.toList.map Char.toNat

/-- The call `connect(sockfd, &localhost, ...)`; on a negative descriptor the
kernel answers -1 (`EBADF`) whatever the peer does. -/
def sockConnect (io : Net) (fd : Int) : Int × Net :=
  (if fd < 0 then -1 else io.connectRes, { io with connects := io.connects ++ [fd] })

/-- The part of the request before the key. -/
def requestHead : List Nat :=
  strBytes "GET / HTTP/1.1\r\n" ++ strBytes "Host: localhost:8080\r\n" ++
  strBytes "Connection: Upgrade\r\n" ++ strBytes "Upgrade: websocket\r\n" ++
  strBytes "Sec-Websocket-Key: "

/-- The part of the request after the key. -/
def requestTail : List Nat :=
  strBytes "\r\n" ++ strBytes "Sec-Websocket-Version: 13\r\n" ++ strBytes "\r\n"

/-- The 128-bit `keyValue` made of four results of `rand()`, each taken as an
`unsigned`; the calls are taken in the order they are written. -/
def keyValueOf (r0 r1 r2 r3 : Nat) : Nat :=
  (r0 % 2 ^ 32) ||| ((r1 % 2 ^ 32) <<< 32) ||| ((r2 % 2 ^ 32) <<< 64) |||
    ((r3 % 2 ^ 32) <<< 96)

/-- The loop `key[i] = (keyValue % 96) + 32; keyValue /= 96`. -/
def keyOfValue (keyValue : Nat) : List Nat :=
  (List.range 16).map (fun i => (keyValue / 96 ^ i % 96 + 32) % 256)

/-- The array `key` of `WebSocket_handshake` and the environment after the four
calls of `rand()`. -/
def handshakeKey (io : Net) : List Nat × Net :=
  let a := sockRand io
  let b := sockRand a.2
  let c := sockRand b.2
  let d := sockRand c.2
  (keyOfValue (keyValueOf a.1 b.1 c.1 d.1), d.2)

/-- What `snprintf` with `%.*s` and precision 16 prints of `key`: its bytes up
to the first zero byte. -/
def printedKey (key : List Nat) : List Nat :=
  (key.take 16).takeWhile (fun c => c ≠ 0)

/-- A blocking `recv` hands over up to `n` of the `k` bytes queued. -/
def deliverWait (io : Net) (k n : Nat) : RecvRet × Net :=
  let m := min n (min k io.stream.length)
  (⟨(m : Int), false, io.stream.take m⟩, { io with stream := io.stream.drop m })

/-- The call `recv(sockfd, buf, n, 0)` on a blocking socket, the script of the
`recv` calls being `sched`: an event with nothing queued is waited through; once
the script is used up and the stream is empty the call never returns. -/
def recvWait : List RecvEv → Net → Nat → Outcome (RecvRet × Net)
  | [], io, n =>
    if io.stream.length = 0 then .hang
    else .ret (deliverWait { io with sched := [] } io.stream.length n)
  | RecvEv.ready k :: rest, io, n =>
    if min k io.stream.length = 0 then recvWait rest io n
    else .ret (deliverWait { io with sched := rest } k n)
  | RecvEv.eof :: rest, io, _ => .ret (⟨0, false, []⟩, { io with sched := rest })
  | RecvEv.err :: rest, io, _ => .ret (⟨-1, false, []⟩, { io with sched := rest })

/-- The blocking `recv` on the environment. -/
def sockRecvWait (io : Net) (n : Nat) : Outcome (RecvRet × Net) :=
  recvWait io.sched io n

/-- The terminator of the response. -/
def crlfcrlf : List Nat := [13, 10, 13, 10]

/-- The loop that reads the response, `buffer` being the first `buffer_len`
bytes of the array: `some` of them once they end with the terminator, `none`
for the `return false` inside the loop. -/
def readResponse : Nat → List Nat → Net → Outcome (Option (List Nat) × Net)
  | 0, _, _ => .nofuel
  | fuel + 1, buffer, io =>
    if buffer.length < 4 ∨ buffer.drop (buffer.length - 4) ≠ crlfcrlf then
      match sockRecvWait io (0x2000 - 1 - buffer.length) with
      | .ret (r, io1) =>
        if r.length ≤ 0 then .ret (none, io1)
        else readResponse fuel (buffer ++ r.data) io1
      | .abort => .abort
      | .hang => .hang
      | .nofuel => .nofuel
    else .ret (some buffer, io)

/-- The string a `char *` points to: the bytes before the first zero byte. -/
def cString (bytes : List Nat) : List Nat :=
  bytes.takeWhile (fun c => c ≠ 0)

/-- The function `strstr` on two strings: the offset of the first occurrence of
`needle` in `hay`. -/
def strstr : List Nat → List Nat → Option Nat
  | [], needle => if needle = [] then some 0 else none
  | h :: t, needle =>
    if needle.isPrefixOf (h :: t) then some 0
    else (strstr t needle).map (fun p => p + 1)

/-- The start of the status line that is asked for. -/
def statusLine : List Nat := strBytes "HTTP/1.1 101"

/-- The header name that is searched for, with the line break before it. -/
def acceptHeader : List Nat := strBytes "\r\nSec-WebSocket-Accept: "

/-- The checks of `WebSocket_handshake` on a response that was read whole; the
zero byte stored at `buffer[buffer_len]` ends the string. `ValidateDigest` is
only called when the line break stands at offset 28. -/
def checkResponse (buffer : List Nat) (key : List Nat) : Outcome Bool :=
  if buffer.length < 40 ∨ buffer.take 12 ≠ statusLine then .ret false
  else
    match strstr (cString buffer) acceptHeader with
    | none => .ret false
    | some p =>
      let acceptBase64 := (cString buffer).drop (p + 24)
      if strstr acceptBase64 [13, 10] ≠ some 28 then .ret false
      else ValidateDigest acceptBase64 key

/-- `WebSocket_handshake`. The state is read only; the result comes with the
environment the call leaves. The read loop gets one pass for each byte the
array can hold. -/
def WebSocket_handshake (state : WebSocket) (io : Net) : Outcome (Bool × Net) :=
  let c := sockConnect io state.sockfd
  if c.1 ≠ 0 then .ret (false, c.2)
  else
    let k := handshakeKey c.2
    let request := requestHead ++ printedKey k.1 ++ requestTail
    if request.length ≠ 145 then .abort
    else
      let s := sockSendmsg k.2 request
      if s.1 ≠ 145 then .ret (false, s.2)
      else
        match readResponse 0x2000 [] s.2 with
        | .ret (none, io3) => .ret (false, io3)
        | .ret (some buffer, io3) => (checkResponse buffer k.1).map (fun b => (b, io3))
        | .abort => .abort
        | .hang => .hang
        | .nofuel => .nofuel

/-- The invariant of the cursors: `buffer ≤ head ≤ end ≤ buffer + sizeof(buffer)`,
in offsets. -/
def CursorInv (st : WebSocket) : Prop :=
  st.head ≤ st.endp ∧ st.endp ≤ bufferSize

/-- The bytes at offsets past the capacity are those of `b`: nothing was stored
there. -/
def SameBeyond (b b1 : Nat → Nat) : Prop :=
  ∀ j, bufferSize ≤ j → b1 j = b j

/-- The state a pass ends with. -/
def Step.state : Step → WebSocket
  | .cont st _ => st
  | .done _ st _ => st
  | .fail st _ => st

/-- One frame as the peer sends it: the `fin` bit, the opcode, the masking key
when the frame is masked, and the payload before masking. -/
structure Frame where
  fin : Bool
  opcode : Nat
  key : Option (Nat → Nat)
  payload : List Nat

/-- The bytes of a sequence of frames. -/
def wireFrames : List Frame → List Nat
  | [] => []
  | f :: fs => wireFrame f.fin f.opcode f.key f.payload ++ wireFrames fs

/-- Two frames that differ at most in the opcode. -/
def SameButOpcode (a b : Frame) : Prop :=
  a.fin = b.fin ∧ a.key = b.key ∧ a.payload = b.payload ∧ a.opcode < 16 ∧ b.opcode < 16

/-- The number of payload bytes of a sequence of frames. -/
def payloadTotal (fs : List Frame) : Nat :=
  (fs.map (fun f => f.payload.length)).sum

/-- The state after the header of a frame was read and the first `j` bytes of
its payload were stored. -/
def midFrame (st : WebSocket) (now : Int) (fin : Bool) (opcode : Nat)
    (key : Option (Nat → Nat)) (payload : List Nat) (j : Nat) : WebSocket :=
  let sh := afterHeader st now fin opcode key payload.length
  { sh with
    head := sh.head + j
    buffer := writeBuf st.buffer sh.head (payload.take j) }

/-- Where a connection stands at position `k` of a frame: the state as it was
while the header is not consumed, the state that holds the first
`k - header length` payload bytes from then on; and, for a quiet socket on which
`k` bytes have arrived, the bytes still pending (those of a header that is not
whole yet). -/
def arrived (st : WebSocket) (now : Int) (fin : Bool) (opcode : Nat)
    (key : Option (Nat → Nat)) (payload : List Nat) (k : Nat) : WebSocket × List Nat :=
  if k < (wireHeader fin opcode key payload.length).length then
    (st, (wireFrame fin opcode key payload).take k)
  else
    (midFrame st now fin opcode key payload
      (k - (wireHeader fin opcode key payload.length).length), [])

/-- Byte `i mod 4` of the masking key of a frame; 0 for a frame without mask. -/
def keyByte (key : Option (Nat → Nat)) (i : Nat) : Nat :=
  match key with
  | none => 0
  | some M => M (i % 4)

/-- The byte at index `m` of the bytes that groups of four 6-bit values `s` decode
to: three bytes for each group, most significant bits first. -/
def sextetBytes (s : Nat → Nat) (m : Nat) : Nat :=
  if m % 3 = 0 then s (4 * (m / 3)) * 4 + s (4 * (m / 3) + 1) / 16
  else if m % 3 = 1 then s (4 * (m / 3) + 1) % 16 * 16 + s (4 * (m / 3) + 2) / 4
  else s (4 * (m / 3) + 2) % 4 * 64 + s (4 * (m / 3) + 3)

/-! ## Segmentation: chunks between calls, pieces between `recv` calls

A description of what the kernel may do with the bytes of a frame, and a count
of the bytes that `WebSocket_receive` has consumed by then, written down
independently of the code and compared with it in the theorems. -/

/-- The number of pending bytes the next `recv` finds queued. -/
def queuedNow (io : Net) : Nat :=
  match io.sched with
  | [] => io.stream.length
  | .ready a :: _ => min a io.stream.length
  | _ => 0

/-- The environment once the next event of the script is used. -/
def popSched (io : Net) : Net := { io with sched := io.sched.tail }

/-- A script that only splits the stream: no end of stream, no error. -/
def Ready (s : List RecvEv) : Prop := ∀ e ∈ s, ∃ a, e = RecvEv.ready a

/-- How many payload bytes the payload reads of one call take under a script,
`rem` bytes of the payload being still missing and `p` bytes pending: each `recv`
takes what is queued, the missing bytes at most, and the call returns at the
first `recv` that finds nothing. -/
def taken : Nat → Nat → List RecvEv → Nat
  | rem, p, [] => min p rem
  | rem, p, .ready a :: rest =>
    if min (min a p) rem = 0 then 0
    else min (min a p) rem + taken (rem - min (min a p) rem) (p - min (min a p) rem) rest
  | _, _, _ :: _ => 0

/-- The number of the `p` pending bytes that the first `recv` of a script finds
queued. -/
def firstQueued (p : Nat) : List RecvEv → Nat
  | [] => p
  | .ready a :: _ => min a p
  | _ => 0

/-- The position in a frame (the number of its bytes consumed) after one call of
`WebSocket_receive` that starts at position `c` with `p` bytes pending, for a
header of `hdr` bytes and a payload of `n` bytes: the header is consumed whole,
once the probe finds all of it queued, by the second `recv`; the payload reads
follow. -/
def readCall (hdr n c p : Nat) (s : List RecvEv) : Nat :=
  if c = 0 then (if firstQueued p s < hdr then 0 else hdr + taken n (p - hdr) (s.drop 2))
  else c + taken (hdr + n - c) p s

/-- The position after a sequence of calls, each preceded by the arrival of a
chunk; `d` is the number of bytes that arrived so far. -/
def readPlan (hdr n : Nat) : Nat → Nat → List (List Nat × List RecvEv) → Nat
  | c, _, [] => c
  | c, d, (chunk, s) :: rest =>
    readPlan hdr n (readCall hdr n c (d + chunk.length - c) s) (d + chunk.length) rest

/-- Whether a script only splits the stream: no end of stream, no error. -/
def readyScript (s : List RecvEv) : Bool :=
  s.all (fun e => match e with | .ready _ => true | _ => false)

/-- Whether, of `p` pending bytes, the `recv` that follows a probe which found a
whole header of `hdr` bytes queued finds the header queued as well: bytes that
are queued stay queued until they are read. -/
def probeHolds (hdr p : Nat) : List RecvEv → Bool
  | .ready a :: .ready b :: _ => decide (min a p < hdr ∨ hdr ≤ b)
  | _ => true

/-- What the scripts of a sequence of calls may do: they only split the stream,
and in a call that starts before the header is consumed the header that the
probe found is still queued at the `recv` that follows it. -/
def legalPlan (hdr n : Nat) : Nat → Nat → List (List Nat × List RecvEv) → Bool
  | _, _, [] => true
  | c, d, (chunk, s) :: rest =>
    readyScript s && (decide (c ≠ 0) || probeHolds hdr (d + chunk.length - c) s) &&
      legalPlan hdr n (readCall hdr n c (d + chunk.length - c) s) (d + chunk.length) rest

/-- The bytes of the peer arrive in chunks; after each chunk `WebSocket_receive`
is called once, and during that call the kernel hands the pending bytes out as
the script of the call says. The result is that of the last call. -/
def feedS : WebSocket → Net → List (List Nat × List RecvEv) →
    Outcome (Nat × WebSocket × Net)
  | st, io, [] => .ret (0, st, io)
  | st, io, (c, s) :: cs =>
    match WebSocket_receive st { io with stream := io.stream ++ c, sched := s } with
    | .ret (n, st1, io1) => if cs.isEmpty then .ret (n, st1, io1) else feedS st1 io1 cs
    | .abort => .abort
    | .hang => .hang
    | .nofuel => .nofuel

/-! # Lemmas and theorems -/

theorem headerLen_bounds (b1 : Nat) : 2 ≤ headerLen b1 ∧ headerLen b1 ≤ 14 := by
  unfold headerLen payloadLengthLen
  have : b1 / 128 % 2 < 2 := Nat.mod_lt _ (by decide)
  split_ifs <;> omega

theorem sockRecv_quiet_take (io : Net) (n : Nat) (hs : io.sched = []) (hn : 0 < n)
    (hle : n ≤ io.stream.length) :
    sockRecv io n false =
      (⟨(n : Int), false, io.stream.take n⟩, { io with stream := io.stream.drop n }) := by
  have hm : min n io.stream.length = n := by omega
  have h0 : n ≠ 0 := by omega
  simp [sockRecv, hs, deliver, hm, h0]

theorem sockRecv_quiet_peek (io : Net) (n : Nat) (hs : io.sched = []) (hn : 0 < n)
    (hne : io.stream ≠ []) :
    sockRecv io n true =
      (⟨((min n io.stream.length : Nat) : Int), false, io.stream.take (min n io.stream.length)⟩,
        io) := by
  have hpos : 0 < io.stream.length := List.length_pos.mpr hne
  have h0 : min n io.stream.length ≠ 0 := by omega
  simp only [sockRecv, hs, deliver, Nat.min_self, h0, if_false, if_true]

theorem sockRecv_quiet_empty (io : Net) (n : Nat) (peek : Bool) (hs : io.sched = [])
    (he : io.stream = []) :
    sockRecv io n peek = (⟨-1, true, []⟩, io) := by
  simp [sockRecv, hs, deliver, he]

theorem getD_take_append (H tl : List Nat) (k i : Nat) (hi : i < H.length) (hk : i < k) :
    (List.take k (H ++ tl)).getD i 0 = H.getD i 0 := by
  rw [List.getD_eq_getElem?_getD, List.getD_eq_getElem?_getD, List.getElem?_take]
  simp only [hk, if_true]
  rw [List.getElem?_append_left hi]

theorem headerBranch_quiet (st : WebSocket) (io : Net) (H tl : List Nat)
    (hs : io.sched = []) (hio : io.stream = H ++ tl)
    (hH : H.length = headerLen (H.getD 1 0)) :
    headerBranch st io =
      takeHeader st (payloadLengthLen (H.getD 1 0)) H { io with stream := tl } := by
  have hb := headerLen_bounds (H.getD 1 0)
  have hlen : io.stream.length = H.length + tl.length := by rw [hio]; simp
  have hne : io.stream ≠ [] := by
    intro h
    rw [h] at hlen
    simp at hlen; omega
  have hpk : (List.take (min 14 io.stream.length) io.stream).getD 1 0 = H.getD 1 0 := by
    rw [hio]; apply getD_take_append
    · omega
    · apply Nat.lt_min.mpr; constructor <;> simp <;> omega
  have ht : List.take (headerLen (H.getD 1 0)) io.stream = H := by
    rw [hio, ← hH]; simp
  have hd : List.drop (headerLen (H.getD 1 0)) io.stream = tl := by
    rw [hio, ← hH]; simp
  have h2 := sockRecv_quiet_take io (headerLen (H.getD 1 0)) hs (by omega) (by omega)
  rw [ht, hd] at h2
  simp only [headerBranch, sockRecv_quiet_peek io 14 hs (by decide) hne, hpk, h2]
  generalize headerLen (H.getD 1 0) = hl at *
  have hmin : hl ≤ min 14 io.stream.length := Nat.le_min.mpr ⟨hb.2, by omega⟩
  have hlt : ¬ ((min 14 io.stream.length : Nat) : Int) < (hl : Int) := by
    intro h; exact absurd (Int.ofNat_lt.mp h) (by omega)
  rw [if_neg (by simp), if_neg hlt, if_neg (by simp)]

theorem shl_or (a b k : Nat) (h : b < 2 ^ k) : a <<< k ||| b = a * 2 ^ k + b := by
  rw [Nat.shiftLeft_eq, Nat.mul_comm a]
  exact (Nat.mul_add_lt_is_or h a).symm

theorem wireLength_small (n : Nat) (h : n ≤ 125) : wireLength n = (n, []) := by
  simp [wireLength, h]

theorem wireLength_mid (n : Nat) (h1 : 125 < n) (h2 : n ≤ 65535) :
    wireLength n = (126, [n / 256, n % 256]) := by
  have : ¬ n ≤ 125 := by omega
  simp [wireLength, h2, this]

theorem wireLength_big (n : Nat) (h : 65535 < n) :
    wireLength n =
      (127, [n / 256 ^ 7 % 256, n / 256 ^ 6 % 256, n / 256 ^ 5 % 256, n / 256 ^ 4 % 256,
              n / 256 ^ 3 % 256, n / 256 ^ 2 % 256, n / 256 % 256, n % 256]) := by
  have h1 : ¬ n ≤ 125 := by omega
  have h2 : ¬ n ≤ 65535 := by omega
  simp [wireLength, h1, h2]

theorem wireLength_cases (n : Nat) :
    (n ≤ 125 ∧ wireLength n = (n, [])) ∨
    (125 < n ∧ n ≤ 65535 ∧ wireLength n = (126, [n / 256, n % 256])) ∨
    (65535 < n ∧ wireLength n =
      (127, [n / 256 ^ 7 % 256, n / 256 ^ 6 % 256, n / 256 ^ 5 % 256, n / 256 ^ 4 % 256,
              n / 256 ^ 3 % 256, n / 256 ^ 2 % 256, n / 256 % 256, n % 256])) := by
  by_cases h1 : n ≤ 125
  · exact Or.inl ⟨h1, wireLength_small n h1⟩
  · by_cases h2 : n ≤ 65535
    · exact Or.inr (Or.inl ⟨by omega, h2, wireLength_mid n (by omega) h2⟩)
    · exact Or.inr (Or.inr ⟨by omega, wireLength_big n (by omega)⟩)

theorem wireLength_fst_lt (n : Nat) : (wireLength n).1 < 128 := by
  rcases wireLength_cases n with ⟨h, e⟩ | ⟨_, _, e⟩ | ⟨_, e⟩ <;> rw [e] <;> simp <;> omega

theorem wireLength_snd_length (n : Nat) :
    (wireLength n).2.length = payloadLengthLen (wireLength n).1 := by
  rcases wireLength_cases n with ⟨h, e⟩ | ⟨_, _, e⟩ | ⟨_, e⟩ <;> rw [e]
  · have h1 : n % 128 = n := Nat.mod_eq_of_lt (by omega)
    have h2 : n ≠ 126 := by omega
    have h3 : n ≠ 127 := by omega
    simp [payloadLengthLen, h1, h2, h3]
  · simp [payloadLengthLen]
  · simp [payloadLengthLen]

theorem be2_decode (a b : Nat) (hb : b < 256) : a <<< 8 ||| b = a * 256 + b := by
  rw [shl_or a b 8 (by omega)]; omega

theorem be8_decode (a b c d e f g h : Nat) (hb : b < 256) (hc : c < 256) (hd : d < 256)
    (he : e < 256) (hf : f < 256) (hg : g < 256) (hh : h < 256) :
    a <<< 56 ||| b <<< 48 ||| c <<< 40 ||| d <<< 32 ||| e <<< 24 ||| f <<< 16 ||| g <<< 8 ||| h
      = a * 2 ^ 56 + b * 2 ^ 48 + c * 2 ^ 40 + d * 2 ^ 32 + e * 2 ^ 24 + f * 2 ^ 16 +
          g * 2 ^ 8 + h := by
  simp only [Nat.or_assoc]
  rw [shl_or g h 8 (by omega)]
  rw [shl_or f _ 16 (by omega)]
  rw [shl_or e _ 24 (by omega)]
  rw [shl_or d _ 32 (by omega)]
  rw [shl_or c _ 40 (by omega)]
  rw [shl_or b _ 48 (by omega)]
  rw [shl_or a _ 56 (by omega)]
  omega

theorem fragmentLength_wire (b0 m n : Nat) (tl : List Nat) (hm : m = 0 ∨ m = 128)
    (hn : n < 2 ^ 64) :
    fragmentLength (b0 :: (m + (wireLength n).1) :: ((wireLength n).2 ++ tl)) = n := by
  have hlt := wireLength_fst_lt n
  have hmod : (m + (wireLength n).1) % 128 = (wireLength n).1 := by omega
  unfold fragmentLength
  simp only [List.getD_cons_succ, List.getD_cons_zero, hmod]
  rcases wireLength_cases n with ⟨h, e⟩ | ⟨h1, h2, e⟩ | ⟨h, e⟩ <;> rw [e] <;> simp only []
  · rw [if_pos (by omega)]
  · simp only [if_true, List.cons_append, List.getD_cons_succ, List.getD_cons_zero]
    rw [if_neg (by omega), be2_decode _ _ (Nat.mod_lt _ (by decide))]
    omega
  · rw [if_neg (by omega), if_neg (by omega)]
    simp only [List.cons_append, List.getD_cons_succ, List.getD_cons_zero, Nat.add_zero]
    rw [be8_decode _ _ _ _ _ _ _ _ (Nat.mod_lt _ (by decide)) (Nat.mod_lt _ (by decide))
      (Nat.mod_lt _ (by decide)) (Nat.mod_lt _ (by decide)) (Nat.mod_lt _ (by decide))
      (Nat.mod_lt _ (by decide)) (Nat.mod_lt _ (by decide))]
    omega

theorem payloadLengthLen_mod (b : Nat) : payloadLengthLen (b % 128) = payloadLengthLen b := by
  simp [payloadLengthLen]

theorem wireHeader_getD_one (fin : Bool) (op : Nat) (key : Option (Nat → Nat)) (n : Nat) :
    (wireHeader fin op key n).getD 1 0 = (if key.isSome then 128 else 0) + (wireLength n).1 := by
  simp [wireHeader]

theorem wireHeader_getD_zero (fin : Bool) (op : Nat) (key : Option (Nat → Nat)) (n : Nat) :
    (wireHeader fin op key n).getD 0 0 = (if fin then 128 else 0) + op := by
  simp [wireHeader]

theorem wireHeader_pll (fin : Bool) (op : Nat) (key : Option (Nat → Nat)) (n : Nat) :
    payloadLengthLen ((wireHeader fin op key n).getD 1 0) = (wireLength n).2.length := by
  have h := wireLength_fst_lt n
  rw [wireHeader_getD_one, wireLength_snd_length, ← payloadLengthLen_mod]
  congr 1
  split_ifs <;> omega

theorem wireHeader_maskbit (fin : Bool) (op : Nat) (key : Option (Nat → Nat)) (n : Nat) :
    (wireHeader fin op key n).getD 1 0 / 128 % 2 = if key.isSome then 1 else 0 := by
  have h := wireLength_fst_lt n
  rw [wireHeader_getD_one]
  split_ifs <;> omega

theorem wireHeader_length (fin : Bool) (op : Nat) (key : Option (Nat → Nat)) (n : Nat) :
    (wireHeader fin op key n).length = headerLen ((wireHeader fin op key n).getD 1 0) := by
  unfold headerLen
  rw [wireHeader_pll, wireHeader_maskbit]
  cases key <;> simp [wireHeader, keyBytes] <;> omega

theorem wireHeader_fragmentLength (fin : Bool) (op : Nat) (key : Option (Nat → Nat)) (n : Nat)
    (hn : n < 2 ^ 64) : fragmentLength (wireHeader fin op key n) = n := by
  unfold wireHeader
  apply fragmentLength_wire _ _ _ _ _ hn
  split_ifs <;> simp

theorem wireHeader_key (fin : Bool) (op : Nat) (k : Nat → Nat) (n i : Nat) (hi : i < 4) :
    (wireHeader fin op (some k) n).getD (2 + (wireLength n).2.length + i) 0 = k i := by
  unfold wireHeader
  rw [show 2 + (wireLength n).2.length + i = ((wireLength n).2.length + i) + 1 + 1 by omega]
  simp only [List.getD_cons_succ]
  rw [List.getD_append_right _ _ _ _ (by omega)]
  have : (wireLength n).2.length + i - (wireLength n).2.length = i := by omega
  rw [this]
  simp only [keyBytes]
  interval_cases i <;> rfl

theorem maskRotate_eq (m : Nat → Nat) (s : Nat) (k : Nat → Nat) :
    maskRotate m s k = fun j =>
      if j = (s + 3) % 4 then k 3 else if j = (s + 2) % 4 then k 2
      else if j = (s + 1) % 4 then k 1 else if j = (s + 0) % 4 then k 0 else m j := rfl

theorem maskRotate_congr (m : Nat → Nat) (s : Nat) (k k' : Nat → Nat)
    (h : ∀ i, i < 4 → k i = k' i) : maskRotate m s k = maskRotate m s k' := by
  rw [maskRotate_eq, maskRotate_eq, h 0 (by decide), h 1 (by decide), h 2 (by decide),
    h 3 (by decide)]

theorem maskRotate_apply (m : Nat → Nat) (s : Nat) (k : Nat → Nat) (j : Nat) :
    maskRotate m s k ((s + j) % 4) = k (j % 4) := by
  rw [maskRotate_eq]
  have hj : j % 4 = 0 ∨ j % 4 = 1 ∨ j % 4 = 2 ∨ j % 4 = 3 := by omega
  rcases hj with h | h | h | h <;> rw [h] <;> simp only [] <;>
    [ (rw [if_neg (by omega), if_neg (by omega), if_neg (by omega), if_pos (by omega)]);
      (rw [if_neg (by omega), if_neg (by omega), if_pos (by omega)]);
      (rw [if_neg (by omega), if_pos (by omega)]);
      (rw [if_pos (by omega)]) ]

theorem ptrDiff_le (p q : Nat) (h : q ≤ p) : ptrDiff p q = p - q := by
  simp [ptrDiff, h]

theorem takeHeader_reject (st : WebSocket) (pl : Nat) (H : List Nat) (io : Net)
    (he : st.endp ≤ bufferSize) (h : bufferSize - st.endp < fragmentLength H) :
    takeHeader st pl H io = .fail st io := by
  unfold takeHeader
  rw [ptrDiff_le _ _ he, if_pos h]

theorem takeHeader_wire (st : WebSocket) (io : Net) (fin : Bool) (op : Nat)
    (key : Option (Nat → Nat)) (n : Nat) (hop : op < 16)
    (he : st.endp ≤ bufferSize) (hn : n ≤ bufferSize - st.endp) :
    takeHeader st (payloadLengthLen ((wireHeader fin op key n).getD 1 0))
        (wireHeader fin op key n) io =
      .cont (afterHeader st io.now fin op key n) io := by
  have hn64 : n < 2 ^ 64 := by
    have : bufferSize = 0x8000 := rfl
    omega
  unfold takeHeader
  rw [ptrDiff_le _ _ he, wireHeader_fragmentLength _ _ _ _ hn64, if_neg (by omega),
    wireHeader_maskbit, wireHeader_getD_zero, wireHeader_pll]
  have hop' : ((if fin = true then 128 else 0) + op) % 16 = op := by split_ifs <;> omega
  have hfin : decide (((if fin = true then 128 else 0) + op) / 128 % 2 = 1) = fin := by
    cases fin <;> simp <;> omega
  rw [hop', hfin]
  cases key with
  | none =>
    cases hf : st.finished <;> simp [afterHeader, hf]
  | some k =>
    cases hf : st.finished <;> simp [afterHeader, hf] <;>
      exact maskRotate_congr _ _ _ _ (fun i hi => by
        rw [← List.getD_eq_getElem?_getD]; exact wireHeader_key fin op k n i hi)

theorem sockRecv_quiet_short (io : Net) (n : Nat) (hs : io.sched = [])
    (hpos : 0 < io.stream.length) (hle : io.stream.length ≤ n) :
    sockRecv io n false =
      (⟨(io.stream.length : Int), false, io.stream⟩, { io with stream := [] }) := by
  have hm : min n io.stream.length = io.stream.length := by omega
  have h0 : io.stream.length ≠ 0 := by omega
  simp [sockRecv, hs, deliver, hm, h0]

theorem payloadBranch_quiet (st : WebSocket) (io : Net) (W tl : List Nat)
    (hs : io.sched = []) (hio : io.stream = W ++ tl) (hlt : st.head < st.endp)
    (hW : W.length = st.endp - st.head) :
    payloadBranch st io = .cont (takePayload st W W.length) { io with stream := tl } := by
  have hlen : io.stream.length = W.length + tl.length := by rw [hio]; simp
  have h := sockRecv_quiet_take io (st.endp - st.head) hs (by omega) (by omega)
  have ht : List.take (st.endp - st.head) io.stream = W := by rw [hio, ← hW]; simp
  have hd : List.drop (st.endp - st.head) io.stream = tl := by rw [hio, ← hW]; simp
  rw [ht, hd] at h
  unfold payloadBranch
  rw [ptrDiff_le _ _ (by omega), h]
  simp only []
  rw [if_neg (by simp), if_neg (by omega), hW]
  simp

theorem payloadBranch_part (st : WebSocket) (io : Net)
    (hs : io.sched = []) (hlt : st.head < st.endp) (hpos : 0 < io.stream.length)
    (hW : io.stream.length ≤ st.endp - st.head) :
    payloadBranch st io =
      .cont (takePayload st io.stream io.stream.length) { io with stream := [] } := by
  have h := sockRecv_quiet_short io (st.endp - st.head) hs hpos hW
  unfold payloadBranch
  rw [ptrDiff_le _ _ (by omega), h]
  simp only []
  rw [if_neg (by simp), if_neg (by omega)]
  simp

theorem payloadBranch_starved (st : WebSocket) (io : Net)
    (hs : io.sched = []) (he : io.stream = []) :
    payloadBranch st io = .done 0 (unpin st) io := by
  unfold payloadBranch
  rw [sockRecv_quiet_empty io _ _ hs he]
  simp

theorem takePayload_buffer (st : WebSocket) (data : List Nat) (len : Nat) :
    (takePayload st data len).buffer =
      unmask (writeBuf st.buffer st.head data) st.mask st.head len := by
  unfold takePayload
  simp only []
  split_ifs with h
  · funext j
    unfold unmask
    have hj : j % 4 = 0 ∨ j % 4 = 1 ∨ j % 4 = 2 ∨ j % 4 = 3 := by omega
    have hz : st.mask (j % 4) = 0 := by
      rcases hj with e | e | e | e <;> rw [e] <;> simp [h.1, h.2.1, h.2.2.1, h.2.2.2]
    rw [hz]; simp
  · rfl

theorem wireMask_length (k : Nat → Nat) (P : List Nat) : (wireMask k P).length = P.length := by
  simp [wireMask]

theorem wirePayload_length (key : Option (Nat → Nat)) (P : List Nat) :
    (wirePayload key P).length = P.length := by
  cases key <;> simp [wirePayload, wireMask_length]

theorem wireMask_getD (k : Nat → Nat) (P : List Nat) (i : Nat) (hi : i < P.length) :
    (wireMask k P).getD i 0 = P.getD i 0 ^^^ k (i % 4) := by
  unfold wireMask
  rw [List.getD_eq_getElem _ _ (by simpa using hi)]
  simp

theorem unmask_wire (st : WebSocket) (now : Int) (fin : Bool) (op : Nat)
    (key : Option (Nat → Nat)) (P : List Nat) (b : Nat → Nat) :
    unmask (writeBuf b (afterHeader st now fin op key P.length).head (wirePayload key P))
        (afterHeader st now fin op key P.length).mask
        (afterHeader st now fin op key P.length).head P.length =
      writeBuf b (afterHeader st now fin op key P.length).head P := by
  funext j
  unfold unmask writeBuf
  rw [wirePayload_length]
  by_cases hj : (afterHeader st now fin op key P.length).head ≤ j ∧
      j < (afterHeader st now fin op key P.length).head + P.length
  · rw [if_pos hj, if_pos hj, if_pos hj]
    obtain ⟨i, rfl⟩ : ∃ i, j = (afterHeader st now fin op key P.length).head + i :=
      ⟨j - (afterHeader st now fin op key P.length).head, by omega⟩
    have hi : i < P.length := by omega
    rw [Nat.add_sub_cancel_left]
    cases key with
    | none =>
      have hm : (afterHeader st now fin op none P.length).mask
          (((afterHeader st now fin op none P.length).head + i) % 4) = 0 := by
        simp only [afterHeader, maskClear]
        rw [if_pos (Nat.mod_lt _ (by decide))]
      rw [hm]; simp [wirePayload]
    | some k =>
      have hm : (afterHeader st now fin op (some k) P.length).mask
          (((afterHeader st now fin op (some k) P.length).head + i) % 4) = k (i % 4) := by
        simp only [afterHeader]
        exact maskRotate_apply _ _ _ _
      rw [hm]
      simp only [wirePayload]
      rw [wireMask_getD _ _ _ hi, Nat.xor_cancel_right]
  · rw [if_neg hj, if_neg hj, if_neg hj]

theorem takePayload_wire (st : WebSocket) (now : Int) (fin : Bool) (op : Nat)
    (key : Option (Nat → Nat)) (P : List Nat) :
    takePayload (afterHeader st now fin op key P.length) (wirePayload key P) P.length =
      afterFrame st now fin op key P := by
  have hb := takePayload_buffer (afterHeader st now fin op key P.length) (wirePayload key P)
    P.length
  rw [unmask_wire] at hb
  have e : takePayload (afterHeader st now fin op key P.length) (wirePayload key P) P.length =
      { afterHeader st now fin op key P.length with
        buffer := (takePayload (afterHeader st now fin op key P.length)
          (wirePayload key P) P.length).buffer
        head := (afterHeader st now fin op key P.length).head + P.length } := rfl
  rw [e, hb]
  rfl

theorem deliver_stream_le (io : Net) (k n : Nat) (peek : Bool) :
    (deliver io k n peek).2.stream.length ≤ io.stream.length := by
  unfold deliver
  simp only []
  split_ifs <;> simp

theorem deliver_pos (io : Net) (k n : Nat) (h : 0 < (deliver io k n false).1.length) :
    (deliver io k n false).2.stream.length < io.stream.length := by
  by_cases h0 : min n (min k io.stream.length) = 0
  · simp [deliver, h0] at h
  · simp only [deliver, h0, if_false, Bool.false_eq_true, List.length_drop]
    omega

theorem sockRecv_stream_le (io : Net) (n : Nat) (peek : Bool) :
    (sockRecv io n peek).2.stream.length ≤ io.stream.length := by
  unfold sockRecv
  split
  · exact deliver_stream_le _ _ _ _
  · exact deliver_stream_le _ _ _ _
  · simp
  · simp

theorem sockRecv_pos (io : Net) (n : Nat) (h : 0 < (sockRecv io n false).1.length) :
    (sockRecv io n false).2.stream.length < io.stream.length := by
  unfold sockRecv at h ⊢
  cases hs : io.sched with
  | nil => rw [hs] at h; exact deliver_pos _ _ _ h
  | cons e rest =>
    rw [hs] at h
    cases e with
    | ready k => exact deliver_pos _ _ _ h
    | eof => simp at h
    | err => simp at h

theorem takeHeader_stream (st : WebSocket) (pl : Nat) (H : List Nat) (io : Net)
    (st1 : WebSocket) (io1 : Net) (h : takeHeader st pl H io = .cont st1 io1) : io1 = io := by
  unfold takeHeader at h
  by_cases hc : fragmentLength H > ptrDiff bufferSize st.endp
  · rw [if_pos hc] at h; cases h
  · rw [if_neg hc] at h
    injection h with _ h2
    exact h2.symm

theorem headerLen_pos (b : Nat) : 0 < headerLen b := by
  unfold headerLen; omega

theorem headerBranch_cont_lt (st : WebSocket) (io : Net) (st1 : WebSocket) (io1 : Net)
    (h : headerBranch st io = .cont st1 io1) : io1.stream.length < io.stream.length := by
  unfold headerBranch at h
  simp only [] at h
  split_ifs at h with h1 h2 h3
  have e := takeHeader_stream _ _ _ _ _ _ h
  rw [e]
  have hp : 0 < (sockRecv (sockRecv io 14 true).2
      (headerLen ((sockRecv io 14 true).1.data.getD 1 0)) false).1.length := by
    have := headerLen_pos ((sockRecv io 14 true).1.data.getD 1 0)
    push_neg at h3
    omega
  exact lt_of_lt_of_le (sockRecv_pos _ _ hp) (sockRecv_stream_le _ _ _)

theorem payloadBranch_cont_lt (st : WebSocket) (io : Net) (st1 : WebSocket) (io1 : Net)
    (h : payloadBranch st io = .cont st1 io1) : io1.stream.length < io.stream.length := by
  unfold payloadBranch at h
  simp only [] at h
  split_ifs at h with h1 h2
  simp only [Step.cont.injEq] at h
  rw [← h.2]
  exact sockRecv_pos _ _ (by omega)

theorem sockSendmsg_stream (io : Net) (bytes : List Nat) :
    (sockSendmsg io bytes).2.stream = io.stream := by
  unfold sockSendmsg; split <;> rfl

theorem sockRand_stream (io : Net) : (sockRand io).2.stream = io.stream := by
  unfold sockRand; split <;> rfl

theorem sendWithOpcode_stream (st : WebSocket) (p : List Nat) (op : Nat) (io : Net) :
    (WebSocket_sendWithOpcode st p op io).2.2.2.stream = io.stream := by
  unfold WebSocket_sendWithOpcode
  simp only []
  split_ifs
  · rfl
  · simp only [sockSendmsg_stream, sockRand_stream]

theorem dispatch_cont_stream (st : WebSocket) (io : Net) (st1 : WebSocket) (io1 : Net)
    (h : dispatch st io = .cont st1 io1) : io1.stream = io.stream := by
  unfold dispatch at h
  split_ifs at h with h1 h2 h3 h4 h5
  · simp only [Step.cont.injEq] at h; rw [← h.2]
  · have hs := sendWithOpcode_stream st (readBuf st.buffer 0 st.head) 0xa io
    revert h
    generalize WebSocket_sendWithOpcode st (readBuf st.buffer 0 st.head) 0xa io = r at hs
    obtain ⟨ok, pk, s1, i1⟩ := r
    simp only []
    intro h
    split_ifs at h
    simp only [Step.cont.injEq] at h
    rw [← h.2]; exact hs
  · simp only [Step.cont.injEq] at h; rw [← h.2]

theorem receiveBody_cont_lt (st : WebSocket) (io : Net) (st1 : WebSocket) (io1 : Net)
    (h : receiveBody st io = .cont st1 io1) : io1.stream.length < io.stream.length := by
  unfold receiveBody at h
  have key : ∀ s2 i2, (if st.head = st.endp then headerBranch st io else payloadBranch st io) =
      .cont s2 i2 → i2.stream.length < io.stream.length := by
    intro s2 i2 e
    split_ifs at e
    · exact headerBranch_cont_lt _ _ _ _ e
    · exact payloadBranch_cont_lt _ _ _ _ e
  revert h key
  generalize (if st.head = st.endp then headerBranch st io else payloadBranch st io) = s
  intro h key
  cases s with
  | cont s2 i2 =>
    simp only [] at h
    have := key s2 i2 rfl
    split_ifs at h
    · rw [dispatch_cont_stream _ _ _ _ h]; exact this
    · simp only [Step.cont.injEq] at h; rw [← h.2]; exact this
  | done n s2 i2 => simp at h
  | fail s2 i2 => simp at h

theorem receiveLoop_fuel (f1 : Nat) : ∀ (f2 : Nat) (st : WebSocket) (io : Net),
    io.stream.length < f1 → io.stream.length < f2 →
    receiveLoop f1 st io = receiveLoop f2 st io := by
  induction f1 with
  | zero => intro f2 st io h; omega
  | succ n ih =>
    intro f2 st io h1 h2
    cases f2 with
    | zero => omega
    | succ m =>
      simp only [receiveLoop]
      cases hb : receiveBody st io with
      | cont s1 i1 =>
        have := receiveBody_cont_lt _ _ _ _ hb
        exact ih m s1 i1 (by omega) (by omega)
      | done k s1 i1 => rfl
      | fail s1 i1 => rfl

theorem receiveLoop_resume (f : Nat) (st : WebSocket) (io : Net) (h : io.stream.length < f) :
    receiveLoop f st io = resume (receiveBody st io) := by
  cases f with
  | zero => omega
  | succ n =>
    simp only [receiveLoop]
    cases hb : receiveBody st io with
    | cont s1 i1 =>
      have := receiveBody_cont_lt _ _ _ _ hb
      exact receiveLoop_fuel _ _ _ _ (by omega) (by omega)
    | done k s1 i1 => rfl
    | fail s1 i1 => rfl

theorem resume_cont (st : WebSocket) (io : Net) :
    resume (.cont st io) = resume (receiveBody st io) :=
  receiveLoop_resume _ _ _ (Nat.lt_succ_self _)

theorem writeBuf_nil (b : Nat → Nat) (off : Nat) : writeBuf b off [] = b := by
  funext j
  unfold writeBuf
  rw [if_neg (by simp)]

theorem afterFrame_nil (st : WebSocket) (now : Int) (fin : Bool) (op : Nat)
    (key : Option (Nat → Nat)) :
    afterFrame st now fin op key [] = afterHeader st now fin op key 0 := by
  simp only [afterFrame, writeBuf_nil, List.length_nil, Nat.add_zero]
  rfl

theorem afterHeader_head (st : WebSocket) (now : Int) (fin : Bool) (op : Nat)
    (key : Option (Nat → Nat)) (n : Nat) :
    (afterHeader st now fin op key n).head = if st.finished then 0 else st.head := rfl

theorem afterHeader_endp (st : WebSocket) (now : Int) (fin : Bool) (op : Nat)
    (key : Option (Nat → Nat)) (n : Nat) :
    (afterHeader st now fin op key n).endp = (if st.finished then 0 else st.endp) + n := rfl

theorem afterFrame_head (st : WebSocket) (now : Int) (fin : Bool) (op : Nat)
    (key : Option (Nat → Nat)) (P : List Nat) :
    (afterFrame st now fin op key P).head = (if st.finished then 0 else st.head) + P.length :=
  rfl

theorem afterFrame_endp (st : WebSocket) (now : Int) (fin : Bool) (op : Nat)
    (key : Option (Nat → Nat)) (P : List Nat) :
    (afterFrame st now fin op key P).endp = (if st.finished then 0 else st.endp) + P.length :=
  rfl

theorem afterFrame_finished (st : WebSocket) (now : Int) (fin : Bool) (op : Nat)
    (key : Option (Nat → Nat)) (P : List Nat) :
    (afterFrame st now fin op key P).finished = fin := rfl

/-- The passes of the loop that take one whole frame off a quiet socket. -/
theorem resume_frame (st : WebSocket) (io : Net) (fin : Bool) (op : Nat)
    (key : Option (Nat → Nat)) (P rest : List Nat)
    (hs : io.sched = []) (hio : io.stream = wireFrame fin op key P ++ rest)
    (hhe : st.head = st.endp) (he : st.endp ≤ bufferSize)
    (hop : op < 16) (hn : P.length ≤ bufferSize - st.endp) :
    resume (.cont st io) =
      resume (if fin then dispatch (afterFrame st io.now fin op key P) { io with stream := rest }
              else .cont (afterFrame st io.now fin op key P) { io with stream := rest }) := by
  have hio' : io.stream = wireHeader fin op key P.length ++ (wirePayload key P ++ rest) := by
    rw [hio, wireFrame, List.append_assoc]
  have hH := headerBranch_quiet st io _ _ hs hio' (wireHeader_length fin op key P.length)
  rw [takeHeader_wire st _ fin op key P.length hop he hn] at hH
  have hbody1 : receiveBody st io =
      (if (afterHeader st io.now fin op key P.length).head =
            (afterHeader st io.now fin op key P.length).endp ∧
          (afterHeader st io.now fin op key P.length).finished = true
       then dispatch (afterHeader st io.now fin op key P.length)
              { io with stream := wirePayload key P ++ rest }
       else .cont (afterHeader st io.now fin op key P.length)
              { io with stream := wirePayload key P ++ rest }) := by
    unfold receiveBody
    rw [if_pos hhe, hH]
  rw [resume_cont, hbody1]
  have hfin : (afterHeader st io.now fin op key P.length).finished = fin := rfl
  rw [afterHeader_head, afterHeader_endp, hfin, ← hhe]
  cases P with
  | nil =>
    simp only [List.length_nil, Nat.add_zero, true_and, afterFrame_nil, wirePayload_length]
    have hw : wirePayload key [] = [] := by cases key <;> rfl
    rw [hw, List.nil_append]
  | cons p ps =>
    have hne : ¬ ((if st.finished = true then 0 else st.head) =
        (if st.finished = true then 0 else st.head) + (p :: ps).length ∧ fin = true) := by
      intro h; have := h.1; simp at this
    rw [if_neg hne, resume_cont]
    have hlt : (afterHeader st io.now fin op key (p :: ps).length).head <
        (afterHeader st io.now fin op key (p :: ps).length).endp := by
      rw [afterHeader_head, afterHeader_endp, ← hhe]; simp
    have hW : (wirePayload key (p :: ps)).length =
        (afterHeader st io.now fin op key (p :: ps).length).endp -
          (afterHeader st io.now fin op key (p :: ps).length).head := by
      rw [afterHeader_head, afterHeader_endp, ← hhe, wirePayload_length]; simp
    have hP := payloadBranch_quiet (afterHeader st io.now fin op key (p :: ps).length)
      { io with stream := wirePayload key (p :: ps) ++ rest } (wirePayload key (p :: ps)) rest
      hs rfl hlt hW
    rw [wirePayload_length, takePayload_wire] at hP
    unfold receiveBody
    rw [if_neg (by omega), hP]
    simp only [afterFrame_head, afterFrame_endp, afterFrame_finished, ← hhe, true_and]

theorem resume_reject (st : WebSocket) (io : Net) (H tl : List Nat)
    (hs : io.sched = []) (hio : io.stream = H ++ tl)
    (hH : H.length = headerLen (H.getD 1 0))
    (hhe : st.head = st.endp) (he : st.endp ≤ bufferSize)
    (hbig : bufferSize - st.endp < fragmentLength H) :
    resume (.cont st io) = failExit st { io with stream := tl } := by
  rw [resume_cont]
  unfold receiveBody
  rw [if_pos hhe, headerBranch_quiet st io H tl hs hio hH, takeHeader_reject st _ H _ he hbig]
  rfl

theorem resume_idle (st : WebSocket) (io : Net) (hs : io.sched = []) (he : io.stream = []) :
    resume (.cont st io) = .ret (0, unpin st, io) := by
  rw [resume_cont]
  unfold receiveBody
  by_cases h : st.head = st.endp
  · rw [if_pos h]
    unfold headerBranch
    rw [sockRecv_quiet_empty io _ _ hs he]
    simp only []
    have := headerLen_pos (([] : List Nat).getD 1 0)
    rw [if_neg (by simp), if_pos (by omega)]
    rfl
  · rw [if_neg h, payloadBranch_starved st io hs he]
    rfl

theorem receive_open (st : WebSocket) (io : Net) (h : st.sockfd ≠ -1) :
    WebSocket_receive st io = resume (.cont (pin st) io) := by
  unfold WebSocket_receive
  simp only []
  rw [if_neg (by simpa [pin] using h)]
  rfl

theorem unpin_pin_zero (st : WebSocket) (h : st.sockfd_pin = 0) :
    (unpin (pin st)).sockfd_pin = 0 := by
  simp only [unpin, pin, h]
  norm_num

theorem unpin_pin (st : WebSocket) (h : st.sockfd_pin < 2 ^ 32) : unpin (pin st) = st := by
  obtain ⟨a, b, c, d, e, f, g, m, i⟩ := st
  have hb : b < 2 ^ 32 := h
  have e : (if (b + 1) % 2 ^ 32 = 0 then 2 ^ 32 - 1 else (b + 1) % 2 ^ 32 - 1) = b := by
    split_ifs <;> omega
  simp only [unpin, pin, e]

theorem failExit_open (st : WebSocket) (io : Net) (hfd : st.sockfd ≠ -1)
    (hp : (unpin st).sockfd_pin = 0) :
    failExit st io =
      .ret (0, { unpin st with sockfd := -1 },
        { io with shutdowns := io.shutdowns ++ [st.sockfd],
                  closes := io.closes ++ [st.sockfd] }) := by
  have h1 : (unpin st).sockfd = st.sockfd := by simp only [unpin]
  unfold failExit WebSocket_destroy
  simp only [h1, if_neg hfd, hp, ne_eq, not_true_eq_false, if_false]

theorem sendLength_eq_wireLength (n : Nat) (hn : n < 2 ^ 64) : sendLength n = wireLength n := by
  unfold sendLength
  rcases wireLength_cases n with ⟨h, e⟩ | ⟨h1, h2, e⟩ | ⟨h, e⟩ <;> rw [e]
  · rw [if_pos (by omega)]
    have : n % 256 % 128 = n := by omega
    rw [this]
  · rw [if_neg (by omega), if_pos (by omega)]
    simp only [Nat.shiftRight_eq_div_pow]
    have : n / 2 ^ 8 % 256 = n / 256 := by omega
    rw [this]
  · rw [if_neg (by omega), if_neg (by omega)]
    simp only [Nat.shiftRight_eq_div_pow]
    have h7 : n / 2 ^ 56 % 256 = n / 256 ^ 7 % 256 := by norm_num
    have h6 : n / 2 ^ 48 % 256 = n / 256 ^ 6 % 256 := by norm_num
    have h5 : n / 2 ^ 40 % 256 = n / 256 ^ 5 % 256 := by norm_num
    have h4 : n / 2 ^ 32 % 256 = n / 256 ^ 4 % 256 := by norm_num
    have h3 : n / 2 ^ 24 % 256 = n / 256 ^ 3 % 256 := by norm_num
    have h2 : n / 2 ^ 16 % 256 = n / 256 ^ 2 % 256 := by norm_num
    have h1 : n / 2 ^ 8 % 256 = n / 256 % 256 := by norm_num
    rw [h7, h6, h5, h4, h3, h2, h1]

/-- The masking key that a value of `rand()` gives. -/
theorem xorMask_eq_wireMask (r : Nat) (P : List Nat) :
    xorMask (maskOfRand r) P = wireMask (fun i => (maskOfRand r).getD i 0) P := rfl

theorem sendWithOpcode_open (st : WebSocket) (P : List Nat) (op : Nat) (io : Net)
    (hfd : st.sockfd ≠ -1) (hs : io.sendSched = []) (hn : P.length + 14 < 2 ^ 64) :
    WebSocket_sendWithOpcode st P op io =
      (true, xorMask (maskOfRand (sockRand io).1) P, unpin (pin st),
        { (sockRand io).2 with
          sent := io.sent ++
            [wireFrame true (op % 16) (some (fun i => (maskOfRand (sockRand io).1).getD i 0)) P] }) := by
  unfold WebSocket_sendWithOpcode
  have hfd' : (pin st).sockfd ≠ -1 := hfd
  simp only [if_neg hfd']
  have hrs : (sockRand io).2.sendSched = [] := by
    unfold sockRand; split <;> simpa using hs
  have hsent : (sockRand io).2.sent = io.sent := by
    unfold sockRand; split <;> rfl
  have hlen := wireLength_snd_length P.length
  have hpl : (wireLength P.length).2.length ≤ 8 := by
    rw [hlen]; unfold payloadLengthLen; split_ifs <;> omega
  rw [sendLength_eq_wireLength _ (by omega)]
  simp only [sockSendmsg, hrs, hsent]
  have hbytes : ((op % 16 + 128) :: ((wireLength P.length).1 + 128) ::
      (wireLength P.length).2 ++ maskOfRand (sockRand io).1 ++
        xorMask (maskOfRand (sockRand io).1) P) =
      wireFrame true (op % 16) (some (fun i => (maskOfRand (sockRand io).1).getD i 0)) P := by
    simp only [wireFrame, wireHeader, wirePayload, keyBytes, xorMask_eq_wireMask, if_true,
      Option.isSome_some, List.cons_append, List.append_assoc]
    rw [Nat.add_comm (op % 16), Nat.add_comm (wireLength P.length).1]
    rfl
  rw [hbytes]
  have hl : (wireFrame true (op % 16)
      (some (fun i => (maskOfRand (sockRand io).1).getD i 0)) P).length =
      2 + (wireLength P.length).2.length + 4 + P.length := by
    rw [← hbytes]; simp [maskOfRand, xorMask]; omega
  rw [hl]
  have hd : decide ((((2 + (wireLength P.length).2.length + 4 + P.length : Nat) : Int) %
      2 ^ 64).toNat = (2 + (wireLength P.length).2.length + 4 + P.length) % 2 ^ 64) = true := by
    rw [decide_eq_true_eq]
    omega
  rw [hd]

theorem readBuf_writeBuf (b : Nat → Nat) (off : Nat) (P : List Nat) :
    readBuf (writeBuf b off P) off P.length = P := by
  apply List.ext_getElem
  · simp [readBuf]
  · intro i h1 h2
    simp only [readBuf, List.getElem_map, List.getElem_range, writeBuf]
    rw [if_pos ⟨by omega, by omega⟩, Nat.add_sub_cancel_left, List.getD_eq_getElem _ _ h2]

theorem dispatch_binary (st : WebSocket) (io : Net) (h : st.opcode = 2) :
    dispatch st io = .done st.head (unpin st) io := by
  unfold dispatch
  rw [h]
  simp

theorem init_fields (st0 : WebSocket) (io : Net) :
    (WebSocket_init st0 io).2.sockfd = io.socketRes ∧
    (WebSocket_init st0 io).2.head = 0 ∧ (WebSocket_init st0 io).2.endp = 0 ∧
    (WebSocket_init st0 io).2.finished = true ∧
    (WebSocket_init st0 io).2.sockfd_pin = st0.sockfd_pin ∧
    (WebSocket_init st0 io).2.buffer = st0.buffer :=
  ⟨rfl, rfl, rfl, rfl, rfl, rfl⟩

/-- A whole binary message in one frame, on a connection that awaits a new
message: the call returns its length and the payload is in the buffer. -/
theorem receive_binary_frame (st : WebSocket) (io : Net) (key : Option (Nat → Nat))
    (P : List Nat) (hfd : st.sockfd ≠ -1) (hs : io.sched = [])
    (hio : io.stream = wireFrame true 2 key P)
    (hhe : st.head = st.endp) (he : st.endp ≤ bufferSize) (hfin : st.finished = true)
    (hn : P.length ≤ bufferSize - st.endp) :
    WebSocket_receive st io =
      .ret (P.length, unpin (afterFrame (pin st) io.now true 2 key P),
        { io with stream := [] }) := by
  rw [receive_open st io hfd,
    resume_frame (pin st) io true 2 key P [] hs (by rw [hio, List.append_nil]) hhe he
      (by decide) hn]
  have hf : (pin st).finished = true := hfin
  have hop : (afterFrame (pin st) io.now true 2 key P).opcode = 2 := by
    simp only [afterFrame, afterHeader, hf, if_true]
  rw [if_pos rfl, dispatch_binary _ _ hop, afterFrame_head]
  simp only [resume, hf, if_true, Nat.zero_add]

theorem sentBy_open (s : WebSocket) (P : List Nat) (ios : Net)
    (hopen : s.sockfd ≠ -1) (hsend : ios.sendSched = []) (hn : P.length + 14 < 2 ^ 64) :
    sentBy s P ios =
      wireFrame true 2 (some (fun i => (maskOfRand (sockRand ios).1).getD i 0)) P := by
  unfold sentBy WebSocket_send
  rw [sendWithOpcode_open s P 2 ios hopen hsend hn]
  simp

/-- A frame whose declared length does not fit behind `end` is refused: only the
header is taken off the socket and the connection is destroyed. -/
theorem receive_reject (st : WebSocket) (io : Net) (H tl : List Nat)
    (hfd : st.sockfd ≠ -1) (hpin : st.sockfd_pin = 0)
    (hhe : st.head = st.endp) (he : st.endp ≤ bufferSize)
    (hs : io.sched = []) (hio : io.stream = H ++ tl)
    (hH : H.length = headerLen (H.getD 1 0))
    (hbig : bufferSize - st.endp < fragmentLength H) :
    WebSocket_receive st io =
      .ret (0, { st with sockfd := -1 },
        { io with stream := tl, shutdowns := io.shutdowns ++ [st.sockfd],
                  closes := io.closes ++ [st.sockfd] }) := by
  rw [receive_open st io hfd, resume_reject (pin st) io H tl hs hio hH hhe he hbig,
    failExit_open (pin st) _ hfd (unpin_pin_zero st hpin),
    unpin_pin st (by rw [hpin]; decide)]
  rfl

theorem roundtrip_core (s : WebSocket) (ios : Net) (P : List Nat) (st0 : WebSocket) (ior : Net)
    (hopen : s.sockfd ≠ -1) (hsend : ios.sendSched = [])
    (hlen : P.length ≤ 0x8000)
    (hsock : ior.socketRes ≠ -1) (hquiet : ior.sched = [])
    (hwire : ior.stream = sentBy s P ios) :
    ∃ st1 io1, WebSocket_receive (WebSocket_init st0 ior).2 ior = .ret (P.length, st1, io1) ∧
      readBuf st1.buffer 0 P.length = P ∧ st1.sockfd = ior.socketRes ∧ io1.stream = [] := by
  rw [sentBy_open s P ios hopen hsend (by omega)] at hwire
  refine ⟨_, _, receive_binary_frame (WebSocket_init st0 ior).2 ior _ P hsock hquiet hwire
    rfl (Nat.zero_le _) rfl hlen, ?_, rfl, rfl⟩
  show readBuf (writeBuf st0.buffer 0 P) 0 P.length = P
  exact readBuf_writeBuf _ _ _

theorem reject_core (s : WebSocket) (ios : Net) (P : List Nat) (st0 : WebSocket) (ior : Net)
    (hopen : s.sockfd ≠ -1) (hsend : ios.sendSched = [])
    (hlen : 0x8000 < P.length) (hlen2 : P.length + 14 < 2 ^ 64)
    (hsock : ior.socketRes ≠ -1) (hquiet : ior.sched = [])
    (hwire : ior.stream = sentBy s P ios) (hpin : st0.sockfd_pin = 0) :
    ∃ st1 io1, WebSocket_receive (WebSocket_init st0 ior).2 ior = .ret (0, st1, io1) ∧
      st1.sockfd = -1 ∧ st1.buffer = st0.buffer ∧ io1.closes = ior.closes ++ [ior.socketRes] := by
  rw [sentBy_open s P ios hopen hsend hlen2, wireFrame] at hwire
  refine ⟨_, _, receive_reject (WebSocket_init st0 ior).2 ior _ _ hsock hpin rfl
    (Nat.zero_le _) hquiet hwire (wireHeader_length _ _ _ _) ?_, rfl, rfl, rfl⟩
  rw [wireHeader_fragmentLength _ _ _ _ (by omega)]
  exact hlen

/-- C1 (as amended). The bytes `WebSocket_send` writes for a payload of length 0,
125 or 126, fed to `WebSocket_receive` on a freshly initialised connection, give
the payload back: the call returns its length and the buffer starts with it. For
a payload of length 65535 or 65536, which is more than the buffer of `0x8000`
bytes holds, the frame is refused instead: the call returns 0, the connection is
closed and the buffer is untouched. -/
theorem roundtrip_test_lengths (s : WebSocket) (ios : Net) (P : List Nat) (st0 : WebSocket)
    (ior : Net) (hopen : s.sockfd ≠ -1) (hsend : ios.sendSched = [])
    (hsock : ior.socketRes ≠ -1) (hquiet : ior.sched = [])
    (hwire : ior.stream = sentBy s P ios) :
    ((P.length = 0 ∨ P.length = 125 ∨ P.length = 126) →
      ∃ st1 io1, WebSocket_receive (WebSocket_init st0 ior).2 ior = .ret (P.length, st1, io1) ∧
        readBuf st1.buffer 0 P.length = P ∧ st1.sockfd = ior.socketRes ∧ io1.stream = []) ∧
    ((P.length = 65535 ∨ P.length = 65536) → st0.sockfd_pin = 0 →
      ∃ st1 io1, WebSocket_receive (WebSocket_init st0 ior).2 ior = .ret (0, st1, io1) ∧
        st1.sockfd = -1 ∧ st1.buffer = st0.buffer ∧
        io1.closes = ior.closes ++ [ior.socketRes]) := by
  constructor
  · intro h
    exact roundtrip_core s ios P st0 ior hopen hsend (by omega) hsock hquiet hwire
  · intro h hpin
    exact reject_core s ios P st0 ior hopen hsend (by omega) (by omega) hsock hquiet hwire hpin

/-- Worked example for C1: a payload of 125 bytes. -/
theorem roundtrip_test_lengths_witness :
    ((List.replicate 125 65).length = 0 ∨ (List.replicate 125 65).length = 125 ∨
        (List.replicate 125 65).length = 126) ∧
      ∃ st1 io1,
        WebSocket_receive (WebSocket_init exState
            { exNet with stream := sentBy exState (List.replicate 125 65) exNet }).2
          { exNet with stream := sentBy exState (List.replicate 125 65) exNet } =
            .ret ((List.replicate 125 65).length, st1, io1) ∧
        readBuf st1.buffer 0 (List.replicate 125 65).length = List.replicate 125 65 ∧
        st1.sockfd = 4 ∧ io1.stream = [] :=
  ⟨Or.inr (Or.inl (List.length_replicate _ _)),
    (roundtrip_test_lengths exState exNet (List.replicate 125 65) exState
      { exNet with stream := sentBy exState (List.replicate 125 65) exNet }
      (by decide) rfl (by decide) rfl (by dsimp only)).1 (Or.inr (Or.inl (List.length_replicate _ _)))⟩

/-- Counterexample to C1 as stated: the frame `WebSocket_send` writes for a
payload of 65535 bytes is not given back by `WebSocket_receive`; the call
returns 0 and closes the connection. -/
theorem roundtrip_65535_refused :
    (List.replicate 65535 65).length = 65535 ∧
    (∃ st1 io1,
      WebSocket_receive (WebSocket_init exState
          { exNet with stream := sentBy exState (List.replicate 65535 65) exNet }).2
        { exNet with stream := sentBy exState (List.replicate 65535 65) exNet } =
          .ret (0, st1, io1) ∧ st1.sockfd = -1) ∧
    ¬ ∃ st1 io1,
      WebSocket_receive (WebSocket_init exState
          { exNet with stream := sentBy exState (List.replicate 65535 65) exNet }).2
        { exNet with stream := sentBy exState (List.replicate 65535 65) exNet } =
          .ret (65535, st1, io1) := by
  have hl : (List.replicate 65535 65).length = 65535 := List.length_replicate _ _
  obtain ⟨st1, io1, h, hfd, _, _⟩ := reject_core exState exNet (List.replicate 65535 65) exState
    { exNet with stream := sentBy exState (List.replicate 65535 65) exNet }
    (by decide) rfl (by rw [hl]; decide) (by rw [hl]; decide) (by decide) rfl (by dsimp only) rfl
  refine ⟨hl, ⟨st1, io1, h, hfd⟩, ?_⟩
  rintro ⟨st2, io2, h2⟩
  rw [h] at h2
  injection h2 with h3
  injection h3 with h4
  exact absurd h4 (by decide)

/-- C2. For every payload of at most `0x8000` bytes (so for every length from 1
to `0x8000`) and every value of `rand()`, that is every mask, the frame `WebSocket_send` writes, fed to
`WebSocket_receive` on a freshly initialised connection, is decoded to the
payload: the call returns its length, the buffer starts with the payload and
the connection stays open. -/
theorem roundtrip_within_buffer (s : WebSocket) (ios : Net) (P : List Nat) (st0 : WebSocket)
    (ior : Net) (hopen : s.sockfd ≠ -1) (hsend : ios.sendSched = [])
    (hlen2 : P.length ≤ 0x8000)
    (hsock : ior.socketRes ≠ -1) (hquiet : ior.sched = [])
    (hwire : ior.stream = sentBy s P ios) :
    ∃ st1 io1, WebSocket_receive (WebSocket_init st0 ior).2 ior = .ret (P.length, st1, io1) ∧
      readBuf st1.buffer 0 P.length = P ∧ st1.sockfd = ior.socketRes ∧ st1.sockfd ≠ -1 ∧
      io1.stream = [] := by
  obtain ⟨st1, io1, h, hb, hfd, hst⟩ :=
    roundtrip_core s ios P st0 ior hopen hsend hlen2 hsock hquiet hwire
  exact ⟨st1, io1, h, hb, hfd, by rw [hfd]; exact hsock, hst⟩

/-- Worked example for C2: the payload `[1, 2, 3]`. -/
theorem roundtrip_within_buffer_witness :
    ∃ st1 io1,
      WebSocket_receive (WebSocket_init exState
          { exNet with stream := sentBy exState [1, 2, 3] exNet }).2
        { exNet with stream := sentBy exState [1, 2, 3] exNet } = .ret (3, st1, io1) ∧
      readBuf st1.buffer 0 3 = [1, 2, 3] ∧ st1.sockfd = 4 ∧ st1.sockfd ≠ -1 ∧
      io1.stream = [] :=
  roundtrip_within_buffer exState exNet [1, 2, 3] exState
    { exNet with stream := sentBy exState [1, 2, 3] exNet }
    (by decide) rfl (by decide) (by decide) rfl (by dsimp only)

/-- C8. On an open connection that awaits a header, with the cursors inside the
buffer and no other call in flight, a header whose declared length exceeds the
room left behind the write cursor (so every length above `0x8000`) makes
`WebSocket_receive` return 0 with the socket handle at -1: the header alone has
been taken off the socket, every byte after it is still unread, and cursors,
buffer, opcode and mask are as before. -/
theorem oversize_rejected (st : WebSocket) (io : Net) (H tl : List Nat)
    (hfd : st.sockfd ≠ -1) (hpin : st.sockfd_pin = 0)
    (hhe : st.head = st.endp) (he : st.endp ≤ bufferSize)
    (hs : io.sched = []) (hio : io.stream = H ++ tl)
    (hH : H.length = headerLen (H.getD 1 0))
    (hbig : bufferSize - st.endp < fragmentLength H) :
    WebSocket_receive st io =
      .ret (0, { st with sockfd := -1 },
        { io with stream := tl, shutdowns := io.shutdowns ++ [st.sockfd],
                  closes := io.closes ++ [st.sockfd] }) :=
  receive_reject st io H tl hfd hpin hhe he hs hio hH hbig

/-- Worked example for C8: a masked binary frame that declares `0x8001` bytes. -/
theorem oversize_rejected_witness :
    WebSocket_receive exState
        { exNet with stream := [0x82, 0xfe, 0x80, 0x01, 1, 2, 3, 4] ++ [0x55, 0x66] } =
      .ret (0, { exState with sockfd := -1 },
        { exNet with stream := [0x55, 0x66], shutdowns := [] ++ [3], closes := [] ++ [3] }) :=
  oversize_rejected exState
    { exNet with stream := [0x82, 0xfe, 0x80, 0x01, 1, 2, 3, 4] ++ [0x55, 0x66] }
    [0x82, 0xfe, 0x80, 0x01, 1, 2, 3, 4] [0x55, 0x66]
    (by decide) rfl rfl (by decide) rfl rfl (by decide) (by decide)

theorem unpin_sockfd (st : WebSocket) : (unpin st).sockfd = st.sockfd := by
  simp only [unpin]

theorem pin_sockfd (st : WebSocket) : (pin st).sockfd = st.sockfd := by
  simp only [pin]

theorem afterHeader_sockfd (st : WebSocket) (now : Int) (fin : Bool) (op : Nat)
    (key : Option (Nat → Nat)) (n : Nat) :
    (afterHeader st now fin op key n).sockfd = st.sockfd := rfl

theorem afterFrame_sockfd (st : WebSocket) (now : Int) (fin : Bool) (op : Nat)
    (key : Option (Nat → Nat)) (P : List Nat) :
    (afterFrame st now fin op key P).sockfd = st.sockfd := rfl

theorem takePayload_sockfd (st : WebSocket) (data : List Nat) (len : Nat) :
    (takePayload st data len).sockfd = st.sockfd := rfl

theorem takePayload_head (st : WebSocket) (data : List Nat) (len : Nat) :
    (takePayload st data len).head = st.head + len := rfl

theorem takePayload_endp (st : WebSocket) (data : List Nat) (len : Nat) :
    (takePayload st data len).endp = st.endp := rfl

theorem wireFrame_length (fin : Bool) (op : Nat) (key : Option (Nat → Nat)) (P : List Nat) :
    (wireFrame fin op key P).length = (wireHeader fin op key P.length).length + P.length := by
  simp [wireFrame, wirePayload_length]

/-- With only the first bytes of a header queued the call returns 0 and reads
nothing. -/
theorem headerBranch_starved (st : WebSocket) (io : Net) (H : List Nat) (k : Nat)
    (hs : io.sched = []) (hio : io.stream = H.take k)
    (hH : H.length = headerLen (H.getD 1 0)) (hk : k < H.length) :
    headerBranch st io = .done 0 (unpin st) io := by
  have hb := headerLen_bounds (H.getD 1 0)
  by_cases h0 : k = 0
  · have he : io.stream = [] := by rw [hio, h0]; rfl
    unfold headerBranch
    rw [sockRecv_quiet_empty io _ _ hs he]
    simp only []
    have := headerLen_pos (([] : List Nat).getD 1 0)
    rw [if_neg (by simp), if_pos (by omega)]
  · have hlen : io.stream.length = k := by rw [hio, List.length_take]; omega
    have hne : io.stream ≠ [] := by
      intro h; rw [h] at hlen; simp at hlen; omega
    have hmin : min 14 io.stream.length = k := by omega
    have hpk := sockRecv_quiet_peek io 14 hs (by decide) hne
    rw [hmin] at hpk
    have htk : List.take k io.stream = io.stream := by
      rw [← hlen]; exact List.take_length _
    rw [htk] at hpk
    have hlt : k < headerLen (io.stream.getD 1 0) := by
      by_cases h1 : k = 1
      · have : io.stream.getD 1 0 = 0 := by
          rw [List.getD_eq_default _ _ (by omega)]
        rw [this]
        have := (headerLen_bounds 0).1
        omega
      · have : io.stream.getD 1 0 = H.getD 1 0 := by
          rw [hio, List.getD_eq_getElem?_getD, List.getD_eq_getElem?_getD, List.getElem?_take]
          rw [if_pos (by omega)]
        rw [this]; omega
    unfold headerBranch
    rw [hpk]
    simp only []
    rw [if_neg (by simp), if_pos (by omega)]

/-- A frame of which only a proper prefix has arrived: the call returns 0 and the
connection stays open. -/
theorem resume_starved (st : WebSocket) (io : Net) (fin : Bool) (op : Nat)
    (key : Option (Nat → Nat)) (P : List Nat) (k : Nat)
    (hs : io.sched = []) (hio : io.stream = (wireFrame fin op key P).take k)
    (hk : k < (wireFrame fin op key P).length)
    (hhe : st.head = st.endp) (he : st.endp ≤ bufferSize)
    (hop : op < 16) (hn : P.length ≤ bufferSize - st.endp) :
    ∃ st1 io1, resume (.cont st io) = .ret (0, st1, io1) ∧ st1.sockfd = st.sockfd := by
  have hHl := wireHeader_length fin op key P.length
  have hfl := wireFrame_length fin op key P
  by_cases hc : k < (wireHeader fin op key P.length).length
  · -- the header is incomplete
    have hio' : io.stream = (wireHeader fin op key P.length).take k := by
      rw [hio, wireFrame, List.take_append_of_le_length (by omega)]
    refine ⟨unpin st, io, ?_, unpin_sockfd st⟩
    rw [resume_cont]
    unfold receiveBody
    rw [if_pos hhe, headerBranch_starved st io _ k hs hio' hHl hc]
    rfl
  · -- the header is complete, the payload is not
    have hP : 0 < P.length := by omega
    have hwl := wirePayload_length key P
    obtain ⟨W, hW⟩ : ∃ W, W = List.take (k - (wireHeader fin op key P.length).length)
      (wirePayload key P) := ⟨_, rfl⟩
    have hWl : W.length < P.length := by
      rw [hW, List.length_take]; omega
    have hio' : io.stream = wireHeader fin op key P.length ++ W := by
      rw [hio, hW, wireFrame, List.take_append_eq_append_take, List.take_of_length_le (by omega)]
    have hH := headerBranch_quiet st io _ _ hs hio' hHl
    rw [takeHeader_wire st _ fin op key P.length hop he hn] at hH
    have hlt : (afterHeader st io.now fin op key P.length).head <
        (afterHeader st io.now fin op key P.length).endp := by
      rw [afterHeader_head, afterHeader_endp, ← hhe]; omega
    rw [resume_cont]
    unfold receiveBody
    rw [if_pos hhe, hH]
    simp only []
    rw [if_neg (by intro h; have := h.1; omega), resume_cont]
    unfold receiveBody
    rw [if_neg (by omega)]
    by_cases hz : W = []
    · rw [payloadBranch_starved (afterHeader st io.now fin op key P.length)
        { io with stream := W } hs hz]
      exact ⟨_, _, rfl, by rw [unpin_sockfd, afterHeader_sockfd]⟩
    · have hpos : 0 < W.length := List.length_pos.mpr hz
      have hpart := payloadBranch_part (afterHeader st io.now fin op key P.length)
        { io with stream := W } hs hlt hpos
        (by rw [afterHeader_head, afterHeader_endp, ← hhe]; simp only []; omega)
      rw [hpart]
      simp only []
      rw [if_neg (by
        rw [takePayload_head, takePayload_endp, afterHeader_head, afterHeader_endp, ← hhe]
        intro h; have := h.1; omega)]
      exact ⟨_, _, resume_idle _ _ hs rfl,
        by rw [unpin_sockfd, takePayload_sockfd, afterHeader_sockfd]⟩

theorem readBuf_append (b : Nat → Nat) (off m n : Nat) :
    readBuf b off (m + n) = readBuf b off m ++ readBuf b (off + m) n := by
  simp only [readBuf, List.range_add, List.map_append, List.map_map]
  congr 1
  apply List.map_congr_left
  intro i _
  simp [Nat.add_assoc]

theorem readBuf_writeBuf_before (b : Nat → Nat) (off n off2 : Nat) (Q : List Nat)
    (h : off + n ≤ off2) : readBuf (writeBuf b off2 Q) off n = readBuf b off n := by
  simp only [readBuf]
  apply List.map_congr_left
  intro i hi
  have := List.mem_range.mp hi
  simp only [writeBuf]
  rw [if_neg (by omega)]

/-- The buffer after three payloads stored back to back holds their
concatenation. -/
theorem readBuf_three (b : Nat → Nat) (P1 P2 P3 : List Nat) :
    readBuf (writeBuf (writeBuf (writeBuf b 0 P1) (0 + P1.length) P2)
        (0 + P1.length + P2.length) P3) 0 (P1.length + P2.length + P3.length) =
      P1 ++ P2 ++ P3 := by
  rw [readBuf_append, readBuf_append]
  simp only [Nat.zero_add]
  rw [readBuf_writeBuf]
  rw [readBuf_writeBuf_before _ 0 P1.length _ _ (by omega),
    readBuf_writeBuf_before _ 0 P1.length _ _ (by omega)]
  have h1 := readBuf_writeBuf b 0 P1
  rw [h1]
  rw [readBuf_writeBuf_before _ P1.length P2.length _ _ (by omega), readBuf_writeBuf]


/-- The first two frames of a message in three fragments: after them the
connection holds both payloads and waits for more. -/
theorem resume_two_fragments (st : WebSocket) (io : Net) (P1 P2 rest : List Nat)
    (M1 M2 : Nat → Nat) (hs : io.sched = [])
    (hio : io.stream = wireFrame false 2 (some M1) P1 ++ (wireFrame false 0 (some M2) P2 ++ rest))
    (hh : st.head = 0) (he : st.endp = 0) (hf : st.finished = true)
    (hlen : P1.length + P2.length ≤ 0x8000) :
    resume (.cont st io) =
      resume (.cont (afterFrame (afterFrame st io.now false 2 (some M1) P1) io.now false 0
        (some M2) P2) { io with stream := rest }) := by
  have hb : bufferSize = 0x8000 := rfl
  rw [resume_frame st io false 2 (some M1) P1 _ hs hio (by rw [hh, he]) (by rw [he]; omega)
    (by decide) (by rw [he, hb]; omega)]
  simp only [Bool.false_eq_true, if_false]
  have h1h : (afterFrame st io.now false 2 (some M1) P1).head = P1.length := by
    rw [afterFrame_head, hf]; simp
  have h1e : (afterFrame st io.now false 2 (some M1) P1).endp = P1.length := by
    rw [afterFrame_endp, hf]; simp
  rw [resume_frame (afterFrame st io.now false 2 (some M1) P1)
    { io with stream := wireFrame false 0 (some M2) P2 ++ rest } false 0
    (some M2) P2 rest hs rfl (by rw [h1h, h1e]) (by rw [h1e, hb]; omega) (by decide)
    (by rw [h1e, hb]; omega)]
  simp only [Bool.false_eq_true, if_false]

theorem afterFrame_two_fields (st : WebSocket) (now : Int) (P1 P2 : List Nat) (M1 M2 : Nat → Nat)
    (hh : st.head = 0) (he : st.endp = 0) (hf : st.finished = true) :
    (afterFrame (afterFrame st now false 2 (some M1) P1) now false 0 (some M2) P2).head =
      P1.length + P2.length ∧
    (afterFrame (afterFrame st now false 2 (some M1) P1) now false 0 (some M2) P2).endp =
      P1.length + P2.length ∧
    (afterFrame (afterFrame st now false 2 (some M1) P1) now false 0 (some M2) P2).finished =
      false ∧
    (afterFrame (afterFrame st now false 2 (some M1) P1) now false 0 (some M2) P2).opcode = 2 ∧
    (afterFrame (afterFrame st now false 2 (some M1) P1) now false 0 (some M2) P2).sockfd =
      st.sockfd ∧
    (afterFrame (afterFrame st now false 2 (some M1) P1) now false 0 (some M2) P2).buffer =
      writeBuf (writeBuf st.buffer 0 P1) (0 + P1.length) P2 := by
  simp only [afterFrame, afterHeader, hh, he, hf, if_true, Bool.false_eq_true, if_false,
    Nat.zero_add, and_self]

/-- C3. A binary message in three fragments, `(0x2, fin = 0)`, `(0x0, fin = 0)`,
`(0x0, fin = 1)`, each masked with a key of its own, of at most `0x8000` bytes
in all (so of 1 to `0x8000` bytes), received on a freshly initialised connection: the call returns the total
length, the buffer holds the three payloads one after the other and the opcode
recorded is still `0x2`; and as long as only a proper prefix of the byte stream
has arrived, the call returns 0 and leaves the connection open. -/
theorem fragmented_reassembly (st0 : WebSocket) (io : Net) (P1 P2 P3 : List Nat)
    (M1 M2 M3 : Nat → Nat)
    (hsock : io.socketRes ≠ -1) (hquiet : io.sched = [])
    (hlen : P1.length + P2.length + P3.length ≤ 0x8000)
    (hio : io.stream = wireFrame false 2 (some M1) P1 ++ (wireFrame false 0 (some M2) P2 ++
      wireFrame true 0 (some M3) P3)) :
    (∃ st1 io1,
      WebSocket_receive (WebSocket_init st0 io).2 io =
        .ret (P1.length + P2.length + P3.length, st1, io1) ∧
      readBuf st1.buffer 0 (P1.length + P2.length + P3.length) = P1 ++ P2 ++ P3 ∧
      st1.opcode = 2 ∧ st1.sockfd = io.socketRes ∧ io1.stream = []) ∧
    (∀ k, k < io.stream.length →
      ∃ st1 io1,
        WebSocket_receive (WebSocket_init st0 io).2 { io with stream := io.stream.take k } =
          .ret (0, st1, io1) ∧ st1.sockfd = io.socketRes) := by
  have hb : bufferSize = 0x8000 := rfl
  obtain ⟨f0, hf0⟩ : ∃ f0, f0 = pin (WebSocket_init st0 io).2 := ⟨_, rfl⟩
  have hh : f0.head = 0 := by rw [hf0]; rfl
  have he : f0.endp = 0 := by rw [hf0]; rfl
  have hf : f0.finished = true := by rw [hf0]; rfl
  have hfd : f0.sockfd = io.socketRes := by rw [hf0]; rfl
  have hbuf : f0.buffer = st0.buffer := by rw [hf0]; rfl
  obtain ⟨h2h, h2e, h2f, h2o, h2s, h2b⟩ :=
    afterFrame_two_fields f0 io.now P1 P2 M1 M2 hh he hf
  constructor
  · rw [receive_open _ _ hsock, ← hf0,
      resume_two_fragments f0 io P1 P2 _ M1 M2 hquiet hio hh he hf (by omega),
      resume_frame _ { io with stream := wireFrame true 0 (some M3) P3 } true 0 (some M3) P3 []
        hquiet (by simp) (by rw [h2h, h2e]) (by rw [h2e, hb]; omega) (by decide)
        (by rw [h2e, hb]; omega)]
    have hop : (afterFrame (afterFrame (afterFrame f0 io.now false 2 (some M1) P1) io.now
        false 0 (some M2) P2) io.now true 0 (some M3) P3).opcode = 2 := by
      simp only [afterFrame, afterHeader, hf, Bool.false_eq_true, if_false, if_true]
    rw [if_pos rfl, dispatch_binary _ _ hop, afterFrame_head, h2f, h2h]
    simp only [resume, Bool.false_eq_true, if_false]
    refine ⟨_, _, rfl, ?_, ?_, ?_, rfl⟩
    · show readBuf (writeBuf (afterFrame (afterFrame f0 io.now false 2 (some M1) P1) io.now
        false 0 (some M2) P2).buffer (afterHeader (afterFrame (afterFrame f0 io.now false 2
          (some M1) P1) io.now false 0 (some M2) P2) io.now true 0 (some M3) P3.length).head P3) 0
        (P1.length + P2.length + P3.length) = P1 ++ P2 ++ P3
      rw [afterHeader_head, h2f, h2h, h2b, hbuf]
      simp only [Bool.false_eq_true, if_false]
      have := readBuf_three st0.buffer P1 P2 P3
      simp only [Nat.zero_add] at this ⊢
      exact this
    · exact hop
    · rw [unpin_sockfd, afterFrame_sockfd, h2s, hfd]
  · intro k hk
    rw [receive_open _ _ hsock, ← hf0]
    rw [hio] at hk ⊢
    simp only [List.length_append] at hk
    by_cases hA : k < (wireFrame false 2 (some M1) P1).length
    · -- the cut falls into the first frame
      obtain ⟨st1, io1, h, hs⟩ := resume_starved f0
        { io with stream := (wireFrame false 2 (some M1) P1 ++ (wireFrame false 0 (some M2) P2 ++
            wireFrame true 0 (some M3) P3)).take k }
        false 2 (some M1) P1 k hquiet
        (List.take_append_of_le_length (by omega)) hA (by rw [hh, he]) (by rw [he]; omega)
        (by decide) (by rw [he, hb]; omega)
      exact ⟨st1, io1, h, by rw [hs, hfd]⟩
    · have h1h : (afterFrame f0 io.now false 2 (some M1) P1).head = P1.length := by
        rw [afterFrame_head, hf]; simp
      have h1e : (afterFrame f0 io.now false 2 (some M1) P1).endp = P1.length := by
        rw [afterFrame_endp, hf, he]; simp
      by_cases hB : k - (wireFrame false 2 (some M1) P1).length <
          (wireFrame false 0 (some M2) P2).length
      · -- the cut falls into the second frame
        obtain ⟨T, hT⟩ : ∃ T, T = List.take (k - (wireFrame false 2 (some M1) P1).length)
          (wireFrame false 0 (some M2) P2) := ⟨_, rfl⟩
        have htake : (wireFrame false 2 (some M1) P1 ++ (wireFrame false 0 (some M2) P2 ++
            wireFrame true 0 (some M3) P3)).take k = wireFrame false 2 (some M1) P1 ++ T := by
          rw [hT, List.take_append_eq_append_take, List.take_of_length_le (by omega),
            List.take_append_of_le_length (by omega)]
        rw [htake, resume_frame f0 { io with stream := wireFrame false 2 (some M1) P1 ++ T }
          false 2 (some M1) P1 T hquiet rfl
          (by rw [hh, he]) (by rw [he]; omega) (by decide) (by rw [he, hb]; omega)]
        simp only [Bool.false_eq_true, if_false]
        obtain ⟨st1, io1, h, hs⟩ := resume_starved (afterFrame f0 io.now false 2 (some M1) P1)
          { io with stream := T }
          false 0 (some M2) P2 _ hquiet hT hB (by rw [h1h, h1e]) (by rw [h1e, hb]; omega)
          (by decide) (by rw [h1e, hb]; omega)
        exact ⟨st1, io1, h, by rw [hs, afterFrame_sockfd, hfd]⟩
      · -- the cut falls into the third frame
        obtain ⟨T, hT⟩ : ∃ T, T = List.take (k - (wireFrame false 2 (some M1) P1).length -
          (wireFrame false 0 (some M2) P2).length) (wireFrame true 0 (some M3) P3) := ⟨_, rfl⟩
        have htake : (wireFrame false 2 (some M1) P1 ++ (wireFrame false 0 (some M2) P2 ++
            wireFrame true 0 (some M3) P3)).take k =
            wireFrame false 2 (some M1) P1 ++ (wireFrame false 0 (some M2) P2 ++ T) := by
          rw [hT, List.take_append_eq_append_take, List.take_of_length_le (by omega),
            List.take_append_eq_append_take, List.take_of_length_le (by omega)]
        rw [htake, resume_two_fragments f0
          { io with stream := wireFrame false 2 (some M1) P1 ++
              (wireFrame false 0 (some M2) P2 ++ T) }
          P1 P2 T M1 M2 hquiet rfl hh he hf (by omega)]
        obtain ⟨st1, io1, h, hs⟩ := resume_starved
          (afterFrame (afterFrame f0 io.now false 2 (some M1) P1) io.now false 0 (some M2) P2)
          { io with stream := T }
          true 0 (some M3) P3 _ hquiet hT (by omega) (by rw [h2h, h2e]) (by rw [h2e, hb]; omega)
          (by decide) (by rw [h2e, hb]; omega)
        exact ⟨st1, io1, h, by rw [hs, h2s, hfd]⟩


/-- Worked example for C3: payloads `[1, 2]`, `[3]` and `[4, 5, 6]`. -/
theorem fragmented_reassembly_witness :
    ∃ st1 io1,
      WebSocket_receive (WebSocket_init exState
          { exNet with stream := wireFrame false 2 (some (fun i => i + 1)) [1, 2] ++
              (wireFrame false 0 (some (fun i => 7 * i)) [3] ++
                wireFrame true 0 (some (fun _ => 255)) [4, 5, 6]) }).2
        { exNet with stream := wireFrame false 2 (some (fun i => i + 1)) [1, 2] ++
              (wireFrame false 0 (some (fun i => 7 * i)) [3] ++
                wireFrame true 0 (some (fun _ => 255)) [4, 5, 6]) } =
        .ret ([1, 2].length + [3].length + [4, 5, 6].length, st1, io1) ∧
      readBuf st1.buffer 0 ([1, 2].length + [3].length + [4, 5, 6].length) =
        [1, 2] ++ [3] ++ [4, 5, 6] ∧
      st1.opcode = 2 ∧ st1.sockfd = 4 ∧ io1.stream = [] :=
  (fragmented_reassembly exState
    { exNet with stream := wireFrame false 2 (some (fun i => i + 1)) [1, 2] ++
        (wireFrame false 0 (some (fun i => 7 * i)) [3] ++
          wireFrame true 0 (some (fun _ => 255)) [4, 5, 6]) }
    [1, 2] [3] [4, 5, 6] (fun i => i + 1) (fun i => 7 * i) (fun _ => 255)
    (by decide) rfl (by decide) (by dsimp only)).1

theorem sockRand_sched (io : Net) : (sockRand io).2.sched = io.sched := by
  unfold sockRand; split <;> rfl

theorem sockSendmsg_sched (io : Net) (bytes : List Nat) :
    (sockSendmsg io bytes).2.sched = io.sched := by
  unfold sockSendmsg; split <;> rfl

theorem sockRand_shutdowns (io : Net) :
    (sockRand io).2.shutdowns = io.shutdowns ∧ (sockRand io).2.closes = io.closes := by
  unfold sockRand; split <;> exact ⟨rfl, rfl⟩

/-- On an open connection `WebSocket_sendWithOpcode` masks the packet with the key
drawn from `rand()`, leaves the pin counter as it would be after a pin and an
unpin, and does not touch the incoming stream. -/
theorem sendWithOpcode_shape (st : WebSocket) (p : List Nat) (op : Nat) (io : Net)
    (hfd : st.sockfd ≠ -1) :
    (WebSocket_sendWithOpcode st p op io).2.1 = xorMask (maskOfRand (sockRand io).1) p ∧
    (WebSocket_sendWithOpcode st p op io).2.2.1 = unpin (pin st) ∧
    (WebSocket_sendWithOpcode st p op io).2.2.2.stream = io.stream ∧
    (WebSocket_sendWithOpcode st p op io).2.2.2.sched = io.sched := by
  have hfd' : (pin st).sockfd ≠ -1 := hfd
  unfold WebSocket_sendWithOpcode
  simp only [if_neg hfd', sockSendmsg_stream, sockRand_stream, sockSendmsg_sched, sockRand_sched,
    and_self]

theorem afterFrame_unpin (st : WebSocket) (now : Int) (fin : Bool) (op : Nat)
    (key : Option (Nat → Nat)) (P : List Nat) (h : st.sockfd_pin < 2 ^ 32) :
    unpin (afterFrame (pin st) now fin op key P) = afterFrame st now fin op key P := by
  obtain ⟨a, b, c, d, e, f, g, m, i⟩ := st
  have hb : b < 2 ^ 32 := h
  have e : (if (b + 1) % 2 ^ 32 = 0 then 2 ^ 32 - 1 else (b + 1) % 2 ^ 32 - 1) = b := by
    split_ifs <;> omega
  simp only [unpin, pin, afterFrame, afterHeader, e]

theorem afterFrame_opcode (st : WebSocket) (now : Int) (fin : Bool) (op : Nat)
    (key : Option (Nat → Nat)) (P : List Nat) (hf : st.finished = true) :
    (afterFrame st now fin op key P).opcode = op := by
  simp only [afterFrame, afterHeader, hf, if_true]

theorem afterFrame_buffer (st : WebSocket) (now : Int) (fin : Bool) (op : Nat)
    (key : Option (Nat → Nat)) (P : List Nat) (hf : st.finished = true) :
    (afterFrame st now fin op key P).buffer = writeBuf st.buffer 0 P := by
  simp only [afterFrame, afterHeader, hf, if_true]

theorem afterFrame_pin (st : WebSocket) (now : Int) (fin : Bool) (op : Nat)
    (key : Option (Nat → Nat)) (P : List Nat) :
    (afterFrame st now fin op key P).sockfd_pin = st.sockfd_pin := rfl

/-- A whole message in one frame on a connection that awaits a new message: the
loop reads it and runs the `switch` on the state that holds it. -/
theorem receive_message_frame (st : WebSocket) (io : Net) (op : Nat)
    (key : Option (Nat → Nat)) (P rest : List Nat)
    (hfd : st.sockfd ≠ -1) (hs : io.sched = [])
    (hio : io.stream = wireFrame true op key P ++ rest)
    (hhe : st.head = st.endp) (he : st.endp ≤ bufferSize)
    (hop : op < 16) (hn : P.length ≤ bufferSize - st.endp) :
    WebSocket_receive st io =
      resume (dispatch (afterFrame (pin st) io.now true op key P) { io with stream := rest }) := by
  rw [receive_open st io hfd, resume_frame (pin st) io true op key P rest hs hio hhe he hop hn,
    if_pos rfl]

theorem dispatch_text (st : WebSocket) (io : Net) (h : st.opcode = 1) :
    dispatch st io = .cont st io := by
  unfold dispatch; rw [h]; simp

theorem dispatch_pong (st : WebSocket) (io : Net) (h : st.opcode = 10) :
    dispatch st io = .cont st io := by
  unfold dispatch; rw [h]; simp

theorem dispatch_fatal (st : WebSocket) (io : Net) (h1 : st.opcode ≠ 1) (h2 : st.opcode ≠ 2)
    (h9 : st.opcode ≠ 9) (h10 : st.opcode ≠ 10) :
    dispatch st io = .fail st io := by
  unfold dispatch
  rw [if_neg h1, if_neg h2, if_neg h9, if_neg h10]
  split_ifs <;> rfl

theorem dispatch_ping (st : WebSocket) (io : Net) (h : st.opcode = 9) :
    dispatch st io =
      (if (WebSocket_sendWithOpcode st (readBuf st.buffer 0 st.head) 0xa io).1 = true then
        .cont { (WebSocket_sendWithOpcode st (readBuf st.buffer 0 st.head) 0xa io).2.2.1 with
                buffer := writeBuf
                  (WebSocket_sendWithOpcode st (readBuf st.buffer 0 st.head) 0xa io).2.2.1.buffer 0
                  (WebSocket_sendWithOpcode st (readBuf st.buffer 0 st.head) 0xa io).2.1 }
          (WebSocket_sendWithOpcode st (readBuf st.buffer 0 st.head) 0xa io).2.2.2
       else
        .fail { (WebSocket_sendWithOpcode st (readBuf st.buffer 0 st.head) 0xa io).2.2.1 with
                buffer := writeBuf
                  (WebSocket_sendWithOpcode st (readBuf st.buffer 0 st.head) 0xa io).2.2.1.buffer 0
                  (WebSocket_sendWithOpcode st (readBuf st.buffer 0 st.head) 0xa io).2.1 }
          (WebSocket_sendWithOpcode st (readBuf st.buffer 0 st.head) 0xa io).2.2.2) := by
  unfold dispatch
  rw [h]
  simp only [if_neg (show ¬ (9 : Nat) = 1 by decide), if_neg (show ¬ (9 : Nat) = 2 by decide),
    if_neg (show ¬ (9 : Nat) = 8 by decide), if_true]

theorem afterFrame_packet (st : WebSocket) (now : Int) (fin : Bool) (op : Nat)
    (key : Option (Nat → Nat)) (P : List Nat) (hf : st.finished = true) :
    readBuf (afterFrame st now fin op key P).buffer 0 (afterFrame st now fin op key P).head =
      P := by
  rw [afterFrame_buffer _ _ _ _ _ _ hf, afterFrame_head, hf]
  simp only [if_true, Nat.zero_add]
  exact readBuf_writeBuf _ _ _

theorem sockSendmsg_closes (io : Net) (bytes : List Nat) :
    (sockSendmsg io bytes).2.closes = io.closes := by
  unfold sockSendmsg; split <;> rfl

theorem sendWithOpcode_closes (st : WebSocket) (p : List Nat) (op : Nat) (io : Net) :
    (WebSocket_sendWithOpcode st p op io).2.2.2.closes = io.closes := by
  unfold WebSocket_sendWithOpcode
  simp only []
  split_ifs
  · rfl
  · simp only [sockSendmsg_closes, (sockRand_shutdowns io).2]

/-- C10. A whole message in one frame with opcode `op`, read on an open connection
that awaits a new message, with nothing after it on the socket and no other
call in flight: `WebSocket_receive` destroys the connection and returns 0 exactly
when `op` is none of `0x1`, `0x2`, `0x9`, `0xa`, or `op` is `0x9` and
`WebSocket_sendWithOpcode` fails to send the pong. A pong (`0xa`) is a no-op: the
call returns 0 with the state as the frame left it, the connection open and
nothing sent. -/
theorem opcode_dispatch (st : WebSocket) (io : Net) (op : Nat) (key : Option (Nat → Nat))
    (P : List Nat)
    (hfd : st.sockfd ≠ -1) (hpin : st.sockfd_pin = 0) (hs : io.sched = [])
    (hio : io.stream = wireFrame true op key P)
    (hhe : st.head = st.endp) (he : st.endp ≤ bufferSize) (hfin : st.finished = true)
    (hop : op < 16) (hn : P.length ≤ bufferSize - st.endp) :
    ∃ n st1 io1,
      WebSocket_receive st io = .ret (n, st1, io1) ∧
      ((st1.sockfd = -1 ∧ n = 0) ↔
        ((op ≠ 1 ∧ op ≠ 2 ∧ op ≠ 9 ∧ op ≠ 10) ∨
         (op = 9 ∧ (WebSocket_sendWithOpcode (afterFrame (pin st) io.now true 9 key P) P 0xa
            { io with stream := [] }).1 = false))) ∧
      (st1.sockfd = -1 → io1.closes = io.closes ++ [st.sockfd]) ∧
      (op = 8 → st1.sockfd = -1) ∧ (op = 0 → st1.sockfd = -1) ∧
      (op = 10 → n = 0 ∧ st1 = afterFrame st io.now true 10 key P ∧
        io1 = { io with stream := [] }) := by
  have hf : (pin st).finished = true := hfin
  have hrecv := receive_message_frame st io op key P [] hfd hs (by rw [hio]; simp) hhe he hop hn
  have hopc := afterFrame_opcode (pin st) io.now true op key P hf
  have hsfd : (afterFrame (pin st) io.now true op key P).sockfd ≠ -1 := hfd
  have hp32 : st.sockfd_pin < 2 ^ 32 := by rw [hpin]; decide
  have hup := afterFrame_unpin st io.now true op key P hp32
  have hpz : (unpin (afterFrame (pin st) io.now true op key P)).sockfd_pin = 0 := by
    rw [hup]; exact hpin
  by_cases h1 : op = 1
  · -- text: logged, the loop goes on and finds nothing to read
    rw [dispatch_text _ _ (by rw [hopc]; exact h1), resume_idle _ { io with stream := [] } hs rfl] at hrecv
    refine ⟨_, _, _, hrecv, ?_, ?_, ?_, ?_, ?_⟩
    · rw [unpin_sockfd]
      constructor
      · intro h; exact absurd h.1 hsfd
      · rintro (h | h) <;> omega
    · rw [unpin_sockfd]; intro h; exact absurd h hsfd
    · intro h; omega
    · intro h; omega
    · intro h; omega
  by_cases h2 : op = 2
  · -- binary: handed to the caller
    rw [dispatch_binary _ _ (by rw [hopc]; exact h2)] at hrecv
    refine ⟨_, _, _, hrecv, ?_, ?_, ?_, ?_, ?_⟩
    · rw [unpin_sockfd]
      constructor
      · intro h; exact absurd h.1 hsfd
      · rintro (h | h) <;> omega
    · rw [unpin_sockfd]; intro h; exact absurd h hsfd
    · intro h; omega
    · intro h; omega
    · intro h; omega
  by_cases h10 : op = 10
  · -- pong: nothing to do
    rw [dispatch_pong _ _ (by rw [hopc]; exact h10), resume_idle _ { io with stream := [] } hs rfl, hup] at hrecv
    refine ⟨_, _, _, hrecv, ?_, ?_, ?_, ?_, ?_⟩
    · constructor
      · intro h; exact absurd h.1 hfd
      · rintro (h | h) <;> omega
    · intro h; exact absurd h hfd
    · intro h; omega
    · intro h; omega
    · intro _; subst h10; exact ⟨rfl, rfl, rfl⟩
  by_cases h9 : op = 9
  · -- ping: the outcome depends on the send
    subst h9
    have hpk := afterFrame_packet (pin st) io.now true 9 key P hf
    have hdisp := dispatch_ping (afterFrame (pin st) io.now true 9 key P)
      { io with stream := [] } hopc
    rw [hpk] at hdisp
    obtain ⟨_, hs2, hs3, hs4⟩ := sendWithOpcode_shape
      (afterFrame (pin st) io.now true 9 key P) P 0xa { io with stream := [] } hsfd
    have hs5 := sendWithOpcode_closes
      (afterFrame (pin st) io.now true 9 key P) P 0xa { io with stream := [] }
    rw [hdisp] at hrecv
    revert hrecv hs2 hs3 hs4 hs5
    generalize WebSocket_sendWithOpcode (afterFrame (pin st) io.now true 9 key P) P 0xa
      { io with stream := [] } = R
    obtain ⟨ok, pk, s1, i1⟩ := R
    simp only []
    intro hrecv hs2 hs3 hs4 hs5
    have hs1fd : s1.sockfd = st.sockfd := by
      rw [hs2, unpin_sockfd, pin_sockfd, afterFrame_sockfd, pin_sockfd]
    have hs1pin : s1.sockfd_pin = 1 := by
      rw [hs2]; simp only [unpin, pin, afterFrame_pin, hpin]; norm_num
    cases ok with
    | true =>
      rw [if_pos rfl, resume_idle { s1 with buffer := writeBuf s1.buffer 0 pk } i1
        (by rw [← hs]; exact hs4) hs3] at hrecv
      refine ⟨_, _, _, hrecv, ?_, ?_, ?_, ?_, ?_⟩
      · rw [unpin_sockfd]
        constructor
        · intro h; exact absurd (hs1fd ▸ h.1) hfd
        · rintro (h | h)
          · omega
          · exact absurd h.2 (by decide)
      · rw [unpin_sockfd]; intro h; exact absurd (hs1fd ▸ h) hfd
      · intro h; omega
      · intro h; omega
      · intro h; omega
    | false =>
      rw [if_neg (by decide)] at hrecv
      simp only [resume] at hrecv
      rw [failExit_open { s1 with buffer := writeBuf s1.buffer 0 pk } i1
        (by rw [← hs1fd] at hfd; exact hfd)
        (by simp only [unpin, hs1pin]; norm_num)] at hrecv
      refine ⟨_, _, _, hrecv, ?_, ?_, ?_, ?_, ?_⟩
      · constructor
        · intro _; right; simp
        · intro _; exact ⟨rfl, rfl⟩
      · intro _
        show i1.closes ++ [s1.sockfd] = io.closes ++ [st.sockfd]
        rw [hs5, hs1fd]
      · intro h; omega
      · intro h; omega
      · intro h; omega
  · -- every other opcode is fatal
    rw [dispatch_fatal _ _ (by rw [hopc]; exact h1) (by rw [hopc]; exact h2)
      (by rw [hopc]; exact h9) (by rw [hopc]; exact h10)] at hrecv
    simp only [resume] at hrecv
    rw [failExit_open _ _ hsfd hpz] at hrecv
    refine ⟨_, _, _, hrecv, ?_, ?_, ?_, ?_, ?_⟩
    · constructor
      · intro _; left; exact ⟨h1, h2, h9, h10⟩
      · intro _; exact ⟨rfl, rfl⟩
    · intro _; rfl
    · intro _; rfl
    · intro _; rfl
    · intro h; omega

/-- Worked example for C10: a close frame. -/
theorem opcode_dispatch_witness :
    ∃ n st1 io1,
      WebSocket_receive exState { exNet with stream := wireFrame true 8 none [] } =
        .ret (n, st1, io1) ∧ st1.sockfd = -1 := by
  obtain ⟨n, st1, io1, h, _, _, h8, _⟩ := opcode_dispatch exState
    { exNet with stream := wireFrame true 8 none [] } 8 none []
    (by decide) rfl rfl (by dsimp only) rfl (by decide) rfl (by decide) (by decide)
  exact ⟨n, st1, io1, h, h8 rfl⟩

theorem rol32_eq_rfcS (x s : Nat) : rol32 x s = rfcS s x := rfl

theorem rol32_lt (x s : Nat) (hx : x < 2 ^ 32) : rol32 x s < 2 ^ 32 := by
  unfold rol32
  apply Nat.or_lt_two_pow
  · exact Nat.mod_lt _ (by decide)
  · rw [Nat.shiftRight_eq_div_pow]
    exact lt_of_le_of_lt (Nat.div_le_self _ _) hx

theorem testBit_rol32 (x s i : Nat) (hx : x < 2 ^ 32) (hs0 : 0 < s) (hs : s < 32) :
    (rol32 x s).testBit i =
      (decide (i < 32) && x.testBit ((i + 32 - s) % 32)) := by
  unfold rol32
  rw [Nat.testBit_or, Nat.testBit_mod_two_pow, Nat.testBit_shiftLeft, Nat.testBit_shiftRight]
  by_cases hi : i < 32
  · by_cases his : s ≤ i
    · have h1 : (i + 32 - s) % 32 = i - s := by omega
      have h2 : x.testBit (32 - s + i) = false :=
        Nat.testBit_lt_two_pow (lt_of_lt_of_le hx (Nat.pow_le_pow_right (by decide) (by omega)))
      simp [hi, his, h1, h2]
    · have h1 : (i + 32 - s) % 32 = 32 - s + i := by omega
      have h3 : ¬ (i ≥ s) := by omega
      simp [hi, h1, h3]
  · have h2 : x.testBit (32 - s + i) = false :=
      Nat.testBit_lt_two_pow (lt_of_lt_of_le hx (Nat.pow_le_pow_right (by decide) (by omega)))
    simp [hi, h2]

theorem rol32_xor (x y s : Nat) (hx : x < 2 ^ 32) (hy : y < 2 ^ 32) (hs0 : 0 < s) (hs : s < 32) :
    rol32 (x ^^^ y) s = rol32 x s ^^^ rol32 y s := by
  apply Nat.eq_of_testBit_eq
  intro i
  rw [Nat.testBit_xor, testBit_rol32 _ _ _ (Nat.xor_lt_two_pow hx hy) hs0 hs,
    testBit_rol32 _ _ _ hx hs0 hs, testBit_rol32 _ _ _ hy hs0 hs, Nat.testBit_xor]
  by_cases hi : i < 32 <;> simp [hi]

theorem rol32_rol32_one (x : Nat) (hx : x < 2 ^ 32) : rol32 (rol32 x 1) 1 = rol32 x 2 := by
  apply Nat.eq_of_testBit_eq
  intro i
  rw [testBit_rol32 _ _ _ (rol32_lt x 1 hx) (by decide) (by decide),
    testBit_rol32 _ _ _ hx (by decide) (by decide), testBit_rol32 _ _ _ hx (by decide) (by decide)]
  by_cases hi : i < 32
  · have h1 : (i + 31) % 32 < 32 := Nat.mod_lt _ (by decide)
    have h2 : (i + 31 + 31) % 32 = (i + 30) % 32 := by omega
    simp [hi, h1, h2]
  · simp [hi]

theorem xor4_lt (a b c d : Nat) (ha : a < 2 ^ 32) (hb : b < 2 ^ 32) (hc : c < 2 ^ 32)
    (hd : d < 2 ^ 32) : a ^^^ b ^^^ c ^^^ d < 2 ^ 32 :=
  Nat.xor_lt_two_pow (Nat.xor_lt_two_pow (Nat.xor_lt_two_pow ha hb) hc) hd

theorem rol32_xor4 (a b c d : Nat) (ha : a < 2 ^ 32) (hb : b < 2 ^ 32) (hc : c < 2 ^ 32)
    (hd : d < 2 ^ 32) :
    rol32 (a ^^^ b ^^^ c ^^^ d) 1 = rol32 a 1 ^^^ rol32 b 1 ^^^ rol32 c 1 ^^^ rol32 d 1 := by
  rw [rol32_xor _ _ _ (Nat.xor_lt_two_pow (Nat.xor_lt_two_pow ha hb) hc) hd (by decide)
      (by decide),
    rol32_xor _ _ _ (Nat.xor_lt_two_pow ha hb) hc (by decide) (by decide),
    rol32_xor _ _ _ ha hb (by decide) (by decide)]

theorem xor_cancel_sched (w6 w11 w16 w17 w19 w22 w24 w28 w30 w32 : Nat) :
    (w6 ^^^ w11 ^^^ w17 ^^^ w19) ^^^ (w11 ^^^ w16 ^^^ w22 ^^^ w24) ^^^
      (w17 ^^^ w22 ^^^ w28 ^^^ w30) ^^^ (w19 ^^^ w24 ^^^ w30 ^^^ w32) =
    w6 ^^^ w16 ^^^ w28 ^^^ w32 := by
  have h : (w6 ^^^ w11 ^^^ w17 ^^^ w19) ^^^ (w11 ^^^ w16 ^^^ w22 ^^^ w24) ^^^
      (w17 ^^^ w22 ^^^ w28 ^^^ w30) ^^^ (w19 ^^^ w24 ^^^ w30 ^^^ w32) =
      (w11 ^^^ w11) ^^^ (w17 ^^^ w17) ^^^ (w19 ^^^ w19) ^^^ (w22 ^^^ w22) ^^^ (w24 ^^^ w24) ^^^
        (w30 ^^^ w30) ^^^ (w6 ^^^ w16 ^^^ w28 ^^^ w32) := by ac_rfl
  rw [h]
  simp only [Nat.xor_self, Nat.zero_xor]

/-- The shortcut the code takes from `W[32]` on agrees with the recurrence of the
RFC on every array that satisfies the recurrence so far. -/
theorem schedule_alt (w : Nat → Nat) (t : Nat) (ht : 32 ≤ t)
    (hb : ∀ j, j < t → w j < 2 ^ 32)
    (hr : ∀ j, 16 ≤ j → j < t →
      w j = rol32 (w (j - 3) ^^^ w (j - 8) ^^^ w (j - 14) ^^^ w (j - 16)) 1) :
    rol32 (w (t - 6) ^^^ w (t - 16) ^^^ w (t - 28) ^^^ w (t - 32)) 2 =
      rol32 (w (t - 3) ^^^ w (t - 8) ^^^ w (t - 14) ^^^ w (t - 16)) 1 := by
  have e3 := hr (t - 3) (by omega) (by omega)
  have e8 := hr (t - 8) (by omega) (by omega)
  have e14 := hr (t - 14) (by omega) (by omega)
  have e16 := hr (t - 16) (by omega) (by omega)
  have i1 : t - 3 - 3 = t - 6 := by omega
  have i2 : t - 3 - 8 = t - 11 := by omega
  have i3 : t - 3 - 14 = t - 17 := by omega
  have i4 : t - 3 - 16 = t - 19 := by omega
  have i5 : t - 8 - 3 = t - 11 := by omega
  have i6 : t - 8 - 8 = t - 16 := by omega
  have i7 : t - 8 - 14 = t - 22 := by omega
  have i8 : t - 8 - 16 = t - 24 := by omega
  have i9 : t - 14 - 3 = t - 17 := by omega
  have i10 : t - 14 - 8 = t - 22 := by omega
  have i11 : t - 14 - 14 = t - 28 := by omega
  have i12 : t - 14 - 16 = t - 30 := by omega
  have i13 : t - 16 - 3 = t - 19 := by omega
  have i14 : t - 16 - 8 = t - 24 := by omega
  have i15 : t - 16 - 14 = t - 30 := by omega
  have i16 : t - 16 - 16 = t - 32 := by omega
  rw [i1, i2, i3, i4] at e3
  rw [i5, i6, i7, i8] at e8
  rw [i9, i10, i11, i12] at e14
  rw [i13, i14, i15, i16] at e16
  have b6 := hb (t - 6) (by omega)
  have b11 := hb (t - 11) (by omega)
  have b16 := hb (t - 16) (by omega)
  have b17 := hb (t - 17) (by omega)
  have b19 := hb (t - 19) (by omega)
  have b22 := hb (t - 22) (by omega)
  have b24 := hb (t - 24) (by omega)
  have b28 := hb (t - 28) (by omega)
  have b30 := hb (t - 30) (by omega)
  have b32 := hb (t - 32) (by omega)
  have step : rol32 (rol32 (w (t - 6) ^^^ w (t - 11) ^^^ w (t - 17) ^^^ w (t - 19)) 1 ^^^
      rol32 (w (t - 11) ^^^ w (t - 16) ^^^ w (t - 22) ^^^ w (t - 24)) 1 ^^^
      rol32 (w (t - 17) ^^^ w (t - 22) ^^^ w (t - 28) ^^^ w (t - 30)) 1 ^^^
      rol32 (w (t - 19) ^^^ w (t - 24) ^^^ w (t - 30) ^^^ w (t - 32)) 1) 1 =
      rol32 (w (t - 3) ^^^ w (t - 8) ^^^ w (t - 14) ^^^ w (t - 16)) 1 := by
    rw [← e3, ← e8, ← e14, ← e16]
  rw [← step, ← rol32_xor4 _ _ _ _ (xor4_lt _ _ _ _ b6 b11 b17 b19) (xor4_lt _ _ _ _ b11 b16 b22 b24)
    (xor4_lt _ _ _ _ b17 b22 b28 b30) (xor4_lt _ _ _ _ b19 b24 b30 b32),
    xor_cancel_sched, rol32_rol32_one _ (xor4_lt _ _ _ _ b6 b16 b28 b32)]

/-- A text message in one frame, then a binary message that fits in the room
left after the text: the call returns on the binary message only. -/
theorem text_then_binary (st : WebSocket) (io : Net) (k1 k2 : Option (Nat → Nat))
    (T B : List Nat)
    (hfd : st.sockfd ≠ -1) (hs : io.sched = [])
    (hio : io.stream = wireFrame true 1 k1 T ++ wireFrame true 2 k2 B)
    (hhe : st.head = st.endp) (he : st.endp ≤ bufferSize) (hfin : st.finished = true)
    (hT : T.length ≤ bufferSize - st.endp) (hB : B.length ≤ bufferSize - T.length) :
    ∃ st1, WebSocket_receive st io = .ret (B.length, st1, { io with stream := [] }) ∧
      readBuf st1.buffer 0 B.length = B ∧ st1.sockfd = st.sockfd := by
  have hpf : (pin st).finished = true := hfin
  rw [receive_message_frame st io 1 k1 T (wireFrame true 2 k2 B) hfd hs hio hhe he (by norm_num) hT]
  rw [dispatch_text _ _ (afterFrame_opcode _ _ _ _ _ _ hpf)]
  have hh1 : (afterFrame (pin st) io.now true 1 k1 T).head = T.length := by
    rw [afterFrame_head, hpf]; simp
  have he1 : (afterFrame (pin st) io.now true 1 k1 T).endp = T.length := by
    rw [afterFrame_endp, hpf]; simp
  have hf1 : (afterFrame (pin st) io.now true 1 k1 T).finished = true := rfl
  have hTb : T.length ≤ bufferSize := le_trans hT (Nat.sub_le _ _)
  rw [resume_frame (afterFrame (pin st) io.now true 1 k1 T)
    { io with stream := wireFrame true 2 k2 B } true 2 k2 B [] hs (by simp)
    (by rw [hh1, he1]) (by rw [he1]; exact hTb) (by norm_num) (by rw [he1]; exact hB)]
  simp only [if_true]
  rw [dispatch_binary _ _ (afterFrame_opcode _ _ _ _ _ _ hf1)]
  simp only [resume]
  refine ⟨unpin (afterFrame (afterFrame (pin st) io.now true 1 k1 T) io.now true 2 k2 B),
    ?_, ?_, ?_⟩
  · rw [afterFrame_head, hf1]; simp
  · show readBuf (afterFrame _ _ _ _ _ _).buffer 0 B.length = B
    have := afterFrame_packet (afterFrame (pin st) io.now true 1 k1 T) io.now true 2 k2 B hf1
    rw [afterFrame_head, hf1] at this
    simpa using this
  · rfl

/-- A text message in one frame with nothing after it: the call runs out of
bytes after the message and returns 0, the connection still open. -/
theorem text_alone (st : WebSocket) (io : Net) (k1 : Option (Nat → Nat)) (T : List Nat)
    (hfd : st.sockfd ≠ -1) (hpin : st.sockfd_pin < 2 ^ 32) (hs : io.sched = [])
    (hio : io.stream = wireFrame true 1 k1 T)
    (hhe : st.head = st.endp) (he : st.endp ≤ bufferSize) (hfin : st.finished = true)
    (hT : T.length ≤ bufferSize - st.endp) :
    WebSocket_receive st io =
      .ret (0, afterFrame st io.now true 1 k1 T, { io with stream := [] }) := by
  have hpf : (pin st).finished = true := hfin
  rw [receive_message_frame st io 1 k1 T [] hfd hs (by simpa using hio) hhe he (by norm_num) hT]
  rw [dispatch_text _ _ (afterFrame_opcode _ _ _ _ _ _ hpf)]
  rw [resume_idle (afterFrame (pin st) io.now true 1 k1 T) { io with stream := [] } hs rfl,
    afterFrame_unpin _ _ _ _ _ _ hpin]

/-- A text message in one frame, then a binary message that fits the buffer but
not the room left after the text: the binary frame is refused and the
connection is torn down. -/
theorem text_then_binary_oversize (st : WebSocket) (io : Net) (k1 k2 : Option (Nat → Nat))
    (T B : List Nat)
    (hfd : st.sockfd ≠ -1) (hpin : st.sockfd_pin = 0) (hs : io.sched = [])
    (hio : io.stream = wireFrame true 1 k1 T ++ wireFrame true 2 k2 B)
    (hhe : st.head = st.endp) (he : st.endp ≤ bufferSize) (hfin : st.finished = true)
    (hT : T.length ≤ bufferSize - st.endp) (hB : bufferSize - T.length < B.length)
    (hB2 : B.length < 2 ^ 64) :
    WebSocket_receive st io =
      .ret (0, { afterFrame st io.now true 1 k1 T with sockfd := -1 },
        { io with stream := wirePayload k2 B, shutdowns := io.shutdowns ++ [st.sockfd],
                  closes := io.closes ++ [st.sockfd] }) := by
  have hpf : (pin st).finished = true := hfin
  rw [receive_message_frame st io 1 k1 T (wireFrame true 2 k2 B) hfd hs hio hhe he (by norm_num) hT]
  rw [dispatch_text _ _ (afterFrame_opcode _ _ _ _ _ _ hpf)]
  have hh1 : (afterFrame (pin st) io.now true 1 k1 T).head = T.length := by
    rw [afterFrame_head, hpf]; simp
  have he1 : (afterFrame (pin st) io.now true 1 k1 T).endp = T.length := by
    rw [afterFrame_endp, hpf]; simp
  have hTb : T.length ≤ bufferSize := le_trans hT (Nat.sub_le _ _)
  rw [resume_reject (afterFrame (pin st) io.now true 1 k1 T)
    { io with stream := wireFrame true 2 k2 B } (wireHeader true 2 k2 B.length)
    (wirePayload k2 B) hs rfl (wireHeader_length _ _ _ _)
    (by rw [hh1, he1]) (by rw [he1]; exact hTb)
    (by rw [he1, wireHeader_fragmentLength _ _ _ _ hB2]; exact hB)]
  have hp : st.sockfd_pin < 2 ^ 32 := by rw [hpin]; norm_num
  rw [failExit_open (afterFrame (pin st) io.now true 1 k1 T) _ hfd
    (by rw [afterFrame_unpin _ _ _ _ _ _ hp]; exact hpin),
    afterFrame_unpin _ _ _ _ _ _ hp]
  rfl

/-- C11 (failing input). A text message of 20000 bytes followed by a binary
message of 20000 bytes, both unmasked, on an open connection that awaits a new
message: the text is skipped, then the binary frame is refused although it fits
the buffer of `0x8000` bytes, because its length is checked against the room
left after the end of the text; the call returns 0 and the connection is
closed. -/
theorem text_then_binary_refused :
    ∃ st1 io1,
      WebSocket_receive exState
        { exNet with stream := wireFrame true 1 none (List.replicate 20000 0x41) ++
                               wireFrame true 2 none (List.replicate 20000 7) } =
        .ret (0, st1, io1) ∧
      st1.sockfd = -1 ∧ io1.shutdowns = [3] ∧ io1.closes = [3] ∧
      (List.replicate 20000 7).length ≤ bufferSize := by
  refine ⟨_, _, text_then_binary_oversize exState _ none none (List.replicate 20000 0x41)
    (List.replicate 20000 7) (by decide) rfl rfl rfl rfl (Nat.zero_le _) rfl ?_ ?_ ?_,
    rfl, rfl, rfl, ?_⟩
  · rw [List.length_replicate]; simp only [bufferSize, exState]; norm_num
  · rw [List.length_replicate, List.length_replicate]; simp only [bufferSize]; norm_num
  · rw [List.length_replicate]; norm_num
  · rw [List.length_replicate]; simp only [bufferSize]; norm_num

theorem wait_closed (st : WebSocket) (io : Net) (hfd : st.sockfd = -1)
    (hpin : st.sockfd_pin < 2 ^ 32) : WebSocket_wait st io = (false, st, io) := by
  have h : (pin st).sockfd = -1 := hfd
  unfold WebSocket_wait
  simp only [h, ne_eq, not_true_eq_false, if_false, unpin_pin st hpin]

theorem send_closed (st : WebSocket) (P : List Nat) (op : Nat) (io : Net)
    (hfd : st.sockfd = -1) (hpin : st.sockfd_pin < 2 ^ 32) :
    WebSocket_sendWithOpcode st P op io = (false, P, st, io) := by
  have h : (pin st).sockfd = -1 := hfd
  unfold WebSocket_sendWithOpcode
  simp only [h, if_true, unpin_pin st hpin]

theorem receive_closed (st : WebSocket) (io : Net) (hfd : st.sockfd = -1)
    (hpin : st.sockfd_pin < 2 ^ 32) : WebSocket_receive st io = .ret (0, st, io) := by
  have h : (pin st).sockfd = -1 := hfd
  unfold WebSocket_receive
  simp only [h, if_true, unpin_pin st hpin]

theorem destroy_closed (st : WebSocket) (io : Net) (hfd : st.sockfd = -1) :
    WebSocket_destroy st io = .ret (st, io) := by
  unfold WebSocket_destroy
  simp only [hfd, if_true]
  congr 2
  cases st
  simp only [WebSocket.mk.injEq, and_true] at hfd ⊢
  exact hfd.symm

theorem destroy_open (st : WebSocket) (io : Net) (hfd : st.sockfd ≠ -1)
    (hpin : st.sockfd_pin = 0) :
    WebSocket_destroy st io =
      .ret ({ st with sockfd := -1 },
        { io with shutdowns := io.shutdowns ++ [st.sockfd],
                  closes := io.closes ++ [st.sockfd] }) := by
  unfold WebSocket_destroy
  simp only [hfd, if_false, hpin, ne_eq, not_true_eq_false]

theorem destroyTimes_closed (n : Nat) : ∀ (st : WebSocket) (io : Net), st.sockfd = -1 →
    destroyTimes n st io = .ret (st, io) := by
  induction n with
  | zero => intro st io _; rfl
  | succ n ih =>
    intro st io h
    simp only [destroyTimes, destroy_closed st io h]
    exact ih st io h

/-- C14. On a connection whose handle is already -1, `WebSocket_destroy` returns
with the state and the environment as they were: no `shutdown`, no `close`, no
field changed; this covers the state an unsuccessful `WebSocket_init` leaves.
Hence, on an open connection with no operation in flight, any number `n + 1` of
calls in a row shuts the descriptor down once, closes it once and leaves the
handle at -1. -/
theorem destroy_idempotent (st : WebSocket) (io : Net) (n : Nat)
    (hfd : st.sockfd ≠ -1) (hpin : st.sockfd_pin = 0) :
    destroyTimes (n + 1) st io =
      .ret ({ st with sockfd := -1 },
        { io with shutdowns := io.shutdowns ++ [st.sockfd],
                  closes := io.closes ++ [st.sockfd] }) ∧
    (∀ (s : WebSocket) (i : Net), s.sockfd = -1 → WebSocket_destroy s i = .ret (s, i)) ∧
    (∀ (s : WebSocket) (i : Net), i.socketRes = -1 →
      (WebSocket_init s i).1 = false ∧
      WebSocket_destroy (WebSocket_init s i).2 i = .ret ((WebSocket_init s i).2, i)) := by
  refine ⟨?_, destroy_closed, ?_⟩
  · simp only [destroyTimes, destroy_open st io hfd hpin]
    exact destroyTimes_closed n _ _ rfl
  · intro s i h
    have h2 : (WebSocket_init s i).2.sockfd = -1 := h
    refine ⟨?_, destroy_closed _ _ h2⟩
    simp only [WebSocket_init, h]
    decide

theorem destroy_idempotent_witness :
    destroyTimes (2 + 1) exState exNet =
      .ret ({ exState with sockfd := -1 },
        { exNet with shutdowns := exNet.shutdowns ++ [exState.sockfd],
                     closes := exNet.closes ++ [exState.sockfd] }) ∧
    (∀ (s : WebSocket) (i : Net), s.sockfd = -1 → WebSocket_destroy s i = .ret (s, i)) ∧
    (∀ (s : WebSocket) (i : Net), i.socketRes = -1 →
      (WebSocket_init s i).1 = false ∧
      WebSocket_destroy (WebSocket_init s i).2 i = .ret ((WebSocket_init s i).2, i)) :=
  destroy_idempotent exState exNet 2 (by decide) rfl

/-- C15. On a connection whose handle is -1, whatever the other fields, the
payload and the opcode: `WebSocket_wait` returns false, `WebSocket_sendWithOpcode`
returns false with the packet as the caller passed it, `WebSocket_receive`
returns 0; each leaves the environment as it was (no `poll`, no send, no `recv`)
and the state as it was, the counter of pins included. -/
theorem closed_no_io (st : WebSocket) (io : Net) (P : List Nat) (op : Nat)
    (hfd : st.sockfd = -1) (hpin : st.sockfd_pin < 2 ^ 32) :
    WebSocket_wait st io = (false, st, io) ∧
    WebSocket_sendWithOpcode st P op io = (false, P, st, io) ∧
    WebSocket_receive st io = .ret (0, st, io) :=
  ⟨wait_closed st io hfd hpin, send_closed st P op io hfd hpin, receive_closed st io hfd hpin⟩

theorem closed_no_io_witness :
    WebSocket_wait { exState with sockfd := -1, sockfd_pin := 5 } exNet =
      (false, { exState with sockfd := -1, sockfd_pin := 5 }, exNet) ∧
    WebSocket_sendWithOpcode { exState with sockfd := -1, sockfd_pin := 5 } [1, 2, 3] 2 exNet =
      (false, [1, 2, 3], { exState with sockfd := -1, sockfd_pin := 5 }, exNet) ∧
    WebSocket_receive { exState with sockfd := -1, sockfd_pin := 5 } exNet =
      .ret (0, { exState with sockfd := -1, sockfd_pin := 5 }, exNet) :=
  closed_no_io { exState with sockfd := -1, sockfd_pin := 5 } exNet [1, 2, 3] 2 rfl
    (by decide)

theorem deliver_logs (io : Net) (k n : Nat) (peek : Bool) :
    (deliver io k n peek).2.shutdowns = io.shutdowns ∧
    (deliver io k n peek).2.closes = io.closes := by
  unfold deliver
  simp only []
  split_ifs <;> exact ⟨rfl, rfl⟩

theorem sockRecv_logs (io : Net) (n : Nat) (peek : Bool) :
    (sockRecv io n peek).2.shutdowns = io.shutdowns ∧
    (sockRecv io n peek).2.closes = io.closes := by
  unfold sockRecv
  split
  · exact deliver_logs _ _ _ _
  · exact deliver_logs _ _ _ _
  · exact ⟨rfl, rfl⟩
  · exact ⟨rfl, rfl⟩

theorem unpin_pin_field (st : WebSocket) (h : st.sockfd_pin < 2 ^ 32) :
    (unpin (pin st)).sockfd_pin = st.sockfd_pin := by
  rw [unpin_pin st h]

theorem takeHeader_kept (st : WebSocket) (pl : Nat) (H : List Nat) (io : Net) :
    StepKept st io (takeHeader st pl H io) := by
  unfold takeHeader
  by_cases hc : fragmentLength H > ptrDiff bufferSize st.endp
  · rw [if_pos hc]; exact ⟨rfl, rfl, rfl, rfl⟩
  · rw [if_neg hc]
    refine ⟨?_, ?_, rfl, rfl⟩ <;> dsimp only <;> split_ifs <;> rfl

theorem headerBranch_kept (st : WebSocket) (io : Net) : StepKept st io (headerBranch st io) := by
  unfold headerBranch
  simp only []
  have l1 := sockRecv_logs io 14 true
  have l2 := sockRecv_logs (sockRecv io 14 true).2
    (headerLen ((sockRecv io 14 true).1.data.getD 1 0)) false
  split_ifs
  · exact ⟨rfl, rfl, l1.1, l1.2⟩
  · exact ⟨rfl, rfl, l1.1, l1.2⟩
  · exact ⟨rfl, rfl, l2.1.trans l1.1, l2.2.trans l1.2⟩
  · have := takeHeader_kept st (payloadLengthLen ((sockRecv io 14 true).1.data.getD 1 0))
      (sockRecv (sockRecv io 14 true).2
        (headerLen ((sockRecv io 14 true).1.data.getD 1 0)) false).1.data
      (sockRecv (sockRecv io 14 true).2
        (headerLen ((sockRecv io 14 true).1.data.getD 1 0)) false).2
    revert this
    generalize takeHeader st _ _ _ = s
    intro this
    cases s with
    | cont s1 i1 => exact ⟨this.1, this.2.1, this.2.2.1.trans (l2.1.trans l1.1),
        this.2.2.2.trans (l2.2.trans l1.2)⟩
    | done n s1 i1 => exact ⟨this.1, this.2.1, this.2.2.1.trans (l2.1.trans l1.1),
        this.2.2.2.trans (l2.2.trans l1.2)⟩
    | fail s1 i1 => exact ⟨this.1, this.2.1, this.2.2.1.trans (l2.1.trans l1.1),
        this.2.2.2.trans (l2.2.trans l1.2)⟩

theorem payloadBranch_kept (st : WebSocket) (io : Net) :
    StepKept st io (payloadBranch st io) := by
  unfold payloadBranch
  simp only []
  have l1 := sockRecv_logs io (ptrDiff st.endp st.head) false
  split_ifs
  · exact ⟨rfl, rfl, l1.1, l1.2⟩
  · exact ⟨rfl, rfl, l1.1, l1.2⟩
  · exact ⟨rfl, rfl, l1.1, l1.2⟩

theorem sockSendmsg_shutdowns (io : Net) (bytes : List Nat) :
    (sockSendmsg io bytes).2.shutdowns = io.shutdowns := by
  unfold sockSendmsg; split <;> rfl

theorem sendWithOpcode_kept (st : WebSocket) (p : List Nat) (op : Nat) (io : Net)
    (hp : st.sockfd_pin < 2 ^ 32) :
    (WebSocket_sendWithOpcode st p op io).2.2.1 = st ∧
    (WebSocket_sendWithOpcode st p op io).2.2.2.shutdowns = io.shutdowns ∧
    (WebSocket_sendWithOpcode st p op io).2.2.2.closes = io.closes := by
  refine ⟨?_, ?_, sendWithOpcode_closes st p op io⟩
  · unfold WebSocket_sendWithOpcode
    simp only []
    split_ifs <;> exact unpin_pin st hp
  · unfold WebSocket_sendWithOpcode
    simp only []
    split_ifs
    · rfl
    · simp only [sockSendmsg_shutdowns, sockRand_shutdowns]

theorem dispatch_kept (st : WebSocket) (io : Net) (hp : st.sockfd_pin < 2 ^ 32) :
    StepKept st io (dispatch st io) := by
  unfold dispatch
  split_ifs with h1 h2 h3 h4 h5
  · exact ⟨rfl, rfl, rfl, rfl⟩
  · exact ⟨rfl, rfl, rfl, rfl⟩
  · exact ⟨rfl, rfl, rfl, rfl⟩
  · have hs := sendWithOpcode_kept st (readBuf st.buffer 0 st.head) 0xa io hp
    revert hs
    generalize WebSocket_sendWithOpcode st (readBuf st.buffer 0 st.head) 0xa io = r
    obtain ⟨ok, pk, s1, i1⟩ := r
    simp only []
    intro hs
    obtain ⟨e1, e2, e3⟩ := hs
    subst e1
    cases ok
    · exact ⟨rfl, rfl, e2, e3⟩
    · exact ⟨rfl, rfl, e2, e3⟩
  · exact ⟨rfl, rfl, rfl, rfl⟩
  · exact ⟨rfl, rfl, rfl, rfl⟩

theorem receiveBody_eq (st : WebSocket) (io : Net) :
    receiveBody st io =
      (match branchStep st io with
       | .cont st1 io1 =>
         if st1.head = st1.endp ∧ st1.finished = true then dispatch st1 io1 else .cont st1 io1
       | s => s) := rfl

theorem branchStep_kept (st : WebSocket) (io : Net) : StepKept st io (branchStep st io) := by
  unfold branchStep
  split_ifs
  · exact headerBranch_kept st io
  · exact payloadBranch_kept st io

theorem receiveBody_kept (st : WebSocket) (io : Net) (hp : st.sockfd_pin < 2 ^ 32) :
    StepKept st io (receiveBody st io) := by
  rw [receiveBody_eq]
  have hb := branchStep_kept st io
  revert hb
  generalize branchStep st io = s
  intro hb
  cases s with
  | cont s2 i2 =>
    simp only []
    obtain ⟨k1, k2, k3, k4⟩ := hb
    split_ifs
    · have hd := dispatch_kept s2 i2 (by rw [k2]; exact hp)
      revert hd
      generalize dispatch s2 i2 = d
      intro hd
      cases d with
      | cont s3 i3 => exact ⟨hd.1.trans k1, hd.2.1.trans k2, hd.2.2.1.trans k3, hd.2.2.2.trans k4⟩
      | done n s3 i3 =>
        refine ⟨hd.1.trans k1, ?_, hd.2.2.1.trans k3, hd.2.2.2.trans k4⟩
        rw [hd.2.1]; simp only [unpin, k2]
      | fail s3 i3 => exact ⟨hd.1.trans k1, hd.2.1.trans k2, hd.2.2.1.trans k3, hd.2.2.2.trans k4⟩
    · exact ⟨k1, k2, k3, k4⟩
  | done n s2 i2 => exact hb
  | fail s2 i2 => exact hb

theorem passAt_kept (k : Nat) : ∀ (st : WebSocket) (io : Net) (s : WebSocket) (i : Net),
    st.sockfd_pin < 2 ^ 32 → passAt k st io = some (s, i) → Kept st io s i := by
  induction k with
  | zero =>
    intro st io s i _ h
    simp only [passAt, Option.some.injEq, Prod.mk.injEq] at h
    rw [← h.1, ← h.2]; exact ⟨rfl, rfl, rfl, rfl⟩
  | succ k ih =>
    intro st io s i hp h
    have hb := receiveBody_kept st io hp
    simp only [passAt] at h
    revert hb h
    generalize receiveBody st io = r
    intro h hb
    cases r with
    | cont s1 i1 =>
      obtain ⟨k1, k2, k3, k4⟩ := hb
      have := ih s1 i1 s i (by rw [k2]; exact hp) h
      exact ⟨this.1.trans k1, this.2.1.trans k2, this.2.2.1.trans k3, this.2.2.2.trans k4⟩
    | done n s1 i1 => cases h
    | fail s1 i1 => cases h

theorem passAt_resume (k : Nat) : ∀ (st : WebSocket) (io : Net) (s : WebSocket) (i : Net),
    passAt k st io = some (s, i) → resume (.cont st io) = resume (.cont s i) := by
  induction k with
  | zero =>
    intro st io s i h
    simp only [passAt, Option.some.injEq, Prod.mk.injEq] at h
    rw [← h.1, ← h.2]
  | succ k ih =>
    intro st io s i h
    rw [resume_cont st io]
    simp only [passAt] at h
    revert h
    generalize receiveBody st io = r
    intro h
    cases r with
    | cont s1 i1 => exact ih s1 i1 s i h
    | done n s1 i1 => cases h
    | fail s1 i1 => cases h

theorem headerLen_int_pos (b : Nat) : (0 : Int) < ((headerLen b : Nat) : Int) := by
  have := headerLen_pos b
  omega

theorem takeHeader_fail (st : WebSocket) (pl : Nat) (H : List Nat) (io : Net) :
    (∃ s1 i1, takeHeader st pl H io = .fail s1 i1) ↔
      ptrDiff bufferSize st.endp < fragmentLength H := by
  unfold takeHeader
  by_cases hc : fragmentLength H > ptrDiff bufferSize st.endp
  · rw [if_pos hc]
    exact ⟨fun _ => hc, fun _ => ⟨_, _, rfl⟩⟩
  · rw [if_neg hc]
    constructor
    · rintro ⟨s1, i1, h⟩; cases h
    · intro h; exact absurd h hc

theorem headerBranch_fail (st : WebSocket) (io : Net) :
    (∃ s1 i1, headerBranch st io = .fail s1 i1) ↔
      (((sockRecv io 14 true).1.length < 0 ∧ (sockRecv io 14 true).1.again = false) ∨
       (((headerLen ((sockRecv io 14 true).1.data.getD 1 0) : Nat) : Int) ≤
          (sockRecv io 14 true).1.length ∧
        (sockRecv (sockRecv io 14 true).2
          (headerLen ((sockRecv io 14 true).1.data.getD 1 0)) false).1.length ≠
          ((headerLen ((sockRecv io 14 true).1.data.getD 1 0) : Nat) : Int)) ∨
       (((headerLen ((sockRecv io 14 true).1.data.getD 1 0) : Nat) : Int) ≤
          (sockRecv io 14 true).1.length ∧
        (sockRecv (sockRecv io 14 true).2
          (headerLen ((sockRecv io 14 true).1.data.getD 1 0)) false).1.length =
          ((headerLen ((sockRecv io 14 true).1.data.getD 1 0) : Nat) : Int) ∧
        ptrDiff bufferSize st.endp <
          fragmentLength (sockRecv (sockRecv io 14 true).2
            (headerLen ((sockRecv io 14 true).1.data.getD 1 0)) false).1.data)) := by
  have hl := headerLen_int_pos ((sockRecv io 14 true).1.data.getD 1 0)
  unfold headerBranch
  simp only []
  by_cases h1 : (sockRecv io 14 true).1.length < 0 ∧ (sockRecv io 14 true).1.again = false
  · rw [if_pos h1]
    exact ⟨fun _ => Or.inl h1, fun _ => ⟨_, _, rfl⟩⟩
  · rw [if_neg h1]
    by_cases h2 : (sockRecv io 14 true).1.length <
        ((headerLen ((sockRecv io 14 true).1.data.getD 1 0) : Nat) : Int)
    · rw [if_pos h2]
      constructor
      · rintro ⟨s1, i1, h⟩; cases h
      · rintro (h | h | h)
        · exact absurd h h1
        · exact absurd h.1 (not_le.mpr h2)
        · exact absurd h.1 (not_le.mpr h2)
    · rw [if_neg h2]
      by_cases h3 : (sockRecv (sockRecv io 14 true).2
          (headerLen ((sockRecv io 14 true).1.data.getD 1 0)) false).1.length ≠
          ((headerLen ((sockRecv io 14 true).1.data.getD 1 0) : Nat) : Int)
      · rw [if_pos h3]
        exact ⟨fun _ => Or.inr (Or.inl ⟨not_lt.mp h2, h3⟩), fun _ => ⟨_, _, rfl⟩⟩
      · rw [if_neg h3, takeHeader_fail]
        constructor
        · intro h; exact Or.inr (Or.inr ⟨not_lt.mp h2, not_not.mp h3, h⟩)
        · rintro (h | h | h)
          · exact absurd h h1
          · exact absurd h.2 h3
          · exact h.2.2

theorem payloadBranch_fail (st : WebSocket) (io : Net) :
    (∃ s1 i1, payloadBranch st io = .fail s1 i1) ↔
      ((sockRecv io (ptrDiff st.endp st.head) false).1.length < 0 ∧
       (sockRecv io (ptrDiff st.endp st.head) false).1.again = false) := by
  unfold payloadBranch
  simp only []
  by_cases h1 : (sockRecv io (ptrDiff st.endp st.head) false).1.length < 0 ∧
      (sockRecv io (ptrDiff st.endp st.head) false).1.again = false
  · rw [if_pos h1]
    exact ⟨fun _ => h1, fun _ => ⟨_, _, rfl⟩⟩
  · rw [if_neg h1]
    constructor
    · rintro ⟨s1, i1, h⟩
      split_ifs at h
    · intro h; exact absurd h h1

theorem dispatch_fail (st : WebSocket) (io : Net) :
    (∃ s1 i1, dispatch st io = .fail s1 i1) ↔
      (st.opcode = 0x8 ∨
       (st.opcode ≠ 0x1 ∧ st.opcode ≠ 0x2 ∧ st.opcode ≠ 0x8 ∧ st.opcode ≠ 0x9 ∧
         st.opcode ≠ 0xa) ∨
       (st.opcode = 0x9 ∧
         (WebSocket_sendWithOpcode st (readBuf st.buffer 0 st.head) 0xa io).1 = false)) := by
  unfold dispatch
  by_cases h1 : st.opcode = 0x1
  · rw [if_pos h1]
    constructor
    · rintro ⟨s1, i1, h⟩; cases h
    · rintro (h | h | h)
      · rw [h1] at h; exact absurd h (by norm_num)
      · exact absurd h1 h.1
      · rw [h1] at h; exact absurd h.1 (by norm_num)
  rw [if_neg h1]
  by_cases h2 : st.opcode = 0x2
  · rw [if_pos h2]
    constructor
    · rintro ⟨s1, i1, h⟩; cases h
    · rintro (h | h | h)
      · rw [h2] at h; exact absurd h (by norm_num)
      · exact absurd h2 h.2.1
      · rw [h2] at h; exact absurd h.1 (by norm_num)
  rw [if_neg h2]
  by_cases h8 : st.opcode = 0x8
  · rw [if_pos h8]
    exact ⟨fun _ => Or.inl h8, fun _ => ⟨_, _, rfl⟩⟩
  rw [if_neg h8]
  by_cases h9 : st.opcode = 0x9
  · rw [if_pos h9]
    generalize WebSocket_sendWithOpcode st (readBuf st.buffer 0 st.head) 0xa io = r
    obtain ⟨ok, pk, s1, i1⟩ := r
    simp only []
    cases ok
    · simp only [Bool.false_eq_true, if_false]
      exact ⟨fun _ => Or.inr (Or.inr ⟨h9, trivial⟩), fun _ => ⟨_, _, rfl⟩⟩
    · simp only [if_true]
      constructor
      · rintro ⟨s1, i1, h⟩; cases h
      · rintro (h | h | h)
        · exact absurd h h8
        · exact absurd h9 h.2.2.2.1
        · exact absurd h.2 (by simp)
  rw [if_neg h9]
  by_cases h10 : st.opcode = 0xa
  · rw [if_pos h10]
    constructor
    · rintro ⟨s1, i1, h⟩; cases h
    · rintro (h | h | h)
      · exact absurd h h8
      · exact absurd h10 h.2.2.2.2
      · exact absurd h.1 h9
  rw [if_neg h10]
  exact ⟨fun _ => Or.inr (Or.inl ⟨h1, h2, h8, h9, h10⟩), fun _ => ⟨_, _, rfl⟩⟩

theorem branchStep_fail (st : WebSocket) (io : Net) :
    (∃ s1 i1, branchStep st io = .fail s1 i1) ↔
      ((st.head = st.endp ∧ ∃ s1 i1, headerBranch st io = .fail s1 i1) ∨
       (st.head ≠ st.endp ∧ ∃ s1 i1, payloadBranch st io = .fail s1 i1)) := by
  unfold branchStep
  by_cases hh : st.head = st.endp
  · rw [if_pos hh]
    constructor
    · intro h; exact Or.inl ⟨hh, h⟩
    · rintro (h | h)
      · exact h.2
      · exact absurd hh h.1
  · rw [if_neg hh]
    constructor
    · intro h; exact Or.inr ⟨hh, h⟩
    · rintro (h | h)
      · exact absurd h.1 hh
      · exact h.2

theorem receiveBody_fail (st : WebSocket) (io : Net) :
    (∃ s1 i1, receiveBody st io = .fail s1 i1) ↔
      ((∃ s1 i1, branchStep st io = .fail s1 i1) ∨
       (∃ s2 i2, branchStep st io = .cont s2 i2 ∧ s2.head = s2.endp ∧ s2.finished = true ∧
          ∃ s1 i1, dispatch s2 i2 = .fail s1 i1)) := by
  rw [receiveBody_eq]
  generalize branchStep st io = b
  cases b with
  | cont s2 i2 =>
    simp only []
    by_cases hc : s2.head = s2.endp ∧ s2.finished = true
    · rw [if_pos hc]
      constructor
      · intro h; exact Or.inr ⟨s2, i2, rfl, hc.1, hc.2, h⟩
      · rintro (⟨s1, i1, h⟩ | ⟨s3, i3, h, _, _, hd⟩)
        · cases h
        · cases h; exact hd
    · rw [if_neg hc]
      constructor
      · rintro ⟨s1, i1, h⟩; cases h
      · rintro (⟨s1, i1, h⟩ | ⟨s3, i3, h, h5, h6, _⟩)
        · cases h
        · cases h; exact absurd ⟨h5, h6⟩ hc
  | done n s2 i2 =>
    constructor
    · rintro ⟨s1, i1, h⟩; cases h
    · rintro (⟨s1, i1, h⟩ | ⟨s3, i3, h, _⟩)
      · cases h
      · cases h
  | fail s2 i2 =>
    constructor
    · intro _; exact Or.inl ⟨_, _, rfl⟩
    · intro _; exact ⟨_, _, rfl⟩

/-- The listed conditions are exactly the ways a pass leaves the loop for the
label `fail`. -/
theorem fatalPass_iff (st : WebSocket) (io : Net) :
    FatalPass st io ↔ ∃ s1 i1, receiveBody st io = .fail s1 i1 := by
  rw [receiveBody_fail, branchStep_fail, headerBranch_fail, payloadBranch_fail]
  unfold FatalPass
  simp only [dispatch_fail]
  constructor
  · rintro (h | h | h | h | h)
    · exact Or.inl (Or.inl ⟨h.1, Or.inl h.2⟩)
    · exact Or.inl (Or.inr h)
    · exact Or.inl (Or.inl ⟨h.1, Or.inr (Or.inl h.2)⟩)
    · exact Or.inl (Or.inl ⟨h.1, Or.inr (Or.inr h.2)⟩)
    · exact Or.inr h
  · rintro ((⟨hh, h | h | h⟩ | h) | h)
    · exact Or.inl ⟨hh, h⟩
    · exact Or.inr (Or.inr (Or.inl ⟨hh, h⟩))
    · exact Or.inr (Or.inr (Or.inr (Or.inl ⟨hh, h⟩)))
    · exact Or.inr (Or.inl h)
    · exact Or.inr (Or.inr (Or.inr (Or.inr h)))

theorem resume_fail_open (st : WebSocket) (io : Net) (k : Nat) (s : WebSocket) (i : Net)
    (s1 : WebSocket) (i1 : Net)
    (hfd : st.sockfd ≠ -1) (hpin : st.sockfd_pin = 0)
    (hreach : passAt k (pin st) io = some (s, i)) (hfail : receiveBody s i = .fail s1 i1) :
    WebSocket_receive st io =
      .ret (0, { unpin s1 with sockfd := -1 },
        { i1 with shutdowns := io.shutdowns ++ [st.sockfd],
                  closes := io.closes ++ [st.sockfd] }) ∧
    (unpin s1).sockfd_pin = 0 := by
  have hp1 : (pin st).sockfd_pin = 1 := by simp only [pin, hpin]; norm_num
  have hk := passAt_kept k (pin st) io s i (by rw [hp1]; norm_num) hreach
  have hb := receiveBody_kept s i (by rw [hk.2.1, hp1]; norm_num)
  rw [hfail] at hb
  have e1 : s1.sockfd = st.sockfd := hb.1.trans hk.1
  have e2 : s1.sockfd_pin = 1 := (hb.2.1.trans hk.2.1).trans hp1
  have e3 : i1.shutdowns = io.shutdowns := hb.2.2.1.trans hk.2.2.1
  have e4 : i1.closes = io.closes := hb.2.2.2.trans hk.2.2.2
  have e5 : (unpin s1).sockfd_pin = 0 := by simp only [unpin, e2]; norm_num
  refine ⟨?_, e5⟩
  rw [receive_open st io hfd, passAt_resume k _ _ _ _ hreach, resume_cont, hfail]
  simp only [resume]
  rw [failExit_open s1 i1 (by rw [e1]; exact hfd) e5, e1, e3, e4]

/-- C12. On an open connection with no other operation in flight, let some pass
of the loop of `WebSocket_receive` meet one of the fatal conditions (a `recv`
error other than `EAGAIN`, a short header read, a declared length above the
room left, a close frame, an opcode that is not supported, a pong that cannot
be sent). Then the call returns 0, the handle is -1, the counter of pins is back
at 0, and the descriptor has been passed to `shutdown` once and to `close` once.
On the state so left, a further `WebSocket_receive` returns 0,
`WebSocket_sendWithOpcode` returns false and `WebSocket_wait` returns false,
each leaving state and environment as they were. -/
theorem fatal_paths (st : WebSocket) (io : Net) (k : Nat) (s : WebSocket) (i : Net)
    (hfd : st.sockfd ≠ -1) (hpin : st.sockfd_pin = 0)
    (hreach : passAt k (pin st) io = some (s, i)) (hfatal : FatalPass s i) :
    ∃ st1 io1,
      WebSocket_receive st io = .ret (0, st1, io1) ∧
      st1.sockfd = -1 ∧ st1.sockfd_pin = 0 ∧
      io1.shutdowns = io.shutdowns ++ [st.sockfd] ∧
      io1.closes = io.closes ++ [st.sockfd] ∧
      WebSocket_receive st1 io1 = .ret (0, st1, io1) ∧
      (∀ (P : List Nat) (op : Nat),
        WebSocket_sendWithOpcode st1 P op io1 = (false, P, st1, io1)) ∧
      WebSocket_wait st1 io1 = (false, st1, io1) := by
  obtain ⟨s1, i1, hfail⟩ := (fatalPass_iff s i).mp hfatal
  obtain ⟨hr, hp⟩ := resume_fail_open st io k s i s1 i1 hfd hpin hreach hfail
  have hp2 : ({ unpin s1 with sockfd := -1 } : WebSocket).sockfd_pin < 2 ^ 32 := by
    show (unpin s1).sockfd_pin < 2 ^ 32
    rw [hp]; norm_num
  exact ⟨_, _, hr, rfl, hp, rfl, rfl, receive_closed _ _ rfl hp2,
    fun P op => send_closed _ P op _ rfl hp2, wait_closed _ _ rfl hp2⟩

theorem fatal_paths_witness :
    ∃ st1 io1,
      WebSocket_receive exState { exNet with sched := [RecvEv.err] } = .ret (0, st1, io1) ∧
      st1.sockfd = -1 ∧ st1.sockfd_pin = 0 ∧
      io1.shutdowns = exNet.shutdowns ++ [exState.sockfd] ∧
      io1.closes = exNet.closes ++ [exState.sockfd] ∧
      WebSocket_receive st1 io1 = .ret (0, st1, io1) ∧
      (∀ (P : List Nat) (op : Nat),
        WebSocket_sendWithOpcode st1 P op io1 = (false, P, st1, io1)) ∧
      WebSocket_wait st1 io1 = (false, st1, io1) :=
  fatal_paths exState { exNet with sched := [RecvEv.err] } 0 (pin exState)
    { exNet with sched := [RecvEv.err] } (by decide) rfl rfl
    (Or.inl ⟨rfl, by decide, rfl⟩)

theorem sockRecv_err (io : Net) (n : Nat) (peek : Bool) (r : List RecvEv)
    (h : io.sched = RecvEv.err :: r) :
    sockRecv io n peek = (⟨-1, false, []⟩, { io with sched := r }) := by
  unfold sockRecv; rw [h]

theorem sockRecv_eof (io : Net) (n : Nat) (peek : Bool) (r : List RecvEv)
    (h : io.sched = RecvEv.eof :: r) :
    sockRecv io n peek = (⟨0, false, []⟩, { io with sched := r }) := by
  unfold sockRecv; rw [h]

theorem receiveBody_err (st : WebSocket) (io : Net) (r : List RecvEv)
    (h : io.sched = RecvEv.err :: r) :
    receiveBody st io = .fail st { io with sched := r } := by
  rw [receiveBody_eq]
  unfold branchStep headerBranch payloadBranch
  simp only [sockRecv_err io _ _ r h]
  split_ifs <;> first | rfl | (exfalso; simp_all)

theorem receiveBody_eof (st : WebSocket) (io : Net) (r : List RecvEv)
    (h : io.sched = RecvEv.eof :: r) :
    receiveBody st io = .done 0 (unpin st) { io with sched := r } := by
  rw [receiveBody_eq]
  have hl := headerLen_int_pos (([] : List Nat).getD 1 0)
  unfold branchStep headerBranch payloadBranch
  simp only [sockRecv_eof io _ _ r h]
  split_ifs <;> first | rfl | (exfalso; simp_all)

theorem sockRand_sendSched (io : Net) : (sockRand io).2.sendSched = io.sendSched := by
  unfold sockRand; split <;> rfl

theorem sendLength_snd_length (n : Nat) : (sendLength n).2.length ≤ 8 := by
  unfold sendLength
  split_ifs <;> simp

theorem send_failure (st : WebSocket) (io : Net) (P : List Nat) (op : Nat)
    (rs : List SendEv) (hfd : st.sockfd ≠ -1) (hpin : st.sockfd_pin < 2 ^ 32)
    (hlen : P.length + 15 < 2 ^ 64)
    (h : io.sendSched = SendEv.err :: rs ∨
      ∃ n, io.sendSched = SendEv.wrote n :: rs ∧
        n < 2 + (sendLength P.length).2.length + 4 + P.length) :
    (WebSocket_sendWithOpcode st P op io).1 = false ∧
    (WebSocket_sendWithOpcode st P op io).2.2.1 = st ∧
    (WebSocket_sendWithOpcode st P op io).2.2.2.shutdowns = io.shutdowns ∧
    (WebSocket_sendWithOpcode st P op io).2.2.2.closes = io.closes := by
  have hk := sendWithOpcode_kept st P op io hpin
  refine ⟨?_, hk.1, hk.2.1, hk.2.2⟩
  have hfd2 : ¬ (pin st).sockfd = -1 := hfd
  have h8 := sendLength_snd_length P.length
  unfold WebSocket_sendWithOpcode
  simp only [hfd2, if_false]
  have hss := sockRand_sendSched io
  rcases h with h | ⟨n, h, hn⟩
  · rw [h] at hss
    simp only [sockSendmsg, hss]
    rw [decide_eq_false_iff_not]
    have e : ((-1 : Int) % 2 ^ 64).toNat = 2 ^ 64 - 1 := by decide
    rw [e, Nat.mod_eq_of_lt (by omega)]
    omega
  · rw [h] at hss
    simp only [sockSendmsg, hss]
    rw [decide_eq_false_iff_not]
    have hl : (((sockRand io).1 |> maskOfRand).length) = 4 := rfl
    simp only [List.length_cons, List.length_append, xorMask, List.length_map,
      List.length_range, maskOfRand, List.length_nil]
    rw [Nat.mod_eq_of_lt (by omega)]
    rw [Nat.min_eq_left (by omega)]
    have : ((n : Int) % 2 ^ 64).toNat = n := by
      rw [Int.emod_eq_of_lt (by omega) (by omega)]; rfl
    rw [this]
    omega

theorem resume_eof (st : WebSocket) (io : Net) (k : Nat) (s : WebSocket) (i : Net)
    (r : List RecvEv) (hfd : st.sockfd ≠ -1) (hpin : st.sockfd_pin = 0)
    (hreach : passAt k (pin st) io = some (s, i)) (h : i.sched = RecvEv.eof :: r) :
    WebSocket_receive st io = .ret (0, unpin s, { i with sched := r }) ∧
    (unpin s).sockfd = st.sockfd ∧ (unpin s).sockfd_pin = 0 ∧
    i.shutdowns = io.shutdowns ∧ i.closes = io.closes := by
  have hp1 : (pin st).sockfd_pin = 1 := by simp only [pin, hpin]; norm_num
  have hk := passAt_kept k (pin st) io s i (by rw [hp1]; norm_num) hreach
  refine ⟨?_, hk.1, ?_, hk.2.2.1, hk.2.2.2⟩
  · rw [receive_open st io hfd, passAt_resume k _ _ _ _ hreach, resume_cont,
      receiveBody_eof s i r h]
    rfl
  · have e2 : s.sockfd_pin = 1 := hk.2.1.trans hp1
    simp only [unpin, e2]; norm_num

/-- C13 (counterexample). On the open connection `exState`, `sendmsg` fails:
`WebSocket_sendWithOpcode` returns false, and the handle is still 3 with no
`shutdown` and no `close` called; the teardown routine has not run. -/
theorem send_failure_not_fatal :
    (WebSocket_sendWithOpcode exState [1, 2, 3] 2 { exNet with sendSched := [SendEv.err] }).1 =
      false ∧
    (WebSocket_sendWithOpcode exState [1, 2, 3] 2
      { exNet with sendSched := [SendEv.err] }).2.2.1.sockfd = 3 ∧
    (WebSocket_sendWithOpcode exState [1, 2, 3] 2
      { exNet with sendSched := [SendEv.err] }).2.2.2.shutdowns = [] ∧
    (WebSocket_sendWithOpcode exState [1, 2, 3] 2
      { exNet with sendSched := [SendEv.err] }).2.2.2.closes = [] := by
  refine ⟨?_, ?_, ?_, ?_⟩
  · exact (send_failure exState { exNet with sendSched := [SendEv.err] } [1, 2, 3] 2 []
      (by decide) (by decide) (by decide) (Or.inl rfl)).1
  · rw [(send_failure exState { exNet with sendSched := [SendEv.err] } [1, 2, 3] 2 []
      (by decide) (by decide) (by decide) (Or.inl rfl)).2.1]
    rfl
  · rw [(send_failure exState { exNet with sendSched := [SendEv.err] } [1, 2, 3] 2 []
      (by decide) (by decide) (by decide) (Or.inl rfl)).2.2.1]
    rfl
  · rw [(send_failure exState { exNet with sendSched := [SendEv.err] } [1, 2, 3] 2 []
      (by decide) (by decide) (by decide) (Or.inl rfl)).2.2.2]
    rfl

/-- C13 (as amended). On an open connection with no other operation in flight:
when a pass of the loop of `WebSocket_receive` gets a `recv` error other than
`EAGAIN`, the call returns 0 with the handle at -1 and the descriptor shut down
and closed; when `sendmsg` fails or writes fewer bytes than the frame has,
`WebSocket_sendWithOpcode` returns false and leaves the handle as it was, with
no `shutdown` and no `close`. -/
theorem socket_failures (st : WebSocket) (io : Net) (k : Nat) (s : WebSocket) (i : Net)
    (r : List RecvEv) (P : List Nat) (op : Nat) (rs : List SendEv)
    (hfd : st.sockfd ≠ -1) (hpin : st.sockfd_pin = 0)
    (hreach : passAt k (pin st) io = some (s, i)) (hlen : P.length + 15 < 2 ^ 64) :
    (i.sched = RecvEv.err :: r →
      ∃ st1 io1, WebSocket_receive st io = .ret (0, st1, io1) ∧ st1.sockfd = -1 ∧
        io1.shutdowns = io.shutdowns ++ [st.sockfd] ∧
        io1.closes = io.closes ++ [st.sockfd]) ∧
    ((io.sendSched = SendEv.err :: rs ∨
       ∃ n, io.sendSched = SendEv.wrote n :: rs ∧
         n < 2 + (sendLength P.length).2.length + 4 + P.length) →
      (WebSocket_sendWithOpcode st P op io).1 = false ∧
      (WebSocket_sendWithOpcode st P op io).2.2.1.sockfd = st.sockfd ∧
      (WebSocket_sendWithOpcode st P op io).2.2.2.shutdowns = io.shutdowns ∧
      (WebSocket_sendWithOpcode st P op io).2.2.2.closes = io.closes) := by
  refine ⟨?_, ?_⟩
  · intro h
    obtain ⟨hr, _⟩ := resume_fail_open st io k s i s { i with sched := r } hfd hpin hreach
      (receiveBody_err s i r h)
    exact ⟨_, _, hr, rfl, rfl, rfl⟩
  · intro h
    have := send_failure st io P op rs hfd (by rw [hpin]; norm_num) hlen h
    exact ⟨this.1, by rw [this.2.1], this.2.2.1, this.2.2.2⟩

theorem socket_failures_witness :
    ({ exNet with sched := [RecvEv.err], sendSched := [SendEv.wrote 5] }.sched =
        RecvEv.err :: [] →
      ∃ st1 io1,
        WebSocket_receive exState
            { exNet with sched := [RecvEv.err], sendSched := [SendEv.wrote 5] } =
          .ret (0, st1, io1) ∧ st1.sockfd = -1 ∧
        io1.shutdowns =
          { exNet with sched := [RecvEv.err], sendSched := [SendEv.wrote 5] }.shutdowns ++
            [exState.sockfd] ∧
        io1.closes =
          { exNet with sched := [RecvEv.err], sendSched := [SendEv.wrote 5] }.closes ++
            [exState.sockfd]) ∧
    (({ exNet with sched := [RecvEv.err], sendSched := [SendEv.wrote 5] }.sendSched =
        SendEv.err :: [] ∨
       ∃ n, { exNet with sched := [RecvEv.err], sendSched := [SendEv.wrote 5] }.sendSched =
           SendEv.wrote n :: [] ∧
         n < 2 + (sendLength [1, 2, 3].length).2.length + 4 + [1, 2, 3].length) →
      (WebSocket_sendWithOpcode exState [1, 2, 3] 2
        { exNet with sched := [RecvEv.err], sendSched := [SendEv.wrote 5] }).1 = false ∧
      (WebSocket_sendWithOpcode exState [1, 2, 3] 2
        { exNet with sched := [RecvEv.err], sendSched := [SendEv.wrote 5] }).2.2.1.sockfd =
        exState.sockfd ∧
      (WebSocket_sendWithOpcode exState [1, 2, 3] 2
        { exNet with sched := [RecvEv.err], sendSched := [SendEv.wrote 5] }).2.2.2.shutdowns =
        { exNet with sched := [RecvEv.err], sendSched := [SendEv.wrote 5] }.shutdowns ∧
      (WebSocket_sendWithOpcode exState [1, 2, 3] 2
        { exNet with sched := [RecvEv.err], sendSched := [SendEv.wrote 5] }).2.2.2.closes =
        { exNet with sched := [RecvEv.err], sendSched := [SendEv.wrote 5] }.closes) :=
  socket_failures exState { exNet with sched := [RecvEv.err], sendSched := [SendEv.wrote 5] } 0
    (pin exState) { exNet with sched := [RecvEv.err], sendSched := [SendEv.wrote 5] } []
    [1, 2, 3] 2 [] (by decide) rfl rfl (by decide)

theorem or_128 (x : Nat) (h : x < 128) : 0x80 ||| x = x + 128 := by
  have := Nat.mul_add_lt_is_or (i := 7) (b := x) (by norm_num; exact h) 1
  norm_num at this
  rw [← this]; omega

theorem sendLength_fst_lt (n : Nat) : (sendLength n).1 < 128 := by
  unfold sendLength
  split_ifs
  · exact Nat.mod_lt _ (by norm_num)
  · norm_num
  · norm_num

theorem sockSendmsg_range (io : Net) (bytes : List Nat) :
    (sockSendmsg io bytes).1 = -1 ∨
    (0 ≤ (sockSendmsg io bytes).1 ∧ (sockSendmsg io bytes).1 ≤ (bytes.length : Int)) := by
  unfold sockSendmsg
  split
  · right; simp
  · right
    simp only []
    constructor
    · exact Int.natCast_nonneg _
    · exact Int.ofNat_le.mpr (Nat.min_le_right _ _)
  · left; rfl

theorem size_compare (r : Int) (t : Nat) (ht : t + 1 < 2 ^ 64)
    (hr : r = -1 ∨ (0 ≤ r ∧ r ≤ (t : Int))) :
    decide ((r % 2 ^ 64).toNat = t % 2 ^ 64) = decide (r = (t : Int)) := by
  rw [Nat.mod_eq_of_lt (by omega)]
  rcases hr with hr | ⟨h0, h1⟩
  · subst hr
    have e : ((-1 : Int) % 2 ^ 64).toNat = 2 ^ 64 - 1 := by decide
    rw [e]
    have a : ¬ (2 ^ 64 - 1 = t) := by omega
    have b : ¬ ((-1 : Int) = (t : Int)) := by omega
    simp only [a, b]
  · have e : (r % 2 ^ 64).toNat = r.toNat := by
      rw [Int.emod_eq_of_lt h0 (by omega)]
    rw [e]
    congr 1
    apply propext
    constructor
    · intro h; omega
    · intro h; omega

theorem xorMask_getD (M P : List Nat) (i : Nat) (h : i < P.length) :
    (xorMask M P).getD i 0 = P.getD i 0 ^^^ M.getD (i % 4) 0 := by
  unfold xorMask
  rw [List.getD_eq_getElem _ _ (by simpa using h)]
  simp

/-- C18. On an open connection, for an opcode below 16 and a payload `P`, with
`M` the four bytes of the value `rand()` returns: `WebSocket_sendWithOpcode`
makes one call of `sendmsg`, on the bytes `0x80 | opcode`, `0x80 | L`, the
extended length, `M`, then `P[i] ^ M[i % 4]` for each `i`; the caller's packet is
left holding these masked bytes; the result is true exactly when `sendmsg`
reports the length of header, mask and payload together. -/
theorem frame_encoding (st : WebSocket) (io : Net) (P : List Nat) (op : Nat)
    (hfd : st.sockfd ≠ -1) (hop : op < 16) (hlen : P.length + 15 < 2 ^ 64) :
    WebSocket_sendWithOpcode st P op io =
      (decide ((sockSendmsg (sockRand io).2
          ((0x80 ||| op) :: (0x80 ||| (sendLength P.length).1) ::
            ((sendLength P.length).2 ++ maskOfRand (sockRand io).1 ++
              xorMask (maskOfRand (sockRand io).1) P))).1 =
          ((2 + (sendLength P.length).2.length + 4 + P.length : Nat) : Int)),
       xorMask (maskOfRand (sockRand io).1) P,
       unpin (pin st),
       (sockSendmsg (sockRand io).2
          ((0x80 ||| op) :: (0x80 ||| (sendLength P.length).1) ::
            ((sendLength P.length).2 ++ maskOfRand (sockRand io).1 ++
              xorMask (maskOfRand (sockRand io).1) P))).2) ∧
    (maskOfRand (sockRand io).1).length = 4 ∧
    (xorMask (maskOfRand (sockRand io).1) P).length = P.length ∧
    (∀ i, i < P.length →
      (xorMask (maskOfRand (sockRand io).1) P).getD i 0 =
        P.getD i 0 ^^^ (maskOfRand (sockRand io).1).getD (i % 4) 0) := by
  refine ⟨?_, rfl, by simp [xorMask], fun i h => xorMask_getD _ _ i h⟩
  have hfd2 : ¬ (pin st).sockfd = -1 := hfd
  have h8 := sendLength_snd_length P.length
  rw [or_128 op (by omega), or_128 _ (sendLength_fst_lt P.length)]
  unfold WebSocket_sendWithOpcode
  simp only [hfd2, if_false, Nat.mod_eq_of_lt hop, List.cons_append]
  have hr := sockSendmsg_range (sockRand io).2
    ((op + 128) :: ((sendLength P.length).1 + 128) ::
      ((sendLength P.length).2 ++ maskOfRand (sockRand io).1 ++
        xorMask (maskOfRand (sockRand io).1) P))
  have hl : ((op + 128) :: ((sendLength P.length).1 + 128) ::
      ((sendLength P.length).2 ++ maskOfRand (sockRand io).1 ++
        xorMask (maskOfRand (sockRand io).1) P)).length =
      2 + (sendLength P.length).2.length + 4 + P.length := by
    simp [xorMask, maskOfRand]; omega
  rw [hl] at hr
  rw [size_compare _ _ (by omega) hr]

theorem frame_encoding_witness :
    WebSocket_sendWithOpcode exState [1, 2, 3] 2 exNet =
      (decide ((sockSendmsg (sockRand exNet).2
          ((0x80 ||| 2) :: (0x80 ||| (sendLength [1, 2, 3].length).1) ::
            ((sendLength [1, 2, 3].length).2 ++ maskOfRand (sockRand exNet).1 ++
              xorMask (maskOfRand (sockRand exNet).1) [1, 2, 3]))).1 =
          ((2 + (sendLength [1, 2, 3].length).2.length + 4 + [1, 2, 3].length : Nat) : Int)),
       xorMask (maskOfRand (sockRand exNet).1) [1, 2, 3],
       unpin (pin exState),
       (sockSendmsg (sockRand exNet).2
          ((0x80 ||| 2) :: (0x80 ||| (sendLength [1, 2, 3].length).1) ::
            ((sendLength [1, 2, 3].length).2 ++ maskOfRand (sockRand exNet).1 ++
              xorMask (maskOfRand (sockRand exNet).1) [1, 2, 3]))).2) ∧
    (maskOfRand (sockRand exNet).1).length = 4 ∧
    (xorMask (maskOfRand (sockRand exNet).1) [1, 2, 3]).length = [1, 2, 3].length ∧
    (∀ i, i < [1, 2, 3].length →
      (xorMask (maskOfRand (sockRand exNet).1) [1, 2, 3]).getD i 0 =
        [1, 2, 3].getD i 0 ^^^ (maskOfRand (sockRand exNet).1).getD (i % 4) 0) :=
  frame_encoding exState exNet [1, 2, 3] 2 (by decide) (by decide) (by decide)

/-- C19. For a payload length `n` below `2 ^ 64`, the length field
`WebSocket_sendWithOpcode` writes is the minimal one: `n` itself with no
extension when `n < 126`; 126 and the two bytes of `n`, high byte first, when
`126 ≤ n < 65536`; 127 and the eight bytes of `n`, high byte first, otherwise.
The length `WebSocket_receive` decodes from a header with this field (mask bit
set, any first byte, anything after the length) is `n`. -/
theorem length_roundtrip (n b0 : Nat) (tl : List Nat) (hn : n < 2 ^ 64) :
    (n < 126 → sendLength n = (n, [])) ∧
    (126 ≤ n → n < 65536 → sendLength n = (126, [n / 256, n % 256])) ∧
    (65536 ≤ n → sendLength n =
      (127, [n / 256 ^ 7 % 256, n / 256 ^ 6 % 256, n / 256 ^ 5 % 256, n / 256 ^ 4 % 256,
             n / 256 ^ 3 % 256, n / 256 ^ 2 % 256, n / 256 % 256, n % 256])) ∧
    (∀ b ∈ (sendLength n).2, b < 256) ∧
    fragmentLength (b0 :: (0x80 ||| (sendLength n).1) :: ((sendLength n).2 ++ tl)) = n := by
  rw [or_128 _ (sendLength_fst_lt n), sendLength_eq_wireLength n hn]
  refine ⟨fun h => wireLength_small n (by omega), fun h1 h2 => wireLength_mid n (by omega)
    (by omega), fun h => wireLength_big n (by omega), ?_, ?_⟩
  · intro b hb
    rcases wireLength_cases n with ⟨_, e⟩ | ⟨_, h2, e⟩ | ⟨_, e⟩
    · rw [e] at hb; simp at hb
    · rw [e] at hb
      simp only [List.mem_cons, List.mem_singleton, List.not_mem_nil, or_false] at hb
      rcases hb with rfl | rfl
      · apply Nat.div_lt_of_lt_mul; omega
      · exact Nat.mod_lt _ (by norm_num)
    · rw [e] at hb
      simp only [List.mem_cons, List.mem_singleton, List.not_mem_nil, or_false] at hb
      rcases hb with rfl | rfl | rfl | rfl | rfl | rfl | rfl | rfl <;>
        exact Nat.mod_lt _ (by norm_num)
  · rw [Nat.add_comm]
    exact fragmentLength_wire b0 128 n tl (Or.inr rfl) hn

theorem length_roundtrip_witness :
    (70000 < 126 → sendLength 70000 = (70000, [])) ∧
    (126 ≤ 70000 → 70000 < 65536 → sendLength 70000 = (126, [70000 / 256, 70000 % 256])) ∧
    (65536 ≤ 70000 → sendLength 70000 =
      (127, [70000 / 256 ^ 7 % 256, 70000 / 256 ^ 6 % 256, 70000 / 256 ^ 5 % 256,
             70000 / 256 ^ 4 % 256, 70000 / 256 ^ 3 % 256, 70000 / 256 ^ 2 % 256,
             70000 / 256 % 256, 70000 % 256])) ∧
    (∀ b ∈ (sendLength 70000).2, b < 256) ∧
    fragmentLength (0x82 :: (0x80 ||| (sendLength 70000).1) ::
      ((sendLength 70000).2 ++ [1, 2, 3, 4])) = 70000 :=
  length_roundtrip 70000 0x82 [1, 2, 3, 4] (by decide)

theorem unpin_pin_congr (s t : WebSocket) (h : s.sockfd_pin = t.sockfd_pin) :
    (unpin s).sockfd_pin = (unpin t).sockfd_pin := by
  simp only [unpin, h]

theorem failExit_cases (s : WebSocket) (io : Net) :
    (∃ st1 io1, failExit s io = .ret (0, st1, io1) ∧
      st1.sockfd_pin = (unpin s).sockfd_pin ∧ st1.sockfd = -1 ∧
      st1.head = s.head ∧ st1.endp = s.endp ∧ st1.buffer = s.buffer ∧
      st1.opcode = s.opcode ∧ st1.finished = s.finished) ∨
    (failExit s io = .hang ∧ (unpin s).sockfd_pin ≠ 0 ∧ s.sockfd ≠ -1) := by
  unfold failExit WebSocket_destroy
  simp only []
  by_cases h1 : (unpin s).sockfd = -1
  · rw [if_pos h1]
    exact Or.inl ⟨_, _, rfl, rfl, rfl, rfl, rfl, rfl, rfl, rfl⟩
  · rw [if_neg h1]
    by_cases h2 : (unpin s).sockfd_pin = 0
    · have h3 : ¬ (({ unpin s with sockfd := -1 } : WebSocket).sockfd_pin ≠ 0) := by
        simpa using h2
      rw [if_neg h3]
      exact Or.inl ⟨_, _, rfl, rfl, rfl, rfl, rfl, rfl, rfl, rfl⟩
    · have h3 : (({ unpin s with sockfd := -1 } : WebSocket).sockfd_pin ≠ 0) := h2
      rw [if_pos h3]
      exact Or.inr ⟨rfl, h2, h1⟩

theorem receiveLoop_total (fuel : Nat) : ∀ (st : WebSocket) (io : Net),
    io.stream.length < fuel → st.sockfd_pin < 2 ^ 32 →
    (∃ n st1 io1, receiveLoop fuel st io = .ret (n, st1, io1) ∧
      st1.sockfd_pin = (unpin st).sockfd_pin) ∨
    (receiveLoop fuel st io = .hang ∧ (unpin st).sockfd_pin ≠ 0 ∧ st.sockfd ≠ -1) := by
  induction fuel with
  | zero => intro st io h; exact absurd h (Nat.not_lt_zero _)
  | succ fuel ih =>
    intro st io hf hp
    have hk := receiveBody_kept st io hp
    have hlt := receiveBody_cont_lt st io
    simp only [receiveLoop]
    revert hk hlt
    generalize receiveBody st io = b
    intro hk hlt
    cases b with
    | cont s1 i1 =>
      have h1 := hlt s1 i1 rfl
      rcases ih s1 i1 (by omega) (by rw [hk.2.1]; exact hp) with
        ⟨n, st1, io1, e, e2⟩ | ⟨e, e2, e3⟩
      · exact Or.inl ⟨n, st1, io1, e, e2.trans (unpin_pin_congr _ _ hk.2.1)⟩
      · refine Or.inr ⟨e, ?_, ?_⟩
        · rw [← unpin_pin_congr _ _ hk.2.1]; exact e2
        · rw [← hk.1]; exact e3
    | done n s1 i1 => exact Or.inl ⟨n, s1, i1, rfl, hk.2.1⟩
    | fail s1 i1 =>
      rcases failExit_cases s1 i1 with ⟨st1, io1, e, e2, _⟩ | ⟨e, e2, e3⟩
      · exact Or.inl ⟨0, st1, io1, e, e2.trans (unpin_pin_congr _ _ hk.2.1)⟩
      · refine Or.inr ⟨e, ?_, ?_⟩
        · rw [← unpin_pin_congr _ _ hk.2.1]; exact e2
        · rw [← hk.1]; exact e3

theorem receive_total (st : WebSocket) (io : Net) (hp : st.sockfd_pin < 2 ^ 32) :
    (∃ n st1 io1, WebSocket_receive st io = .ret (n, st1, io1) ∧
      st1.sockfd_pin = st.sockfd_pin) ∨
    (WebSocket_receive st io = .hang ∧ st.sockfd_pin ≠ 0 ∧ st.sockfd ≠ -1) := by
  unfold WebSocket_receive
  simp only []
  have hu := unpin_pin st hp
  by_cases h : (pin st).sockfd = -1
  · rw [if_pos h]
    exact Or.inl ⟨_, _, _, rfl, by rw [hu]⟩
  · rw [if_neg h]
    have hp2 : (pin st).sockfd_pin < 2 ^ 32 := Nat.mod_lt _ (by norm_num)
    rcases receiveLoop_total (io.stream.length + 1) (pin st) io (Nat.lt_succ_self _) hp2 with
      ⟨n, st1, io1, e, e2⟩ | ⟨e, e2, e3⟩
    · exact Or.inl ⟨n, st1, io1, e, by rw [e2, hu]⟩
    · exact Or.inr ⟨e, by rw [hu] at e2; exact e2, e3⟩

theorem wait_state (st : WebSocket) (io : Net) (hp : st.sockfd_pin < 2 ^ 32) :
    (WebSocket_wait st io).2.1 = st := by
  unfold WebSocket_wait
  simp only []
  split_ifs <;> exact unpin_pin st hp

/-- C30. In a run with one thread, the counter of pins being a 32-bit value on
entry: `WebSocket_wait` and `WebSocket_sendWithOpcode` leave the state, the
counter of pins included, as it was; every return of `WebSocket_receive` leaves
the counter at its value on entry, the ping path (a send inside the receive)
and the fatal path included; and with the counter at 0 on entry, that is with
no other operation in flight, `WebSocket_receive` does return: the wait of
`WebSocket_destroy` for the counter to reach zero ends, the pin having been
released before. -/
theorem pin_balance (st : WebSocket) (io : Net) (P : List Nat) (op : Nat)
    (hp : st.sockfd_pin < 2 ^ 32) :
    (WebSocket_wait st io).2.1.sockfd_pin = st.sockfd_pin ∧
    (WebSocket_sendWithOpcode st P op io).2.2.1.sockfd_pin = st.sockfd_pin ∧
    (∀ n st1 io1, WebSocket_receive st io = .ret (n, st1, io1) →
      st1.sockfd_pin = st.sockfd_pin) ∧
    (st.sockfd_pin = 0 →
      ∃ n st1 io1, WebSocket_receive st io = .ret (n, st1, io1) ∧ st1.sockfd_pin = 0) := by
  refine ⟨by rw [wait_state st io hp], by rw [(sendWithOpcode_kept st P op io hp).1], ?_, ?_⟩
  · intro n st1 io1 h
    rcases receive_total st io hp with ⟨n2, st2, io2, e, e2⟩ | ⟨e, _⟩
    · rw [h] at e
      simp only [Outcome.ret.injEq, Prod.mk.injEq] at e
      rw [e.2.1]; exact e2
    · rw [h] at e; cases e
  · intro h0
    rcases receive_total st io hp with ⟨n2, st2, io2, e, e2⟩ | ⟨_, e2, _⟩
    · exact ⟨n2, st2, io2, e, e2.trans h0⟩
    · exact absurd h0 e2

theorem pin_balance_witness :
    (WebSocket_wait exState exNet).2.1.sockfd_pin = exState.sockfd_pin ∧
    (WebSocket_sendWithOpcode exState [1, 2, 3] 9 exNet).2.2.1.sockfd_pin =
      exState.sockfd_pin ∧
    (∀ n st1 io1, WebSocket_receive exState exNet = .ret (n, st1, io1) →
      st1.sockfd_pin = exState.sockfd_pin) ∧
    (exState.sockfd_pin = 0 →
      ∃ n st1 io1, WebSocket_receive exState exNet = .ret (n, st1, io1) ∧
        st1.sockfd_pin = 0) :=
  pin_balance exState exNet [1, 2, 3] 9 (by decide)

theorem deliver_length_le (io : Net) (k n : Nat) (peek : Bool) :
    (deliver io k n peek).1.length ≤ (n : Int) ∧
    (0 < (deliver io k n peek).1.length →
      (deliver io k n peek).1.data.length = (deliver io k n peek).1.length.toNat) := by
  unfold deliver
  simp only []
  by_cases h : min n (min k io.stream.length) = 0
  · rw [if_pos h]
    constructor
    · show (-1 : Int) ≤ n
      omega
    · intro h2; exact absurd h2 (show ¬ ((0 : Int) < -1) by decide)
  · rw [if_neg h]
    constructor
    · show ((min n (min k io.stream.length) : Nat) : Int) ≤ n
      exact Int.ofNat_le.mpr (Nat.min_le_left _ _)
    · intro _
      show (io.stream.take (min n (min k io.stream.length))).length = _
      rw [List.length_take]
      simp only [Int.toNat_ofNat]
      omega

theorem sockRecv_length_le (io : Net) (n : Nat) (peek : Bool) :
    (sockRecv io n peek).1.length ≤ (n : Int) ∧
    (0 < (sockRecv io n peek).1.length →
      (sockRecv io n peek).1.data.length = (sockRecv io n peek).1.length.toNat) := by
  unfold sockRecv
  split
  · exact deliver_length_le _ _ _ _
  · exact deliver_length_le _ _ _ _
  · exact ⟨Int.natCast_nonneg _, fun h => absurd h (show ¬ ((0 : Int) < 0) by decide)⟩
  · exact ⟨by show (-1 : Int) ≤ n; omega, fun h => absurd h (show ¬ ((0 : Int) < -1) by decide)⟩

theorem ptrDiff_of_le (p q : Nat) (h : q ≤ p) : ptrDiff p q = p - q := by
  unfold ptrDiff; rw [if_pos h]

theorem takeHeader_inv (st : WebSocket) (pl : Nat) (H : List Nat) (io : Net)
    (hi : CursorInv st) :
    CursorInv (takeHeader st pl H io).state ∧
    (takeHeader st pl H io).state.buffer = st.buffer := by
  unfold takeHeader
  rw [ptrDiff_of_le _ _ hi.2]
  by_cases hc : fragmentLength H > bufferSize - st.endp
  · rw [if_pos hc]; exact ⟨hi, rfl⟩
  · rw [if_neg hc]
    obtain ⟨h1, h2⟩ := hi
    refine ⟨?_, ?_⟩
    · unfold CursorInv
      dsimp only [Step.state]
      by_cases hf : st.finished = true
      · simp only [hf, if_true]
        constructor
        · split_ifs <;> simp
        · split_ifs <;> dsimp only <;> omega
      · simp only [hf]
        constructor
        · split_ifs <;> dsimp only <;> omega
        · split_ifs <;> dsimp only <;> omega
    · dsimp only [Step.state]
      split_ifs <;> rfl

theorem headerBranch_inv (st : WebSocket) (io : Net) (hi : CursorInv st) :
    CursorInv (headerBranch st io).state ∧ (headerBranch st io).state.buffer = st.buffer := by
  unfold headerBranch
  simp only []
  split_ifs
  · exact ⟨hi, rfl⟩
  · exact ⟨hi, rfl⟩
  · exact ⟨hi, rfl⟩
  · exact takeHeader_inv st _ _ _ hi

theorem writeBuf_beyond (b : Nat → Nat) (off : Nat) (data : List Nat) (j : Nat)
    (h : off + data.length ≤ j) : writeBuf b off data j = b j := by
  unfold writeBuf
  rw [if_neg (by omega)]

theorem takePayload_beyond (st : WebSocket) (data : List Nat) (len : Nat) (j : Nat)
    (h1 : st.head + data.length ≤ j) (h2 : st.head + len ≤ j) :
    (takePayload st data len).buffer j = st.buffer j := by
  unfold takePayload
  dsimp only
  split_ifs
  · exact writeBuf_beyond _ _ _ _ h1
  · unfold unmask
    rw [if_neg (by omega)]
    exact writeBuf_beyond _ _ _ _ h1

theorem payloadBranch_inv (st : WebSocket) (io : Net) (hi : CursorInv st) :
    CursorInv (payloadBranch st io).state ∧
    SameBeyond st.buffer (payloadBranch st io).state.buffer := by
  unfold payloadBranch
  simp only []
  have hl := sockRecv_length_le io (ptrDiff st.endp st.head) false
  rw [ptrDiff_of_le _ _ hi.1] at hl ⊢
  split_ifs with h1 h2
  · exact ⟨hi, fun _ _ => rfl⟩
  · exact ⟨hi, fun _ _ => rfl⟩
  · have hpos : 0 < (sockRecv io (st.endp - st.head) false).1.length := by omega
    have hd := hl.2 hpos
    have hle : (sockRecv io (st.endp - st.head) false).1.length.toNat ≤ st.endp - st.head := by
      have := hl.1
      omega
    obtain ⟨c1, c2⟩ := hi
    refine ⟨⟨?_, ?_⟩, ?_⟩
    · show st.head + _ ≤ st.endp
      omega
    · exact c2
    · intro j hj
      exact takePayload_beyond st _ _ j (by rw [hd]; omega) (by omega)

theorem branchStep_inv (st : WebSocket) (io : Net) (hi : CursorInv st) :
    CursorInv (branchStep st io).state ∧
    SameBeyond st.buffer (branchStep st io).state.buffer := by
  unfold branchStep
  split_ifs
  · have := headerBranch_inv st io hi
    exact ⟨this.1, fun j _ => by rw [this.2]⟩
  · exact payloadBranch_inv st io hi

theorem xorMask_length (M P : List Nat) : (xorMask M P).length = P.length := by
  simp [xorMask]

theorem sendWithOpcode_packet_length (st : WebSocket) (P : List Nat) (op : Nat) (io : Net) :
    (WebSocket_sendWithOpcode st P op io).2.1.length = P.length := by
  unfold WebSocket_sendWithOpcode
  simp only []
  split_ifs
  · rfl
  · exact xorMask_length _ _

theorem sendWithOpcode_cursors (st : WebSocket) (P : List Nat) (op : Nat) (io : Net) :
    (WebSocket_sendWithOpcode st P op io).2.2.1.head = st.head ∧
    (WebSocket_sendWithOpcode st P op io).2.2.1.endp = st.endp ∧
    (WebSocket_sendWithOpcode st P op io).2.2.1.buffer = st.buffer := by
  unfold WebSocket_sendWithOpcode
  simp only []
  split_ifs <;> exact ⟨rfl, rfl, rfl⟩

theorem dispatch_inv (st : WebSocket) (io : Net) (hi : CursorInv st) :
    CursorInv (dispatch st io).state ∧ SameBeyond st.buffer (dispatch st io).state.buffer := by
  unfold dispatch
  split_ifs with h1 h2 h3 h4 h5
  · exact ⟨hi, fun _ _ => rfl⟩
  · exact ⟨hi, fun _ _ => rfl⟩
  · exact ⟨hi, fun _ _ => rfl⟩
  · have hc := sendWithOpcode_cursors st (readBuf st.buffer 0 st.head) 0xa io
    have hl := sendWithOpcode_packet_length st (readBuf st.buffer 0 st.head) 0xa io
    revert hc hl
    generalize WebSocket_sendWithOpcode st (readBuf st.buffer 0 st.head) 0xa io = r
    obtain ⟨ok, pk, s1, i1⟩ := r
    simp only []
    intro hc hl
    obtain ⟨c1, c2, c3⟩ := hc
    have hpl : pk.length = st.head := by rw [hl]; simp [readBuf]
    have key : CursorInv { s1 with buffer := writeBuf s1.buffer 0 pk } ∧
        SameBeyond st.buffer (writeBuf s1.buffer 0 pk) := by
      refine ⟨⟨?_, ?_⟩, ?_⟩
      · show s1.head ≤ s1.endp
        rw [c1, c2]; exact hi.1
      · show s1.endp ≤ bufferSize
        rw [c2]; exact hi.2
      · intro j hj
        rw [writeBuf_beyond _ _ _ _ (by have := hi.1; have := hi.2; omega), c3]
    cases ok
    · exact key
    · exact key
  · exact ⟨hi, fun _ _ => rfl⟩
  · exact ⟨hi, fun _ _ => rfl⟩

theorem receiveBody_inv (st : WebSocket) (io : Net) (hi : CursorInv st) :
    CursorInv (receiveBody st io).state ∧
    SameBeyond st.buffer (receiveBody st io).state.buffer := by
  rw [receiveBody_eq]
  have hb := branchStep_inv st io hi
  revert hb
  generalize branchStep st io = b
  intro hb
  cases b with
  | cont s2 i2 =>
    simp only []
    split_ifs
    · have hd := dispatch_inv s2 i2 hb.1
      exact ⟨hd.1, fun j hj => (hd.2 j hj).trans (hb.2 j hj)⟩
    · exact hb
  | done n s2 i2 => exact hb
  | fail s2 i2 => exact hb

theorem passAt_inv (k : Nat) : ∀ (st : WebSocket) (io : Net) (s : WebSocket) (i : Net),
    CursorInv st → passAt k st io = some (s, i) →
    CursorInv s ∧ SameBeyond st.buffer s.buffer := by
  induction k with
  | zero =>
    intro st io s i hi h
    simp only [passAt, Option.some.injEq, Prod.mk.injEq] at h
    rw [← h.1]; exact ⟨hi, fun _ _ => rfl⟩
  | succ k ih =>
    intro st io s i hi h
    have hb := receiveBody_inv st io hi
    simp only [passAt] at h
    revert hb h
    generalize receiveBody st io = r
    intro h hb
    cases r with
    | cont s1 i1 =>
      have := ih s1 i1 s i hb.1 h
      exact ⟨this.1, fun j hj => (this.2 j hj).trans (hb.2 j hj)⟩
    | done n s1 i1 => cases h
    | fail s1 i1 => cases h

theorem receiveLoop_inv (fuel : Nat) : ∀ (st : WebSocket) (io : Net) (n : Nat)
    (st1 : WebSocket) (io1 : Net),
    CursorInv st → receiveLoop fuel st io = .ret (n, st1, io1) →
    CursorInv st1 ∧ SameBeyond st.buffer st1.buffer := by
  induction fuel with
  | zero => intro st io n st1 io1 _ h; cases h
  | succ fuel ih =>
    intro st io n st1 io1 hi h
    have hb := receiveBody_inv st io hi
    simp only [receiveLoop] at h
    revert hb h
    generalize receiveBody st io = r
    intro h hb
    cases r with
    | cont s1 i1 =>
      have := ih s1 i1 n st1 io1 hb.1 h
      exact ⟨this.1, fun j hj => (this.2 j hj).trans (hb.2 j hj)⟩
    | done m s1 i1 =>
      simp only [Outcome.ret.injEq, Prod.mk.injEq] at h
      rw [← h.2.1]; exact hb
    | fail s1 i1 =>
      rcases failExit_cases s1 i1 with ⟨st2, io2, e, _, _, e1, e2, e3, _⟩ | ⟨e, _⟩
      · simp only [] at h
        rw [e] at h
        simp only [Outcome.ret.injEq, Prod.mk.injEq] at h
        rw [← h.2.1]
        refine ⟨⟨?_, ?_⟩, ?_⟩
        · rw [e1, e2]; exact hb.1.1
        · rw [e2]; exact hb.1.2
        · intro j hj; rw [e3]; exact hb.2 j hj
      · simp only [] at h
        rw [e] at h; cases h

/-- C21. The state `WebSocket_init` sets has both cursors at offset 0. From a
state with `head ≤ end ≤ 0x8000`, on every stream and every script of the `recv`
and send calls: the state at the start of every pass of the loop of
`WebSocket_receive`, the state every pass ends with, and the state every call
returns satisfy `head ≤ end ≤ 0x8000` again; the bytes at offsets `0x8000` and
above are never written; and the size a payload `recv` is called with is
`end - head`, which is at most the room up to the capacity. -/
theorem cursor_invariant (st : WebSocket) (io : Net)
    (h1 : st.head ≤ st.endp) (h2 : st.endp ≤ bufferSize) :
    (∀ (st0 : WebSocket) (io0 : Net),
      (WebSocket_init st0 io0).2.head = 0 ∧ (WebSocket_init st0 io0).2.endp = 0) ∧
    (∀ k s i, passAt k (pin st) io = some (s, i) →
      s.head ≤ s.endp ∧ s.endp ≤ bufferSize ∧
      (∀ j, bufferSize ≤ j → s.buffer j = st.buffer j) ∧
      ptrDiff s.endp s.head = s.endp - s.head ∧ s.head + ptrDiff s.endp s.head ≤ bufferSize ∧
      (receiveBody s i).state.head ≤ (receiveBody s i).state.endp ∧
      (receiveBody s i).state.endp ≤ bufferSize ∧
      (∀ j, bufferSize ≤ j → (receiveBody s i).state.buffer j = st.buffer j)) ∧
    (∀ n st1 io1, WebSocket_receive st io = .ret (n, st1, io1) →
      st1.head ≤ st1.endp ∧ st1.endp ≤ bufferSize ∧
      (∀ j, bufferSize ≤ j → st1.buffer j = st.buffer j)) := by
  have hi : CursorInv (pin st) := ⟨h1, h2⟩
  refine ⟨fun st0 io0 => ⟨rfl, rfl⟩, ?_, ?_⟩
  · intro k s i hr
    obtain ⟨⟨a1, a2⟩, a3⟩ := passAt_inv k (pin st) io s i hi hr
    obtain ⟨⟨b1, b2⟩, b3⟩ := receiveBody_inv s i ⟨a1, a2⟩
    refine ⟨a1, a2, a3, ptrDiff_of_le _ _ a1, ?_, b1, b2,
      fun j hj => (b3 j hj).trans (a3 j hj)⟩
    rw [ptrDiff_of_le _ _ a1]; omega
  · intro n st1 io1 h
    unfold WebSocket_receive at h
    simp only [] at h
    split_ifs at h
    · simp only [Outcome.ret.injEq, Prod.mk.injEq] at h
      rw [← h.2.1]
      exact ⟨h1, h2, fun _ _ => rfl⟩
    · obtain ⟨⟨a1, a2⟩, a3⟩ := receiveLoop_inv _ (pin st) io n st1 io1 hi h
      exact ⟨a1, a2, a3⟩

theorem cursor_invariant_witness :
    (∀ (st0 : WebSocket) (io0 : Net),
      (WebSocket_init st0 io0).2.head = 0 ∧ (WebSocket_init st0 io0).2.endp = 0) ∧
    (∀ k s i, passAt k (pin exState) exNet = some (s, i) →
      s.head ≤ s.endp ∧ s.endp ≤ bufferSize ∧
      (∀ j, bufferSize ≤ j → s.buffer j = exState.buffer j) ∧
      ptrDiff s.endp s.head = s.endp - s.head ∧ s.head + ptrDiff s.endp s.head ≤ bufferSize ∧
      (receiveBody s i).state.head ≤ (receiveBody s i).state.endp ∧
      (receiveBody s i).state.endp ≤ bufferSize ∧
      (∀ j, bufferSize ≤ j → (receiveBody s i).state.buffer j = exState.buffer j)) ∧
    (∀ n st1 io1, WebSocket_receive exState exNet = .ret (n, st1, io1) →
      st1.head ≤ st1.endp ∧ st1.endp ≤ bufferSize ∧
      (∀ j, bufferSize ≤ j → st1.buffer j = exState.buffer j)) :=
  cursor_invariant exState exNet (by decide) (by decide)

theorem getD_take_of_lt (l : List Nat) (k i : Nat) (h : i < k) :
    (l.take k).getD i 0 = l.getD i 0 := by
  simp only [List.getD_eq_getElem?_getD, List.getElem?_take, h, if_true]

theorem headerBranch_short (st : WebSocket) (io : Net) (hs : io.sched = [])
    (hshort : io.stream.length < headerLen (io.stream.getD 1 0)) :
    headerBranch st io = .done 0 (unpin st) io := by
  have hb := headerLen_bounds (io.stream.getD 1 0)
  unfold headerBranch
  by_cases he : io.stream = []
  · rw [sockRecv_quiet_empty io 14 true hs he]
    have hl := headerLen_int_pos (([] : List Nat).getD 1 0)
    simp only []
    rw [if_neg (by simp), if_pos (by omega)]
  · rw [sockRecv_quiet_peek io 14 hs (by norm_num) he]
    have hpos : 0 < io.stream.length := List.length_pos.mpr he
    have hm : min 14 io.stream.length = io.stream.length := Nat.min_eq_right (by omega)
    simp only [hm]
    have hd : (List.take io.stream.length io.stream).getD 1 0 = io.stream.getD 1 0 := by
      rw [List.take_length]
    rw [hd, if_neg (by simp), if_pos (by omega)]

/-- C22. The size of a header is `2 + (2 if the 7-bit length is 126, 8 if it is
127, else 0) + (4 if the mask bit is set)`, between 2 and 14. On an open
connection that awaits a header, with fewer bytes pending on a quiet socket than
the header needs according to its second byte (a byte that has not arrived
counts as 0; no byte at all is included), `WebSocket_receive` returns 0 and
leaves the environment, hence the pending bytes, and the whole state as they
were. -/
theorem header_probe (st : WebSocket) (io : Net)
    (hfd : st.sockfd ≠ -1) (hp : st.sockfd_pin < 2 ^ 32) (hhe : st.head = st.endp)
    (hs : io.sched = []) (hshort : io.stream.length < headerLen (io.stream.getD 1 0)) :
    WebSocket_receive st io = .ret (0, st, io) ∧
    (∀ b, headerLen b =
        2 + (if b % 128 = 126 then 2 else if b % 128 = 127 then 8 else 0) +
          (if b / 128 % 2 = 1 then 4 else 0) ∧
      2 ≤ headerLen b ∧ headerLen b ≤ 14) := by
  constructor
  · rw [receive_open st io hfd, resume_cont, receiveBody_eq]
    unfold branchStep
    have hhe2 : (pin st).head = (pin st).endp := hhe
    rw [if_pos hhe2, headerBranch_short (pin st) io hs hshort]
    simp only [resume]
    rw [unpin_pin st hp]
  · intro b
    refine ⟨?_, headerLen_bounds b⟩
    unfold headerLen payloadLengthLen
    have : b / 128 % 2 = 0 ∨ b / 128 % 2 = 1 := by omega
    split_ifs <;> omega

theorem header_probe_witness :
    WebSocket_receive exState { exNet with stream := [0x82, 0xfe, 0x01] } =
      .ret (0, exState, { exNet with stream := [0x82, 0xfe, 0x01] }) ∧
    (∀ b, headerLen b =
        2 + (if b % 128 = 126 then 2 else if b % 128 = 127 then 8 else 0) +
          (if b / 128 % 2 = 1 then 4 else 0) ∧
      2 ≤ headerLen b ∧ headerLen b ≤ 14) :=
  header_probe exState { exNet with stream := [0x82, 0xfe, 0x01] } (by decide) (by decide) rfl
    rfl (by decide)

theorem takeHeader_not_done (st : WebSocket) (pl : Nat) (H : List Nat) (io : Net)
    (n : Nat) (s1 : WebSocket) (i1 : Net) : takeHeader st pl H io ≠ .done n s1 i1 := by
  unfold takeHeader
  intro h
  split_ifs at h

theorem branchStep_done (st : WebSocket) (io : Net) (n : Nat) (s1 : WebSocket) (i1 : Net)
    (h : branchStep st io = .done n s1 i1) : n = 0 := by
  unfold branchStep headerBranch payloadBranch at h
  simp only [] at h
  split_ifs at h
  · simp only [Step.done.injEq] at h; exact h.1.symm
  · exact absurd h (takeHeader_not_done _ _ _ _ _ _ _)
  · simp only [Step.done.injEq] at h; exact h.1.symm

theorem dispatch_done (st : WebSocket) (io : Net) (n : Nat) (s1 : WebSocket) (i1 : Net)
    (h : dispatch st io = .done n s1 i1) : st.opcode = 2 ∧ n = st.head ∧ s1 = unpin st := by
  unfold dispatch at h
  split_ifs at h with h1 h2 h3 h4 h5
  · simp only [Step.done.injEq] at h
    exact ⟨h2, h.1.symm, h.2.1.symm⟩
  · revert h
    generalize WebSocket_sendWithOpcode st (readBuf st.buffer 0 st.head) 0xa io = r
    obtain ⟨ok, pk, s2, i2⟩ := r
    simp only []
    intro h
    split_ifs at h

theorem receiveBody_done (st : WebSocket) (io : Net) (n : Nat) (s1 : WebSocket) (i1 : Net)
    (h : receiveBody st io = .done n s1 i1) (hn : n ≠ 0) :
    s1.opcode = 2 ∧ s1.finished = true ∧ s1.head = n ∧ s1.endp = n := by
  rw [receiveBody_eq] at h
  have hb := branchStep_done st io
  revert hb h
  generalize branchStep st io = b
  intro h hb
  cases b with
  | cont s2 i2 =>
    simp only [] at h
    split_ifs at h with hc
    obtain ⟨e1, e2, e3⟩ := dispatch_done s2 i2 n s1 i1 h
    subst e3
    exact ⟨e1, hc.2, e2.symm, by rw [e2]; exact hc.1.symm⟩
  | done m s2 i2 =>
    simp only [Step.done.injEq] at h
    exact absurd ((hb m s2 i2 rfl).symm.trans h.1).symm hn
  | fail s2 i2 => cases h

theorem receiveLoop_nonzero (fuel : Nat) : ∀ (st : WebSocket) (io : Net) (n : Nat)
    (st1 : WebSocket) (io1 : Net),
    receiveLoop fuel st io = .ret (n, st1, io1) → n ≠ 0 →
    st1.opcode = 2 ∧ st1.finished = true ∧ st1.head = n ∧ st1.endp = n := by
  induction fuel with
  | zero => intro st io n st1 io1 h; cases h
  | succ fuel ih =>
    intro st io n st1 io1 h hn
    simp only [receiveLoop] at h
    have hd := receiveBody_done st io
    revert hd h
    generalize receiveBody st io = r
    intro h hd
    cases r with
    | cont s1 i1 => exact ih s1 i1 n st1 io1 h hn
    | done m s1 i1 =>
      simp only [Outcome.ret.injEq, Prod.mk.injEq] at h
      obtain ⟨e1, e2, _⟩ := h
      subst e1 e2
      exact hd m s1 i1 rfl hn
    | fail s1 i1 =>
      rcases failExit_cases s1 i1 with ⟨st2, io2, e, _⟩ | ⟨e, _⟩
      · simp only [] at h
        rw [e] at h
        simp only [Outcome.ret.injEq, Prod.mk.injEq] at h
        exact absurd h.1.symm hn
      · simp only [] at h
        rw [e] at h; cases h

/-- C29. On an open connection that awaits a new message, a binary message in
one frame with an empty payload makes `WebSocket_receive` return 0, the frame
consumed and the handle as it was; 0 is also what the call returns when nothing
is pending and when the handle is -1. Whenever `WebSocket_receive` returns a
value `n` other than 0, the state holds a complete binary message of `n` bytes:
the opcode is `0x2`, `finished` is set and both cursors stand at `n`. -/
theorem empty_binary_message (st : WebSocket) (io : Net) (key : Option (Nat → Nat))
    (hfd : st.sockfd ≠ -1) (hp : st.sockfd_pin < 2 ^ 32) (hs : io.sched = [])
    (hio : io.stream = wireFrame true 2 key [])
    (hhe : st.head = st.endp) (he : st.endp ≤ bufferSize) (hfin : st.finished = true) :
    WebSocket_receive st io =
      .ret (0, afterFrame st io.now true 2 key [], { io with stream := [] }) ∧
    (afterFrame st io.now true 2 key []).sockfd = st.sockfd ∧
    WebSocket_receive st { io with stream := [] } = .ret (0, st, { io with stream := [] }) ∧
    WebSocket_receive { st with sockfd := -1 } io = .ret (0, { st with sockfd := -1 }, io) ∧
    (∀ (s : WebSocket) (i : Net) (n : Nat) (s1 : WebSocket) (i1 : Net),
      WebSocket_receive s i = .ret (n, s1, i1) → n ≠ 0 →
      1 ≤ n ∧ s1.opcode = 2 ∧ s1.finished = true ∧ s1.head = n ∧ s1.endp = n) := by
  refine ⟨?_, rfl, ?_, receive_closed _ _ rfl hp, ?_⟩
  · have h := receive_binary_frame st io key [] hfd hs hio hhe he hfin (Nat.zero_le _)
    rw [h, afterFrame_unpin _ _ _ _ _ _ hp]
    rfl
  · rw [receive_open st _ hfd, resume_idle (pin st) { io with stream := [] } hs rfl,
      unpin_pin st hp]
  · intro s i n s1 i1 h hn
    refine ⟨Nat.one_le_iff_ne_zero.mpr hn, ?_⟩
    unfold WebSocket_receive at h
    simp only [] at h
    split_ifs at h
    · simp only [Outcome.ret.injEq, Prod.mk.injEq] at h
      exact absurd h.1.symm hn
    · exact receiveLoop_nonzero _ _ _ _ _ _ h hn

theorem empty_binary_message_witness :
    WebSocket_receive exState { exNet with stream := [0x82, 0x00] } =
      .ret (0, afterFrame exState { exNet with stream := [0x82, 0x00] }.now true 2 none [],
        { { exNet with stream := [0x82, 0x00] } with stream := [] }) ∧
    (afterFrame exState { exNet with stream := [0x82, 0x00] }.now true 2 none []).sockfd =
      exState.sockfd ∧
    WebSocket_receive exState { { exNet with stream := [0x82, 0x00] } with stream := [] } =
      .ret (0, exState, { { exNet with stream := [0x82, 0x00] } with stream := [] }) ∧
    WebSocket_receive { exState with sockfd := -1 } { exNet with stream := [0x82, 0x00] } =
      .ret (0, { exState with sockfd := -1 }, { exNet with stream := [0x82, 0x00] }) ∧
    (∀ (s : WebSocket) (i : Net) (n : Nat) (s1 : WebSocket) (i1 : Net),
      WebSocket_receive s i = .ret (n, s1, i1) → n ≠ 0 →
      1 ≤ n ∧ s1.opcode = 2 ∧ s1.finished = true ∧ s1.head = n ∧ s1.endp = n) :=
  empty_binary_message exState { exNet with stream := [0x82, 0x00] } none (by decide)
    (by decide) rfl rfl rfl (by decide) rfl

/-- Two binary messages in a row, each in one frame, on a connection that awaits
a new message: the first call delivers the first; when the second fits the
buffer but not the room left after the first, the second call refuses it and
tears the connection down. -/
theorem binary_then_binary_oversize (st : WebSocket) (io : Net) (k1 k2 : Option (Nat → Nat))
    (A B : List Nat)
    (hfd : st.sockfd ≠ -1) (hpin : st.sockfd_pin = 0) (hs : io.sched = [])
    (hio : io.stream = wireFrame true 2 k1 A ++ wireFrame true 2 k2 B)
    (hhe : st.head = st.endp) (he : st.endp ≤ bufferSize) (hfin : st.finished = true)
    (hA : A.length ≤ bufferSize - st.endp) (hB : bufferSize - A.length < B.length)
    (hB2 : B.length < 2 ^ 64) :
    WebSocket_receive st io =
      .ret (A.length, afterFrame st io.now true 2 k1 A,
        { io with stream := wireFrame true 2 k2 B }) ∧
    WebSocket_receive (afterFrame st io.now true 2 k1 A)
        { io with stream := wireFrame true 2 k2 B } =
      .ret (0, { afterFrame st io.now true 2 k1 A with sockfd := -1 },
        { io with stream := wirePayload k2 B, shutdowns := io.shutdowns ++ [st.sockfd],
                  closes := io.closes ++ [st.sockfd] }) := by
  have hp : st.sockfd_pin < 2 ^ 32 := by rw [hpin]; norm_num
  have hpf : (pin st).finished = true := hfin
  have hh1 : (afterFrame st io.now true 2 k1 A).head = A.length := by
    rw [afterFrame_head, hfin]; simp
  have he1 : (afterFrame st io.now true 2 k1 A).endp = A.length := by
    rw [afterFrame_endp, hfin]; simp
  have hAb : A.length ≤ bufferSize := le_trans hA (Nat.sub_le _ _)
  constructor
  · rw [receive_message_frame st io 2 k1 A (wireFrame true 2 k2 B) hfd hs hio hhe he
      (by norm_num) hA]
    rw [dispatch_binary _ _ (afterFrame_opcode _ _ _ _ _ _ hpf)]
    simp only [resume]
    rw [afterFrame_unpin _ _ _ _ _ _ hp]
    have : (afterFrame (pin st) io.now true 2 k1 A).head = A.length := by
      rw [afterFrame_head, hpf]; simp
    rw [this]
  · exact receive_reject (afterFrame st io.now true 2 k1 A)
      { io with stream := wireFrame true 2 k2 B } (wireHeader true 2 k2 B.length)
      (wirePayload k2 B) hfd hpin (by rw [hh1, he1]) (by rw [he1]; exact hAb) hs rfl
      (wireHeader_length _ _ _ _)
      (by rw [he1, wireHeader_fragmentLength _ _ _ _ hB2]; exact hB)

/-- C27 (failing input). Two unmasked binary messages of 20000 bytes each, one
frame each, on an open connection that awaits a new message. The first call of
`WebSocket_receive` returns 20000. The second call refuses the second frame,
whose declared length 20000 is below the capacity `0x8000`: it returns 0 and the
connection is closed. -/
theorem second_message_refused :
    ∃ st1 io1 st2 io2,
      WebSocket_receive exState
        { exNet with stream := wireFrame true 2 none (List.replicate 20000 7) ++
                               wireFrame true 2 none (List.replicate 20000 9) } =
        .ret (20000, st1, io1) ∧
      st1.finished = true ∧ st1.sockfd = 3 ∧
      WebSocket_receive st1 io1 = .ret (0, st2, io2) ∧
      st2.sockfd = -1 ∧ io2.shutdowns = [3] ∧ io2.closes = [3] ∧
      (List.replicate 20000 9).length ≤ bufferSize := by
  have h := binary_then_binary_oversize exState
    { exNet with stream := wireFrame true 2 none (List.replicate 20000 7) ++
                           wireFrame true 2 none (List.replicate 20000 9) }
    none none (List.replicate 20000 7) (List.replicate 20000 9) (by decide) rfl rfl rfl rfl
    (Nat.zero_le _) rfl
    (by rw [List.length_replicate]; simp only [bufferSize, exState]; norm_num)
    (by rw [List.length_replicate, List.length_replicate]; simp only [bufferSize]; norm_num)
    (by rw [List.length_replicate]; norm_num)
  rw [List.length_replicate] at h
  exact ⟨_, _, _, _, h.1, rfl, rfl, h.2, rfl, rfl, rfl,
    by rw [List.length_replicate]; simp only [bufferSize]; norm_num⟩

theorem afterFrame_opcode_irrel (st : WebSocket) (now : Int) (fin : Bool) (op op2 : Nat)
    (key : Option (Nat → Nat)) (P : List Nat) (hf : st.finished = false) :
    afterFrame st now fin op key P = afterFrame st now fin op2 key P := by
  simp only [afterFrame, afterHeader, hf, Bool.false_eq_true, if_false]

theorem resume_opcode_ignored (fs fs2 : List Frame) (h : List.Forall₂ SameButOpcode fs fs2) :
    ∀ (st : WebSocket) (io : Net) (rest : List Nat),
    st.finished = false → st.head = st.endp → io.sched = [] →
    (∀ f ∈ fs.dropLast, f.fin = false) →
    st.endp + payloadTotal fs ≤ bufferSize →
    resume (.cont st { io with stream := wireFrames fs ++ rest }) =
      resume (.cont st { io with stream := wireFrames fs2 ++ rest }) := by
  induction h with
  | nil => intro st io rest _ _ _ _ _; rfl
  | @cons a b l1 l2 hab hl ih =>
    intro st io rest hf hhe hs hprog hfit
    obtain ⟨e1, e2, e3, o1, o2⟩ := hab
    have hfit2 : st.endp + (a.payload.length + payloadTotal l1) ≤ bufferSize := by
      simpa [payloadTotal] using hfit
    have he : st.endp ≤ bufferSize := by omega
    have hn : a.payload.length ≤ bufferSize - st.endp := by omega
    rw [resume_frame st { io with stream := wireFrames (a :: l1) ++ rest } a.fin a.opcode a.key
      a.payload (wireFrames l1 ++ rest) hs (by simp [wireFrames]) hhe he o1 hn]
    rw [resume_frame st { io with stream := wireFrames (b :: l2) ++ rest } b.fin b.opcode b.key
      b.payload (wireFrames l2 ++ rest) hs (by simp [wireFrames]) hhe he o2 (by rw [← e3]; exact hn)]
    rw [← e1, ← e2, ← e3, afterFrame_opcode_irrel st _ a.fin b.opcode a.opcode a.key a.payload hf]
    cases hfa : a.fin with
    | false =>
      simp only [Bool.false_eq_true, if_false]
      have hst : (afterFrame st io.now false a.opcode a.key a.payload).finished = false := rfl
      have hh1 : (afterFrame st io.now false a.opcode a.key a.payload).head =
          st.head + a.payload.length := by
        rw [afterFrame_head, hf]; simp
      have he1 : (afterFrame st io.now false a.opcode a.key a.payload).endp =
          st.endp + a.payload.length := by
        rw [afterFrame_endp, hf]; simp
      have hprog2 : ∀ f ∈ l1.dropLast, f.fin = false := by
        intro f hfm
        apply hprog
        cases l1 with
        | nil => simp at hfm
        | cons c l => simp only [List.dropLast_cons₂, List.mem_cons]; exact Or.inr hfm
      exact ih (afterFrame st io.now false a.opcode a.key a.payload) io rest hst
        (by rw [hh1, he1, hhe]) hs hprog2 (by rw [he1]; omega)
    | true =>
      simp only [if_true]
      cases hl with
      | nil => rfl
      | @cons c d l3 l4 hcd hl2 =>
        have := hprog a (by simp)
        rw [hfa] at this
        cases this

/-- C28. A message is in progress (`finished` is not set) on an open connection
that awaits a header, and the frames that follow on a quiet socket belong to it:
all but the last have `fin = 0`, and their payloads fit the room left. Then two
streams whose frames differ at most in their opcodes make `WebSocket_receive`
end the same way: same return value, same state (the buffer included), same
environment (the bytes sent included). In particular a frame with `fin = 0` and
any opcode, that of a ping or close included, is appended exactly as a
continuation frame (opcode 0) is, the call returns 0, and the environment shows
no send, no `shutdown` and no `close`. -/
theorem continuation_opcode_ignored (st : WebSocket) (io : Net) (fs fs2 : List Frame)
    (rest : List Nat) (op : Nat) (key : Option (Nat → Nat)) (P : List Nat)
    (hfd : st.sockfd ≠ -1) (hp : st.sockfd_pin < 2 ^ 32)
    (hf : st.finished = false) (hhe : st.head = st.endp) (hs : io.sched = [])
    (hrel : List.Forall₂ SameButOpcode fs fs2)
    (hprog : ∀ f ∈ fs.dropLast, f.fin = false)
    (hfit : st.endp + payloadTotal fs ≤ bufferSize)
    (hop : op < 16) (hP : st.endp + P.length ≤ bufferSize) :
    WebSocket_receive st { io with stream := wireFrames fs ++ rest } =
      WebSocket_receive st { io with stream := wireFrames fs2 ++ rest } ∧
    WebSocket_receive st { io with stream := wireFrame false op key P } =
      .ret (0, afterFrame st io.now false 0 key P, { io with stream := [] }) := by
  constructor
  · rw [receive_open st _ hfd, receive_open st _ hfd]
    exact resume_opcode_ignored fs fs2 hrel (pin st) io rest hf hhe hs hprog hfit
  · have he : st.endp ≤ bufferSize := by omega
    rw [receive_open st _ hfd,
      resume_frame (pin st) { io with stream := wireFrame false op key P } false op key P []
        hs (by simp) hhe he hop (by show P.length ≤ bufferSize - st.endp; omega)]
    simp only [Bool.false_eq_true, if_false]
    rw [resume_idle (afterFrame (pin st) io.now false op key P) { io with stream := [] } hs rfl,
      afterFrame_unpin _ _ _ _ _ _ hp, afterFrame_opcode_irrel st _ false op 0 key P hf]

theorem continuation_opcode_ignored_witness :
    WebSocket_receive { exState with finished := false, opcode := 2 }
        { exNet with stream := wireFrames [⟨false, 9, none, [1, 2]⟩, ⟨true, 8, none, [3]⟩] ++
          [0x55] } =
      WebSocket_receive { exState with finished := false, opcode := 2 }
        { exNet with stream := wireFrames [⟨false, 0, none, [1, 2]⟩, ⟨true, 0, none, [3]⟩] ++
          [0x55] } ∧
    WebSocket_receive { exState with finished := false, opcode := 2 }
        { exNet with stream := wireFrame false 9 none [7, 8] } =
      .ret (0, afterFrame { exState with finished := false, opcode := 2 } exNet.now false 0
        none [7, 8], { exNet with stream := [] }) :=
  continuation_opcode_ignored { exState with finished := false, opcode := 2 } exNet
    [⟨false, 9, none, [1, 2]⟩, ⟨true, 8, none, [3]⟩]
    [⟨false, 0, none, [1, 2]⟩, ⟨true, 0, none, [3]⟩] [0x55] 9 none [7, 8]
    (by decide) (by decide) rfl rfl rfl
    (List.Forall₂.cons ⟨rfl, rfl, rfl, by decide, by decide⟩
      (List.Forall₂.cons ⟨rfl, rfl, rfl, by decide, by decide⟩ List.Forall₂.nil))
    (by decide) (by decide) (by decide) (by decide)

theorem getD_drop_take (l : List Nat) (j c i : Nat) (hi : i < c) :
    ((l.drop j).take c).getD i 0 = l.getD (j + i) 0 := by
  simp only [List.getD_eq_getElem?_getD, List.getElem?_take, hi, if_true, List.getElem?_drop]

theorem length_drop_take (l : List Nat) (j c : Nat) (h : j + c ≤ l.length) :
    ((l.drop j).take c).length = c := by
  rw [List.length_take, List.length_drop]; omega

theorem wirePayload_getD (key : Option (Nat → Nat)) (P : List Nat) (i : Nat)
    (hi : i < P.length) :
    (wirePayload key P).getD i 0 =
      P.getD i 0 ^^^ (match key with | none => 0 | some k => k (i % 4)) := by
  cases key with
  | none => simp [wirePayload]
  | some k => simp only [wirePayload]; exact wireMask_getD k P i hi

theorem afterHeader_mask_apply (st : WebSocket) (now : Int) (fin : Bool) (op : Nat)
    (key : Option (Nat → Nat)) (n i : Nat) :
    (afterHeader st now fin op key n).mask (((afterHeader st now fin op key n).head + i) % 4) =
      (match key with | none => 0 | some k => k (i % 4)) := by
  cases key with
  | none =>
    simp only [afterHeader, maskClear]
    rw [if_pos (Nat.mod_lt _ (by decide))]
  | some k =>
    simp only [afterHeader]
    exact maskRotate_apply _ _ _ _

theorem midFrame_step (st : WebSocket) (now : Int) (fin : Bool) (op : Nat)
    (key : Option (Nat → Nat)) (P : List Nat) (j c : Nat) (h : j + c ≤ P.length) :
    takePayload (midFrame st now fin op key P j) (((wirePayload key P).drop j).take c) c =
      midFrame st now fin op key P (j + c) := by
  have hb := takePayload_buffer (midFrame st now fin op key P j)
    (((wirePayload key P).drop j).take c) c
  have hcl := length_drop_take (wirePayload key P) j c (by rw [wirePayload_length]; exact h)
  have key2 : unmask (writeBuf (midFrame st now fin op key P j).buffer
      (midFrame st now fin op key P j).head (((wirePayload key P).drop j).take c))
      (midFrame st now fin op key P j).mask (midFrame st now fin op key P j).head c =
      writeBuf st.buffer (afterHeader st now fin op key P.length).head (P.take (j + c)) := by
    funext x
    show unmask (writeBuf (writeBuf st.buffer (afterHeader st now fin op key P.length).head
        (P.take j)) ((afterHeader st now fin op key P.length).head + j)
        (((wirePayload key P).drop j).take c))
      (afterHeader st now fin op key P.length).mask
      ((afterHeader st now fin op key P.length).head + j) c x = _
    generalize hbase : (afterHeader st now fin op key P.length).head = base
    have hmask := fun i => afterHeader_mask_apply st now fin op key P.length i
    rw [hbase] at hmask
    unfold unmask writeBuf
    rw [hcl]
    have hl1 : (P.take j).length = j := by rw [List.length_take]; omega
    have hl2 : (P.take (j + c)).length = j + c := by rw [List.length_take]; omega
    rw [hl1, hl2]
    by_cases hx : base + j ≤ x ∧ x < base + j + c
    · rw [if_pos hx, if_pos hx, if_pos (by omega)]
      obtain ⟨i, rfl⟩ : ∃ i, x = base + j + i := ⟨x - (base + j), by omega⟩
      have hi : i < c := by omega
      rw [Nat.add_sub_cancel_left, getD_drop_take _ _ _ _ hi,
        wirePayload_getD key P (j + i) (by omega)]
      have : base + j + i = base + (j + i) := by omega
      rw [this, hmask (j + i), Nat.add_sub_cancel_left, Nat.xor_cancel_right,
        getD_take_of_lt _ _ _ (by omega)]
    · rw [if_neg hx, if_neg hx]
      by_cases hy : base ≤ x ∧ x < base + j
      · rw [if_pos hy, if_pos (by omega), getD_take_of_lt _ _ _ (by omega),
          getD_take_of_lt _ _ _ (by omega)]
      · rw [if_neg hy, if_neg (by omega)]
  rw [key2] at hb
  have e : takePayload (midFrame st now fin op key P j) (((wirePayload key P).drop j).take c) c =
      { midFrame st now fin op key P j with
        buffer := (takePayload (midFrame st now fin op key P j)
          (((wirePayload key P).drop j).take c) c).buffer
        head := (midFrame st now fin op key P j).head + c } := rfl
  rw [e, hb]
  simp only [midFrame, Nat.add_assoc]

theorem midFrame_zero (st : WebSocket) (now : Int) (fin : Bool) (op : Nat)
    (key : Option (Nat → Nat)) (P : List Nat) :
    midFrame st now fin op key P 0 = afterHeader st now fin op key P.length := by
  simp only [midFrame, List.take_zero, writeBuf_nil, Nat.add_zero]
  rfl

theorem midFrame_full (st : WebSocket) (now : Int) (fin : Bool) (op : Nat)
    (key : Option (Nat → Nat)) (P : List Nat) :
    midFrame st now fin op key P P.length = afterFrame st now fin op key P := by
  simp only [midFrame, afterFrame, List.take_length]

theorem midFrame_head (st : WebSocket) (now : Int) (fin : Bool) (op : Nat)
    (key : Option (Nat → Nat)) (P : List Nat) (j : Nat) :
    (midFrame st now fin op key P j).head = (if st.finished then 0 else st.head) + j := rfl

theorem midFrame_endp (st : WebSocket) (now : Int) (fin : Bool) (op : Nat)
    (key : Option (Nat → Nat)) (P : List Nat) (j : Nat) :
    (midFrame st now fin op key P j).endp = (if st.finished then 0 else st.endp) + P.length :=
  rfl

theorem midFrame_unpin (st : WebSocket) (now : Int) (fin : Bool) (op : Nat)
    (key : Option (Nat → Nat)) (P : List Nat) (j : Nat) (h : st.sockfd_pin < 2 ^ 32) :
    unpin (midFrame (pin st) now fin op key P j) = midFrame st now fin op key P j := by
  have := unpin_pin st h
  have e : unpin (midFrame (pin st) now fin op key P j) =
      midFrame (unpin (pin st)) now fin op key P j := rfl
  rw [e, this]

theorem resume_mid_part (st : WebSocket) (io : Net) (fin : Bool) (op : Nat)
    (key : Option (Nat → Nat)) (P : List Nat) (j c : Nat) (now : Int)
    (hs : io.sched = []) (hhe : st.head = st.endp) (hc : 0 < c) (hjc : j + c < P.length)
    (hio : io.stream = ((wirePayload key P).drop j).take c) :
    resume (.cont (midFrame st now fin op key P j) io) =
      .ret (0, unpin (midFrame st now fin op key P (j + c)), { io with stream := [] }) := by
  have hcl := length_drop_take (wirePayload key P) j c (by rw [wirePayload_length]; omega)
  have hlen : io.stream.length = c := by rw [hio, hcl]
  have hlt : (midFrame st now fin op key P j).head < (midFrame st now fin op key P j).endp := by
    rw [midFrame_head, midFrame_endp, ← hhe]; omega
  have hpart := payloadBranch_part (midFrame st now fin op key P j) io hs hlt (by omega)
    (by rw [midFrame_head, midFrame_endp, ← hhe, hlen]; omega)
  rw [hlen, hio, midFrame_step st now fin op key P j c (by omega)] at hpart
  rw [resume_cont]
  unfold receiveBody
  rw [if_neg (by omega), hpart]
  simp only []
  rw [if_neg (by
    rw [midFrame_head, midFrame_endp, ← hhe]
    intro h; have := h.1; omega)]
  exact resume_idle _ _ hs rfl

theorem resume_mid_full (st : WebSocket) (io : Net) (fin : Bool) (op : Nat)
    (key : Option (Nat → Nat)) (P rest : List Nat) (j : Nat) (now : Int)
    (hs : io.sched = []) (hhe : st.head = st.endp) (hj : j < P.length)
    (hio : io.stream = ((wirePayload key P).drop j).take (P.length - j) ++ rest) :
    resume (.cont (midFrame st now fin op key P j) io) =
      resume (if fin then dispatch (afterFrame st now fin op key P) { io with stream := rest }
              else .cont (afterFrame st now fin op key P) { io with stream := rest }) := by
  have hcl := length_drop_take (wirePayload key P) j (P.length - j)
    (by rw [wirePayload_length]; omega)
  have hlt : (midFrame st now fin op key P j).head < (midFrame st now fin op key P j).endp := by
    rw [midFrame_head, midFrame_endp, ← hhe]; omega
  have hq := payloadBranch_quiet (midFrame st now fin op key P j) io _ rest hs hio hlt
    (by rw [hcl, midFrame_head, midFrame_endp, ← hhe]; omega)
  rw [hcl, midFrame_step st now fin op key P j (P.length - j) (by omega)] at hq
  have e : j + (P.length - j) = P.length := by omega
  rw [e, midFrame_full] at hq
  rw [resume_cont]
  unfold receiveBody
  rw [if_neg (by omega), hq]
  simp only [afterFrame_head, afterFrame_endp, afterFrame_finished, ← hhe, true_and]

theorem arrived_zero (st : WebSocket) (now : Int) (fin : Bool) (op : Nat)
    (key : Option (Nat → Nat)) (P : List Nat) :
    arrived st now fin op key P 0 = (st, []) := by
  unfold arrived
  have := wireHeader_length fin op key P.length
  have := headerLen_pos ((wireHeader fin op key P.length).getD 1 0)
  rw [if_pos (by omega), List.take_zero]

theorem writeBuf_at (b : Nat → Nat) (off : Nat) (data : List Nat) (j : Nat)
    (h : j < data.length) : writeBuf b off data (off + j) = data.getD j 0 := by
  unfold writeBuf
  rw [if_pos (by omega), Nat.add_sub_cancel_left]

theorem requestHead_length : requestHead.length = 98 := by decide

theorem requestTail_length : requestTail.length = 31 := by decide

theorem keyOfValue_length (v : Nat) : (keyOfValue v).length = 16 := by
  simp [keyOfValue]

theorem keyOfValue_mem (v c : Nat) (h : c ∈ keyOfValue v) : 32 ≤ c ∧ c ≤ 127 := by
  simp only [keyOfValue, List.mem_map, List.mem_range] at h
  obtain ⟨i, _, rfl⟩ := h
  have := Nat.mod_lt (v / 96 ^ i) (show 0 < 96 by norm_num)
  omega

theorem keyOfValue_getD (v i : Nat) (h : i < 16) :
    (keyOfValue v).getD i 0 = v / 96 ^ i % 96 + 32 := by
  simp only [keyOfValue]
  rw [List.getD_eq_getElem _ _ (by simpa using h)]
  simp only [List.getElem_map, List.getElem_range]
  have := Nat.mod_lt (v / 96 ^ i) (show 0 < 96 by norm_num)
  omega

theorem takeWhile_all (l : List Nat) (h : ∀ c ∈ l, c ≠ 0) :
    l.takeWhile (fun c => c ≠ 0) = l := by
  induction l with
  | nil => rfl
  | cons a t ih =>
    have ha : a ≠ 0 := h a (by simp)
    simp only [List.takeWhile_cons, ha, ne_eq, not_false_eq_true, decide_True, if_true]
    rw [ih (fun c hc => h c (by simp [hc]))]

theorem printedKey_keyOfValue (v : Nat) : printedKey (keyOfValue v) = keyOfValue v := by
  unfold printedKey
  rw [List.take_of_length_le (by rw [keyOfValue_length])]
  apply takeWhile_all
  intro c hc
  have := keyOfValue_mem v c hc
  omega

theorem request_length (v : Nat) :
    (requestHead ++ printedKey (keyOfValue v) ++ requestTail).length = 145 := by
  rw [printedKey_keyOfValue, List.length_append, List.length_append, requestHead_length,
    requestTail_length, keyOfValue_length]

theorem keyValueOf_lt (r0 r1 r2 r3 : Nat) : keyValueOf r0 r1 r2 r3 < 2 ^ 128 := by
  unfold keyValueOf
  have h0 : r0 % 2 ^ 32 < 2 ^ 32 := Nat.mod_lt _ (by norm_num)
  have h1 : r1 % 2 ^ 32 < 2 ^ 32 := Nat.mod_lt _ (by norm_num)
  have h2 : r2 % 2 ^ 32 < 2 ^ 32 := Nat.mod_lt _ (by norm_num)
  have h3 : r3 % 2 ^ 32 < 2 ^ 32 := Nat.mod_lt _ (by norm_num)
  simp only [Nat.shiftLeft_eq]
  refine Nat.or_lt_two_pow (Nat.or_lt_two_pow (Nat.or_lt_two_pow ?_ ?_) ?_) ?_
  · omega
  · omega
  · omega
  · omega

theorem handshake_unfold (st : WebSocket) (io : Net) :
    WebSocket_handshake st io =
      (if (sockConnect io st.sockfd).1 ≠ 0 then .ret (false, (sockConnect io st.sockfd).2)
       else if (sockSendmsg (handshakeKey (sockConnect io st.sockfd).2).2
            (requestHead ++ (handshakeKey (sockConnect io st.sockfd).2).1 ++ requestTail)).1
            ≠ 145 then
         .ret (false, (sockSendmsg (handshakeKey (sockConnect io st.sockfd).2).2
            (requestHead ++ (handshakeKey (sockConnect io st.sockfd).2).1 ++ requestTail)).2)
       else
         match readResponse 0x2000 []
           (sockSendmsg (handshakeKey (sockConnect io st.sockfd).2).2
             (requestHead ++ (handshakeKey (sockConnect io st.sockfd).2).1 ++
               requestTail)).2 with
         | .ret (none, io3) => .ret (false, io3)
         | .ret (some buffer, io3) =>
           (checkResponse buffer (handshakeKey (sockConnect io st.sockfd).2).1).map
             (fun b => (b, io3))
         | .abort => .abort
         | .hang => .hang
         | .nofuel => .nofuel) := by
  unfold WebSocket_handshake
  simp only []
  have hk : ∀ i : Net, printedKey (handshakeKey i).1 = (handshakeKey i).1 := fun i =>
    printedKey_keyOfValue _
  have hl : ∀ i : Net, (requestHead ++ (handshakeKey i).1 ++ requestTail).length = 145 := by
    intro i
    rw [← hk i]
    exact request_length _
  simp only [hk, hl, ne_eq, not_true_eq_false, if_false]

/-- C26. For every value `v` of the nonce: the key has 16 bytes, byte `i` is
`(v / 96^i) mod 96 + 32`, each byte lies in `32..127` and is not zero, so
`snprintf` prints all 16 of them as they are. The request is the fixed text
(`GET / HTTP/1.1`, `Host`, `Connection: Upgrade`, `Upgrade: websocket`, the key
header, `Sec-Websocket-Version: 13`, an empty line) around the key and has 145
bytes, so that the `assert` on its length holds in every run of
`WebSocket_handshake`: the call is the connect, the send of this request, the
read of the response and its checks, with no abort in between. The value
`WebSocket_handshake` draws from four results of `rand()` is below `2 ^ 128`. -/
theorem upgrade_request (v : Nat) (st : WebSocket) (io : Net) :
    (keyOfValue v).length = 16 ∧
    (∀ i, i < 16 → (keyOfValue v).getD i 0 = v / 96 ^ i % 96 + 32) ∧
    (∀ c ∈ keyOfValue v, 32 ≤ c ∧ c ≤ 127 ∧ c ≠ 0) ∧
    printedKey (keyOfValue v) = keyOfValue v ∧
    requestHead = strBytes ("GET / HTTP/1.1\r\nHost: localhost:8080\r\n" ++
      "Connection: Upgrade\r\nUpgrade: websocket\r\nSec-Websocket-Key: ") ∧
    requestTail = strBytes "\r\nSec-Websocket-Version: 13\r\n\r\n" ∧
    (requestHead ++ printedKey (keyOfValue v) ++ requestTail).length = 145 ∧
    (∃ r0 r1 r2 r3, (handshakeKey io).1 = keyOfValue (keyValueOf r0 r1 r2 r3) ∧
      keyValueOf r0 r1 r2 r3 < 2 ^ 128) ∧
    WebSocket_handshake st io =
      (if (sockConnect io st.sockfd).1 ≠ 0 then .ret (false, (sockConnect io st.sockfd).2)
       else if (sockSendmsg (handshakeKey (sockConnect io st.sockfd).2).2
            (requestHead ++ (handshakeKey (sockConnect io st.sockfd).2).1 ++ requestTail)).1
            ≠ 145 then
         .ret (false, (sockSendmsg (handshakeKey (sockConnect io st.sockfd).2).2
            (requestHead ++ (handshakeKey (sockConnect io st.sockfd).2).1 ++ requestTail)).2)
       else
         match readResponse 0x2000 []
           (sockSendmsg (handshakeKey (sockConnect io st.sockfd).2).2
             (requestHead ++ (handshakeKey (sockConnect io st.sockfd).2).1 ++
               requestTail)).2 with
         | .ret (none, io3) => .ret (false, io3)
         | .ret (some buffer, io3) =>
           (checkResponse buffer (handshakeKey (sockConnect io st.sockfd).2).1).map
             (fun b => (b, io3))
         | .abort => .abort
         | .hang => .hang
         | .nofuel => .nofuel) := by
  refine ⟨keyOfValue_length v, fun i h => keyOfValue_getD v i h, ?_, printedKey_keyOfValue v,
    by decide, by decide, request_length v, ⟨_, _, _, _, rfl, keyValueOf_lt _ _ _ _⟩,
    handshake_unfold st io⟩
  intro c hc
  have := keyOfValue_mem v c hc
  omega

theorem deliverWait_bounds (io : Net) (k n : Nat) :
    (deliverWait io k n).1.length ≤ (n : Int) ∧ 0 ≤ (deliverWait io k n).1.length ∧
    (deliverWait io k n).1.data.length = (deliverWait io k n).1.length.toNat ∧
    (deliverWait io k n).2.connects = io.connects := by
  unfold deliverWait
  simp only []
  refine ⟨Int.ofNat_le.mpr (Nat.min_le_left _ _), Int.natCast_nonneg _, ?_, trivial⟩
  rw [List.length_take, Int.toNat_ofNat]
  omega

theorem recvWait_bounds (sched : List RecvEv) : ∀ (io : Net) (n : Nat) (r : RecvRet) (io1 : Net),
    recvWait sched io n = .ret (r, io1) →
    r.length ≤ (n : Int) ∧ (0 < r.length → r.data.length = r.length.toNat) ∧
    io1.connects = io.connects := by
  induction sched with
  | nil =>
    intro io n r io1 h
    simp only [recvWait] at h
    split_ifs at h
    simp only [Outcome.ret.injEq] at h
    have := deliverWait_bounds { io with sched := [] } io.stream.length n
    rw [h] at this
    exact ⟨this.1, fun _ => this.2.2.1, this.2.2.2⟩
  | cons e rest ih =>
    intro io n r io1 h
    cases e with
    | ready k =>
      simp only [recvWait] at h
      split_ifs at h
      · exact ih io n r io1 h
      · simp only [Outcome.ret.injEq] at h
        have := deliverWait_bounds { io with sched := rest } k n
        rw [h] at this
        exact ⟨this.1, fun _ => this.2.2.1, this.2.2.2⟩
    | eof =>
      simp only [recvWait, Outcome.ret.injEq, Prod.mk.injEq] at h
      rw [← h.1, ← h.2]
      exact ⟨Int.natCast_nonneg _, fun hh => absurd hh (show ¬ ((0 : Int) < 0) by decide), rfl⟩
    | err =>
      simp only [recvWait, Outcome.ret.injEq, Prod.mk.injEq] at h
      rw [← h.1, ← h.2]
      exact ⟨by show (-1 : Int) ≤ n; omega,
        fun hh => absurd hh (show ¬ ((0 : Int) < -1) by decide), rfl⟩

theorem recvWait_not_other (sched : List RecvEv) : ∀ (io : Net) (n : Nat),
    recvWait sched io n ≠ .nofuel ∧ recvWait sched io n ≠ .abort := by
  induction sched with
  | nil =>
    intro io n
    simp only [recvWait]
    split_ifs <;> exact ⟨(fun h => nomatch h), (fun h => nomatch h)⟩
  | cons e rest ih =>
    intro io n
    cases e with
    | ready k =>
      simp only [recvWait]
      split_ifs
      · exact ih io n
      · exact ⟨(fun h => nomatch h), (fun h => nomatch h)⟩
    | eof => exact ⟨(fun h => nomatch h), (fun h => nomatch h)⟩
    | err => exact ⟨(fun h => nomatch h), (fun h => nomatch h)⟩

/-- The bytes read so far end with the terminator. -/
theorem readResponse_props (fuel : Nat) : ∀ (buffer : List Nat) (io : Net),
    buffer.length ≤ 8191 →
    (∀ b io1, readResponse fuel buffer io = .ret (some b, io1) →
      b.length ≤ 8191 ∧ 4 ≤ b.length ∧ b.drop (b.length - 4) = crlfcrlf ∧
      io1.connects = io.connects) ∧
    (∀ io1, readResponse fuel buffer io = .ret (none, io1) → io1.connects = io.connects) ∧
    (8192 ≤ fuel + buffer.length → readResponse fuel buffer io ≠ .nofuel) ∧
    readResponse fuel buffer io ≠ .abort := by
  induction fuel with
  | zero =>
    intro buffer io hb
    refine ⟨(fun b io1 h => nomatch h), (fun io1 h => nomatch h), fun h => by omega,
      (fun h => nomatch h)⟩
  | succ fuel ih =>
    intro buffer io hb
    simp only [readResponse]
    by_cases ht : buffer.length < 4 ∨ buffer.drop (buffer.length - 4) ≠ crlfcrlf
    · rw [if_pos ht]
      have hrb := recvWait_bounds io.sched io (0x2000 - 1 - buffer.length)
      have hro := recvWait_not_other io.sched io (0x2000 - 1 - buffer.length)
      unfold sockRecvWait
      revert hrb hro
      generalize recvWait io.sched io (0x2000 - 1 - buffer.length) = o
      intro hrb hro
      cases o with
      | ret a =>
        obtain ⟨r, io2⟩ := a
        simp only []
        obtain ⟨h1, h2, h3⟩ := hrb r io2 rfl
        by_cases hr : r.length ≤ 0
        · rw [if_pos hr]
          refine ⟨(fun b io1 h => nomatch h), ?_, fun _ => (fun h => nomatch h),
            (fun h => nomatch h)⟩
          intro io1 h
          simp only [Outcome.ret.injEq, Prod.mk.injEq, true_and] at h
          rw [← h]; exact h3
        · rw [if_neg hr]
          have hpos : 0 < r.length := by omega
          have hd := h2 hpos
          have hnew : (buffer ++ r.data).length ≤ 8191 := by
            rw [List.length_append, hd]
            have : (r.length.toNat : Int) = r.length := Int.toNat_of_nonneg (by omega)
            have : r.length ≤ ((8192 - 1 - buffer.length : Nat) : Int) := h1
            omega
          have hgrow : buffer.length < (buffer ++ r.data).length := by
            rw [List.length_append, hd]
            have : 0 < r.length.toNat := by omega
            omega
          obtain ⟨i1, i2, i3, i4⟩ := ih (buffer ++ r.data) io2 hnew
          refine ⟨?_, ?_, ?_, i4⟩
          · intro b io1 h
            obtain ⟨a1, a2, a3, a4⟩ := i1 b io1 h
            exact ⟨a1, a2, a3, a4.trans h3⟩
          · intro io1 h; exact (i2 io1 h).trans h3
          · intro hf; exact i3 (by omega)
      | abort => exact absurd rfl hro.2
      | hang =>
        exact ⟨(fun b io1 h => nomatch h), (fun io1 h => nomatch h), fun _ => (fun h => nomatch h),
          (fun h => nomatch h)⟩
      | nofuel => exact absurd rfl hro.1
    · rw [if_neg ht]
      push_neg at ht
      refine ⟨?_, (fun io1 h => nomatch h), fun _ => (fun h => nomatch h), (fun h => nomatch h)⟩
      intro b io1 h
      simp only [Outcome.ret.injEq, Prod.mk.injEq, Option.some.injEq] at h
      rw [← h.1, ← h.2]
      exact ⟨hb, ht.1, ht.2, rfl⟩

theorem readResponse_full (fuel : Nat) (buffer : List Nat) (io : Net)
    (ht : buffer.length < 4 ∨ buffer.drop (buffer.length - 4) ≠ crlfcrlf)
    (hfull : buffer.length = 8191) :
    readResponse (fuel + 1) buffer io = .hang ∨
    ∃ io1, readResponse (fuel + 1) buffer io = .ret (none, io1) := by
  simp only [readResponse]
  rw [if_pos ht]
  have hrb := recvWait_bounds io.sched io (0x2000 - 1 - buffer.length)
  have hro := recvWait_not_other io.sched io (0x2000 - 1 - buffer.length)
  unfold sockRecvWait
  revert hrb hro
  generalize recvWait io.sched io (0x2000 - 1 - buffer.length) = o
  intro hrb hro
  cases o with
  | ret a =>
    obtain ⟨r, io2⟩ := a
    simp only []
    have h1 := (hrb r io2 rfl).1
    rw [hfull] at h1
    rw [if_pos (by omega)]
    exact Or.inr ⟨io2, rfl⟩
  | abort => exact absurd rfl hro.2
  | hang => exact Or.inl rfl
  | nofuel => exact absurd rfl hro.1

theorem readResponse_closed (fuel : Nat) (buffer : List Nat) (io : Net) (rest : List RecvEv)
    (ht : buffer.length < 4 ∨ buffer.drop (buffer.length - 4) ≠ crlfcrlf)
    (h : io.sched = RecvEv.eof :: rest ∨ io.sched = RecvEv.err :: rest) :
    readResponse (fuel + 1) buffer io = .ret (none, { io with sched := rest }) := by
  simp only [readResponse]
  rw [if_pos ht]
  unfold sockRecvWait
  rcases h with h | h
  · rw [h]; simp [recvWait]
  · rw [h]; simp [recvWait]

theorem ValidateDigest_cases (b k : List Nat) :
    ValidateDigest b k = .abort ∨ ∃ v, ValidateDigest b k = .ret v := by
  unfold ValidateDigest
  split_ifs
  · exact Or.inl rfl
  · exact Or.inr ⟨_, rfl⟩

theorem checkResponse_cases (b k : List Nat) :
    checkResponse b k = .abort ∨ ∃ v, checkResponse b k = .ret v := by
  unfold checkResponse
  split_ifs
  · exact Or.inr ⟨_, rfl⟩
  · split
    · exact Or.inr ⟨_, rfl⟩
    · simp only []
      split_ifs
      · exact Or.inr ⟨_, rfl⟩
      · exact ValidateDigest_cases _ _

theorem handshake_not_nofuel (st : WebSocket) (io : Net) :
    WebSocket_handshake st io ≠ .nofuel := by
  rw [handshake_unfold]
  split_ifs
  · exact fun h => nomatch h
  · exact fun h => nomatch h
  · have hp := readResponse_props 0x2000 []
      (sockSendmsg (handshakeKey (sockConnect io st.sockfd).2).2
        (requestHead ++ (handshakeKey (sockConnect io st.sockfd).2).1 ++ requestTail)).2
      (by simp)
    have h3 := hp.2.2.1 (by simp)
    revert h3
    generalize readResponse 0x2000 [] _ = o
    intro h3
    cases o with
    | ret a =>
      obtain ⟨ob, io3⟩ := a
      cases ob with
      | none => exact fun h => nomatch h
      | some b =>
        simp only []
        rcases checkResponse_cases b (handshakeKey (sockConnect io st.sockfd).2).1 with
          e | ⟨v, e⟩
        · rw [e]; exact fun h => nomatch h
        · rw [e]; exact fun h => nomatch h
    | abort => exact fun h => nomatch h
    | hang => exact fun h => nomatch h
    | nofuel => exact absurd rfl h3

/-- The environment in which the read loop of `WebSocket_handshake` starts: after
the connect, the four calls of `rand()` and the send. -/
theorem handshake_read_none (st : WebSocket) (io : Net) (io3 : Net)
    (hc : (sockConnect io st.sockfd).1 = 0)
    (hsend : (sockSendmsg (handshakeKey (sockConnect io st.sockfd).2).2
      (requestHead ++ (handshakeKey (sockConnect io st.sockfd).2).1 ++ requestTail)).1 = 145)
    (hr : readResponse 0x2000 []
      (sockSendmsg (handshakeKey (sockConnect io st.sockfd).2).2
        (requestHead ++ (handshakeKey (sockConnect io st.sockfd).2).1 ++ requestTail)).2 =
      .ret (none, io3)) :
    WebSocket_handshake st io = .ret (false, io3) := by
  rw [handshake_unfold, if_neg (by rw [hc]; simp), if_neg (by rw [hsend]; simp), hr]

theorem handshake_read_some (st : WebSocket) (io : Net) (io3 : Net) (b : List Nat)
    (hc : (sockConnect io st.sockfd).1 = 0)
    (hsend : (sockSendmsg (handshakeKey (sockConnect io st.sockfd).2).2
      (requestHead ++ (handshakeKey (sockConnect io st.sockfd).2).1 ++ requestTail)).1 = 145)
    (hr : readResponse 0x2000 []
      (sockSendmsg (handshakeKey (sockConnect io st.sockfd).2).2
        (requestHead ++ (handshakeKey (sockConnect io st.sockfd).2).1 ++ requestTail)).2 =
      .ret (some b, io3)) :
    WebSocket_handshake st io =
      (checkResponse b (handshakeKey (sockConnect io st.sockfd).2).1).map
        (fun v => (v, io3)) := by
  rw [handshake_unfold, if_neg (by rw [hc]; simp), if_neg (by rw [hsend]; simp), hr]

/-- C25. With `buffer_len ≤ 8191` bytes of the response read so far, whatever the
`recv` calls return: a `recv` is asked for `8191 - buffer_len` bytes and what it
stores keeps `buffer_len` at 8191 or below; a response the loop hands on has at
most 8191 bytes, so that the zero byte after it lands at an index below 8192,
and it ends with the terminator; once 8191 bytes are there without the
terminator the `recv`, asked for 0 bytes, can only block or make the loop return
false; an error or end of stream before the terminator makes the loop return
false; a loop that returns false makes `WebSocket_handshake` return false; and
the bound of 8192 passes of the embedding is never used up. -/
theorem response_buffer_bounded (st : WebSocket) (io : Net) (buffer : List Nat) (fuel : Nat)
    (hb : buffer.length ≤ 8191) :
    (0x2000 - 1 - buffer.length = 8191 - buffer.length ∧
      ∀ r io1, sockRecvWait io (0x2000 - 1 - buffer.length) = .ret (r, io1) →
        r.length ≤ ((8191 - buffer.length : Nat) : Int) ∧
        (0 < r.length → (buffer ++ r.data).length ≤ 8191)) ∧
    (∀ b io1, readResponse fuel buffer io = .ret (some b, io1) →
      b.length ≤ 8191 ∧ b.length < 8192 ∧ 4 ≤ b.length ∧ b.drop (b.length - 4) = crlfcrlf) ∧
    ((buffer.length < 4 ∨ buffer.drop (buffer.length - 4) ≠ crlfcrlf) →
      buffer.length = 8191 →
      readResponse (fuel + 1) buffer io = .hang ∨
      ∃ io1, readResponse (fuel + 1) buffer io = .ret (none, io1)) ∧
    ((buffer.length < 4 ∨ buffer.drop (buffer.length - 4) ≠ crlfcrlf) →
      ∀ rest, io.sched = RecvEv.eof :: rest ∨ io.sched = RecvEv.err :: rest →
      readResponse (fuel + 1) buffer io = .ret (none, { io with sched := rest })) ∧
    (∀ io3, (sockConnect io st.sockfd).1 = 0 →
      (sockSendmsg (handshakeKey (sockConnect io st.sockfd).2).2
        (requestHead ++ (handshakeKey (sockConnect io st.sockfd).2).1 ++ requestTail)).1 =
        145 →
      readResponse 0x2000 []
        (sockSendmsg (handshakeKey (sockConnect io st.sockfd).2).2
          (requestHead ++ (handshakeKey (sockConnect io st.sockfd).2).1 ++ requestTail)).2 =
        .ret (none, io3) →
      WebSocket_handshake st io = .ret (false, io3)) ∧
    WebSocket_handshake st io ≠ .nofuel := by
  refine ⟨⟨rfl, ?_⟩, ?_, fun ht hf => readResponse_full fuel buffer io ht hf,
    fun ht rest h => readResponse_closed fuel buffer io rest ht h,
    fun io3 hc hs hr => handshake_read_none st io io3 hc hs hr, handshake_not_nofuel st io⟩
  · intro r io1 h
    obtain ⟨h1, h2, _⟩ := recvWait_bounds io.sched io _ r io1 h
    refine ⟨h1, fun hpos => ?_⟩
    rw [List.length_append, h2 hpos]
    have : (r.length.toNat : Int) = r.length := Int.toNat_of_nonneg (by omega)
    have : r.length ≤ ((8192 - 1 - buffer.length : Nat) : Int) := h1
    omega
  · intro b io1 h
    obtain ⟨a1, a2, a3, _⟩ := (readResponse_props fuel buffer io hb).1 b io1 h
    exact ⟨a1, by omega, a2, a3⟩

theorem response_buffer_bounded_witness :
    (0x2000 - 1 - [72, 84].length = 8191 - [72, 84].length ∧
      ∀ r io1, sockRecvWait exNet (0x2000 - 1 - [72, 84].length) = .ret (r, io1) →
        r.length ≤ ((8191 - [72, 84].length : Nat) : Int) ∧
        (0 < r.length → ([72, 84] ++ r.data).length ≤ 8191)) ∧
    (∀ b io1, readResponse 5 [72, 84] exNet = .ret (some b, io1) →
      b.length ≤ 8191 ∧ b.length < 8192 ∧ 4 ≤ b.length ∧ b.drop (b.length - 4) = crlfcrlf) ∧
    (([72, 84].length < 4 ∨ [72, 84].drop ([72, 84].length - 4) ≠ crlfcrlf) →
      [72, 84].length = 8191 →
      readResponse (5 + 1) [72, 84] exNet = .hang ∨
      ∃ io1, readResponse (5 + 1) [72, 84] exNet = .ret (none, io1)) ∧
    (([72, 84].length < 4 ∨ [72, 84].drop ([72, 84].length - 4) ≠ crlfcrlf) →
      ∀ rest, exNet.sched = RecvEv.eof :: rest ∨ exNet.sched = RecvEv.err :: rest →
      readResponse (5 + 1) [72, 84] exNet = .ret (none, { exNet with sched := rest })) ∧
    (∀ io3, (sockConnect exNet exState.sockfd).1 = 0 →
      (sockSendmsg (handshakeKey (sockConnect exNet exState.sockfd).2).2
        (requestHead ++ (handshakeKey (sockConnect exNet exState.sockfd).2).1 ++
          requestTail)).1 = 145 →
      readResponse 0x2000 []
        (sockSendmsg (handshakeKey (sockConnect exNet exState.sockfd).2).2
          (requestHead ++ (handshakeKey (sockConnect exNet exState.sockfd).2).1 ++
            requestTail)).2 = .ret (none, io3) →
      WebSocket_handshake exState exNet = .ret (false, io3)) ∧
    WebSocket_handshake exState exNet ≠ .nofuel :=
  response_buffer_bounded exState exNet [72, 84] 5 (by decide)

theorem sockConnect_fields (io : Net) (fd : Int) :
    (sockConnect io fd).2.stream = io.stream ∧ (sockConnect io fd).2.sched = io.sched ∧
    (sockConnect io fd).2.sendSched = io.sendSched ∧ (sockConnect io fd).2.rands = io.rands ∧
    (sockConnect io fd).2.connects = io.connects ++ [fd] :=
  ⟨rfl, rfl, rfl, rfl, rfl⟩

theorem sockRand_connects (io : Net) : (sockRand io).2.connects = io.connects := by
  unfold sockRand; split <;> rfl

theorem handshakeKey_fields (io : Net) :
    (handshakeKey io).2.stream = io.stream ∧ (handshakeKey io).2.sched = io.sched ∧
    (handshakeKey io).2.sendSched = io.sendSched ∧
    (handshakeKey io).2.connects = io.connects := by
  unfold handshakeKey
  simp only [sockRand_stream, sockRand_sched, sockRand_sendSched, sockRand_connects, and_self]

theorem sockSendmsg_connects (io : Net) (bytes : List Nat) :
    (sockSendmsg io bytes).2.connects = io.connects := by
  unfold sockSendmsg; split <;> rfl

theorem sockSendmsg_quiet (io : Net) (bytes : List Nat) (h : io.sendSched = []) :
    sockSendmsg io bytes = ((bytes.length : Int), { io with sent := io.sent ++ [bytes] }) := by
  unfold sockSendmsg; rw [h]

/-- The environment in which the read loop starts, on a quiet network. -/
theorem handshake_send_quiet (st : WebSocket) (io : Net) (hs : io.sendSched = []) :
    (sockSendmsg (handshakeKey (sockConnect io st.sockfd).2).2
      (requestHead ++ (handshakeKey (sockConnect io st.sockfd).2).1 ++ requestTail)).1 = 145 ∧
    (sockSendmsg (handshakeKey (sockConnect io st.sockfd).2).2
      (requestHead ++ (handshakeKey (sockConnect io st.sockfd).2).1 ++ requestTail)).2.stream =
      io.stream ∧
    (sockSendmsg (handshakeKey (sockConnect io st.sockfd).2).2
      (requestHead ++ (handshakeKey (sockConnect io st.sockfd).2).1 ++ requestTail)).2.sched =
      io.sched := by
  have hk := handshakeKey_fields (sockConnect io st.sockfd).2
  have hq := sockSendmsg_quiet (handshakeKey (sockConnect io st.sockfd).2).2
    (requestHead ++ (handshakeKey (sockConnect io st.sockfd).2).1 ++ requestTail)
    (by rw [hk.2.2.1]; exact hs)
  have hl : (requestHead ++ (handshakeKey (sockConnect io st.sockfd).2).1 ++
      requestTail).length = 145 := by
    have := request_length (keyValueOf (sockRand (sockConnect io st.sockfd).2).1
      (sockRand (sockRand (sockConnect io st.sockfd).2).2).1
      (sockRand (sockRand (sockRand (sockConnect io st.sockfd).2).2).2).1
      (sockRand (sockRand (sockRand (sockRand (sockConnect io st.sockfd).2).2).2).2).1)
    rw [printedKey_keyOfValue] at this
    exact this
  rw [hq, hl]
  exact ⟨rfl, hk.1, hk.2.1⟩

theorem readResponse_one_chunk (fuel : Nat) (io : Net) (hs : io.sched = [])
    (hpos : 0 < io.stream.length) (hle : io.stream.length ≤ 8191) :
    readResponse (fuel + 2) [] io =
      (if io.stream.length < 4 ∨ io.stream.drop (io.stream.length - 4) ≠ crlfcrlf then .hang
       else .ret (some io.stream, { io with stream := [] })) := by
  have h1 : readResponse (fuel + 2) [] io =
      readResponse (fuel + 1) io.stream { io with stream := [] } := by
    rw [readResponse]
    rw [if_pos (Or.inl (by simp))]
    unfold sockRecvWait
    rw [hs]
    simp only [recvWait]
    rw [if_neg (by omega)]
    simp only [deliverWait]
    have hm : min (0x2000 - 1 - ([] : List Nat).length) (min io.stream.length io.stream.length)
        = io.stream.length := by
      simp only [List.length_nil, Nat.min_self]
      exact Nat.min_eq_right (by omega)
    rw [hm]
    simp only [List.take_length, List.drop_length, List.nil_append]
    rw [if_neg (by omega)]
  rw [h1, readResponse]
  by_cases ht : io.stream.length < 4 ∨ io.stream.drop (io.stream.length - 4) ≠ crlfcrlf
  · rw [if_pos ht, if_pos ht]
    unfold sockRecvWait
    simp only [hs, recvWait, List.length_nil, if_true]
  · rw [if_neg ht, if_neg ht]

theorem handshake_one_chunk (st : WebSocket) (io : Net) (hfd : 0 ≤ st.sockfd)
    (hc : io.connectRes = 0) (hss : io.sendSched = []) (hs : io.sched = [])
    (hpos : 0 < io.stream.length) (hle : io.stream.length ≤ 8191) :
    WebSocket_handshake st io =
      (if io.stream.length < 4 ∨ io.stream.drop (io.stream.length - 4) ≠ crlfcrlf then .hang
       else (checkResponse io.stream (handshakeKey (sockConnect io st.sockfd).2).1).map
        (fun b => (b,
          { (sockSendmsg (handshakeKey (sockConnect io st.sockfd).2).2
              (requestHead ++ (handshakeKey (sockConnect io st.sockfd).2).1 ++
                requestTail)).2 with stream := [] }))) := by
  have hcon : (sockConnect io st.sockfd).1 = 0 := by
    unfold sockConnect
    simp only []
    rw [if_neg (by omega), hc]
  obtain ⟨h1, h2, h3⟩ := handshake_send_quiet st io hss
  have hr := readResponse_one_chunk 8190
    (sockSendmsg (handshakeKey (sockConnect io st.sockfd).2).2
      (requestHead ++ (handshakeKey (sockConnect io st.sockfd).2).1 ++ requestTail)).2
    (by rw [h3]; exact hs) (by rw [h2]; exact hpos) (by rw [h2]; exact hle)
  rw [h2] at hr
  by_cases ht : io.stream.length < 4 ∨ io.stream.drop (io.stream.length - 4) ≠ crlfcrlf
  · rw [if_pos ht] at hr
    rw [if_pos ht, handshake_unfold, if_neg (by rw [hcon]; simp), if_neg (by rw [h1]; simp)]
    have e : (0x2000 : Nat) = 8190 + 2 := by norm_num
    rw [e, hr]
  · rw [if_neg ht] at hr
    rw [if_neg ht]
    exact handshake_read_some st io _ _ hcon h1 hr

set_option maxRecDepth 100000 in
/-- C24 (failing input). The peer sends, in one chunk, a whole response
(`HTTP/1.1 101`, an accept header, the empty line) and right after it the first
byte of a frame, then waits. The bytes read contain the terminator, but not at
their end: the loop calls `recv` again, and `WebSocket_handshake` blocks for
ever instead of going on to the checks. -/
theorem terminator_inside_chunk :
    WebSocket_handshake exState
      { exNet with stream := strBytes ("HTTP/1.1 101 Switching Protocols\r\n" ++
          "Upgrade: websocket\r\nConnection: Upgrade\r\n" ++
          "Sec-WebSocket-Accept: s3pPLMBiTxaQ9kYGzzhZRbK+xOo=\r\n\r\n") ++ [0x82] } = .hang ∧
    crlfcrlf <:+: strBytes ("HTTP/1.1 101 Switching Protocols\r\n" ++
          "Upgrade: websocket\r\nConnection: Upgrade\r\n" ++
          "Sec-WebSocket-Accept: s3pPLMBiTxaQ9kYGzzhZRbK+xOo=\r\n\r\n") ++ [0x82] := by
  constructor
  · rw [handshake_one_chunk exState _ (by decide) rfl rfl rfl (by decide) (by decide)]
    rw [if_pos (by decide)]
  · decide

set_option maxRecDepth 100000 in
/-- C7 (failing input). The peer answers with status `HTTP/1.1 101` and an accept
value of 28 characters `A`, which end with no `=`, then the empty line. The
value stands before a line break at offset 28, so `ValidateDigest` is called,
and its `assert(base64[27] == '=')` fails: `WebSocket_handshake` aborts where a
`false` is due. -/
theorem malformed_accept_aborts :
    WebSocket_handshake exState
      { exNet with stream := strBytes ("HTTP/1.1 101 Switching Protocols\r\n" ++
          "Sec-WebSocket-Accept: AAAAAAAAAAAAAAAAAAAAAAAAAAAA\r\n\r\n") } = .abort := by
  rw [handshake_one_chunk exState _ (by decide) rfl rfl rfl (by decide) (by decide)]
  rw [if_neg (by decide)]
  have h1 : strstr (cString (strBytes ("HTTP/1.1 101 Switching Protocols\r\n" ++
      "Sec-WebSocket-Accept: AAAAAAAAAAAAAAAAAAAAAAAAAAAA\r\n\r\n"))) acceptHeader =
      some 32 := by decide
  have h2 : strstr ((cString (strBytes ("HTTP/1.1 101 Switching Protocols\r\n" ++
      "Sec-WebSocket-Accept: AAAAAAAAAAAAAAAAAAAAAAAAAAAA\r\n\r\n"))).drop (32 + 24))
      [13, 10] = some 28 := by decide
  have h3 : ((cString (strBytes ("HTTP/1.1 101 Switching Protocols\r\n" ++
      "Sec-WebSocket-Accept: AAAAAAAAAAAAAAAAAAAAAAAAAAAA\r\n\r\n"))).drop (32 + 24)).getD 27 0
      ≠ 61 := by decide
  show Outcome.map _ (checkResponse _ _) = _
  unfold checkResponse
  rw [if_neg (by decide), h1]
  simp only []
  rw [if_neg (by rw [h2]; simp)]
  unfold ValidateDigest
  rw [if_pos h3]
  rfl

theorem strstr_some (needle : List Nat) : ∀ (hay : List Nat) (p : Nat),
    strstr hay needle = some p →
    needle <+: hay.drop p ∧ ∀ q, q < p → ¬ needle <+: hay.drop q := by
  intro hay
  induction hay with
  | nil =>
    intro p h
    simp only [strstr] at h
    split_ifs at h with hn
    simp only [Option.some.injEq] at h
    subst h
    exact ⟨by rw [hn]; exact List.prefix_refl _, fun q hq => absurd hq (Nat.not_lt_zero _)⟩
  | cons a t ih =>
    intro p h
    simp only [strstr] at h
    split_ifs at h with hp
    · simp only [Option.some.injEq] at h
      subst h
      exact ⟨by simpa using List.isPrefixOf_iff_prefix.mp hp,
        fun q hq => absurd hq (Nat.not_lt_zero _)⟩
    · cases hr : strstr t needle with
      | none => rw [hr] at h; cases h
      | some p1 =>
        rw [hr] at h
        simp only [Option.map_some', Option.some.injEq] at h
        subst h
        obtain ⟨i1, i2⟩ := ih p1 hr
        refine ⟨by simpa using i1, ?_⟩
        intro q hq
        cases q with
        | zero =>
          intro hpre
          exact hp (List.isPrefixOf_iff_prefix.mpr (by simpa using hpre))
        | succ q1 =>
          have := i2 q1 (by omega)
          simpa using this

theorem strstr_none (needle : List Nat) : ∀ (hay : List Nat),
    strstr hay needle = none → ∀ q, ¬ needle <+: hay.drop q := by
  intro hay
  induction hay with
  | nil =>
    intro h q
    simp only [strstr] at h
    split_ifs at h with hn
    intro hpre
    simp only [List.drop_nil, List.prefix_nil] at hpre
    exact hn hpre
  | cons a t ih =>
    intro h q
    simp only [strstr] at h
    split_ifs at h with hp
    cases hr : strstr t needle with
    | some p1 => rw [hr] at h; cases h
    | none =>
      cases q with
      | zero =>
        intro hpre
        exact hp (List.isPrefixOf_iff_prefix.mpr (by simpa using hpre))
      | succ q1 =>
        have := ih hr q1
        simpa using this

theorem checkResponse_true (buffer key : List Nat) (h : checkResponse buffer key = .ret true) :
    40 ≤ buffer.length ∧ buffer.take 12 = statusLine ∧
    ∃ p, strstr (cString buffer) acceptHeader = some p ∧
      strstr ((cString buffer).drop (p + 24)) [13, 10] = some 28 ∧
      ValidateDigest ((cString buffer).drop (p + 24)) key = .ret true := by
  unfold checkResponse at h
  by_cases h1 : buffer.length < 40 ∨ buffer.take 12 ≠ statusLine
  · rw [if_pos h1] at h
    simp at h
  · rw [if_neg h1] at h
    push_neg at h1
    cases hs : strstr (cString buffer) acceptHeader with
    | none => rw [hs] at h; simp at h
    | some p =>
      rw [hs] at h
      simp only [] at h
      by_cases h2 : strstr ((cString buffer).drop (p + 24)) [13, 10] ≠ some 28
      · rw [if_pos h2] at h
        simp at h
      · rw [if_neg h2] at h
        exact ⟨h1.1, h1.2, p, rfl, not_not.mp h2, h⟩

theorem checkResponse_false (buffer key : List Nat)
    (h : buffer.take 12 ≠ statusLine ∨ strstr (cString buffer) acceptHeader = none ∨
      ∃ p, strstr (cString buffer) acceptHeader = some p ∧
        strstr ((cString buffer).drop (p + 24)) [13, 10] ≠ some 28) :
    checkResponse buffer key = .ret false := by
  unfold checkResponse
  by_cases h1 : buffer.length < 40 ∨ buffer.take 12 ≠ statusLine
  · rw [if_pos h1]
  · rw [if_neg h1]
    rcases h with h | h | ⟨p, hp, hq⟩
    · exact absurd (Or.inr h) h1
    · rw [h]
    · rw [hp]
      simp only []
      rw [if_pos hq]

theorem handshake_true (st : WebSocket) (io io1 : Net)
    (h : WebSocket_handshake st io = .ret (true, io1)) :
    (sockConnect io st.sockfd).1 = 0 ∧
    (sockSendmsg (handshakeKey (sockConnect io st.sockfd).2).2
      (requestHead ++ (handshakeKey (sockConnect io st.sockfd).2).1 ++ requestTail)).1 = 145 ∧
    ∃ buffer, readResponse 0x2000 []
        (sockSendmsg (handshakeKey (sockConnect io st.sockfd).2).2
          (requestHead ++ (handshakeKey (sockConnect io st.sockfd).2).1 ++ requestTail)).2 =
        .ret (some buffer, io1) ∧
      checkResponse buffer (handshakeKey (sockConnect io st.sockfd).2).1 = .ret true := by
  rw [handshake_unfold] at h
  by_cases h1 : (sockConnect io st.sockfd).1 ≠ 0
  · rw [if_pos h1] at h
    simp at h
  rw [if_neg h1] at h
  by_cases h2 : (sockSendmsg (handshakeKey (sockConnect io st.sockfd).2).2
      (requestHead ++ (handshakeKey (sockConnect io st.sockfd).2).1 ++ requestTail)).1 ≠ 145
  · rw [if_pos h2] at h
    simp at h
  rw [if_neg h2] at h
  refine ⟨not_not.mp h1, not_not.mp h2, ?_⟩
  revert h
  generalize readResponse 0x2000 [] _ = o
  intro h
  cases o with
  | ret a =>
    obtain ⟨ob, io3⟩ := a
    cases ob with
    | none => simp at h
    | some b =>
      simp only [] at h
      rcases checkResponse_cases b (handshakeKey (sockConnect io st.sockfd).2).1 with
        e | ⟨v, e⟩
      · rw [e] at h; cases h
      · rw [e] at h
        simp only [Outcome.map, Outcome.ret.injEq, Prod.mk.injEq] at h
        obtain ⟨hv, hio⟩ := h
        subst hv hio
        exact ⟨b, rfl, e⟩
  | abort => cases h
  | hang => cases h
  | nofuel => cases h

/-- C20. If `WebSocket_handshake` returns true, then: the connect succeeded and
the request with the key was sent whole; the response read has at least 40
bytes and starts with `HTTP/1.1 101`; taken as a string, it contains the line
break followed by `Sec-WebSocket-Accept: `, first at an offset `p`; after the 24
bytes of that first occurrence the first line break stands at offset 28, none
before, so the value has exactly 28 characters and a line break right after it;
and `ValidateDigest` returns true on that value with the key of the request.
Conversely a response that was read whole and does not start with
`HTTP/1.1 101`, or has no such header, or has its first line break after the
header at another offset than 28 (a value that is shorter or longer), makes the
checks, hence the call, return false. -/
theorem handshake_accepts_only_if (st : WebSocket) (io : Net) :
    (∀ io1, WebSocket_handshake st io = .ret (true, io1) →
      (sockConnect io st.sockfd).1 = 0 ∧
      (sockSendmsg (handshakeKey (sockConnect io st.sockfd).2).2
        (requestHead ++ (handshakeKey (sockConnect io st.sockfd).2).1 ++ requestTail)).1 =
        145 ∧
      ∃ buffer p,
        readResponse 0x2000 []
          (sockSendmsg (handshakeKey (sockConnect io st.sockfd).2).2
            (requestHead ++ (handshakeKey (sockConnect io st.sockfd).2).1 ++ requestTail)).2 =
          .ret (some buffer, io1) ∧
        40 ≤ buffer.length ∧ buffer.take 12 = strBytes "HTTP/1.1 101" ∧
        strBytes "\r\nSec-WebSocket-Accept: " <+: (cString buffer).drop p ∧
        (∀ q, q < p → ¬ strBytes "\r\nSec-WebSocket-Accept: " <+: (cString buffer).drop q) ∧
        [13, 10] <+: (cString buffer).drop (p + 24 + 28) ∧
        (∀ q, q < 28 → ¬ [13, 10] <+: (cString buffer).drop (p + 24 + q)) ∧
        (((cString buffer).drop (p + 24)).take 28).length = 28 ∧
        ValidateDigest ((cString buffer).drop (p + 24))
          (handshakeKey (sockConnect io st.sockfd).2).1 = .ret true) ∧
    (∀ buffer io3,
      (sockConnect io st.sockfd).1 = 0 →
      (sockSendmsg (handshakeKey (sockConnect io st.sockfd).2).2
        (requestHead ++ (handshakeKey (sockConnect io st.sockfd).2).1 ++ requestTail)).1 =
        145 →
      readResponse 0x2000 []
          (sockSendmsg (handshakeKey (sockConnect io st.sockfd).2).2
            (requestHead ++ (handshakeKey (sockConnect io st.sockfd).2).1 ++ requestTail)).2 =
          .ret (some buffer, io3) →
      (buffer.take 12 ≠ strBytes "HTTP/1.1 101" ∨
        (∀ q, ¬ strBytes "\r\nSec-WebSocket-Accept: " <+: (cString buffer).drop q) ∨
        ∃ p, strstr (cString buffer) acceptHeader = some p ∧
          ((∃ q, q ≠ 28 ∧ strstr ((cString buffer).drop (p + 24)) [13, 10] = some q) ∨
           strstr ((cString buffer).drop (p + 24)) [13, 10] = none)) →
      WebSocket_handshake st io = .ret (false, io3)) := by
  constructor
  · intro io1 h
    obtain ⟨h1, h2, buffer, hr, hc⟩ := handshake_true st io io1 h
    obtain ⟨c1, c2, p, c3, c4, c5⟩ := checkResponse_true _ _ hc
    obtain ⟨s1, s2⟩ := strstr_some _ _ _ c3
    obtain ⟨t1, t2⟩ := strstr_some _ _ _ c4
    refine ⟨h1, h2, buffer, p, hr, c1, c2, s1, s2, ?_, ?_, ?_, c5⟩
    · rw [List.drop_drop] at t1
      exact t1
    · intro q hq
      have := t2 q hq
      rw [List.drop_drop] at this
      exact this
    · rw [List.length_take]
      have := t1.length_le
      simp only [List.length_cons, List.length_nil, List.length_drop] at this
      simp only [List.length_drop]
      omega
  · intro buffer io3 hc hs hr hbad
    rw [handshake_read_some st io io3 buffer hc hs hr]
    have : checkResponse buffer (handshakeKey (sockConnect io st.sockfd).2).1 = .ret false := by
      apply checkResponse_false
      rcases hbad with h | h | ⟨p, hp, h⟩
      · exact Or.inl h
      · right; left
        cases hst : strstr (cString buffer) acceptHeader with
        | none => rfl
        | some p => exact absurd (strstr_some _ _ _ hst).1 (h p)
      · right; right
        refine ⟨p, hp, ?_⟩
        rcases h with ⟨q, hq, e⟩ | e
        · rw [e]; simpa using hq
        · rw [e]; simp
    rw [this]
    rfl

theorem handshake_connects (st : WebSocket) (io : Net) (b : Bool) (io1 : Net)
    (h : WebSocket_handshake st io = .ret (b, io1)) :
    io1.connects = io.connects ++ [st.sockfd] := by
  have hk := (handshakeKey_fields (sockConnect io st.sockfd).2).2.2.2
  have hsd := sockSendmsg_connects (handshakeKey (sockConnect io st.sockfd).2).2
    (requestHead ++ (handshakeKey (sockConnect io st.sockfd).2).1 ++ requestTail)
  rw [handshake_unfold] at h
  by_cases h1 : (sockConnect io st.sockfd).1 ≠ 0
  · rw [if_pos h1] at h
    simp only [Outcome.ret.injEq, Prod.mk.injEq] at h
    rw [← h.2]; rfl
  rw [if_neg h1] at h
  by_cases h2 : (sockSendmsg (handshakeKey (sockConnect io st.sockfd).2).2
      (requestHead ++ (handshakeKey (sockConnect io st.sockfd).2).1 ++ requestTail)).1 ≠ 145
  · rw [if_pos h2] at h
    simp only [Outcome.ret.injEq, Prod.mk.injEq] at h
    rw [← h.2, hsd, hk]; rfl
  rw [if_neg h2] at h
  have hp := readResponse_props 0x2000 []
    (sockSendmsg (handshakeKey (sockConnect io st.sockfd).2).2
      (requestHead ++ (handshakeKey (sockConnect io st.sockfd).2).1 ++ requestTail)).2
    (by simp)
  revert h hp
  generalize readResponse 0x2000 [] _ = o
  intro h hp
  cases o with
  | ret a =>
    obtain ⟨ob, io3⟩ := a
    cases ob with
    | none =>
      simp only [Outcome.ret.injEq, Prod.mk.injEq] at h
      rw [← h.2, hp.2.1 io3 rfl, hsd, hk]; rfl
    | some bf =>
      simp only [] at h
      rcases checkResponse_cases bf (handshakeKey (sockConnect io st.sockfd).2).1 with
        e | ⟨v, e⟩
      · rw [e] at h; cases h
      · rw [e] at h
        simp only [Outcome.map, Outcome.ret.injEq, Prod.mk.injEq] at h
        rw [← h.2, (hp.1 bf io3 rfl).2.2.2, hsd, hk]; rfl
  | abort => cases h
  | hang => cases h
  | nofuel => cases h

theorem handshake_closed (st : WebSocket) (io : Net) (hfd : st.sockfd = -1) :
    WebSocket_handshake st io = .ret (false, { io with connects := io.connects ++ [-1] }) := by
  rw [handshake_unfold]
  have : (sockConnect io st.sockfd).1 ≠ 0 := by
    unfold sockConnect
    rw [hfd]
    simp
  rw [if_pos this, hfd]
  rfl

/-- C16 (counterexample). On a connection whose handle is -1,
`WebSocket_handshake` calls `connect` all the same, on the descriptor -1: the
call is in the log of the environment. -/
theorem handshake_connects_closed_handle :
    WebSocket_handshake { exState with sockfd := -1 } exNet =
      .ret (false, { exNet with connects := [-1] }) :=
  handshake_closed { exState with sockfd := -1 } exNet rfl

/-- C16 (as amended). Each of `WebSocket_wait`, `WebSocket_receive` and
`WebSocket_sendWithOpcode` tests the handle of the state whose counter of pins
it has incremented, makes no socket call when that handle is -1 (the
environment is as it was), and has the counter back at its value on entry when
it returns. `WebSocket_handshake` takes the state read only: it leaves the
counter alone and passes the handle to `connect` whatever its value, -1
included, as the first thing it does. -/
theorem pin_discipline (st : WebSocket) (io : Net) (P : List Nat) (op : Nat)
    (hp : st.sockfd_pin < 2 ^ 32) :
    (WebSocket_wait st io).2.1 = unpin (pin st) ∧
    (WebSocket_sendWithOpcode st P op io).2.2.1 = unpin (pin st) ∧
    unpin (pin st) = st ∧
    (∀ n st1 io1, WebSocket_receive st io = .ret (n, st1, io1) →
      st1.sockfd_pin = st.sockfd_pin) ∧
    ((pin st).sockfd = -1 →
      WebSocket_wait st io = (false, st, io) ∧
      WebSocket_sendWithOpcode st P op io = (false, P, st, io) ∧
      WebSocket_receive st io = .ret (0, st, io)) ∧
    (∀ b io1, WebSocket_handshake st io = .ret (b, io1) →
      io1.connects = io.connects ++ [st.sockfd]) ∧
    (st.sockfd = -1 →
      WebSocket_handshake st io =
        .ret (false, { io with connects := io.connects ++ [-1] })) := by
  refine ⟨?_, ?_, unpin_pin st hp, ?_, ?_, fun b io1 h => handshake_connects st io b io1 h,
    fun h => handshake_closed st io h⟩
  · unfold WebSocket_wait
    simp only []
    split_ifs <;> rfl
  · unfold WebSocket_sendWithOpcode
    simp only []
    split_ifs <;> rfl
  · intro n st1 io1 h
    rcases receive_total st io hp with ⟨n2, st2, io2, e, e2⟩ | ⟨e, _⟩
    · rw [h] at e
      simp only [Outcome.ret.injEq, Prod.mk.injEq] at e
      rw [e.2.1]; exact e2
    · rw [h] at e; cases e
  · intro h
    exact ⟨wait_closed st io h hp, send_closed st P op io h hp, receive_closed st io h hp⟩

theorem pin_discipline_witness :
    (WebSocket_wait exState exNet).2.1 = unpin (pin exState) ∧
    (WebSocket_sendWithOpcode exState [1, 2] 2 exNet).2.2.1 = unpin (pin exState) ∧
    unpin (pin exState) = exState ∧
    (∀ n st1 io1, WebSocket_receive exState exNet = .ret (n, st1, io1) →
      st1.sockfd_pin = exState.sockfd_pin) ∧
    ((pin exState).sockfd = -1 →
      WebSocket_wait exState exNet = (false, exState, exNet) ∧
      WebSocket_sendWithOpcode exState [1, 2] 2 exNet = (false, [1, 2], exState, exNet) ∧
      WebSocket_receive exState exNet = .ret (0, exState, exNet)) ∧
    (∀ b io1, WebSocket_handshake exState exNet = .ret (b, io1) →
      io1.connects = exNet.connects ++ [exState.sockfd]) ∧
    (exState.sockfd = -1 →
      WebSocket_handshake exState exNet =
        .ret (false, { exNet with connects := exNet.connects ++ [-1] })) :=
  pin_discipline exState exNet [1, 2] 2 (by decide)

theorem foldl_range_add {α : Type} (f : α → Nat → α) (x : α) (a b : Nat) :
    (List.range (a + b)).foldl f x =
      (List.range b).foldl (fun acc i => f acc (a + i)) ((List.range a).foldl f x) := by
  induction b with
  | zero => simp
  | succ n ih =>
    rw [← Nat.add_assoc, List.range_succ, List.foldl_append, ih, List.range_succ,
      List.foldl_append]
    rfl

theorem foldl_congr_mem {α β : Type} (f g : α → β → α) (l : List β)
    (h : ∀ acc, ∀ i ∈ l, f acc i = g acc i) (x : α) : l.foldl f x = l.foldl g x := by
  induction l generalizing x with
  | nil => rfl
  | cons a t ih =>
    simp only [List.foldl_cons]
    rw [h x a (List.mem_cons_self _ _)]
    exact ih (fun acc i hi => h acc i (List.mem_cons_of_mem _ hi)) _

theorem getD_append_left (W : List Nat) (x : Nat) (j : Nat) (h : j < W.length) :
    (W ++ [x]).getD j 0 = W.getD j 0 := List.getD_append _ _ _ _ h

theorem getD_append_last (W : List Nat) (x : Nat) : (W ++ [x]).getD W.length 0 = x := by
  rw [List.getD_append_right _ _ _ _ (Nat.le_refl _)]
  simp

theorem schedInv_snoc (W : List Nat) (h : SchedInv W) :
    SchedInv (W ++ [rol32 (W.getD (W.length - 3) 0 ^^^ W.getD (W.length - 8) 0 ^^^
      W.getD (W.length - 14) 0 ^^^ W.getD (W.length - 16) 0) 1]) := by
  obtain ⟨hl, hb, hr⟩ := h
  refine ⟨by simp; omega, ?_, ?_⟩
  · intro j hj
    simp only [List.length_append, List.length_singleton] at hj
    by_cases hj' : j < W.length
    · rw [getD_append_left _ _ _ hj']; exact hb j hj'
    · have : j = W.length := by omega
      rw [this, getD_append_last]
      exact rol32_lt _ _ (xor4_lt _ _ _ _ (hb _ (by omega)) (hb _ (by omega)) (hb _ (by omega))
        (hb _ (by omega)))
  · intro j h16 hj
    simp only [List.length_append, List.length_singleton] at hj
    rw [getD_append_left _ _ (j - 3) (by omega), getD_append_left _ _ (j - 8) (by omega),
      getD_append_left _ _ (j - 14) (by omega), getD_append_left _ _ (j - 16) (by omega)]
    by_cases hj' : j < W.length
    · rw [getD_append_left _ _ _ hj']; exact hr j h16 hj'
    · have : j = W.length := by omega
      rw [this, getD_append_last]

/-- The steps of the RFC recurrence keep the invariant and add one word each. -/
theorem schedInv_fold (k : Nat) : ∀ (W : List Nat) (t0 : Nat), SchedInv W → W.length = t0 →
    SchedInv ((List.range k).foldl
        (fun W i => W ++ [rol32 (W.getD (t0 + i - 3) 0 ^^^ W.getD (t0 + i - 8) 0 ^^^
          W.getD (t0 + i - 14) 0 ^^^ W.getD (t0 + i - 16) 0) 1]) W) ∧
      ((List.range k).foldl
        (fun W i => W ++ [rol32 (W.getD (t0 + i - 3) 0 ^^^ W.getD (t0 + i - 8) 0 ^^^
          W.getD (t0 + i - 14) 0 ^^^ W.getD (t0 + i - 16) 0) 1]) W).length = t0 + k := by
  induction k with
  | zero => intro W t0 h hl; exact ⟨h, hl⟩
  | succ n ih =>
    intro W t0 h hl
    rw [List.range_succ, List.foldl_append]
    obtain ⟨h1, h2⟩ := ih W t0 h hl
    simp only [List.foldl_cons, List.foldl_nil]
    refine ⟨?_, by simp only [List.length_append, List.length_singleton]; omega⟩
    rw [← h2]
    exact schedInv_snoc _ h1

theorem sched_step_alt (V : List Nat) (n : Nat) (h : SchedInv V) (hl : V.length = 32 + n) :
    rol32 (V.getD (32 + n - 6) 0 ^^^ V.getD (32 + n - 16) 0 ^^^ V.getD (32 + n - 28) 0 ^^^
      V.getD (32 + n - 32) 0) 2 =
    rol32 (V.getD (32 + n - 3) 0 ^^^ V.getD (32 + n - 8) 0 ^^^ V.getD (32 + n - 14) 0 ^^^
      V.getD (32 + n - 16) 0) 1 := by
  obtain ⟨_, hb, hr⟩ := h
  rw [hl] at hb hr
  exact schedule_alt (fun j => V.getD j 0) (32 + n) (by omega) hb hr


theorem foldl_range_inv {α : Type} (f g : α → Nat → α) (Inv : Nat → α → Prop) (k : Nat)
    (x : α) (h0 : Inv 0 x)
    (hstep : ∀ i a, i < k → Inv i a → Inv (i + 1) (g a i) ∧ f a i = g a i) :
    (List.range k).foldl f x = (List.range k).foldl g x ∧
    Inv k ((List.range k).foldl g x) := by
  induction k with
  | zero => exact ⟨rfl, h0⟩
  | succ n ih =>
    obtain ⟨e, hi⟩ := ih (fun i a hi ha => hstep i a (Nat.lt_succ_of_lt hi) ha)
    rw [List.range_succ, List.foldl_append, List.foldl_append, e]
    simp only [List.foldl_cons, List.foldl_nil]
    obtain ⟨h1, h2⟩ := hstep n _ (Nat.lt_succ_self n) hi
    exact ⟨h2, h1⟩

/-- The step of the code from index 32 on. -/
theorem sched_step_eq (V : List Nat) (n : Nat) (h : SchedInv V) (hl : V.length = 32 + n) :
    V ++ [rol32 (V.getD (32 + n - 6) 0 ^^^ V.getD (32 + n - 16) 0 ^^^ V.getD (32 + n - 28) 0 ^^^
      V.getD (32 + n - 32) 0) 2] =
    V ++ [rol32 (V.getD (32 + n - 3) 0 ^^^ V.getD (32 + n - 8) 0 ^^^ V.getD (32 + n - 14) 0 ^^^
      V.getD (32 + n - 16) 0) 1] := by
  rw [sched_step_alt V n h hl]

theorem sched_step_inv (V : List Nat) (t0 n : Nat) (h : SchedInv V) (hl : V.length = t0 + n) :
    SchedInv (V ++ [rol32 (V.getD (t0 + n - 3) 0 ^^^ V.getD (t0 + n - 8) 0 ^^^
      V.getD (t0 + n - 14) 0 ^^^ V.getD (t0 + n - 16) 0) 1]) ∧
    (V ++ [rol32 (V.getD (t0 + n - 3) 0 ^^^ V.getD (t0 + n - 8) 0 ^^^
      V.getD (t0 + n - 14) 0 ^^^ V.getD (t0 + n - 16) 0) 1]).length = t0 + (n + 1) := by
  constructor
  · rw [← hl]; exact schedInv_snoc V h
  · rw [List.length_append, hl]; rfl


theorem expandW_eq_rfcSchedule (W16 : List Nat) (hl : W16.length = 16)
    (hb : ∀ j, j < 16 → W16.getD j 0 < 2 ^ 32) :
    expandW W16 = rfcSchedule W16 ∧ SchedInv (rfcSchedule W16) ∧
      (rfcSchedule W16).length = 80 := by
  have h0 : SchedInv W16 := ⟨by omega, by rw [hl]; exact hb, by intro j h1 h2; omega⟩
  obtain ⟨h1, h2⟩ := schedInv_fold 16 W16 16 h0 hl
  have key := foldl_range_inv
    (fun W i => W ++ [rol32 (W.getD (32 + i - 6) 0 ^^^ W.getD (32 + i - 16) 0 ^^^
      W.getD (32 + i - 28) 0 ^^^ W.getD (32 + i - 32) 0) 2])
    (fun W i => W ++ [rol32 (W.getD (32 + i - 3) 0 ^^^ W.getD (32 + i - 8) 0 ^^^
      W.getD (32 + i - 14) 0 ^^^ W.getD (32 + i - 16) 0) 1])
    (fun i V => SchedInv V ∧ V.length = 32 + i) 48 _ ⟨h1, h2⟩
    (fun i a _ ha => ⟨sched_step_inv a 32 i ha.1 ha.2, sched_step_eq a i ha.1 ha.2⟩)
  have split : rfcSchedule W16 =
      (List.range 48).foldl
        (fun W i => W ++ [rol32 (W.getD (32 + i - 3) 0 ^^^ W.getD (32 + i - 8) 0 ^^^
          W.getD (32 + i - 14) 0 ^^^ W.getD (32 + i - 16) 0) 1])
        ((List.range 16).foldl
          (fun W i => W ++ [rol32 (W.getD (16 + i - 3) 0 ^^^ W.getD (16 + i - 8) 0 ^^^
            W.getD (16 + i - 14) 0 ^^^ W.getD (16 + i - 16) 0) 1]) W16) := by
    unfold rfcSchedule
    rw [show (64 : Nat) = 16 + 48 from rfl, foldl_range_add]
    apply foldl_congr_mem
    intro acc i _
    have e : 16 + (16 + i) = 32 + i := by omega
    simp only [e, rol32_eq_rfcS]
  refine ⟨?_, ?_, ?_⟩
  · rw [split]
    exact key.1
  · rw [split]; exact key.2.1
  · rw [split]; exact key.2.2

theorem sha1Step_eq_rfcStep (W : List Nat) (v : Sha1Vars) (s i : Nat) (hs : s < 4)
    (hi : i < 20) : sha1Step W s v (20 * s + i) = rfcStep W v (20 * s + i) := by
  unfold sha1Step rfcStep stageFK rfcF rfcK
  simp only [rol32_eq_rfcS]
  interval_cases s
  · simp only [if_true, if_pos (show 20 * 0 + i ≤ 19 by omega)]
    congr 2
    omega
  · simp only [if_neg (show ¬ (1 = 0) by decide), if_true,
      if_neg (show ¬ (20 * 1 + i ≤ 19) by omega), if_pos (show 20 * 1 + i ≤ 39 by omega)]
    congr 2
    omega
  · simp only [if_neg (show ¬ (2 = 0) by decide), if_neg (show ¬ (2 = 1) by decide), if_true,
      if_neg (show ¬ (20 * 2 + i ≤ 19) by omega), if_neg (show ¬ (20 * 2 + i ≤ 39) by omega),
      if_pos (show 20 * 2 + i ≤ 59 by omega)]
    congr 2
    omega
  · simp only [if_neg (show ¬ (3 = 0) by decide), if_neg (show ¬ (3 = 1) by decide),
      if_neg (show ¬ (3 = 2) by decide),
      if_neg (show ¬ (20 * 3 + i ≤ 19) by omega), if_neg (show ¬ (20 * 3 + i ≤ 39) by omega),
      if_neg (show ¬ (20 * 3 + i ≤ 59) by omega)]
    congr 2
    omega

theorem sha1Rounds_eq (W : List Nat) (v : Sha1Vars) :
    sha1Rounds W v = (List.range 80).foldl (rfcStep W) v := by
  unfold sha1Rounds
  have h4 : List.range 4 = [0, 1, 2, 3] := by decide
  rw [h4]
  simp only [List.foldl_cons, List.foldl_nil]
  rw [show (80 : Nat) = 20 + 20 + 20 + 20 from rfl, foldl_range_add, foldl_range_add,
    foldl_range_add]
  have e : ∀ (s : Nat) (hs : s < 4) (x : Sha1Vars),
      (List.range 20).foldl (fun v i => sha1Step W s v (20 * s + i)) x =
        (List.range 20).foldl (fun acc i => rfcStep W acc (20 * s + i)) x := by
    intro s hs x
    apply foldl_congr_mem
    intro acc i hi
    exact sha1Step_eq_rfcStep W acc s i hs (List.mem_range.mp hi)
  rw [e 0 (by decide), e 1 (by decide), e 2 (by decide), e 3 (by decide)]
  have z : ∀ x : Sha1Vars, (List.range 20).foldl (fun acc i => rfcStep W acc (20 * 0 + i)) x =
      (List.range 20).foldl (rfcStep W) x := by
    intro x
    apply foldl_congr_mem
    intro acc i _
    rw [Nat.mul_zero, Nat.zero_add]
  rw [z]

theorem sha1LoopCount_eq (n : Nat) (hn : n + 8 < 2 ^ 32) :
    sha1LoopCount n = (n + 8) / 64 + 1 ∧ sha1TailLen n = 64 * ((n + 8) / 64 + 1) - n ∧
    64 * ((n + 8) / 64 + 1) ≤ 2 ^ 32 ∧ n + 9 ≤ 64 * ((n + 8) / 64 + 1) ∧
    64 * ((n + 8) / 64 + 1) - n = (119 - n % 64) % 64 + 9 := by
  have e1 : sha1LoopCount n = (n + 8) / 64 + 1 := by
    unfold sha1LoopCount
    exact Nat.mod_eq_of_lt (by omega)
  refine ⟨e1, ?_, by omega, by omega, by omega⟩
  unfold sha1TailLen
  simp only [e1]
  by_cases h : 64 * ((n + 8) / 64 + 1) < 2 ^ 32
  · rw [Nat.mod_eq_of_lt h, if_pos (by omega)]
    exact Nat.mod_eq_of_lt (by omega)
  · have h2 : 64 * ((n + 8) / 64 + 1) = 2 ^ 32 := by omega
    rw [h2]
    have h3 : ¬ n ≤ 2 ^ 32 % 2 ^ 32 := by norm_num; omega
    rw [if_neg h3]
    norm_num
    omega

theorem rfcPad_length (msg : List Nat) :
    (rfcPad msg).length = 64 * ((msg.length + 8) / 64 + 1) := by
  simp only [rfcPad, rfcLength, List.length_append, List.length_replicate, List.length_cons,
    List.length_nil]
  omega

theorem sha1Tail_apply (n i : Nat) (hn : n + 8 < 2 ^ 32)
    (hi : i < 64 * ((n + 8) / 64 + 1) - n) :
    sha1Tail n i =
      (0x80 :: (List.replicate ((119 - n % 64) % 64) 0 ++ rfcLength (8 * n))).getD i 0 := by
  obtain ⟨_, e2, _, _, e5⟩ := sha1LoopCount_eq n hn
  have hr : List.range 8 = [0, 1, 2, 3, 4, 5, 6, 7] := by decide
  have hb : n * 8 % 2 ^ 64 = 8 * n := by
    rw [Nat.mod_eq_of_lt (by omega)]; omega
  rw [e5] at hi
  generalize hz : (119 - n % 64) % 64 = z at *
  simp only [sha1Tail, e2, e5, hr, hb, List.foldl_cons, List.foldl_nil, Nat.shiftRight_eq_div_pow]
  by_cases h0 : i = 0
  · subst h0
    simp
  · by_cases h1 : i ≤ z
    · iterate 8 rw [if_neg (by omega)]
      rw [if_neg h0]
      obtain ⟨k, rfl⟩ : ∃ k, i = k + 1 := ⟨i - 1, by omega⟩
      rw [List.getD_cons_succ, List.getD_append _ _ _ _ (by simp; omega)]
      simp
    · obtain ⟨j, rfl, hj⟩ : ∃ j, i = (z + j) + 1 ∧ j < 8 := ⟨i - z - 1, by omega, by omega⟩
      rw [List.getD_cons_succ, List.getD_append_right _ _ _ _ (by simp)]
      simp only [List.length_replicate, Nat.add_sub_cancel_left, rfcLength]
      interval_cases j <;> simp

theorem rfcPad_getD (source : List Nat) (d : Nat) (hn : source.length + 8 < 2 ^ 32)
    (hd : d < 64 * ((source.length + 8) / 64 + 1)) :
    (rfcPad source).getD d 0 =
      if d < source.length then source.getD d 0
      else sha1Tail source.length (d - source.length) := by
  by_cases h : d < source.length
  · rw [if_pos h]
    unfold rfcPad
    rw [List.append_assoc, List.append_assoc, List.getD_append _ _ _ _ h]
  · rw [if_neg h, sha1Tail_apply _ _ hn (by omega)]
    unfold rfcPad
    rw [List.append_assoc, List.append_assoc, List.getD_append_right _ _ _ _ (by omega)]
    rfl

theorem sha1Tail_lt (n i : Nat) : sha1Tail n i < 256 := by
  have hr : List.range 8 = [0, 1, 2, 3, 4, 5, 6, 7] := by decide
  simp only [sha1Tail, hr, List.foldl_cons, List.foldl_nil]
  repeat' split
  all_goals omega

theorem loadWord_step (source : List Nat) (tail : Nat → Nat) (wc : Nat) (rest : List Nat)
    (flag : Bool) (w d : Nat) (hf : flag = true → source.length ≤ d) :
    loadWord source tail (wc :: rest) flag w d =
      loadWord source tail rest (flag || decide (source.length ≤ d))
        ((w + ((if d < source.length then source.getD d 0 else tail (d - source.length)) <<< wc)
          % 2 ^ 32) % 2 ^ 32) ((d + 1) % 2 ^ 32) := by
  rw [loadWord]
  cases flag with
  | true =>
    have := hf rfl
    rw [if_neg (by simp), if_neg (by omega)]
    simp
  | false =>
    by_cases h : d < source.length
    · rw [if_pos ⟨rfl, h⟩, if_pos h]
      have e : decide (source.length ≤ d) = false := decide_eq_false (by omega)
      rw [e]; rfl
    · rw [if_neg (by simp [h]), if_neg h]
      have e : decide (source.length ≤ d) = true := decide_eq_true (by omega)
      rw [e]; rfl

theorem word_sum (b0 b1 b2 b3 : Nat) (h0 : b0 < 256) (h1 : b1 < 256) (h2 : b2 < 256)
    (h3 : b3 < 256) :
    ((((0 + (b0 <<< 24) % 2 ^ 32) % 2 ^ 32 + (b1 <<< 16) % 2 ^ 32) % 2 ^ 32 +
      (b2 <<< 8) % 2 ^ 32) % 2 ^ 32 + (b3 <<< 0) % 2 ^ 32) % 2 ^ 32 =
    b0 * 2 ^ 24 + b1 * 2 ^ 16 + b2 * 2 ^ 8 + b3 := by
  simp only [Nat.shiftLeft_eq]
  norm_num
  omega

theorem loadWord_eq (source : List Nat) (tail : Nat → Nat) (d : Nat)
    (hs : ∀ j, source.getD j 0 < 256) (ht : ∀ j, tail j < 256) (hd : d + 4 ≤ 2 ^ 32) :
    loadWord source tail [24, 16, 8, 0] false 0 d =
      ((if d < source.length then source.getD d 0 else tail (d - source.length)) * 2 ^ 24 +
       (if d + 1 < source.length then source.getD (d + 1) 0
          else tail (d + 1 - source.length)) * 2 ^ 16 +
       (if d + 2 < source.length then source.getD (d + 2) 0
          else tail (d + 2 - source.length)) * 2 ^ 8 +
       (if d + 3 < source.length then source.getD (d + 3) 0
          else tail (d + 3 - source.length)), (d + 4) % 2 ^ 32) := by
  have hB : ∀ x, (if x < source.length then source.getD x 0 else tail (x - source.length)) < 256 := by
    intro x; split
    · exact hs x
    · exact ht _
  have e1 : (d + 1) % 2 ^ 32 = d + 1 := Nat.mod_eq_of_lt (by omega)
  have e2 : (d + 1 + 1) % 2 ^ 32 = d + 2 := Nat.mod_eq_of_lt (by omega)
  have e3 : (d + 2 + 1) % 2 ^ 32 = d + 3 := Nat.mod_eq_of_lt (by omega)
  rw [loadWord_step source tail 24 _ false 0 d (by intro h; cases h), e1,
    loadWord_step source tail 16 _ _ _ (d + 1) (by intro h; simp at h; omega), e2,
    loadWord_step source tail 8 _ _ _ (d + 2) (by intro h; simp at h; omega), e3,
    loadWord_step source tail 0 _ _ _ (d + 3) (by intro h; simp at h; omega), loadWord,
    word_sum _ _ _ _ (hB _) (hB _) (hB _) (hB _)]

theorem loadWord_rfcWord (source : List Nat) (d : Nat) (hs : ∀ j, source.getD j 0 < 256)
    (hn : source.length + 8 < 2 ^ 32) (hd : d + 4 ≤ 64 * ((source.length + 8) / 64 + 1)) :
    loadWord source (sha1Tail source.length) [24, 16, 8, 0] false 0 d =
      (rfcWord (rfcPad source) d, (d + 4) % 2 ^ 32) := by
  obtain ⟨_, _, e3, _, _⟩ := sha1LoopCount_eq source.length hn
  rw [loadWord_eq source _ d hs (sha1Tail_lt _) (by omega)]
  unfold rfcWord
  rw [rfcPad_getD source d hn (by omega), rfcPad_getD source (d + 1) hn (by omega),
    rfcPad_getD source (d + 2) hn (by omega), rfcPad_getD source (d + 3) hn (by omega)]

theorem loadBlock_fold (source : List Nat) (l : Nat) (hs : ∀ j, source.getD j 0 < 256)
    (hn : source.length + 8 < 2 ^ 32) (hl : l < (source.length + 8) / 64 + 1) (k : Nat)
    (hk : k ≤ 16) :
    (List.range k).foldl
      (fun (acc : List Nat × Nat) (_ : Nat) =>
        ((acc.1 ++ [(loadWord source (sha1Tail source.length) [24, 16, 8, 0] false 0 acc.2).1]),
          (loadWord source (sha1Tail source.length) [24, 16, 8, 0] false 0 acc.2).2))
      ([], 64 * l) =
    ((List.range k).map (fun j => rfcWord (rfcPad source) (64 * l + 4 * j)),
      (64 * l + 4 * k) % 2 ^ 32) := by
  obtain ⟨_, _, e3, _, _⟩ := sha1LoopCount_eq source.length hn
  induction k with
  | zero =>
    simp only [List.range_zero, List.foldl_nil, List.map_nil]
    rw [Nat.mod_eq_of_lt (by omega)]; rfl
  | succ k ih =>
    rw [List.range_succ, List.foldl_append, ih (by omega)]
    simp only [List.foldl_cons, List.foldl_nil, List.map_append, List.map_cons, List.map_nil]
    rw [Nat.mod_eq_of_lt (show 64 * l + 4 * k < 2 ^ 32 by omega),
      loadWord_rfcWord source _ hs hn (by omega)]
    rfl

theorem loadBlock_eq (source : List Nat) (l : Nat) (hs : ∀ j, source.getD j 0 < 256)
    (hn : source.length + 8 < 2 ^ 32) (hl : l < (source.length + 8) / 64 + 1) :
    loadBlock source (sha1Tail source.length) (64 * l) =
      (rfcBlock (rfcPad source) l, (64 * (l + 1)) % 2 ^ 32) :=
  loadBlock_fold source l hs hn hl 16 (Nat.le_refl _)

theorem rfcPad_getD_lt (source : List Nat) (hs : ∀ j, source.getD j 0 < 256)
    (hn : source.length + 8 < 2 ^ 32) (d : Nat) : (rfcPad source).getD d 0 < 256 := by
  by_cases h : d < (rfcPad source).length
  · rw [rfcPad_getD source d hn (by rw [← rfcPad_length]; exact h)]
    split
    · exact hs d
    · exact sha1Tail_lt _ _
  · rw [List.getD_eq_default _ _ (by omega)]
    decide

theorem rfcBlock_props (source : List Nat) (hs : ∀ j, source.getD j 0 < 256)
    (hn : source.length + 8 < 2 ^ 32) (l : Nat) :
    (rfcBlock (rfcPad source) l).length = 16 ∧
    ∀ j, j < 16 → (rfcBlock (rfcPad source) l).getD j 0 < 2 ^ 32 := by
  refine ⟨by simp [rfcBlock], ?_⟩
  intro j hj
  unfold rfcBlock
  rw [List.getD_eq_getElem _ _ (by simp; exact hj)]
  simp only [List.getElem_map, List.getElem_range, rfcWord]
  have h0 := rfcPad_getD_lt source hs hn (64 * l + 4 * j)
  have h1 := rfcPad_getD_lt source hs hn (64 * l + 4 * j + 1)
  have h2 := rfcPad_getD_lt source hs hn (64 * l + 4 * j + 2)
  have h3 := rfcPad_getD_lt source hs hn (64 * l + 4 * j + 3)
  omega

theorem sha1Block_eq (source : List Nat) (H : List Nat) (l : Nat)
    (hs : ∀ j, source.getD j 0 < 256)
    (hn : source.length + 8 < 2 ^ 32) (hl : l < (source.length + 8) / 64 + 1) :
    sha1Block source (sha1Tail source.length) (H, 64 * l) =
      (rfcProcess H (rfcBlock (rfcPad source) l), (64 * (l + 1)) % 2 ^ 32) := by
  obtain ⟨h16, hb⟩ := rfcBlock_props source hs hn l
  unfold sha1Block rfcProcess
  simp only [loadBlock_eq source l hs hn hl, (expandW_eq_rfcSchedule _ h16 hb).1, sha1Rounds_eq]

theorem sha1_fold (source : List Nat) (hs : ∀ j, source.getD j 0 < 256)
    (hn : source.length + 8 < 2 ^ 32) (k : Nat) (hk : k ≤ (source.length + 8) / 64 + 1) :
    (List.range k).foldl
      (fun st _ => sha1Block source (sha1Tail source.length) st)
      ([0x67452301, 0xefcdab89, 0x98badcfe, 0x10325476, 0xc3d2e1f0], 0) =
    ((List.range k).foldl (fun H l => rfcProcess H (rfcBlock (rfcPad source) l))
      [0x67452301, 0xEFCDAB89, 0x98BADCFE, 0x10325476, 0xC3D2E1F0], (64 * k) % 2 ^ 32) := by
  obtain ⟨_, _, e3, _, _⟩ := sha1LoopCount_eq source.length hn
  induction k with
  | zero => rfl
  | succ k ih =>
    rw [List.range_succ, List.foldl_append, List.foldl_append, ih (by omega)]
    simp only [List.foldl_cons, List.foldl_nil]
    rw [Nat.mod_eq_of_lt (show 64 * k < 2 ^ 32 by omega), sha1Block_eq source _ k hs hn (by omega)]

/-- The hash of the code is the hash of RFC 3174 on every message of fewer than
`2 ^ 32 - 8` bytes. -/
theorem sha1H_eq_rfcSha1 (source : List Nat) (hs : ∀ j, source.getD j 0 < 256)
    (hn : source.length + 8 < 2 ^ 32) : sha1H source = rfcSha1 source := by
  unfold sha1H rfcSha1
  rw [(sha1LoopCount_eq _ hn).1, sha1_fold source hs hn _ (Nat.le_refl _), rfcPad_length]
  rw [Nat.mul_div_cancel_left _ (by decide : 0 < 64)]

theorem getD_lt_of_mem (l : List Nat) (h : ∀ b ∈ l, b < 256) (j : Nat) : l.getD j 0 < 256 := by
  by_cases hj : j < l.length
  · rw [List.getD_eq_getElem _ _ hj]
    exact h _ (List.getElem_mem _)
  · rw [List.getD_eq_default _ _ (by omega)]
    decide

theorem sha1Byte_eq (H : List Nat) (i : Nat) :
    sha1Byte H i = H.getD (i / 4) 0 / 2 ^ (8 * (3 - i % 4)) % 256 := by
  unfold sha1Byte
  rw [Nat.shiftRight_eq_div_pow]
  congr 3
  omega

theorem sha1_digest_eq (source : List Nat) (hs : ∀ b ∈ source, b < 256)
    (hn : source.length + 8 < 2 ^ 32) :
    (List.range 20).map (sha1Byte (sha1H source)) = rfcDigest source := by
  unfold rfcDigest
  rw [sha1H_eq_rfcSha1 source (getD_lt_of_mem source hs) hn]
  exact List.map_congr_left (fun i _ => sha1Byte_eq _ i)

/-- Claim C6, counterexample: on a message of `2 ^ 38` bytes the 32-bit variable
`loopcount` is 1, so the loop over `lidx` processes one block, while the padded
message of RFC 3174 has `2 ^ 32 + 1` blocks. -/
theorem sha1_loopcount_wraps :
    sha1LoopCount (List.replicate (2 ^ 38) 0).length = 1 ∧
    (rfcPad (List.replicate (2 ^ 38) 0)).length / 64 = 2 ^ 32 + 1 := by
  rw [rfcPad_length, List.length_replicate]
  refine ⟨by unfold sha1LoopCount; norm_num, by norm_num⟩

set_option maxRecDepth 100000 in
/-- Claim C6, amended: on every message of bytes whose length `n` satisfies
`n + 8 < 2 ^ 32` the hash inside `ValidateDigest` is SHA-1 of RFC 3174. The number
of blocks is `(n + 8) / 64 + 1`, the number of blocks of the padded message; each
block loaded from `source` and `tail` is the block of the padded message (the
`0x80` byte, the zero fill, the 64-bit big-endian bit length); the 80 words of `W`
are the schedule of the RFC; the four stages of twenty steps are the 80 steps of
the RFC; hence `H` and the twenty digest bytes are those of the RFC. On `"abc"`
the digest is `a9993e364706816aba3e25717850c26c9cd0d89d`. -/
theorem sha1_is_rfc3174 (source : List Nat) (hs : ∀ b ∈ source, b < 256)
    (hn : source.length + 8 < 2 ^ 32) :
    sha1LoopCount source.length = (source.length + 8) / 64 + 1 ∧
    sha1LoopCount source.length = (rfcPad source).length / 64 ∧
    (∀ l, l < sha1LoopCount source.length →
      (loadBlock source (sha1Tail source.length) (64 * l)).1 = rfcBlock (rfcPad source) l) ∧
    (∀ l, l < sha1LoopCount source.length →
      expandW (rfcBlock (rfcPad source) l) = rfcSchedule (rfcBlock (rfcPad source) l) ∧
      (rfcSchedule (rfcBlock (rfcPad source) l)).length = 80) ∧
    (∀ W v, sha1Rounds W v = (List.range 80).foldl (rfcStep W) v) ∧
    sha1H source = rfcSha1 source ∧
    (List.range 20).map (sha1Byte (sha1H source)) = rfcDigest source ∧
    (List.range 20).map (sha1Byte (sha1H [0x61, 0x62, 0x63])) =
      [0xa9, 0x99, 0x3e, 0x36, 0x47, 0x06, 0x81, 0x6a, 0xba, 0x3e, 0x25, 0x71, 0x78, 0x50, 0xc2,
       0x6c, 0x9c, 0xd0, 0xd8, 0x9d] := by
  have hg := getD_lt_of_mem source hs
  have e1 := (sha1LoopCount_eq source.length hn).1
  refine ⟨e1, ?_, ?_, ?_, sha1Rounds_eq, sha1H_eq_rfcSha1 source hg hn,
    sha1_digest_eq source hs hn, by decide⟩
  · rw [e1, rfcPad_length, Nat.mul_div_cancel_left _ (by decide : 0 < 64)]
  · intro l hl
    rw [e1] at hl
    rw [loadBlock_eq source l hg hn hl]
  · intro l _
    obtain ⟨h16, hb⟩ := rfcBlock_props source hg hn l
    obtain ⟨a, _, c⟩ := expandW_eq_rfcSchedule _ h16 hb
    exact ⟨a, c⟩

theorem sha1_is_rfc3174_witness :
    sha1H [0x61, 0x62, 0x63] = rfcSha1 [0x61, 0x62, 0x63] ∧
    (List.range 20).map (sha1Byte (sha1H [0x61, 0x62, 0x63])) = rfcDigest [0x61, 0x62, 0x63] :=
  ⟨(sha1_is_rfc3174 [0x61, 0x62, 0x63] (by decide) (by decide)).2.2.2.2.2.1,
   (sha1_is_rfc3174 [0x61, 0x62, 0x63] (by decide) (by decide)).2.2.2.2.2.2.1⟩

theorem base64Map_lt : ∀ j, j < 128 → base64Map.getD j 0 < 64 := by decide

theorem sextet_lt (c : Nat) : sextet c < 64 :=
  base64Map_lt _ (Nat.and_lt_two_pow c (by decide : 0x7f < 2 ^ 7))

set_option maxRecDepth 100000 in
theorem sextet_base64Char_all : ∀ v, v < 64 → sextet (base64Char v) = v := by decide

theorem sextet_base64Char (v : Nat) (h : v < 64) : sextet (base64Char v) = v :=
  sextet_base64Char_all v h

theorem or6 (a b : Nat) (hb : b < 64) : ((a <<< 6) % 2 ^ 32) ||| b = (a * 64) % 2 ^ 32 + b := by
  rw [Nat.shiftLeft_eq]
  have h : (a * 2 ^ 6) % 2 ^ 32 = (a * 2 ^ 6 % 2 ^ 32 / 2 ^ 6) <<< 6 := by
    rw [Nat.shiftLeft_eq]
    omega
  rw [h, shl_or _ b 6 (by simpa using hb)]
  omega

theorem decodeWord_bytes (c0 c1 c2 c3 : Nat) :
    wordBytes (decodeWord [c0, c1, c2, c3]) =
      [sextet c0 * 4 + sextet c1 / 16, sextet c1 % 16 * 16 + sextet c2 / 4,
       sextet c2 % 4 * 64 + sextet c3] := by
  have h0 := sextet_lt c0
  have h1 := sextet_lt c1
  have h2 := sextet_lt c2
  have h3 := sextet_lt c3
  simp only [decodeWord, List.foldl_cons, List.foldl_nil, wordBytes, or6 _ _ h0, or6 _ _ h1,
    or6 _ _ h2, or6 _ _ h3, Nat.shiftRight_eq_div_pow]
  generalize sextet c0 = s0 at *
  generalize sextet c1 = s1 at *
  generalize sextet c2 = s2 at *
  generalize sextet c3 = s3 at *
  simp only [List.cons.injEq, and_true]
  refine ⟨?_, ?_, ?_⟩ <;> omega

theorem decodeDigest_getD (b : List Nat) (m : Nat) (hm : m < 21) :
    (decodeDigest b).getD m 0 = sextetBytes (fun j => sextet (b.getD j 0)) m := by
  have hr7 : List.range 7 = [0, 1, 2, 3, 4, 5, 6] := by decide
  have hr4 : List.range 4 = [0, 1, 2, 3] := by decide
  simp only [decodeDigest, hr7, hr4, List.foldl_cons, List.foldl_nil, List.map_cons,
    List.map_nil, decodeWord_bytes, List.nil_append, List.cons_append]
  interval_cases m <;> simp [sextetBytes]

theorem range20_map (d : Nat → Nat) :
    (List.range 20).map d =
      [d 0, d 1, d 2, d 3, d 4, d 5, d 6, d 7, d 8, d 9, d 10, d 11, d 12, d 13, d 14, d 15,
       d 16, d 17, d 18, d 19] := rfl

theorem encode20_length (d : Nat → Nat) :
    (base64Encode ((List.range 20).map d)).length = 28 ∧
    (base64Encode ((List.range 20).map d)).getD 27 0 = 61 := by
  rw [range20_map]
  simp [base64Encode]

theorem encode20_alphabet (d : Nat → Nat) (hd : ∀ i, d i < 256) (j : Nat) (hj : j < 27) :
    ∃ v, v < 64 ∧ (base64Encode ((List.range 20).map d)).getD j 0 = base64Char v := by
  rw [range20_map]
  simp only [base64Encode]
  have h0 := hd 0; have h1 := hd 1; have h2 := hd 2; have h3 := hd 3; have h4 := hd 4
  have h5 := hd 5; have h6 := hd 6; have h7 := hd 7; have h8 := hd 8; have h9 := hd 9
  have h10 := hd 10; have h11 := hd 11; have h12 := hd 12; have h13 := hd 13
  have h14 := hd 14; have h15 := hd 15; have h16 := hd 16; have h17 := hd 17
  have h18 := hd 18; have h19 := hd 19
  interval_cases j <;> exact ⟨_, by omega, rfl⟩

theorem encode20_decode (d : Nat → Nat) (hd : ∀ i, d i < 256) (m : Nat) (hm : m < 20) :
    sextetBytes (fun j => sextet ((base64Encode ((List.range 20).map d)).getD j 0)) m = d m := by
  rw [range20_map]
  simp only [base64Encode]
  have h0 := hd 0; have h1 := hd 1; have h2 := hd 2; have h3 := hd 3; have h4 := hd 4
  have h5 := hd 5; have h6 := hd 6; have h7 := hd 7; have h8 := hd 8; have h9 := hd 9
  have h10 := hd 10; have h11 := hd 11; have h12 := hd 12; have h13 := hd 13
  have h14 := hd 14; have h15 := hd 15; have h16 := hd 16; have h17 := hd 17
  have h18 := hd 18; have h19 := hd 19
  interval_cases m <;> simp [sextetBytes] <;> simp (disch := omega) only [sextet_base64Char] <;>
    omega

theorem sextetBytes_update_fwd (s : Nat → Nat) (i x : Nat) (hi : i < 27) (hs : ∀ j, s j < 64)
    (h : ∀ m, m < 20 → sextetBytes (Function.update s i x) m = sextetBytes s m) :
    if i = 26 then x / 4 = s 26 / 4 else x = s i := by
  have a0 := h (3 * (i / 4)) (by omega)
  have a1 := h (3 * (i / 4) + 1) (by omega)
  have a2 := h (3 * (i / 4) + (if 24 ≤ i then 1 else 2)) (by split <;> omega)
  have b0 := hs (4 * (i / 4)); have b1 := hs (4 * (i / 4) + 1)
  have b2 := hs (4 * (i / 4) + 2); have b3 := hs (4 * (i / 4) + 3)
  interval_cases i <;> simp [sextetBytes, Function.update] at a0 a1 a2 b0 b1 b2 b3 ⊢ <;> omega

theorem sextetBytes_update_bwd (s : Nat → Nat) (i x : Nat) (hi : i < 27)
    (h : if i = 26 then x / 4 = s 26 / 4 else x = s i) (m : Nat) (hm : m < 20) :
    sextetBytes (Function.update s i x) m = sextetBytes s m := by
  by_cases h26 : i = 26
  · subst h26
    rw [if_pos rfl] at h
    interval_cases m <;> simp [sextetBytes, Function.update] <;> omega
  · rw [if_neg h26] at h
    subst h
    rw [Function.update_eq_self]

theorem digestSource_eq (K : List Nat) (hK : K.length = 16) :
    digestSource K = K ++ guidBytes := by
  unfold digestSource
  congr 1
  apply List.ext_getElem
  · simp [hK]
  · intro n h1 h2
    simp [List.getElem?_eq_getElem h2]

theorem guidBytes_props : guidBytes.length = 36 ∧ ∀ b ∈ guidBytes, b < 256 := by decide

theorem source_props (K : List Nat) (hK : K.length = 16) (hb : ∀ b ∈ K, b < 256) :
    (∀ b ∈ K ++ guidBytes, b < 256) ∧ (K ++ guidBytes).length + 8 < 2 ^ 32 := by
  constructor
  · intro b h
    rcases List.mem_append.mp h with h | h
    · exact hb b h
    · exact guidBytes_props.2 b h
  · rw [List.length_append, hK, guidBytes_props.1]
    decide

theorem getD_map_range (f : Nat → Nat) (n m : Nat) (h : m < n) :
    ((List.range n).map f).getD m 0 = f m := by
  rw [List.getD_eq_getElem _ _ (by simpa using h)]
  simp

/-- The result of `ValidateDigest` in terms of the table values of the characters
and the digest of RFC 3174. -/
theorem validate_iff (base64 K : List Nat) (hK : K.length = 16) (hb : ∀ b ∈ K, b < 256) :
    ValidateDigest base64 K =
      if base64.getD 27 0 ≠ 61 then .abort
      else .ret (decide (∀ m : Nat, m < 20 →
        sextetBytes (fun j => sextet (base64.getD j 0)) m =
          (rfcDigest (K ++ guidBytes)).getD m 0)) := by
  obtain ⟨h1, h2⟩ := source_props K hK hb
  unfold ValidateDigest
  rw [digestSource_eq K hK]
  split
  · rfl
  · simp only
    congr 1
    rw [Bool.eq_iff_iff]
    simp only [List.all_eq_true, List.mem_range, decide_eq_true_eq]
    rw [← sha1_digest_eq _ h1 h2]
    constructor
    · intro h m hm
      rw [← decodeDigest_getD _ m (by omega), getD_map_range _ _ _ hm]
      exact h m hm
    · intro h m hm
      rw [decodeDigest_getD _ m (by omega), ← getD_map_range (sha1Byte _) 20 m hm]
      exact h m hm

theorem rfcDigest_lt (msg : List Nat) (i : Nat) :
    (rfcSha1 msg).getD (i / 4) 0 / 2 ^ (8 * (3 - i % 4)) % 256 < 256 :=
  Nat.mod_lt _ (by decide)

theorem acceptValue_props (K : List Nat) :
    (acceptValue K).length = 28 ∧ (acceptValue K).getD 27 0 = 61 ∧
    (∀ j, j < 27 → ∃ v, v < 64 ∧ (acceptValue K).getD j 0 = base64Char v) ∧
    ∀ m, m < 20 → sextetBytes (fun j => sextet ((acceptValue K).getD j 0)) m =
      (rfcDigest (K ++ guidBytes)).getD m 0 := by
  unfold acceptValue rfcDigest
  refine ⟨(encode20_length _).1, (encode20_length _).2,
    encode20_alphabet _ (rfcDigest_lt _), ?_⟩
  intro m hm
  rw [encode20_decode _ (rfcDigest_lt _) m hm, getD_map_range _ _ _ hm]

theorem base64Char_mem (v : Nat) (h : v < 64) : base64Char v ∈ base64Alphabet := by
  have hl : base64Alphabet.length = 64 := by decide
  unfold base64Char
  rw [List.getD_eq_getElem _ _ (by omega)]
  exact List.getElem_mem _

theorem mem_base64Alphabet (c : Nat) (h : c ∈ base64Alphabet) :
    ∃ v, v < 64 ∧ c = base64Char v := by
  have hl : base64Alphabet.length = 64 := by decide
  obtain ⟨n, hn, e⟩ := List.getElem_of_mem h
  refine ⟨n, by omega, ?_⟩
  unfold base64Char
  rw [List.getD_eq_getElem _ _ hn, e]

theorem flipBit_getD (A : List Nat) (i b j : Nat) (hi : i < A.length) :
    (flipBit A i b).getD j 0 =
      if j = i then A.getD i 0 ^^^ 2 ^ b else A.getD j 0 := by
  unfold flipBit
  by_cases h : j = i
  · subst h
    rw [if_pos rfl, List.getD_eq_getElem _ _ (by simpa using hi)]
    simp
  · rw [if_neg h]
    simp only [List.getD_eq_getElem?_getD]
    rw [List.getElem?_set_ne (fun e => h e.symm)]

theorem sextet_flip7 (c : Nat) : sextet (c ^^^ 2 ^ 7) = sextet c := by
  unfold sextet
  congr 1
  rw [Nat.and_xor_distrib_right, show (2 ^ 7 &&& 0x7f : Nat) = 0 by decide, Nat.xor_zero]

theorem xor_pow_ne (c b : Nat) : c ^^^ 2 ^ b ≠ c := by
  intro h
  have h2 : c ^^^ (c ^^^ 2 ^ b) = c ^^^ c := by rw [h]
  rw [Nat.xor_cancel_left, Nat.xor_self] at h2
  exact absurd h2 (by positivity)

/-- The result of `ValidateDigest` on an accept value with one bit of one of its
first 27 characters flipped. -/
theorem validate_flip (K : List Nat) (hK : K.length = 16) (hb : ∀ x ∈ K, x < 256)
    (i b : Nat) (hi : i < 27) :
    ValidateDigest (flipBit (acceptValue K) i b) K =
      .ret (decide (if i = 26
        then sextet ((acceptValue K).getD i 0 ^^^ 2 ^ b) / 4 = sextet ((acceptValue K).getD i 0) / 4
        else sextet ((acceptValue K).getD i 0 ^^^ 2 ^ b) = sextet ((acceptValue K).getD i 0))) := by
  obtain ⟨hl, h27, _, hd⟩ := acceptValue_props K
  have hu : (fun j => sextet ((flipBit (acceptValue K) i b).getD j 0)) =
      Function.update (fun j => sextet ((acceptValue K).getD j 0)) i
        (sextet ((acceptValue K).getD i 0 ^^^ 2 ^ b)) := by
    funext j
    rw [flipBit_getD _ _ _ _ (by omega)]
    by_cases h : j = i
    · subst h; simp
    · rw [if_neg h, Function.update_noteq h]
  have e27 : (flipBit (acceptValue K) i b).getD 27 0 = 61 := by
    rw [flipBit_getD _ _ _ 27 (by omega), if_neg (by omega), h27]
  rw [validate_iff _ K hK hb, e27, if_neg (by simp), hu]
  congr 1
  rw [Bool.eq_iff_iff]
  simp only [decide_eq_true_eq]
  constructor
  · intro h
    have h2 := sextetBytes_update_fwd (fun j => sextet ((acceptValue K).getD j 0)) i _ hi
      (fun j => sextet_lt _) (fun m hm => by rw [h m hm, hd m hm])
    by_cases h26 : i = 26
    · subst h26
      rw [if_pos rfl] at h2 ⊢
      exact h2
    · rw [if_neg h26] at h2 ⊢
      exact h2
  · intro h m hm
    rw [← hd m hm]
    apply sextetBytes_update_bwd _ i _ hi _ m hm
    by_cases h26 : i = 26
    · subst h26
      rw [if_pos rfl] at h ⊢
      exact h
    · rw [if_neg h26] at h ⊢
      exact h

/-- Claim C4: for every key `K` of 16 bytes the accept value computed the standard
way, base64 (RFC 4648) of SHA-1 (RFC 3174) of `K` followed by the GUID, has 28
characters, 27 of the alphabet and then `=`, and `ValidateDigest` returns true on
it. -/
theorem accept_value_validates (K : List Nat) (hK : K.length = 16) (hb : ∀ x ∈ K, x < 256) :
    (acceptValue K).length = 28 ∧
    (∀ j, j < 27 → (acceptValue K).getD j 0 ∈ base64Alphabet) ∧
    (acceptValue K).getD 27 0 = 61 ∧
    ValidateDigest (acceptValue K) K = .ret true := by
  obtain ⟨hl, h27, ha, hd⟩ := acceptValue_props K
  refine ⟨hl, ?_, h27, ?_⟩
  · intro j hj
    obtain ⟨v, hv, e⟩ := ha j hj
    rw [e]
    exact base64Char_mem v hv
  · rw [validate_iff _ K hK hb, h27, if_neg (by simp)]
    congr 1
    exact decide_eq_true hd

set_option maxRecDepth 100000 in
theorem accept_value_validates_witness :
    ValidateDigest (acceptValue [56, 49, 52, 89, 35, 32, 32, 32, 32, 32, 32, 32, 32, 32, 32, 32])
      [56, 49, 52, 89, 35, 32, 32, 32, 32, 32, 32, 32, 32, 32, 32, 32] = .ret true :=
  (accept_value_validates [56, 49, 52, 89, 35, 32, 32, 32, 32, 32, 32, 32, 32, 32, 32, 32]
    (by decide) (by decide)).2.2.2

set_option maxRecDepth 100000 in
/-- Claim C5, counterexample: for the key `814Y#` followed by eleven spaces, whose
accept value is `1QaojcoGTIUl0eBR2lEtBIWGdHU=`, flipping bit 7 of character 0
and flipping bit 1 of character 26 (`U` becomes `W`) both leave the result true,
and flipping bit 0 of character 27 (`=` becomes `<`) stops at the `assert`. -/
theorem flipped_accept_still_valid :
    ValidateDigest
      (flipBit (acceptValue [56, 49, 52, 89, 35, 32, 32, 32, 32, 32, 32, 32, 32, 32, 32, 32]) 0 7)
      [56, 49, 52, 89, 35, 32, 32, 32, 32, 32, 32, 32, 32, 32, 32, 32] = .ret true ∧
    ValidateDigest
      (flipBit (acceptValue [56, 49, 52, 89, 35, 32, 32, 32, 32, 32, 32, 32, 32, 32, 32, 32]) 26 1)
      [56, 49, 52, 89, 35, 32, 32, 32, 32, 32, 32, 32, 32, 32, 32, 32] = .ret true ∧
    ValidateDigest
      (flipBit (acceptValue [56, 49, 52, 89, 35, 32, 32, 32, 32, 32, 32, 32, 32, 32, 32, 32]) 27 0)
      [56, 49, 52, 89, 35, 32, 32, 32, 32, 32, 32, 32, 32, 32, 32, 32] = .abort := by
  decide

/-- Claim C5, amended: for every key `K` of 16 bytes, its accept value `A`, every
character index `i < 27` and every bit `b < 8`, `ValidateDigest` on `A` with bit
`b` of character `i` flipped returns, and returns true exactly when the flip
leaves the table value `map[c & 0x7f]` of the character as it was (for `i = 26`,
whose two low bits do not reach the 20 bytes compared: its upper four bits).
Hence a flip of bit 7 leaves the result true, and a flip that turns a character
of index below 26 into another character of the alphabet gives false. -/
theorem flipped_accept_value (K : List Nat) (hK : K.length = 16) (hb : ∀ x ∈ K, x < 256)
    (i b : Nat) (hi : i < 27) (hb8 : b < 8) :
    ValidateDigest (flipBit (acceptValue K) i b) K =
      .ret (decide (if i = 26
        then sextet ((acceptValue K).getD i 0 ^^^ 2 ^ b) / 4 = sextet ((acceptValue K).getD i 0) / 4
        else sextet ((acceptValue K).getD i 0 ^^^ 2 ^ b) = sextet ((acceptValue K).getD i 0))) ∧
    (b = 7 → ValidateDigest (flipBit (acceptValue K) i b) K = .ret true) ∧
    (i < 26 → (acceptValue K).getD i 0 ^^^ 2 ^ b ∈ base64Alphabet →
      ValidateDigest (flipBit (acceptValue K) i b) K = .ret false) := by
  have hv := validate_flip K hK hb i b hi
  refine ⟨hv, ?_, ?_⟩
  · intro h7
    subst h7
    rw [hv, sextet_flip7]
    simp
  · intro h26 hmem
    obtain ⟨_, _, ha, _⟩ := acceptValue_props K
    obtain ⟨v, hv1, e⟩ := ha i hi
    obtain ⟨w, hw1, e2⟩ := mem_base64Alphabet _ hmem
    have hne : w ≠ v := by
      intro h
      rw [h, ← e] at e2
      exact xor_pow_ne _ _ e2
    have hs : sextet ((acceptValue K).getD i 0 ^^^ 2 ^ b) ≠ sextet ((acceptValue K).getD i 0) := by
      rw [e2, e, sextet_base64Char w hw1, sextet_base64Char v hv1]
      exact hne
    rw [hv]
    congr 1
    apply decide_eq_false
    rw [if_neg (by omega)]
    exact hs

set_option maxRecDepth 100000 in
theorem flipped_accept_value_witness :
    ValidateDigest
      (flipBit (acceptValue [56, 49, 52, 89, 35, 32, 32, 32, 32, 32, 32, 32, 32, 32, 32, 32]) 3 0)
      [56, 49, 52, 89, 35, 32, 32, 32, 32, 32, 32, 32, 32, 32, 32, 32] = .ret false :=
  (flipped_accept_value [56, 49, 52, 89, 35, 32, 32, 32, 32, 32, 32, 32, 32, 32, 32, 32]
    (by decide) (by decide) 3 0 (by decide) (by decide)).2.2 (by decide) (by decide)

set_option maxRecDepth 100000 in
/-- A handshake that succeeds: `rand()` returns `0x12345678` and then zeros, so
the key is `814Y#` followed by eleven spaces, and the peer answers in one chunk
with status 101 and the accept value of that key. -/
theorem handshake_succeeds :
    (WebSocket_handshake exState
      { exNet with stream := strBytes ("HTTP/1.1 101 Switching Protocols\r\n" ++
          "Sec-WebSocket-Accept: 1QaojcoGTIUl0eBR2lEtBIWGdHU=\r\n\r\n") }).map Prod.fst =
      .ret true := by
  rw [handshake_one_chunk exState _ (by decide) rfl rfl rfl (by decide) (by decide)]
  rw [if_neg (by decide)]
  decide

theorem sockRecv_ready (io : Net) (n : Nat) (peek : Bool) (h : Ready io.sched) :
    sockRecv io n peek =
      if min n (queuedNow io) = 0 then (⟨-1, true, []⟩, popSched io)
      else (⟨((min n (queuedNow io) : Nat) : Int), false, io.stream.take (min n (queuedNow io))⟩,
        if peek then popSched io
        else { popSched io with stream := io.stream.drop (min n (queuedNow io)) }) := by
  cases io with
  | mk stream sched sendSched rands sent shutdowns closes now socketRes connectRes connects
      pollRes pollIntr polls =>
    cases sched with
    | nil =>
      simp only [sockRecv, queuedNow, popSched, deliver, List.tail_nil, Nat.min_self]
    | cons ev rest =>
      obtain ⟨a, rfl⟩ := h ev (by simp)
      simp only [sockRecv, queuedNow, popSched, deliver, List.tail_cons]

theorem readyScript_ready (s : List RecvEv) (h : readyScript s = true) : Ready s := by
  intro e he
  unfold readyScript at h
  have := List.all_eq_true.mp h e he
  cases e with
  | ready a => exact ⟨a, rfl⟩
  | eof => simp at this
  | err => simp at this

theorem legalPlan_cons (hdr n c d : Nat) (chunk : List Nat) (s : List RecvEv)
    (rest : List (List Nat × List RecvEv))
    (h : legalPlan hdr n c d ((chunk, s) :: rest) = true) :
    Ready s ∧ (c = 0 → probeHolds hdr (d + chunk.length - c) s = true) ∧
    legalPlan hdr n (readCall hdr n c (d + chunk.length - c) s) (d + chunk.length) rest =
      true := by
  simp only [legalPlan, Bool.and_eq_true, Bool.or_eq_true, decide_eq_true_eq] at h
  obtain ⟨⟨h1, h2⟩, h3⟩ := h
  refine ⟨readyScript_ready s h1, ?_, h3⟩
  intro hc
  rcases h2 with h2 | h2
  · exact absurd hc h2
  · exact h2

theorem ready_tail (s : List RecvEv) (h : Ready s) : Ready s.tail :=
  fun e he => h e (List.mem_of_mem_tail he)

theorem ready_drop (s : List RecvEv) (k : Nat) (h : Ready s) : Ready (s.drop k) :=
  fun e he => h e (List.mem_of_mem_drop he)

theorem taken_zero (p : Nat) (s : List RecvEv) : taken 0 p s = 0 := by
  cases s with
  | nil => simp [taken]
  | cons e rest =>
    cases e with
    | ready a => simp [taken]
    | eof => rfl
    | err => rfl

theorem taken_le : ∀ (s : List RecvEv) (rem p : Nat), taken rem p s ≤ rem ∧ taken rem p s ≤ p := by
  intro s
  induction s with
  | nil => intro rem p; simp only [taken]; omega
  | cons e rest ih =>
    intro rem p
    cases e with
    | ready a =>
      simp only [taken]
      split
      · omega
      · have := ih (rem - min (min a p) rem) (p - min (min a p) rem)
        omega
    | eof => simp [taken]
    | err => simp [taken]

theorem payloadBranch_ready (st : WebSocket) (io : Net) (h : Ready io.sched)
    (hlt : st.head < st.endp) :
    payloadBranch st io =
      if min (st.endp - st.head) (queuedNow io) = 0 then .done 0 (unpin st) (popSched io)
      else .cont (takePayload st (io.stream.take (min (st.endp - st.head) (queuedNow io)))
          (min (st.endp - st.head) (queuedNow io)))
        { popSched io with stream := io.stream.drop (min (st.endp - st.head) (queuedNow io)) } := by
  unfold payloadBranch
  have hp : ptrDiff st.endp st.head = st.endp - st.head := by
    unfold ptrDiff; rw [if_pos (by omega)]
  rw [hp, sockRecv_ready io _ false h]
  generalize min (st.endp - st.head) (queuedNow io) = m
  by_cases hm : m = 0
  · rw [if_pos hm, if_pos hm]
    simp
  · rw [if_neg hm, if_neg hm]
    simp only [Bool.false_eq_true, if_false, Int.toNat_ofNat]
    rw [if_neg (by intro h2; have := h2.1; omega), if_neg (by omega)]


theorem queuedNow_cons (io : Net) (a : Nat) (rest : List RecvEv)
    (h : io.sched = .ready a :: rest) :
    queuedNow io = min a io.stream.length ∧ popSched io = { io with sched := rest } := by
  unfold queuedNow popSched
  rw [h]
  exact ⟨rfl, rfl⟩

theorem queuedNow_nil (io : Net) (h : io.sched = []) :
    queuedNow io = io.stream.length ∧ popSched io = io := by
  unfold queuedNow popSched
  rw [h]
  refine ⟨rfl, ?_⟩
  cases io
  simp only [List.tail_nil] at *
  subst h
  rfl

theorem net_eta (io : Net) (s : List Nat) (sc : List RecvEv) (h1 : io.stream = s)
    (h2 : io.sched = sc) : { io with stream := s, sched := sc } = io := by
  cases io
  simp only at h1 h2
  subst h1 h2
  rfl

theorem take_take_le (l : List Nat) (m p : Nat) (h : m ≤ p) : (l.take p).take m = l.take m := by
  rw [List.take_take, Nat.min_eq_left h]

theorem take_append_short (A R : List Nat) (p : Nat) (h : p ≤ A.length) :
    (A ++ R).take p = A.take p := List.take_append_of_le_length h

theorem take_append_long (A R : List Nat) (p : Nat) (h : A.length ≤ p) :
    (A ++ R).take p = A ++ R.take (p - A.length) := by
  rw [List.take_append_eq_append_take, List.take_of_length_le h]

theorem drop_take_append (W R : List Nat) (j m p : Nat) (h : j + m ≤ W.length) :
    ((W.drop j ++ R).take p).drop m = (W.drop (j + m) ++ R).take (p - m) := by
  rw [List.drop_take, List.drop_append_of_le_length (by rw [List.length_drop]; omega),
    List.drop_drop]

/-- The payload reads of one call, under any script: `j` payload bytes are
stored, `p` bytes are pending, those of the payload first, then the bytes `R`
that follow the frame. -/
theorem payload_run (st : WebSocket) (now : Int) (fin : Bool) (op : Nat)
    (key : Option (Nat → Nat)) (P R : List Nat) (hhe : st.head = st.endp) :
    ∀ (s : List RecvEv) (j p : Nat) (io : Net), io.sched = s → Ready s →
      io.stream = ((wirePayload key P).drop j ++ R).take p → p ≤ P.length - j + R.length →
      j < P.length →
      ∃ sc, (s = [] → sc = []) ∧
        resume (.cont (midFrame st now fin op key P j) io) =
          if j + taken (P.length - j) p s = P.length then
            resume (if fin then dispatch (afterFrame st now fin op key P)
                      { io with stream := R.take (p - (P.length - j)), sched := sc }
                    else .cont (afterFrame st now fin op key P)
                      { io with stream := R.take (p - (P.length - j)), sched := sc })
          else .ret (0, unpin (midFrame st now fin op key P (j + taken (P.length - j) p s)),
            { io with
              stream := ((wirePayload key P).drop (j + taken (P.length - j) p s) ++ R).take
                (p - taken (P.length - j) p s),
              sched := sc }) := by
  have hwl := wirePayload_length key P
  intro s
  induction s with
  | nil =>
    intro j p io hs _ hio hpl hj
    refine ⟨[], fun _ => rfl, ?_⟩
    have hAl : ((wirePayload key P).drop j).length = P.length - j := by
      rw [List.length_drop, hwl]
    have hlen : io.stream.length = p := by
      rw [hio, List.length_take, List.length_append, hAl]; omega
    simp only [taken]
    by_cases hp0 : p = 0
    · subst hp0
      have he : io.stream = [] := List.length_eq_zero.mp hlen
      have hne : ¬ j + min 0 (P.length - j) = P.length := by omega
      rw [if_neg hne, resume_idle _ _ hs he]
      simp only [Nat.zero_min, Nat.add_zero, Nat.sub_self, List.take_zero]
      rw [net_eta io [] [] he hs]
    · by_cases hfull : P.length - j ≤ p
      · have hyes : j + min p (P.length - j) = P.length := by omega
        rw [if_pos hyes]
        have hst : io.stream = ((wirePayload key P).drop j).take (P.length - j) ++
            R.take (p - (P.length - j)) := by
          have hA : ((wirePayload key P).drop j).take (P.length - j) =
              (wirePayload key P).drop j := List.take_of_length_le (by rw [hAl])
          rw [hA, hio, take_append_long _ _ _ (by rw [hAl]; exact hfull), hAl]
        have := resume_mid_full st io fin op key P (R.take (p - (P.length - j))) j now hs hhe hj
          hst
        rw [this]
        have e : ({ io with stream := R.take (p - (P.length - j)), sched := [] } : Net) =
            { io with stream := R.take (p - (P.length - j)) } := by
          cases io; simp only at hs; subst hs; rfl
        rw [e]
      · have hno : ¬ j + min p (P.length - j) = P.length := by omega
        rw [if_neg hno]
        have hst : io.stream = ((wirePayload key P).drop j).take p := by
          rw [hio, take_append_short _ _ _ (by rw [hAl]; omega)]
        have := resume_mid_part st io fin op key P j p now hs hhe (by omega) (by omega) hst
        rw [this]
        have hm : min p (P.length - j) = p := by omega
        rw [hm]
        simp only [Nat.sub_self, List.take_zero]
        have e : ({ io with stream := [], sched := [] } : Net) = { io with stream := [] } := by
          cases io; simp only at hs; subst hs; rfl
        rw [e]
  | cons ev rest ih =>
    intro j p io hs hr hio hpl hj
    obtain ⟨a, rfl⟩ := hr ev (by simp)
    have hrest : Ready rest := fun e he => hr e (List.mem_cons_of_mem _ he)
    have hAl : ((wirePayload key P).drop j).length = P.length - j := by
      rw [List.length_drop, hwl]
    have hlen : io.stream.length = p := by
      rw [hio, List.length_take, List.length_append, hAl]; omega
    obtain ⟨hq, hpop⟩ := queuedNow_cons io a rest hs
    rw [hlen] at hq
    have hlt : (midFrame st now fin op key P j).head < (midFrame st now fin op key P j).endp := by
      rw [midFrame_head, midFrame_endp, ← hhe]; omega
    have hgap : (midFrame st now fin op key P j).endp - (midFrame st now fin op key P j).head =
        P.length - j := by
      rw [midFrame_head, midFrame_endp, ← hhe]; omega
    have hmin : min (P.length - j) (min a p) = min (min a p) (P.length - j) := Nat.min_comm _ _
    have hpb := payloadBranch_ready (midFrame st now fin op key P j) io (by rw [hs]; exact hr) hlt
    rw [hgap, hq, hmin, hpop] at hpb
    simp only [taken]
    generalize hm : min (min a p) (P.length - j) = m at *
    have hmp : m ≤ p := by omega
    have hmn : m ≤ P.length - j := by omega
    by_cases hm0 : m = 0
    · rw [if_pos hm0] at hpb
      refine ⟨rest, fun h => absurd h (by simp), ?_⟩
      rw [if_pos hm0, resume_cont]
      unfold receiveBody
      rw [if_neg (by omega), hpb]
      simp only [resume, Nat.add_zero, Nat.sub_zero]
      have hno : ¬ j = P.length := by omega
      rw [if_neg hno]
      have e : ({ io with stream := ((wirePayload key P).drop j ++ R).take p, sched := rest } :
          Net) = { io with sched := rest } := by
        cases io; simp only at hio; subst hio; rfl
      rw [e]
    · rw [if_neg hm0] at hpb
      have htake : io.stream.take m = ((wirePayload key P).drop j).take m := by
        rw [hio, take_take_le _ _ _ hmp, take_append_short _ _ _ (by rw [hAl]; exact hmn)]
      have hdrop : io.stream.drop m = ((wirePayload key P).drop (j + m) ++ R).take (p - m) := by
        rw [hio, drop_take_append _ _ _ _ _ (by rw [hwl]; omega)]
      rw [htake, midFrame_step st now fin op key P j m (by omega), hdrop] at hpb
      by_cases hfull : j + m = P.length
      · have hrem : P.length - j - m = 0 := by omega
        have hdr0 : (wirePayload key P).drop (j + m) = [] := by
          rw [List.drop_eq_nil_iff]; omega
        have hpm : p - m = p - (P.length - j) := by omega
        rw [hdr0, List.nil_append, hpm] at hpb
        refine ⟨rest, fun h => absurd h (by simp), ?_⟩
        rw [if_neg hm0, hrem, taken_zero, Nat.add_zero, if_pos hfull, resume_cont]
        unfold receiveBody
        rw [if_neg (by omega), hpb]
        simp only [hfull, midFrame_full, afterFrame_head, afterFrame_endp, afterFrame_finished,
          ← hhe, true_and]
      · obtain ⟨sc, _, hih⟩ := ih (j + m) (p - m)
          { io with sched := rest,
                    stream := ((wirePayload key P).drop (j + m) ++ R).take (p - m) }
          rfl hrest rfl (by omega) (by omega)
        refine ⟨sc, fun h => absurd h (by simp), ?_⟩
        rw [if_neg hm0, resume_cont]
        unfold receiveBody
        rw [if_neg (by omega), hpb]
        simp only []
        rw [if_neg (by
          rw [midFrame_head, midFrame_endp, ← hhe]
          intro h; have := h.1; omega)]
        rw [hih]
        have e0 : P.length - (j + m) = P.length - j - m := by omega
        have e1 : j + m + taken (P.length - j - m) (p - m) rest =
            j + (m + taken (P.length - j - m) (p - m) rest) := by omega
        have e2 : p - m - taken (P.length - j - m) (p - m) rest =
            p - (m + taken (P.length - j - m) (p - m) rest) := by omega
        have e3 : p - m - (P.length - j - m) = p - (P.length - j) := by omega
        rw [e0, e1, e2, e3]

theorem queuedNow_le (io : Net) : queuedNow io ≤ io.stream.length := by
  unfold queuedNow
  split
  · exact Nat.le_refl _
  · exact Nat.min_le_right _ _
  · exact Nat.zero_le _

theorem popSched_stream (io : Net) : (popSched io).stream = io.stream := rfl

theorem popSched_sched (io : Net) : (popSched io).sched = io.sched.tail := rfl

theorem headerBranch_script_starved (st : WebSocket) (io : Net) (H tl : List Nat) (d : Nat)
    (hr : Ready io.sched) (hio : io.stream = (H ++ tl).take d)
    (hH : H.length = headerLen (H.getD 1 0)) (hq : queuedNow io < H.length) :
    headerBranch st io = .done 0 (unpin st) (popSched io) := by
  have hb := headerLen_bounds (H.getD 1 0)
  have hql := queuedNow_le io
  unfold headerBranch
  rw [sockRecv_ready io 14 true hr]
  have hmin : min 14 (queuedNow io) = queuedNow io := by omega
  rw [hmin]
  by_cases h0 : queuedNow io = 0
  · rw [if_pos h0]
    simp only []
    have := headerLen_pos (([] : List Nat).getD 1 0)
    rw [if_neg (by simp), if_pos (by omega)]
  · rw [if_neg h0]
    simp only [if_true]
    have hlt : queuedNow io < headerLen ((io.stream.take (queuedNow io)).getD 1 0) := by
      by_cases h1 : queuedNow io = 1
      · have : (io.stream.take (queuedNow io)).getD 1 0 = 0 := by
          rw [List.getD_eq_default _ _ (by rw [List.length_take]; omega)]
        rw [this]
        have := (headerLen_bounds 0).1
        omega
      · have : (io.stream.take (queuedNow io)).getD 1 0 = H.getD 1 0 := by
          have hlen : io.stream.length ≤ d := by rw [hio, List.length_take]; omega
          rw [hio, List.take_take, Nat.min_eq_left (by omega)]
          exact getD_take_append H tl _ 1 (by omega) (by omega)
        rw [this]; omega
    rw [if_neg (by simp), if_pos (by omega)]

theorem headerBranch_script (st : WebSocket) (io : Net) (H tl : List Nat) (d : Nat)
    (hr : Ready io.sched) (hio : io.stream = (H ++ tl).take d)
    (hH : H.length = headerLen (H.getD 1 0)) (hq : H.length ≤ queuedNow io)
    (hq2 : H.length ≤ queuedNow (popSched io)) :
    headerBranch st io =
      takeHeader st (payloadLengthLen (H.getD 1 0)) H
        { popSched (popSched io) with stream := io.stream.drop H.length } := by
  have hb := headerLen_bounds (H.getD 1 0)
  have hql := queuedNow_le io
  have hlen : io.stream.length ≤ d := by rw [hio, List.length_take]; omega
  have hpk : (io.stream.take (min 14 (queuedNow io))).getD 1 0 = H.getD 1 0 := by
    rw [hio, List.take_take]
    exact getD_take_append H tl _ 1 (by omega) (by omega)
  have ht : io.stream.take H.length = H := by
    rw [hio, List.take_take, Nat.min_eq_left (by omega), List.take_append_of_le_length (Nat.le_refl _),
      List.take_length]
  have h1 : sockRecv io 14 true =
      (⟨((min 14 (queuedNow io) : Nat) : Int), false, io.stream.take (min 14 (queuedNow io))⟩,
        popSched io) := by
    rw [sockRecv_ready io 14 true hr, if_neg (by omega)]
    simp only [if_true]
  have h2 : sockRecv (popSched io) (headerLen (H.getD 1 0)) false =
      (⟨((headerLen (H.getD 1 0) : Nat) : Int), false, H⟩,
        { popSched (popSched io) with stream := io.stream.drop H.length }) := by
    rw [sockRecv_ready (popSched io) _ false (by rw [popSched_sched]; exact ready_tail _ hr)]
    rw [← hH]
    have hmin2 : min H.length (queuedNow (popSched io)) = H.length := by omega
    rw [hmin2, if_neg (by omega)]
    simp only [Bool.false_eq_true, if_false, popSched_stream, ht]
  simp only [headerBranch, h1, hpk, h2]
  generalize headerLen (H.getD 1 0) = hl at *
  have hlt : ¬ ((min 14 (queuedNow io) : Nat) : Int) < (hl : Int) := by
    intro h; exact absurd (Int.ofNat_lt.mp h) (by omega)
  rw [if_neg (by simp), if_neg hlt, if_neg (by simp)]

theorem queuedNow_firstQueued (io : Net) (h : Ready io.sched) :
    queuedNow io = firstQueued io.stream.length io.sched := by
  unfold queuedNow firstQueued
  cases hs : io.sched with
  | nil => rfl
  | cons e rest =>
    obtain ⟨a, rfl⟩ := h e (by rw [hs]; simp)
    rfl

theorem queuedNow_pop_ge (io : Net) (hdr : Nat) (h : Ready io.sched)
    (hleg : probeHolds hdr io.stream.length io.sched = true) (hq : hdr ≤ queuedNow io) :
    hdr ≤ queuedNow (popSched io) := by
  have hle := queuedNow_le io
  cases hs : io.sched with
  | nil =>
    rw [(queuedNow_nil io hs).2]
    exact hq
  | cons e rest =>
    obtain ⟨a, rfl⟩ := h e (by rw [hs]; simp)
    have hqa := (queuedNow_cons io a rest hs).1
    cases hr : rest with
    | nil =>
      have : queuedNow (popSched io) = io.stream.length := by
        unfold queuedNow popSched
        simp only [hs, hr, List.tail_cons]
      omega
    | cons e2 rest2 =>
      obtain ⟨b, rfl⟩ := h e2 (by rw [hs, hr]; simp)
      rw [hs, hr] at hleg
      simp only [probeHolds, decide_eq_true_eq] at hleg
      have : queuedNow (popSched io) = min b io.stream.length := by
        unfold queuedNow popSched
        simp only [hs, hr, List.tail_cons]
      omega

/-- One call that starts while the connection awaits the header of the frame;
`R` is what follows the frame in the stream. -/
theorem header_run (st : WebSocket) (io : Net) (fin : Bool) (op : Nat)
    (key : Option (Nat → Nat)) (P R : List Nat) (d : Nat)
    (hr : Ready io.sched)
    (hleg : probeHolds (wireHeader fin op key P.length).length d io.sched = true)
    (hio : io.stream = (wireFrame fin op key P ++ R).take d)
    (hd : d ≤ (wireFrame fin op key P ++ R).length)
    (hhe : st.head = st.endp) (he : st.endp ≤ bufferSize)
    (hop : op < 16) (hn : P.length ≤ bufferSize - st.endp) :
    ∃ sc, (io.sched = [] → sc = []) ∧
      resume (.cont st io) =
        if firstQueued d io.sched < (wireHeader fin op key P.length).length then
          .ret (0, unpin st, { io with sched := sc })
        else if taken P.length (d - (wireHeader fin op key P.length).length) (io.sched.drop 2) =
            P.length then
          resume (if fin then dispatch (afterFrame st io.now fin op key P)
                    { io with stream := R.take (d - (wireFrame fin op key P).length),
                              sched := sc }
                  else .cont (afterFrame st io.now fin op key P)
                    { io with stream := R.take (d - (wireFrame fin op key P).length),
                              sched := sc })
        else .ret (0, unpin (midFrame st io.now fin op key P
              (taken P.length (d - (wireHeader fin op key P.length).length) (io.sched.drop 2))),
            { io with
              stream := ((wirePayload key P).drop
                  (taken P.length (d - (wireHeader fin op key P.length).length)
                    (io.sched.drop 2)) ++ R).take
                (d - (wireHeader fin op key P.length).length -
                  taken P.length (d - (wireHeader fin op key P.length).length) (io.sched.drop 2)),
              sched := sc }) := by
  have hfl := wireFrame_length fin op key P
  have hwl := wirePayload_length key P
  have hlen : io.stream.length = d := by rw [hio, List.length_take]; omega
  have hq := queuedNow_firstQueued io hr
  rw [hlen] at hq
  rw [← hq]
  rw [← hlen] at hleg
  have hq2 := queuedNow_pop_ge io _ hr hleg
  rw [List.length_append] at hd
  rw [hfl]
  rw [show wireFrame fin op key P ++ R =
    wireHeader fin op key P.length ++ (wirePayload key P ++ R) by
      rw [wireFrame, List.append_assoc]] at hio
  generalize hh : (wireHeader fin op key P.length).length = hdr at *
  have hHl := wireHeader_length fin op key P.length
  by_cases hst : queuedNow io < hdr
  · refine ⟨io.sched.tail, fun h => by rw [h]; rfl, ?_⟩
    rw [if_pos hst, resume_cont]
    unfold receiveBody
    rw [if_pos hhe, headerBranch_script_starved st io _ (wirePayload key P ++ R) d hr
      hio hHl (by rw [hh]; exact hst)]
    rfl
  · simp only [if_neg hst]
    have hql := queuedNow_le io
    have hH := headerBranch_script st io _ (wirePayload key P ++ R) d hr hio hHl
      (by rw [hh]; omega) (by rw [hh]; exact hq2 (by omega))
    rw [takeHeader_wire st _ fin op key P.length hop he hn, hh] at hH
    have hdrop : io.stream.drop hdr = (wirePayload key P ++ R).take (d - hdr) := by
      rw [hio, List.drop_take, ← hh, List.drop_left]
    rw [hdrop] at hH
    have hnow : ({ popSched (popSched io) with
        stream := (wirePayload key P ++ R).take (d - hdr) } : Net).now = io.now := rfl
    rw [hnow] at hH
    by_cases hn0 : P.length = 0
    · have hP : P = [] := List.length_eq_zero.mp hn0
      have hw0 : wirePayload key P = [] := List.length_eq_zero.mp (by rw [hwl, hn0])
      rw [hw0, List.nil_append] at hH
      refine ⟨io.sched.tail.tail, fun h => by rw [h]; rfl, ?_⟩
      rw [hn0, taken_zero, if_pos rfl, resume_cont]
      unfold receiveBody
      rw [if_pos hhe, hH]
      have e : afterHeader st io.now fin op key P.length = afterFrame st io.now fin op key P := by
        rw [← midFrame_zero, ← midFrame_full, hn0]
      rw [e]
      simp only [afterFrame_head, afterFrame_endp, afterFrame_finished, ← hhe, hn0, Nat.add_zero,
        true_and]
      rfl
    · obtain ⟨sc, hsc, hrun⟩ := payload_run st io.now fin op key P R hhe (io.sched.drop 2) 0
        (d - hdr) { popSched (popSched io) with stream := (wirePayload key P ++ R).take (d - hdr) }
        (by show io.sched.tail.tail = _; cases io.sched with
            | nil => rfl
            | cons a t => cases t <;> rfl)
        (ready_drop _ _ hr) (by simp) (by omega) (by omega)
      refine ⟨sc, fun h => hsc (by rw [h]; rfl), ?_⟩
      rw [resume_cont]
      unfold receiveBody
      rw [if_pos hhe, hH]
      simp only []
      rw [if_neg (by
        rw [afterHeader_head, afterHeader_endp, ← hhe]
        intro h; have := h.1; omega)]
      rw [← midFrame_zero, hrun]
      simp only [Nat.zero_add, Nat.sub_zero]
      have e : d - hdr - P.length = d - (hdr + P.length) := by omega
      rw [e]
      rfl

theorem wire_take_drop (fin : Bool) (op : Nat) (key : Option (Nat → Nat)) (P R : List Nat)
    (c d : Nat) (hc : (wireHeader fin op key P.length).length ≤ c)
    (hcT : c ≤ (wireFrame fin op key P).length) :
    ((wireFrame fin op key P ++ R).take d).drop c =
      ((wirePayload key P).drop (c - (wireHeader fin op key P.length).length) ++ R).take
        (d - c) := by
  have hfl := wireFrame_length fin op key P
  have hwl := wirePayload_length key P
  rw [List.drop_take, wireFrame, List.append_assoc, List.drop_append_eq_append_drop,
    List.drop_of_length_le hc, List.nil_append,
    List.drop_append_of_le_length (by rw [hwl]; omega)]

theorem wire_take_drop_all (W R : List Nat) (d : Nat) :
    ((W ++ R).take d).drop W.length = R.take (d - W.length) := by
  rw [List.drop_take, List.drop_left]

theorem readCall_bounds (hdr n c p : Nat) (s : List RecvEv) (hc : c = 0 ∨ hdr ≤ c)
    (hcT : c ≤ hdr + n) :
    (readCall hdr n c p s = 0 ∨ hdr ≤ readCall hdr n c p s) ∧ c ≤ readCall hdr n c p s ∧
    readCall hdr n c p s ≤ c + p ∧ readCall hdr n c p s ≤ hdr + n := by
  unfold readCall
  by_cases h0 : c = 0
  · rw [if_pos h0]
    by_cases hq : firstQueued p s < hdr
    · rw [if_pos hq]; omega
    · rw [if_neg hq]
      have := taken_le (s.drop 2) n (p - hdr)
      have hfq : firstQueued p s ≤ p := by
        unfold firstQueued
        split
        · exact Nat.le_refl _
        · exact Nat.min_le_right _ _
        · exact Nat.zero_le _
      omega
  · rw [if_neg h0]
    have := taken_le s (hdr + n - c) p
    omega

/-- One call of `WebSocket_receive` at any position of a frame, under any
script; `R` is what follows the frame in the stream. -/
theorem call_run (st : WebSocket) (io : Net) (fin : Bool) (op : Nat)
    (key : Option (Nat → Nat)) (P R : List Nat) (c d : Nat) (s : List RecvEv)
    (hfd : st.sockfd ≠ -1) (hp : st.sockfd_pin < 2 ^ 32)
    (hhe : st.head = st.endp) (he : st.endp ≤ bufferSize)
    (hop : op < 16) (hn : P.length ≤ bufferSize - st.endp)
    (hc : c = 0 ∨ (wireHeader fin op key P.length).length ≤ c) (hcd : c ≤ d)
    (hd : d ≤ (wireFrame fin op key P ++ R).length) (hcT : c < (wireFrame fin op key P).length)
    (hr : Ready s)
    (hleg : c = 0 → probeHolds (wireHeader fin op key P.length).length (d - c) s = true) :
    ∃ sc, (s = [] → sc = []) ∧
      WebSocket_receive (arrived st io.now fin op key P c).1
          { io with stream := ((wireFrame fin op key P ++ R).take d).drop c, sched := s } =
        if readCall (wireHeader fin op key P.length).length P.length c (d - c) s <
            (wireFrame fin op key P).length then
          .ret (0, (arrived st io.now fin op key P
              (readCall (wireHeader fin op key P.length).length P.length c (d - c) s)).1,
            { io with
              stream := ((wireFrame fin op key P ++ R).take d).drop
                (readCall (wireHeader fin op key P.length).length P.length c (d - c) s),
              sched := sc })
        else
          resume (if fin then dispatch (afterFrame (pin st) io.now fin op key P)
                    { io with
                      stream := ((wireFrame fin op key P ++ R).take d).drop
                        (wireFrame fin op key P).length,
                      sched := sc }
                  else .cont (afterFrame (pin st) io.now fin op key P)
                    { io with
                      stream := ((wireFrame fin op key P ++ R).take d).drop
                        (wireFrame fin op key P).length,
                      sched := sc }) := by
  have hfl := wireFrame_length fin op key P
  have hwl := wirePayload_length key P
  have hHl := wireHeader_length fin op key P.length
  have hlb := (headerLen_bounds ((wireHeader fin op key P.length).getD 1 0)).1
  have hdl : d ≤ (wireFrame fin op key P).length + R.length := by
    rw [List.length_append] at hd; exact hd
  rw [wire_take_drop_all]
  by_cases h0 : c = 0
  · subst h0
    obtain ⟨sc, hsc, hrun⟩ := header_run (pin st)
      { io with stream := (wireFrame fin op key P ++ R).take d, sched := s } fin op key P R d hr
      (hleg rfl) rfl hd hhe he hop hn
    refine ⟨sc, hsc, ?_⟩
    rw [arrived_zero, List.drop_zero, receive_open st _ hfd, hrun]
    unfold readCall
    simp only [if_true, Nat.sub_zero]
    by_cases hq : firstQueued d s < (wireHeader fin op key P.length).length
    · have hlt : 0 < (wireFrame fin op key P).length := by omega
      rw [if_pos hq, if_pos hq, if_pos hlt, arrived_zero, unpin_pin st hp, List.drop_zero]
    · rw [if_neg hq, if_neg hq]
      have htl := taken_le (s.drop 2) P.length (d - (wireHeader fin op key P.length).length)
      by_cases hfull : taken P.length (d - (wireHeader fin op key P.length).length) (s.drop 2) =
          P.length
      · have hnot : ¬ (wireHeader fin op key P.length).length +
            taken P.length (d - (wireHeader fin op key P.length).length) (s.drop 2) <
            (wireFrame fin op key P).length := by omega
        rw [if_pos hfull, if_neg hnot]
      · have hlt : (wireHeader fin op key P.length).length +
            taken P.length (d - (wireHeader fin op key P.length).length) (s.drop 2) <
            (wireFrame fin op key P).length := by omega
        rw [if_neg hfull, if_pos hlt]
        have ha : arrived st io.now fin op key P ((wireHeader fin op key P.length).length +
            taken P.length (d - (wireHeader fin op key P.length).length) (s.drop 2)) =
            (midFrame st io.now fin op key P
              (taken P.length (d - (wireHeader fin op key P.length).length) (s.drop 2)), []) := by
          unfold arrived
          rw [if_neg (by omega), Nat.add_sub_cancel_left]
        rw [ha, wire_take_drop fin op key P R _ d (by omega) (by omega), Nat.add_sub_cancel_left]
        simp only []
        rw [midFrame_unpin st _ _ _ _ _ _ hp]
        have e : d - ((wireHeader fin op key P.length).length +
            taken P.length (d - (wireHeader fin op key P.length).length) (s.drop 2)) =
            d - (wireHeader fin op key P.length).length -
              taken P.length (d - (wireHeader fin op key P.length).length) (s.drop 2) := by omega
        rw [e]
  · have hch : (wireHeader fin op key P.length).length ≤ c := by omega
    have ha : arrived st io.now fin op key P c =
        (midFrame st io.now fin op key P (c - (wireHeader fin op key P.length).length), []) := by
      unfold arrived
      rw [if_neg (by omega)]
    obtain ⟨sc, hsc, hrun⟩ := payload_run (pin st) io.now fin op key P R hhe s
      (c - (wireHeader fin op key P.length).length) (d - c)
      { io with stream := ((wirePayload key P).drop
          (c - (wireHeader fin op key P.length).length) ++ R).take (d - c), sched := s }
      rfl hr rfl (by omega) (by omega)
    refine ⟨sc, hsc, ?_⟩
    have hfd2 : (midFrame st io.now fin op key P
        (c - (wireHeader fin op key P.length).length)).sockfd ≠ -1 := hfd
    have hpin : pin (midFrame st io.now fin op key P
        (c - (wireHeader fin op key P.length).length)) =
        midFrame (pin st) io.now fin op key P (c - (wireHeader fin op key P.length).length) := rfl
    rw [ha, wire_take_drop fin op key P R c d hch (by omega)]
    simp only []
    rw [receive_open _ _ hfd2, hpin, hrun]
    unfold readCall
    rw [if_neg h0]
    have erem : (wireHeader fin op key P.length).length + P.length - c =
        P.length - (c - (wireHeader fin op key P.length).length) := by omega
    rw [erem]
    have htl := taken_le s (P.length - (c - (wireHeader fin op key P.length).length)) (d - c)
    by_cases hfull : c - (wireHeader fin op key P.length).length +
        taken (P.length - (c - (wireHeader fin op key P.length).length)) (d - c) s = P.length
    · have hnot : ¬ c + taken (P.length - (c - (wireHeader fin op key P.length).length))
          (d - c) s < (wireFrame fin op key P).length := by omega
      rw [if_pos hfull, if_neg hnot]
      have e : d - c - (P.length - (c - (wireHeader fin op key P.length).length)) =
          d - (wireFrame fin op key P).length := by omega
      rw [e]
    · have hlt : c + taken (P.length - (c - (wireHeader fin op key P.length).length))
          (d - c) s < (wireFrame fin op key P).length := by omega
      rw [if_neg hfull, if_pos hlt]
      have ha2 : arrived st io.now fin op key P
          (c + taken (P.length - (c - (wireHeader fin op key P.length).length)) (d - c) s) =
          (midFrame st io.now fin op key P
            (c - (wireHeader fin op key P.length).length +
              taken (P.length - (c - (wireHeader fin op key P.length).length)) (d - c) s),
            []) := by
        unfold arrived
        rw [if_neg (by omega)]
        have : c + taken (P.length - (c - (wireHeader fin op key P.length).length)) (d - c) s -
            (wireHeader fin op key P.length).length =
            c - (wireHeader fin op key P.length).length +
              taken (P.length - (c - (wireHeader fin op key P.length).length)) (d - c) s := by
          omega
        rw [this]
      rw [ha2, wire_take_drop fin op key P R _ d (by omega) (by omega)]
      simp only []
      rw [midFrame_unpin st _ _ _ _ _ _ hp]
      have e1 : c + taken (P.length - (c - (wireHeader fin op key P.length).length)) (d - c) s -
          (wireHeader fin op key P.length).length =
          c - (wireHeader fin op key P.length).length +
            taken (P.length - (c - (wireHeader fin op key P.length).length)) (d - c) s := by
        omega
      have e2 : d - (c + taken (P.length - (c - (wireHeader fin op key P.length).length))
          (d - c) s) =
          d - c - taken (P.length - (c - (wireHeader fin op key P.length).length)) (d - c) s := by
        omega
      rw [e1, e2]

theorem readPlan_bounds (hdr n : Nat) : ∀ (plan : List (List Nat × List RecvEv)) (c d : Nat),
    (c = 0 ∨ hdr ≤ c) → c ≤ d → c ≤ hdr + n →
    (readPlan hdr n c d plan = 0 ∨ hdr ≤ readPlan hdr n c d plan) ∧
    c ≤ readPlan hdr n c d plan ∧
    readPlan hdr n c d plan ≤ d + (plan.map Prod.fst).flatten.length ∧
    readPlan hdr n c d plan ≤ hdr + n := by
  intro plan
  induction plan with
  | nil =>
    intro c d hc hcd hcT
    simp only [readPlan]
    exact ⟨hc, Nat.le_refl _, by omega, hcT⟩
  | cons x rest ih =>
    intro c d hc hcd hcT
    obtain ⟨chunk, s⟩ := x
    obtain ⟨h1, h2, h3, h4⟩ := readCall_bounds hdr n c (d + chunk.length - c) s hc hcT
    obtain ⟨i1, i2, i3, i4⟩ := ih (readCall hdr n c (d + chunk.length - c) s) (d + chunk.length)
      h1 (by omega) h4
    simp only [readPlan, List.map_cons, List.flatten_cons, List.length_append]
    exact ⟨i1, by omega, by omega, i4⟩

theorem feedS_single (st : WebSocket) (io : Net) (c : List Nat) (s : List RecvEv) :
    feedS st io [(c, s)] =
      WebSocket_receive st { io with stream := io.stream ++ c, sched := s } := by
  simp only [feedS, List.isEmpty_nil, if_true]
  generalize WebSocket_receive st { io with stream := io.stream ++ c, sched := s } = r
  cases r with
  | ret a => obtain ⟨n, s1, i1⟩ := a; rfl
  | abort => rfl
  | hang => rfl
  | nofuel => rfl

theorem feedS_cons_ret (st : WebSocket) (io : Net) (c : List Nat) (s : List RecvEv)
    (d : List Nat × List RecvEv) (ds : List (List Nat × List RecvEv))
    (n : Nat) (st1 : WebSocket) (io1 : Net)
    (h : WebSocket_receive st { io with stream := io.stream ++ c, sched := s } =
      .ret (n, st1, io1)) :
    feedS st io ((c, s) :: d :: ds) = feedS st1 io1 (d :: ds) := by
  rw [feedS, h]
  simp only [List.isEmpty_cons, Bool.false_eq_true, if_false]

theorem wire_append_chunk (W chunk tl : List Nat) (c d : Nat) (hcd : c ≤ d)
    (hpre : chunk ++ tl <+: W.drop d) (hd : d ≤ W.length) :
    (W.take d).drop c ++ chunk = (W.take (d + chunk.length)).drop c := by
  obtain ⟨t, ht⟩ := hpre
  have hW : W = W.take d ++ (chunk ++ tl ++ t) := by rw [ht, List.take_append_drop]
  have hl : (W.take d).length = d := by rw [List.length_take]; omega
  have e : W.take (d + chunk.length) = W.take d ++ chunk := by
    conv_lhs => rw [hW]
    rw [List.take_append_eq_append_take, hl, List.take_of_length_le (by omega),
      Nat.add_sub_cancel_left, List.append_assoc,
      List.take_append_of_le_length (Nat.le_refl _), List.take_length]
  rw [e, List.drop_append_of_le_length (by omega)]

theorem prefix_tail_drop (W chunk tl : List Nat) (d : Nat) (hpre : chunk ++ tl <+: W.drop d) :
    tl <+: W.drop (d + chunk.length) := by
  obtain ⟨t, ht⟩ := hpre
  refine ⟨t, ?_⟩
  rw [← List.drop_drop, ← ht, List.append_assoc, List.drop_left]

theorem prefix_length_le (W fl : List Nat) (d : Nat) (hpre : fl <+: W.drop d) :
    fl.length ≤ W.length - d := by
  have := hpre.length_le
  rw [List.length_drop] at this
  exact this

/-- A sequence of calls on the bytes of one frame and of what follows it, each
after the arrival of a chunk and under a script, the frame not being complete
before the last call. -/
theorem feedS_run (st : WebSocket) (io : Net) (fin : Bool) (op : Nat)
    (key : Option (Nat → Nat)) (P R : List Nat) (chunk : List Nat) (s : List RecvEv)
    (hfd : st.sockfd ≠ -1) (hp : st.sockfd_pin < 2 ^ 32)
    (hhe : st.head = st.endp) (he : st.endp ≤ bufferSize)
    (hop : op < 16) (hn : P.length ≤ bufferSize - st.endp) :
    ∀ (pre : List (List Nat × List RecvEv)) (c d : Nat) (s0 : List RecvEv),
      (c = 0 ∨ (wireHeader fin op key P.length).length ≤ c) → c ≤ d →
      ((pre ++ [(chunk, s)]).map Prod.fst).flatten <+: (wireFrame fin op key P ++ R).drop d →
      d ≤ (wireFrame fin op key P ++ R).length →
      readPlan (wireHeader fin op key P.length).length P.length c d pre <
        (wireFrame fin op key P).length →
      legalPlan (wireHeader fin op key P.length).length P.length c d (pre ++ [(chunk, s)]) =
        true →
      ∃ sc, (s = [] → sc = []) ∧
        feedS (arrived st io.now fin op key P c).1
            { io with stream := ((wireFrame fin op key P ++ R).take d).drop c, sched := s0 }
            (pre ++ [(chunk, s)]) =
          if readPlan (wireHeader fin op key P.length).length P.length c d
              (pre ++ [(chunk, s)]) < (wireFrame fin op key P).length then
            .ret (0, (arrived st io.now fin op key P
                (readPlan (wireHeader fin op key P.length).length P.length c d
                  (pre ++ [(chunk, s)]))).1,
              { io with
                stream := ((wireFrame fin op key P ++ R).take
                    (d + ((pre ++ [(chunk, s)]).map Prod.fst).flatten.length)).drop
                  (readPlan (wireHeader fin op key P.length).length P.length c d
                    (pre ++ [(chunk, s)])),
                sched := sc })
          else
            resume (if fin then dispatch (afterFrame (pin st) io.now fin op key P)
                      { io with
                        stream := ((wireFrame fin op key P ++ R).take
                            (d + ((pre ++ [(chunk, s)]).map Prod.fst).flatten.length)).drop
                          (wireFrame fin op key P).length,
                        sched := sc }
                    else .cont (afterFrame (pin st) io.now fin op key P)
                      { io with
                        stream := ((wireFrame fin op key P ++ R).take
                            (d + ((pre ++ [(chunk, s)]).map Prod.fst).flatten.length)).drop
                          (wireFrame fin op key P).length,
                        sched := sc }) := by
  have hfl := wireFrame_length fin op key P
  intro pre
  induction pre with
  | nil =>
    intro c d s0 hc hcd hpre hd hnc hleg
    simp only [List.nil_append, List.map_cons, List.map_nil, List.flatten_cons,
      List.flatten_nil, List.append_nil] at hpre ⊢
    simp only [readPlan] at hnc
    have hlen := prefix_length_le _ _ _ hpre
    obtain ⟨hr, hl2, _⟩ := legalPlan_cons _ _ _ _ _ _ _ hleg
    obtain ⟨sc, hsc, hrun⟩ := call_run st io fin op key P R c (d + chunk.length) s hfd hp hhe he
      hop hn hc (by omega) (by omega) (by omega) hr hl2
    refine ⟨sc, hsc, ?_⟩
    rw [feedS_single]
    simp only [readPlan]
    have e := wire_append_chunk (wireFrame fin op key P ++ R) chunk [] c d hcd
      (by rw [List.append_nil]; exact hpre) hd
    show WebSocket_receive _ { io with
      stream := ((wireFrame fin op key P ++ R).take d).drop c ++ chunk, sched := s } = _
    rw [e, hrun]
  | cons x pre ih =>
    intro c d s0 hc hcd hpre hd hnc hleg
    obtain ⟨xc, xs⟩ := x
    simp only [List.cons_append, List.map_cons, List.flatten_cons] at hpre ⊢
    have hlen := prefix_length_le _ _ _ hpre
    rw [List.length_append] at hlen
    obtain ⟨hr, hl2, hl3⟩ := legalPlan_cons _ _ _ _ _ _ _ hleg
    have hnc2 : readPlan (wireHeader fin op key P.length).length P.length
        (readCall (wireHeader fin op key P.length).length P.length c (d + xc.length - c) xs)
        (d + xc.length) pre < (wireFrame fin op key P).length := hnc
    have hcT0 : c ≤ (wireHeader fin op key P.length).length + P.length := by
      by_contra hcon
      have hce : readCall (wireHeader fin op key P.length).length P.length c
          (d + xc.length - c) xs = c + taken ((wireHeader fin op key P.length).length +
            P.length - c) (d + xc.length - c) xs := by
        unfold readCall; rw [if_neg (by omega)]
      have hmono : ∀ (plan : List (List Nat × List RecvEv)) (c1 d1 : Nat),
          c1 ≤ readPlan (wireHeader fin op key P.length).length P.length c1 d1 plan := by
        intro plan
        induction plan with
        | nil => intro c1 d1; exact Nat.le_refl _
        | cons y ys ihy =>
          intro c1 d1
          obtain ⟨yc, ys2⟩ := y
          simp only [readPlan]
          refine Nat.le_trans ?_ (ihy _ _)
          unfold readCall
          split
          · omega
          · omega
      have := hmono pre (readCall (wireHeader fin op key P.length).length P.length c
        (d + xc.length - c) xs) (d + xc.length)
      omega
    obtain ⟨hb1, hb2, hb3, hb4⟩ := readCall_bounds (wireHeader fin op key P.length).length
      P.length c (d + xc.length - c) xs hc hcT0
    obtain ⟨_, hp2, _, _⟩ := readPlan_bounds (wireHeader fin op key P.length).length P.length pre
      (readCall (wireHeader fin op key P.length).length P.length c (d + xc.length - c) xs)
      (d + xc.length) hb1 (by omega) hb4
    obtain ⟨sc1, _, hrun⟩ := call_run st io fin op key P R c (d + xc.length) xs hfd hp hhe he
      hop hn hc (by omega) (by omega) (by omega) hr hl2
    have hlt : readCall (wireHeader fin op key P.length).length P.length c (d + xc.length - c)
        xs < (wireFrame fin op key P).length := by omega
    rw [if_pos hlt] at hrun
    have e := wire_append_chunk (wireFrame fin op key P ++ R) xc _ c d hcd hpre hd
    obtain ⟨sc, hsc, hih⟩ := ih
      (readCall (wireHeader fin op key P.length).length P.length c (d + xc.length - c) xs)
      (d + xc.length) sc1 hb1 (by omega) (prefix_tail_drop _ _ _ _ hpre) (by omega) hnc2 hl3
    refine ⟨sc, hsc, ?_⟩
    have hstep : feedS (arrived st io.now fin op key P c).1
        { io with stream := ((wireFrame fin op key P ++ R).take d).drop c, sched := s0 }
        ((xc, xs) :: (pre ++ [(chunk, s)])) =
        feedS (arrived st io.now fin op key P
            (readCall (wireHeader fin op key P.length).length P.length c
              (d + xc.length - c) xs)).1
          { io with
            stream := ((wireFrame fin op key P ++ R).take (d + xc.length)).drop
              (readCall (wireHeader fin op key P.length).length P.length c
                (d + xc.length - c) xs),
            sched := sc1 }
          (pre ++ [(chunk, s)]) := by
      cases hpl : pre ++ [(chunk, s)] with
      | nil => simp at hpl
      | cons y ys =>
        apply feedS_cons_ret _ _ xc xs y ys 0
        show WebSocket_receive _ { io with
          stream := ((wireFrame fin op key P ++ R).take d).drop c ++ xc, sched := xs } = _
        rw [e, hrun]
    rw [hstep, hih]
    simp only [readPlan, List.length_append, Nat.add_assoc]

theorem readCall_quiet (hdr n c p : Nat) (hc : c = 0 ∨ hdr ≤ c) (hcT : c ≤ hdr + n) :
    readCall hdr n c p [] = if c + p < hdr then 0 else min (c + p) (hdr + n) := by
  unfold readCall
  by_cases h0 : c = 0
  · subst h0
    simp only [if_true, firstQueued, List.drop_nil, taken, Nat.zero_add]
    split <;> omega
  · rw [if_neg h0, if_neg (by omega)]
    simp only [taken]
    omega

theorem readPlan_last_quiet (hdr n : Nat) (chunk : List Nat) :
    ∀ (pre : List (List Nat × List RecvEv)) (c d : Nat), (c = 0 ∨ hdr ≤ c) → c ≤ d →
    c ≤ hdr + n →
    readPlan hdr n c d (pre ++ [(chunk, [])]) =
      if d + ((pre ++ [(chunk, [])]).map Prod.fst).flatten.length < hdr then 0
      else min (d + ((pre ++ [(chunk, [])]).map Prod.fst).flatten.length) (hdr + n) := by
  intro pre
  induction pre with
  | nil =>
    intro c d hc hcd hcT
    simp only [List.nil_append, readPlan, List.map_cons, List.map_nil, List.flatten_cons,
      List.flatten_nil, List.append_nil]
    rw [readCall_quiet hdr n c _ hc hcT]
    have : c + (d + chunk.length - c) = d + chunk.length := by omega
    rw [this]
  | cons x rest ih =>
    intro c d hc hcd hcT
    obtain ⟨xc, xs⟩ := x
    obtain ⟨h1, h2, h3, h4⟩ := readCall_bounds hdr n c (d + xc.length - c) xs hc hcT
    have e : ((xc, xs) :: rest) ++ [(chunk, ([] : List RecvEv))] =
        (xc, xs) :: (rest ++ [(chunk, [])]) := rfl
    rw [e, readPlan, ih _ (d + xc.length) h1 (by omega) h4]
    simp only [List.map_cons, List.flatten_cons, List.length_append, Nat.add_assoc]

theorem wireFrame_getD_payload (fin : Bool) (op : Nat) (key : Option (Nat → Nat))
    (P : List Nat) (i : Nat) :
    (wireFrame fin op key P).getD ((wireHeader fin op key P.length).length + i) 0 =
      (wirePayload key P).getD i 0 := by
  unfold wireFrame
  rw [List.getD_append_right _ _ _ _ (by omega), Nat.add_sub_cancel_left]

/-- The bytes and the mask of the state that holds the first `j` payload bytes of
a frame. -/
theorem midFrame_bytes (st : WebSocket) (now : Int) (fin : Bool) (op : Nat)
    (key : Option (Nat → Nat)) (P : List Nat) (j i : Nat) (hij : i < j) (hj : j ≤ P.length) :
    (midFrame st now fin op key P j).buffer ((if st.finished then 0 else st.head) + i) =
      (wireFrame fin op key P).getD ((wireHeader fin op key P.length).length + i) 0 ^^^
        keyByte key i ∧
    (midFrame st now fin op key P j).buffer ((if st.finished then 0 else st.head) + i) =
      P.getD i 0 ∧
    (midFrame st now fin op key P j).mask (((if st.finished then 0 else st.head) + i) % 4) =
      keyByte key i := by
  have hb : (midFrame st now fin op key P j).buffer
      ((if st.finished then 0 else st.head) + i) = P.getD i 0 := by
    show writeBuf st.buffer (afterHeader st now fin op key P.length).head (P.take j)
      ((if st.finished then 0 else st.head) + i) = _
    rw [afterHeader_head, writeBuf_at _ _ _ _ (by rw [List.length_take]; omega),
      getD_take_of_lt _ _ _ hij]
  refine ⟨?_, hb, ?_⟩
  · rw [hb, wireFrame_getD_payload, wirePayload_getD key P i (by omega)]
    cases key with
    | none => simp [keyByte]
    | some k => exact (Nat.xor_cancel_right _ _).symm
  · have := afterHeader_mask_apply st now fin op key P.length i
    rw [afterHeader_head] at this
    cases key with
    | none => exact this
    | some k => exact this

/-- C23. The bytes of a frame with payload `P` and masking key `key`, and the
bytes `R` that follow the frame, reach an open connection that awaits a header
(cursors at the message offset `s`, the frame fitting the room left) in any
chunks, empty ones and ones across the end of the frame included, a call of
`WebSocket_receive` following each chunk; during each call the kernel hands the
pending bytes to the successive `recv` calls in pieces of any sizes, as the
script of the call says. The scripts are held to one thing: the header that the
probe found queued is still queued at the `recv` that follows the probe. The
calls `pre` leave the frame incomplete, one more call follows. The number `c` of
bytes of the frame consumed after it is 0 or at least the length of the header,
and is everything of the frame that arrived once the last script is used up. As
long as the frame is not complete the last call returns 0 and leaves the state
`S` with `head = s + j` for the `j` payload bytes consumed, each payload byte
`i < j` stored at `buffer[s + i]` as the byte of the wire combined by XOR with
byte `i mod 4` of the key (the byte as it is for a frame without key), and
`mask[(s + i) mod 4] = key[i mod 4]`. When the frame is complete the call goes on
as one call does that finds all these bytes pending: the `switch` runs on the
state that holds all of `P` at `s`; a binary message returns `s + |P|`, and
after a frame that is not the last of its message the call continues as a call
on the bytes after the frame does from the state that holds `P`. So the outcome
is the same for every segmentation. -/
theorem chunking_independent (st : WebSocket) (io : Net) (fin : Bool) (op : Nat)
    (key : Option (Nat → Nat)) (P R : List Nat)
    (pre : List (List Nat × List RecvEv)) (chunk : List Nat) (s : List RecvEv)
    (hfd : st.sockfd ≠ -1) (hp : st.sockfd_pin < 2 ^ 32)
    (hhe : st.head = st.endp) (he : st.endp ≤ bufferSize)
    (hop : op < 16) (hn : P.length ≤ bufferSize - st.endp)
    (hnc : readPlan (wireHeader fin op key P.length).length P.length 0 0 pre <
      (wireFrame fin op key P).length)
    (hpre : ((pre ++ [(chunk, s)]).map Prod.fst).flatten <+: wireFrame fin op key P ++ R)
    (hleg : legalPlan (wireHeader fin op key P.length).length P.length 0 0
      (pre ++ [(chunk, s)]) = true) :
    ∃ (c : Nat) (sc : List RecvEv),
      c = readPlan (wireHeader fin op key P.length).length P.length 0 0 (pre ++ [(chunk, s)]) ∧
      (c = 0 ∨ (wireHeader fin op key P.length).length ≤ c) ∧
      c ≤ ((pre ++ [(chunk, s)]).map Prod.fst).flatten.length ∧
      c ≤ (wireFrame fin op key P).length ∧
      (s = [] → sc = [] ∧
        c = if ((pre ++ [(chunk, s)]).map Prod.fst).flatten.length <
              (wireHeader fin op key P.length).length then 0
            else min ((pre ++ [(chunk, s)]).map Prod.fst).flatten.length
              (wireFrame fin op key P).length) ∧
      (c < (wireFrame fin op key P).length →
        ∃ S, feedS st { io with stream := [] } (pre ++ [(chunk, s)]) =
            .ret (0, S,
              { io with
                stream := ((wireFrame fin op key P ++ R).take
                  ((pre ++ [(chunk, s)]).map Prod.fst).flatten.length).drop c,
                sched := sc }) ∧
          S = (arrived st io.now fin op key P c).1 ∧
          (c = 0 → S = st) ∧
          ((wireHeader fin op key P.length).length ≤ c →
            S.head = (if st.finished then 0 else st.head) +
              (c - (wireHeader fin op key P.length).length) ∧
            S.endp = (if st.finished then 0 else st.head) + P.length ∧
            ∀ i, (wireHeader fin op key P.length).length + i < c →
              S.buffer ((if st.finished then 0 else st.head) + i) =
                (wireFrame fin op key P).getD ((wireHeader fin op key P.length).length + i) 0 ^^^
                  keyByte key i ∧
              S.buffer ((if st.finished then 0 else st.head) + i) = P.getD i 0 ∧
              S.mask (((if st.finished then 0 else st.head) + i) % 4) = keyByte key i)) ∧
      (c = (wireFrame fin op key P).length →
        feedS st { io with stream := [] } (pre ++ [(chunk, s)]) =
          resume (if fin then dispatch (afterFrame (pin st) io.now fin op key P)
                    { io with
                      stream := ((wireFrame fin op key P ++ R).take
                        ((pre ++ [(chunk, s)]).map Prod.fst).flatten.length).drop
                          (wireFrame fin op key P).length,
                      sched := sc }
                  else .cont (afterFrame (pin st) io.now fin op key P)
                    { io with
                      stream := ((wireFrame fin op key P ++ R).take
                        ((pre ++ [(chunk, s)]).map Prod.fst).flatten.length).drop
                          (wireFrame fin op key P).length,
                      sched := sc }) ∧
        (fin = true → (if st.finished then op else st.opcode) = 2 →
          feedS st { io with stream := [] } (pre ++ [(chunk, s)]) =
            .ret ((if st.finished then 0 else st.head) + P.length,
              afterFrame st io.now fin op key P,
              { io with
                stream := ((wireFrame fin op key P ++ R).take
                  ((pre ++ [(chunk, s)]).map Prod.fst).flatten.length).drop
                    (wireFrame fin op key P).length,
                sched := sc })) ∧
        (fin = false →
          feedS st { io with stream := [] } (pre ++ [(chunk, s)]) =
            WebSocket_receive (afterFrame st io.now fin op key P)
              { io with
                stream := ((wireFrame fin op key P ++ R).take
                  ((pre ++ [(chunk, s)]).map Prod.fst).flatten.length).drop
                    (wireFrame fin op key P).length,
                sched := sc }) ∧
        (s = [] →
          feedS st { io with stream := [] } (pre ++ [(chunk, s)]) =
            WebSocket_receive st
              { io with
                stream := (wireFrame fin op key P ++ R).take
                  ((pre ++ [(chunk, s)]).map Prod.fst).flatten.length,
                sched := [] })) ∧
      (afterFrame st io.now fin op key P).head =
        (if st.finished then 0 else st.head) + P.length ∧
      (∀ i, i < P.length →
        (afterFrame st io.now fin op key P).buffer ((if st.finished then 0 else st.head) + i) =
          (wireFrame fin op key P).getD ((wireHeader fin op key P.length).length + i) 0 ^^^
            keyByte key i ∧
        (afterFrame st io.now fin op key P).buffer ((if st.finished then 0 else st.head) + i) =
          P.getD i 0 ∧
        (afterFrame st io.now fin op key P).mask
          (((if st.finished then 0 else st.head) + i) % 4) = keyByte key i) ∧
      (key = none → ∀ i, i < P.length →
        (wireFrame fin op key P).getD ((wireHeader fin op key P.length).length + i) 0 =
          P.getD i 0) := by
  have hfl := wireFrame_length fin op key P
  have hHl := wireHeader_length fin op key P.length
  have hlb := (headerLen_bounds ((wireHeader fin op key P.length).getD 1 0)).1
  have hlen := hpre.length_le
  obtain ⟨b1, b2, b3, b4⟩ := readPlan_bounds (wireHeader fin op key P.length).length P.length
    (pre ++ [(chunk, s)]) 0 0 (Or.inl rfl) (Nat.le_refl _) (Nat.zero_le _)
  obtain ⟨sc, hsc, hrun⟩ := feedS_run st io fin op key P R chunk s hfd hp hhe he hop hn pre 0 0
    io.sched (Or.inl rfl) (Nat.le_refl _) (by rw [List.drop_zero]; exact hpre) (Nat.zero_le _)
    hnc hleg
  rw [arrived_zero, List.take_zero, List.drop_zero, Nat.zero_add] at hrun
  have hio : ({ io with stream := [], sched := io.sched } : Net) = { io with stream := [] } := rfl
  rw [hio] at hrun
  simp only [] at hrun
  rw [Nat.zero_add] at b3
  rw [← hfl] at b4
  have hquiet : s = [] →
      readPlan (wireHeader fin op key P.length).length P.length 0 0 (pre ++ [(chunk, s)]) =
        if ((pre ++ [(chunk, s)]).map Prod.fst).flatten.length <
            (wireHeader fin op key P.length).length then 0
        else min ((pre ++ [(chunk, s)]).map Prod.fst).flatten.length
          (wireFrame fin op key P).length := by
    intro h
    subst h
    have := readPlan_last_quiet (wireHeader fin op key P.length).length P.length chunk pre 0 0
      (Or.inl rfl) (Nat.le_refl _) (Nat.zero_le _)
    rw [hfl]
    simpa only [Nat.zero_add] using this
  refine ⟨_, sc, rfl, b1, b3, b4, fun h => ⟨hsc h, hquiet h⟩, ?_, ?_, ?_, ?_, ?_⟩
  · intro hc
    rw [if_pos hc] at hrun
    refine ⟨_, hrun, rfl, ?_, ?_⟩
    · intro h0
      rw [h0, arrived_zero]
    · intro hh
      have ha : arrived st io.now fin op key P
          (readPlan (wireHeader fin op key P.length).length P.length 0 0
            (pre ++ [(chunk, s)])) =
          (midFrame st io.now fin op key P
            (readPlan (wireHeader fin op key P.length).length P.length 0 0
                (pre ++ [(chunk, s)]) -
              (wireHeader fin op key P.length).length), []) := by
        unfold arrived
        rw [if_neg (by omega)]
      rw [ha]
      refine ⟨midFrame_head _ _ _ _ _ _ _, ?_, ?_⟩
      · rw [midFrame_endp, hhe]
      · intro i hi
        exact midFrame_bytes st io.now fin op key P _ i (by omega) (by omega)
  · intro hc
    rw [if_neg (by omega)] at hrun
    refine ⟨hrun, ?_, ?_, ?_⟩
    · intro hfin hop2
      rw [hrun, hfin]
      simp only [if_true]
      have ho : (afterFrame (pin st) io.now true op key P).opcode = 2 := by
        rw [← hop2]
        simp only [afterFrame, afterHeader, pin]
      rw [dispatch_binary _ _ ho]
      simp only [resume]
      rw [afterFrame_unpin st _ _ _ _ _ hp, afterFrame_head]
      rfl
    · intro hfin
      rw [hrun, hfin]
      simp only [Bool.false_eq_true, if_false]
      have hfd2 : (afterFrame st io.now false op key P).sockfd ≠ -1 := hfd
      rw [receive_open _ _ hfd2]
      rfl
    · intro hs
      have hD : (wireFrame fin op key P).length ≤
          ((pre ++ [(chunk, s)]).map Prod.fst).flatten.length := by omega
      have hsplit : (wireFrame fin op key P ++ R).take
          ((pre ++ [(chunk, s)]).map Prod.fst).flatten.length =
          wireFrame fin op key P ++ ((wireFrame fin op key P ++ R).take
            ((pre ++ [(chunk, s)]).map Prod.fst).flatten.length).drop
              (wireFrame fin op key P).length := by
        rw [wire_take_drop_all, take_append_long _ _ _ hD]
      rw [hrun, hsc hs, receive_open st _ hfd,
        resume_frame (pin st) _ fin op key P _ rfl hsplit hhe he hop hn]
  · rw [afterFrame_head]
  · intro i hi
    rw [← midFrame_full]
    exact midFrame_bytes st io.now fin op key P _ i hi (Nat.le_refl _)
  · intro hk i hi
    subst hk
    rw [wireFrame_getD_payload]
    rfl

theorem chunking_independent_witness :
    (∃ sc, feedS exState { exNet with stream := [] }
        ([([0x82, 0x83, 1], [.ready 2]), ([2, 3, 4, 5], [.ready 14, .ready 14, .ready 1])] ++
          [([5, 6, 0x81], [.ready 1, .ready 5])]) =
      .ret (3, afterFrame exState exNet.now true 2 (some (fun i => i + 1)) [4, 7, 5],
        { exNet with stream := [0x81], sched := sc })) ∧
    (∃ S sc, feedS exState { exNet with stream := [] }
        ([([0x82, 0x83, 1], [.ready 2])] ++ [([2, 3, 4, 5], [.ready 14, .ready 14, .ready 1])]) =
      .ret (0, S, { exNet with stream := [], sched := sc }) ∧
      S.head = 1 ∧ S.endp = 3 ∧ S.buffer 0 = 4 ∧ S.mask 0 = 1) := by
  constructor
  · obtain ⟨c, sc, hc, _, _, _, _, _, hfull, _⟩ :=
      chunking_independent exState exNet true 2 (some (fun i => i + 1)) [4, 7, 5] [0x81, 0]
        [([0x82, 0x83, 1], [.ready 2]), ([2, 3, 4, 5], [.ready 14, .ready 14, .ready 1])]
        [5, 6, 0x81] [.ready 1, .ready 5]
        (by decide) (by decide) rfl (by decide) (by decide) (by decide) (by decide)
        (by decide) (by decide)
    have hc9 : c = 9 := by rw [hc]; decide
    exact ⟨sc, (hfull (by rw [hc9]; decide)).2.1 rfl (by decide)⟩
  · obtain ⟨c, sc, hc, _, _, _, _, hpart, _⟩ :=
      chunking_independent exState exNet true 2 (some (fun i => i + 1)) [4, 7, 5] [0x81, 0]
        [([0x82, 0x83, 1], [.ready 2])]
        [2, 3, 4, 5] [.ready 14, .ready 14, .ready 1]
        (by decide) (by decide) rfl (by decide) (by decide) (by decide) (by decide)
        (by decide) (by decide)
    have hc7 : c = 7 := by rw [hc]; decide
    subst hc7
    obtain ⟨S, hS, _, _, hbytes⟩ := hpart (by decide)
    obtain ⟨h1, h2, h3⟩ := hbytes (by decide)
    obtain ⟨_, h4, h5⟩ := h3 0 (by decide)
    exact ⟨S, sc, hS, h1, h2, h4, h5⟩

end Monado
